import Mathlib

/-! # SIM elementary-file cache engine (`src/simfs.c`, `src/simutil.h`)

A shallow embedding of the cache engine and of the event loop that drives it.

* Every C function of `simfs.c` is a Lean function of the same name over an
  explicit `World`: the engine (`struct sim_fs`), the cache directory of the
  current subscriber, the pending GLib idle sources, the driver requests
  that are still unanswered and the trace of externally visible events.
* `int` fields are `Int`; C division and remainder truncate toward zero
  (`cdiv`, `cmod`); values stored into `unsigned char` / `unsigned short`
  are reduced modulo `2^8` / `2^16` explicitly.
* A crash of the C program (NULL dereference, division by zero) is a
  `Fault`.  Undefined behaviour that does not stop the program (a copy past
  the end of the assembly buffer, a read past the bytes a driver supplied, an
  access to a freed operation record) is executed on the part of memory the
  model represents and recorded in `World.viol`.
-/

namespace SimFs

/-! ## Constants -/

def SIM_CACHE_HEADER_SIZE : Nat := 38
def SIM_FILE_INFO_SIZE : Nat := 6
def SIM_FS_VERSION : Nat := 1

/-- Modelled from the spec: `enum ofono_sim_file_structure` is declared in a
header that is not part of the sources; section 6 fixes the codes
0 = transparent, 1 = fixed, 2 = cyclic. -/
def OFONO_SIM_FILE_STRUCTURE_TRANSPARENT : Nat := 0

/-- Modelled from the spec: code of the linear-fixed structure (section 6). -/
def OFONO_SIM_FILE_STRUCTURE_FIXED : Nat := 1

/-- Modelled from the spec: code of the cyclic structure (section 6). -/
def OFONO_SIM_FILE_STRUCTURE_CYCLIC : Nat := 2

/-- Modelled from the spec: `OFONO_ERROR_TYPE_NO_ERROR` is declared outside
the sources; the cache header stores it as the byte 0 ("no error"). -/
def OFONO_ERROR_TYPE_NO_ERROR : Nat := 0

/-! ## `simutil.h`: access conditions -/

def SIM_FILE_ACCESS_ALWAYS : Int := 0
def SIM_FILE_ACCESS_CHV1 : Int := 1
def SIM_FILE_ACCESS_CHV2 : Int := 2
def SIM_FILE_ACCESS_RESERVED : Int := 3
def SIM_FILE_ACCESS_ADM : Int := 4
def SIM_FILE_ACCESS_NEVER : Int := 15

/-- `file_access_condition_decode` of `simutil.h`. -/
def file_access_condition_decode (bcd : Int) : Int :=
  if bcd ≥ 4 ∧ bcd ≤ 14 then SIM_FILE_ACCESS_ADM else bcd

/-! ## C arithmetic -/

/-- C `/` on `int`: truncation toward zero. -/
def cdiv (a b : Int) : Int := Int.tdiv a b

/-- C `%` on `int`: remainder of the truncating division. -/
def cmod (a b : Int) : Int := Int.tmod a b

/-! ## Data model -/

/-- `struct sim_fs_op`.  `cb` is the callback pointer (0 is NULL). -/
structure sim_fs_op where
  id : Nat
  structure_ : Nat
  offset : Nat
  num_bytes : Int
  length : Int
  record_length : Int
  current : Int
  cb : Nat
  is_read : Bool
  userdata : Nat
deriving DecidableEq, Repr

/-- The function pointers of `struct ofono_sim_driver` the engine uses:
`true` when the pointer is non-NULL. -/
structure ofono_sim_driver where
  read_file_info : Bool
  read_file_transparent : Bool
  read_file_linear : Bool
  read_file_cyclic : Bool
  write_file_transparent : Bool
  write_file_linear : Bool
  write_file_cyclic : Bool
deriving DecidableEq, Repr

/-- What the engine asks of `struct ofono_sim`: `ofono_sim_get_imsi`
(`none` is NULL) and `ofono_sim_get_phase`. -/
structure ofono_sim where
  imsi : Option String
  phase : Nat
deriving DecidableEq, Repr

/-- `struct sim_fs`.  `op_q = none` is the NULL queue pointer, `fd = none` is
`-1`, `fd = some id` is a descriptor open on the cache file of EF `id`,
`buffer = none` is NULL. -/
structure sim_fs where
  op_q : Option (List sim_fs_op)
  op_source : Nat
  bitmap : List Nat
  fd : Option Nat
  buffer : Option (List Nat)
  sim : ofono_sim
  driver : Option ofono_sim_driver
deriving DecidableEq, Repr

/-- The three functions the engine hands to `g_idle_add`. -/
inductive TickFn where
  | op_next
  | read_record
  | read_block
deriving DecidableEq, Repr

/-- A call into the SIM driver, with the arguments the engine passes. -/
inductive DrvReq where
  | read_file_info (id : Nat)
  | read_file_transparent (id : Nat) (start : Int) (length : Int)
  | read_file_linear (id : Nat) (record : Int) (length : Int)
  | read_file_cyclic (id : Nat) (record : Int) (length : Int)
  | write_file_transparent (id : Nat) (start : Int) (length : Int)
      (value : Option (List Nat))
  | write_file_linear (id : Nat) (record : Int) (length : Int)
      (value : Option (List Nat))
  | write_file_cyclic (id : Nat) (length : Int) (value : Option (List Nat))
deriving DecidableEq, Repr

/-- Externally visible events, in the order they happen: an invocation of a
caller's read callback `cb (ok, total_length, record, data, record_length,
userdata)` (`data = none` is NULL), of a write callback `cb (ok, userdata)`,
or a call into the driver. -/
inductive Ev where
  | read_cb (cb : Nat) (ok : Int) (total_length : Int) (record : Int)
      (data : Option (List Nat)) (record_length : Int) (userdata : Nat)
  | write_cb (cb : Nat) (ok : Int) (userdata : Nat)
  | drv (req : DrvReq)
deriving DecidableEq, Repr

/-- Undefined behaviour that does not stop the program. -/
inductive Violation where
  | buffer_overflow
  | source_overread
  | record_buf_overflow
  | bitmap_index
  | freed_op_access
deriving DecidableEq, Repr

/-- Ways the C program crashes. -/
inductive Fault where
  | null_op
  | null_driver
  | null_buffer
  | div_by_zero
deriving DecidableEq, Repr

/-- Outcomes of the system and allocator calls that can fail for reasons
outside the engine: `can_create` is whether `open (O_RDWR | O_CREAT |
O_TRUNC)` succeeds, `write pos count` is the value `write` returns for
`count` bytes at file position `pos`, `alloc_ok` is whether `g_try_new0`
of a non-zero size succeeds. -/
structure Sys where
  can_create : Bool
  write : Int → Int → Int
  alloc_ok : Bool

/-- No system call fails. -/
def Sys.ideal : Sys :=
  { can_create := true, write := fun _ count => count, alloc_ok := true }

/-- The engine together with its environment. `files id` is the content of
the cache file `<IMSI>-<phase>/<id as %04x>` (`none` when absent), `idle` the
pending idle sources (source id, function) in dispatch order, `inflight` the
driver requests not answered yet, `log` the trace, oldest event first. -/
structure World where
  fs : sim_fs
  files : Nat → Option (List Nat)
  sys : Sys
  idle : List (Nat × TickFn)
  next_source : Nat
  inflight : List DrvReq
  log : List Ev
  viol : List Violation

/-! ## Environment primitives -/

/-- `g_idle_add (f, fs)` whose result is stored in `fs->op_source`. -/
def idle_add (f : TickFn) (w : World) : World :=
  { w with
    idle := w.idle ++ [(w.next_source, f)]
    next_source := w.next_source + 1
    fs.op_source := w.next_source }

def emit (e : Ev) (w : World) : World :=
  { w with log := w.log ++ [e] }

def flag (v : Violation) (w : World) : World :=
  { w with viol := w.viol ++ [v] }

/-- Record the violation `v` when `c` holds. -/
def flag_if (c : Bool) (v : Violation) (w : World) : World :=
  { w with viol := if c then w.viol ++ [v] else w.viol }

/-- A driver function is called: the call is traced and awaits its reply. -/
def call_driver (r : DrvReq) (w : World) : World :=
  { w with log := w.log ++ [Ev.drv r], inflight := w.inflight ++ [r] }

/-- `g_queue_peek_head (fs->op_q)`. -/
def peek_head (w : World) : Option sim_fs_op :=
  match w.fs.op_q with
  | some (op :: _) => some op
  | _ => none

/-- Store through the pointer returned by `g_queue_peek_head`. -/
def set_head (op : sim_fs_op) (w : World) : World :=
  match w.fs.op_q with
  | some (_ :: rest) => { w with fs.op_q := some (op :: rest) }
  | _ => w

/-- File content after writing `bytes` at position `pos`; a gap past the
end of the file reads as zero. -/
def pwrite (file : List Nat) (pos : Nat) (bytes : List Nat) : List Nat :=
  (file ++ List.replicate (pos - file.length) 0).take pos ++ bytes ++
    file.drop (pos + bytes.length)

/-- The bytes `read` returns for `count` bytes at position `pos`. -/
def pread (file : List Nat) (pos : Nat) (count : Nat) : List Nat :=
  (file.drop pos).take count

/-- `count` bytes starting at `data`: bytes past the end of `data` are not
modelled and read as 0. -/
def take_padded (data : List Nat) (count : Nat) : List Nat :=
  data.take count ++ List.replicate (count - data.length) 0

/-- `write (fd, data, count)` at file position `pos` on the cache file of
`id`.  Returns the value of `write` and the world; a short write stores the
bytes it reports. -/
def sys_write (w : World) (id : Nat) (pos : Int) (data : List Nat)
    (count : Int) : Int × World :=
  if count < 0 then (-1, w)
  else
    let r := w.sys.write pos count
    if r ≤ 0 then (r, w)
    else
      let n := (min r count).toNat
      let w1 := flag_if (data.length < n) Violation.source_overread w
      let file := (w.files id).getD []
      (r, { w1 with
            files := fun k =>
              if k = id then some (pwrite file pos.toNat (take_padded data n))
              else w1.files k })

/-- The part of `src` that lands inside `buf` when `src` is copied to
`buf + off`. -/
def store_at (buf : List Nat) (off : Int) (src : List Nat) : List Nat :=
  if off < 0 then buf
  else
    buf.take off.toNat ++ src.take (buf.length - off.toNat) ++
      buf.drop (off.toNat + src.length)

/-- Whether copying `n` bytes to `buf + off` stays inside a buffer of
`size` bytes. -/
def in_bounds (size : Nat) (off : Int) (n : Nat) : Bool :=
  n = 0 ∨ (0 ≤ off ∧ off + n ≤ size)

/-- `fs->bitmap[offset]`; an index outside the array is not modelled and
reads as 0 (the access is recorded by the caller). -/
def bitmap_get (bm : List Nat) (offset : Int) : Nat :=
  if 0 ≤ offset then bm.getD offset.toNat 0 else 0

/-- Record an index outside `bitmap[32]`. -/
def check_bitmap_index (offset : Int) (w : World) : World :=
  flag_if (¬ (0 ≤ offset ∧ offset < 32)) Violation.bitmap_index w

/-- `memcpy (fs->buffer + bufoff, data + dataoff, tocopy)`. -/
def memcpy_to_buffer (w : World) (bufoff : Int) (data : List Nat)
    (dataoff tocopy : Int) : Except Fault World :=
  match w.fs.buffer with
  | none => if tocopy = 0 then .ok w else .error Fault.null_buffer
  | some buf =>
    let src := take_padded (data.drop dataoff.toNat) tocopy.toNat
    let w1 := flag_if (dataoff + tocopy > data.length) Violation.source_overread w
    let w2 := flag_if (!in_bounds buf.length bufoff tocopy.toNat)
      Violation.buffer_overflow w1
    .ok { w2 with fs.buffer := some (store_at buf bufoff src) }

/-- `read (fs->fd, fs->buffer + bufoff, toread)` at file position `pos`. -/
def sys_read_buffer (w : World) (id : Nat) (pos bufoff toread : Int) :
    Int × World :=
  match w.fs.buffer with
  | none => (-1, w)
  | some buf =>
    let file := (w.files id).getD []
    let got := pread file pos.toNat
      (if toread < 0 then file.length else toread.toNat)
    let w1 := flag_if (!in_bounds buf.length bufoff got.length)
      Violation.buffer_overflow w
    (got.length, { w1 with fs.buffer := some (store_at buf bufoff got) })

/-! ## The engine (`simfs.c`) -/

/-- `sim_fs_new`. -/
def sim_fs_new (sim : ofono_sim) (driver : Option ofono_sim_driver) : sim_fs :=
  { op_q := none, op_source := 0, bitmap := List.replicate 32 0, fd := none,
    buffer := none, sim := sim, driver := driver }

/-- `sim_fs_end_current`. -/
def sim_fs_end_current (w : World) : World :=
  let w1 : World := { w with fs.op_q := w.fs.op_q.map List.tail }
  let w2 := if (w1.fs.op_q.getD []).length > 0 then
      idle_add TickFn.op_next w1 else w1
  { w2 with fs.fd := none, fs.buffer := none, fs.bitmap := List.replicate 32 0 }

/-- `sim_fs_op_error`. -/
def sim_fs_op_error (w : World) : Except Fault World :=
  match peek_head w with
  | none => .error Fault.null_op
  | some op =>
    if op.is_read then
      .ok (sim_fs_end_current (emit (Ev.read_cb op.cb 0 0 0 none 0 op.userdata) w))
    else
      .ok (sim_fs_end_current (emit (Ev.write_cb op.cb 0 op.userdata) w))

/-- `cache_block`: the returned flag is the `gboolean` result. -/
def cache_block (w : World) (block block_len : Int) (data : List Nat)
    (num_bytes : Int) : Bool × World :=
  match w.fs.fd with
  | none => (false, w)
  | some f =>
    if block * block_len + SIM_CACHE_HEADER_SIZE < 0 then (false, w)
    else
      let (r, w1) := sys_write w f (block * block_len + SIM_CACHE_HEADER_SIZE)
        data num_bytes
      if r ≠ num_bytes then (false, w1)
      else
        let offset := cdiv block 8
        let bit := cmod block 8
        let b := (bitmap_get w1.fs.bitmap offset ||| (1 <<< bit.toNat)) % 256
        let w2 := check_bitmap_index offset w1
        let (r2, w3) := sys_write w2 f (offset + SIM_FILE_INFO_SIZE) [b] 1
        if r2 ≠ 1 then (false, w3)
        else (true, { w3 with fs.bitmap := w3.fs.bitmap.set offset.toNat b })

/-- `sim_fs_op_write_cb`. -/
def sim_fs_op_write_cb (w : World) (error_type : Nat) : Except Fault World :=
  match peek_head w with
  | none => .error Fault.null_op
  | some op =>
    if error_type = OFONO_ERROR_TYPE_NO_ERROR then
      .ok (sim_fs_end_current (emit (Ev.write_cb op.cb 1 op.userdata) w))
    else
      .ok (sim_fs_end_current (emit (Ev.write_cb op.cb 0 op.userdata) w))

/-- The slice `sim_fs_op_read_block_cb` copies out of a driver block of
`len` bytes: `(bufoff, dataoff, tocopy)`. -/
def block_cb_slice (op : sim_fs_op) (len : Int) : Int × Int × Int :=
  let start_block := cdiv op.offset 256
  if op.current = start_block then
    (0, cmod op.offset 256, min (256 - cmod op.offset 256) len)
  else
    ((op.current - start_block - 1) * 256 + cmod op.offset 256, 0, len)

/-- The slice `sim_fs_op_read_block` reads from the cache file:
`(bufoff, seekoff, toread)`. -/
def block_cache_slice (op : sim_fs_op) : Int × Int × Int :=
  let start_block := cdiv op.offset 256
  if op.current = start_block then
    (0, SIM_CACHE_HEADER_SIZE + op.current * 256 + cmod op.offset 256,
      min (256 - cmod op.offset 256) (op.length - op.current * 256))
  else
    ((op.current - start_block - 1) * 256 + cmod op.offset 256,
      SIM_CACHE_HEADER_SIZE + op.current * 256,
      min 256 (op.length - op.current * 256))

/-- `sim_fs_op_read_block_cb (error, data, len, fs)` with `len` the length
of `data`. -/
def sim_fs_op_read_block_cb (w : World) (error_type : Nat) (data : List Nat) :
    Except Fault World :=
  match peek_head w with
  | none => .error Fault.null_op
  | some op =>
    if error_type ≠ OFONO_ERROR_TYPE_NO_ERROR then sim_fs_op_error w
    else
      let end_block := cdiv (op.offset + (op.num_bytes - 1)) 256
      let (bufoff, dataoff, tocopy) := block_cb_slice op data.length
      match memcpy_to_buffer w bufoff data dataoff tocopy with
      | .error e => .error e
      | .ok w1 =>
        let w2 := (cache_block w1 op.current 256 data data.length).2
        let w3 := set_head { op with current := op.current + 1 } w2
        if op.current + 1 > end_block then
          .ok (sim_fs_end_current
            (emit (Ev.read_cb op.cb 1 op.num_bytes 0 w3.fs.buffer
              op.record_length op.userdata) w3))
        else
          .ok (idle_add TickFn.read_block w3)

/-- The `while` loop of `sim_fs_op_read_block`: blocks served from the cache
file.  `fuel` bounds the number of iterations. -/
def read_block_cached : Nat → World → sim_fs_op → World × sim_fs_op
  | 0, w, op => (w, op)
  | fuel + 1, w, op =>
    match w.fs.fd with
    | none => (w, op)
    | some f =>
      if op.current ≤ cdiv (op.offset + (op.num_bytes - 1)) 256 then
        let offset := cdiv op.current 8
        let bit := 1 <<< (cmod op.current 8).toNat
        let w0 := check_bitmap_index offset w
        if bitmap_get w.fs.bitmap offset &&& bit = 0 then (w0, op)
        else
          let (bufoff, seekoff, toread) := block_cache_slice op
          if seekoff < 0 then (w0, op)
          else
            let (r, w1) := sys_read_buffer w0 f seekoff bufoff toread
            if r ≠ toread then (w1, op)
            else read_block_cached fuel w1 { op with current := op.current + 1 }
      else (w, op)

/-- `sim_fs_op_read_block`. -/
def sim_fs_op_read_block (w : World) : Except Fault World :=
  match peek_head w with
  | none => .error Fault.null_op
  | some op =>
    let start_block := cdiv op.offset 256
    let end_block := cdiv (op.offset + (op.num_bytes - 1)) 256
    let alloc_fails := op.current = start_block ∧
      (op.num_bytes ≤ 0 ∨ w.sys.alloc_ok = false)
    if alloc_fails then sim_fs_op_error { w with fs.buffer := none }
    else
      let w0 : World := if op.current = start_block then
          { w with fs.buffer := some (List.replicate op.num_bytes.toNat 0) }
        else w
      let (w1, op1) := read_block_cached (end_block - op.current + 1).toNat w0 op
      let w2 := set_head op1 w1
      if op1.current > end_block then
        .ok (sim_fs_end_current
          (emit (Ev.read_cb op1.cb 1 op1.num_bytes 0 w2.fs.buffer
            op1.record_length op1.userdata) w2))
      else
        match w2.fs.driver with
        | none => .error Fault.null_driver
        | some driver =>
          if driver.read_file_transparent = false then sim_fs_op_error w2
          else
            .ok (call_driver
              (DrvReq.read_file_transparent op1.id (op1.current * 256)
                (min (op1.length - op1.current * 256) 256 % 65536)) w2)

/-- `sim_fs_op_retrieve_cb (error, data, len, fs)`. -/
def sim_fs_op_retrieve_cb (w : World) (error_type : Nat) (data : List Nat) :
    Except Fault World :=
  match peek_head w with
  | none => .error Fault.null_op
  | some op =>
    if op.record_length = 0 then .error Fault.div_by_zero
    else
      let total := cdiv op.length op.record_length
      if error_type ≠ OFONO_ERROR_TYPE_NO_ERROR then sim_fs_op_error w
      else
        let w1 := emit (Ev.read_cb op.cb 1 op.length op.current (some data)
          op.record_length op.userdata) w
        let w2 := (cache_block w1 (op.current - 1) op.record_length data
          op.record_length).2
        if op.current < total then
          .ok (idle_add TickFn.read_record
            (set_head { op with current := op.current + 1 } w2))
        else
          .ok (sim_fs_end_current w2)

/-- The `while` loop of `sim_fs_op_read_record`: records served from the
cache file through the local `buf[256]`. -/
def read_record_cached : Nat → World → sim_fs_op → World × sim_fs_op
  | 0, w, op => (w, op)
  | fuel + 1, w, op =>
    match w.fs.fd with
    | none => (w, op)
    | some f =>
      if op.current ≤ cdiv op.length op.record_length then
        let offset := cdiv (op.current - 1) 8
        let bit := 1 <<< (cmod (op.current - 1) 8).toNat
        let w0 := check_bitmap_index offset w
        if bitmap_get w.fs.bitmap offset &&& bit = 0 then (w0, op)
        else if (op.current - 1) * op.record_length + SIM_CACHE_HEADER_SIZE < 0
        then (w0, op)
        else
          let file := (w0.files f).getD []
          let got := pread file
            ((op.current - 1) * op.record_length + SIM_CACHE_HEADER_SIZE).toNat
            (if op.record_length < 0 then file.length
              else op.record_length.toNat)
          let w1 := flag_if (256 < got.length) Violation.record_buf_overflow w0
          if (got.length : Int) ≠ op.record_length then (w1, op)
          else
            read_record_cached fuel
              (emit (Ev.read_cb op.cb 1 op.length op.current (some got)
                op.record_length op.userdata) w1)
              { op with current := op.current + 1 }
      else (w, op)

/-- `sim_fs_op_read_record`. -/
def sim_fs_op_read_record (w : World) : Except Fault World :=
  match peek_head w with
  | none => .error Fault.null_op
  | some op =>
    if op.record_length = 0 then .error Fault.div_by_zero
    else
      let total := cdiv op.length op.record_length
      let w0 : World := { w with fs.op_source := 0 }
      let (w1, op1) := read_record_cached (total - op.current + 1).toNat w0 op
      let w2 := set_head op1 w1
      if op1.current > total then .ok (sim_fs_end_current w2)
      else
        match w2.fs.driver with
        | none => .error Fault.null_driver
        | some driver =>
          if op1.structure_ = OFONO_SIM_FILE_STRUCTURE_FIXED then
            if driver.read_file_linear = false then sim_fs_op_error w2
            else
              .ok (call_driver (DrvReq.read_file_linear op1.id op1.current
                op1.record_length) w2)
          else if op1.structure_ = OFONO_SIM_FILE_STRUCTURE_CYCLIC then
            if driver.read_file_cyclic = false then sim_fs_op_error w2
            else
              .ok (call_driver (DrvReq.read_file_cyclic op1.id op1.current
                op1.record_length) w2)
          else .ok w2

/-- The 38 bytes `sim_fs_op_info_cb` assembles in `fileinfo` for a reply
without error: each value is stored into an `unsigned char`. -/
def cache_header (length : Int) (structure_ : Nat) (record_length : Int) :
    List Nat :=
  [OFONO_ERROR_TYPE_NO_ERROR % 256, (length / 256 % 256).toNat,
    (length % 256).toNat, structure_ % 256,
    (record_length / 256 % 256).toNat, (record_length % 256).toNat] ++
  List.replicate (SIM_CACHE_HEADER_SIZE - SIM_FILE_INFO_SIZE) 0

/-- The test `cache` of `sim_fs_op_info_cb` on the three access bytes. -/
def cacheable (access : List Nat) : Bool :=
  let update := file_access_condition_decode ((access.getD 0 0 &&& 0xf : Nat) : Int)
  let rehabilitate :=
    file_access_condition_decode (((access.getD 2 0 >>> 4) &&& 0xf : Nat) : Int)
  let invalidate :=
    file_access_condition_decode ((access.getD 2 0 &&& 0xf : Nat) : Int)
  (update = SIM_FILE_ACCESS_ADM ∨ update = SIM_FILE_ACCESS_NEVER) ∧
    (invalidate = SIM_FILE_ACCESS_ADM ∨ invalidate = SIM_FILE_ACCESS_NEVER) ∧
    (rehabilitate = SIM_FILE_ACCESS_ADM ∨ rehabilitate = SIM_FILE_ACCESS_NEVER)

/-- `sim_fs_op_info_cb (error, length, structure, record_length, access,
fs)`. -/
def sim_fs_op_info_cb (w : World) (error_type : Nat) (length : Int)
    (structure_ : Nat) (record_length : Int) (access : List Nat) :
    Except Fault World :=
  match peek_head w with
  | none => .error Fault.null_op
  | some op =>
    if error_type ≠ OFONO_ERROR_TYPE_NO_ERROR then sim_fs_op_error w
    else if structure_ ≠ op.structure_ then sim_fs_op_error w
    else
      let op1 : sim_fs_op :=
        if structure_ = OFONO_SIM_FILE_STRUCTURE_TRANSPARENT then
          { op with
            structure_ := structure_
            length := length
            num_bytes := if op.num_bytes = 0 then length else op.num_bytes
            record_length := length
            current := cdiv op.offset 256 }
        else
          { op with
            structure_ := structure_
            length := length
            record_length := record_length
            current := 1 }
      let w1 := idle_add
        (if structure_ = OFONO_SIM_FILE_STRUCTURE_TRANSPARENT then
          TickFn.read_block else TickFn.read_record)
        (set_head op1 w)
      if w.fs.sim.imsi = none ∨ cacheable access = false then .ok w1
      else if w.sys.can_create = false then .ok { w1 with fs.fd := none }
      else
        let w2 : World :=
          { w1 with
            fs.fd := some op.id
            files := fun k => if k = op.id then some [] else w1.files k }
        let (r, w3) := sys_write w2 op.id 0
          (cache_header length structure_ record_length) SIM_CACHE_HEADER_SIZE
        if r = SIM_CACHE_HEADER_SIZE then .ok w3
        else .ok { w3 with fs.fd := none }

/-- `sim_fs_op_check_cached`: the returned flag is the `gboolean` result.
`open (path, O_RDWR)` succeeds exactly when the file exists. -/
def sim_fs_op_check_cached (w : World) : Except Fault (Bool × World) :=
  if w.fs.sim.imsi = none then .ok (false, w)
  else
    match peek_head w with
    | none => .error Fault.null_op
    | some op =>
      match w.files op.id with
      | none => .ok (false, w)
      | some file =>
        let fileinfo := pread file 0 SIM_CACHE_HEADER_SIZE
        if fileinfo.length ≠ SIM_CACHE_HEADER_SIZE then .ok (false, w)
        else
          let error_type := fileinfo.getD 0 0
          let file_length : Int :=
            ((fileinfo.getD 1 0 <<< 8 ||| fileinfo.getD 2 0 : Nat) : Int)
          let structure_ := fileinfo.getD 3 0
          let record_length : Int :=
            if structure_ = OFONO_SIM_FILE_STRUCTURE_TRANSPARENT then file_length
            else ((fileinfo.getD 4 0 <<< 8 ||| fileinfo.getD 5 0 : Nat) : Int)
          if record_length = 0 ∨ file_length < record_length then .ok (false, w)
          else
            let op1 : sim_fs_op :=
              { op with length := file_length, record_length := record_length }
            let w0 := set_head op1 w
            let w1 : World :=
              { w0 with
                fs.bitmap := (fileinfo.drop SIM_FILE_INFO_SIZE).take
                  (SIM_CACHE_HEADER_SIZE - SIM_FILE_INFO_SIZE)
                fs.fd := some op.id }
            let tick := if structure_ = OFONO_SIM_FILE_STRUCTURE_TRANSPARENT
              then TickFn.read_block else TickFn.read_record
            if error_type ≠ OFONO_ERROR_TYPE_NO_ERROR ∨
                structure_ ≠ op.structure_ then
              -- `sim_fs_op_error` frees `op` and the function goes on using it
              match sim_fs_op_error w1 with
              | .error e => .error e
              | .ok w2 =>
                .ok (true, idle_add tick (flag Violation.freed_op_access w2))
            else
              let op2 : sim_fs_op :=
                if structure_ = OFONO_SIM_FILE_STRUCTURE_TRANSPARENT then
                  { op1 with
                    num_bytes :=
                      if op1.num_bytes = 0 then op1.length else op1.num_bytes
                    current := cdiv op1.offset 256 }
                else { op1 with current := 1 }
              .ok (true, idle_add tick (set_head op2 w1))

/-- `sim_fs_op_next`.  A call through a NULL driver pointer is a crash. -/
def sim_fs_op_next (w : World) : Except Fault World :=
  let w0 : World := { w with fs.op_source := 0 }
  match w0.fs.op_q with
  | none => .ok w0
  | some [] => .error Fault.null_op
  | some (op :: _) =>
    if op.is_read then
      match sim_fs_op_check_cached w0 with
      | .error e => .error e
      | .ok (true, w1) => .ok w1
      | .ok (false, w1) =>
        match w1.fs.driver with
        | none => .error Fault.null_driver
        | some driver =>
          if driver.read_file_info = false then .error Fault.null_driver
          else .ok (call_driver (DrvReq.read_file_info op.id) w1)
    else
      match w0.fs.driver with
      | none => .error Fault.null_driver
      | some driver =>
        if op.structure_ = OFONO_SIM_FILE_STRUCTURE_TRANSPARENT then
          if driver.write_file_transparent = false then .error Fault.null_driver
          else
            .ok { call_driver (DrvReq.write_file_transparent op.id 0 op.length
                    w0.fs.buffer) w0 with fs.buffer := none }
        else if op.structure_ = OFONO_SIM_FILE_STRUCTURE_FIXED then
          if driver.write_file_linear = false then .error Fault.null_driver
          else
            .ok { call_driver (DrvReq.write_file_linear op.id op.current
                    op.length w0.fs.buffer) w0 with fs.buffer := none }
        else if op.structure_ = OFONO_SIM_FILE_STRUCTURE_CYCLIC then
          if driver.write_file_cyclic = false then .error Fault.null_driver
          else
            .ok { call_driver (DrvReq.write_file_cyclic op.id op.length
                    w0.fs.buffer) w0 with fs.buffer := none }
        else .ok { w0 with fs.buffer := none }

/-- `sim_fs_read`: the returned integer is the result; `offset` and
`num_bytes` are `unsigned short` parameters, `cb = 0` is a NULL callback. -/
def sim_fs_read (w : World) (id : Nat) (expected_type : Nat)
    (offset num_bytes : Nat) (cb : Nat) (data : Nat) : Int × World :=
  if cb = 0 then (-1, w)
  else
    match w.fs.driver with
    | none => (-1, w)
    | some driver =>
      if driver.read_file_info = false then (-1, w)
      else
        let op : sim_fs_op :=
          { id := id, structure_ := expected_type, offset := offset % 65536,
            num_bytes := ((num_bytes % 65536 : Nat) : Int), length := 0,
            record_length := 0, current := 0, cb := cb, is_read := true,
            userdata := data }
        let q := w.fs.op_q.getD [] ++ [op]
        let w1 : World := { w with fs.op_q := some q }
        (0, if q.length = 1 then idle_add TickFn.op_next w1 else w1)

/-- `g_memdup (data, length)`: NULL for a NULL source or a zero size. -/
def g_memdup (data : Option (List Nat)) (length : Int) : Option (List Nat) :=
  match data with
  | none => none
  | some d => if length = 0 then none else some (take_padded d length.toNat)

/-- `sim_fs_write`: the returned integer is the result; `length` is taken
non-negative (the size of `data`). -/
def sim_fs_write (w : World) (id : Nat) (cb : Nat) (structure_ : Nat)
    (record : Int) (data : Option (List Nat)) (length : Int) (userdata : Nat) :
    Int × World :=
  if cb = 0 then (-1, w)
  else
    match w.fs.driver with
    | none => (-1, w)
    | some driver =>
      let fn : Bool :=
        if structure_ = OFONO_SIM_FILE_STRUCTURE_TRANSPARENT then
          driver.write_file_transparent
        else if structure_ = OFONO_SIM_FILE_STRUCTURE_FIXED then
          driver.write_file_linear
        else if structure_ = OFONO_SIM_FILE_STRUCTURE_CYCLIC then
          driver.write_file_cyclic
        else false
      if fn = false then (-1, w)
      else
        let op : sim_fs_op :=
          { id := id, structure_ := structure_, offset := 0, num_bytes := 0,
            length := length, record_length := 0, current := record, cb := cb,
            is_read := false, userdata := userdata }
        let q := w.fs.op_q.getD [] ++ [op]
        let w1 : World :=
          { w with fs.buffer := g_memdup data length, fs.op_q := some q }
        (0, if q.length = 1 then idle_add TickFn.op_next w1 else w1)

/-- `sim_fs_free`: the pending tick is cancelled and the queued operations
are freed without a callback; `fs->fd` and `fs->buffer` are not touched. -/
def sim_fs_free (w : World) : World :=
  { w with
    idle := if w.fs.op_source ≠ 0 then
        w.idle.filter (fun s => s.1 ≠ w.fs.op_source) else w.idle
    fs.op_source := 0
    fs.op_q := none }

/-! ## The event loop and the modem -/

structure InfoReply where
  error_type : Nat
  length : Int
  structure_ : Nat
  record_length : Int
  access : List Nat

structure DataReply where
  error_type : Nat
  data : List Nat

/-- How the modem answers each driver call. -/
structure Modem where
  info : Nat → InfoReply
  transparent : Nat → Int → Int → DataReply
  linear : Nat → Int → Int → DataReply
  cyclic : Nat → Int → Int → DataReply
  write : DrvReq → Nat

/-- The driver answers a request: the callback the engine passed with the
request runs with the modem's reply. -/
def deliver (m : Modem) (w : World) : DrvReq → Except Fault World
  | DrvReq.read_file_info id =>
    sim_fs_op_info_cb w (m.info id).error_type (m.info id).length
      (m.info id).structure_ (m.info id).record_length (m.info id).access
  | DrvReq.read_file_transparent id start length =>
    sim_fs_op_read_block_cb w (m.transparent id start length).error_type
      (m.transparent id start length).data
  | DrvReq.read_file_linear id record length =>
    sim_fs_op_retrieve_cb w (m.linear id record length).error_type
      (m.linear id record length).data
  | DrvReq.read_file_cyclic id record length =>
    sim_fs_op_retrieve_cb w (m.cyclic id record length).error_type
      (m.cyclic id record length).data
  | r => sim_fs_op_write_cb w (m.write r)

/-- Run one idle source. -/
def run_tick (w : World) : TickFn → Except Fault World
  | TickFn.op_next => sim_fs_op_next w
  | TickFn.read_record => sim_fs_op_read_record w
  | TickFn.read_block => sim_fs_op_read_block w

/-- One iteration of the main loop: the oldest pending idle source runs (it
returns FALSE and is removed); when none is pending the oldest unanswered
driver request is answered.  `none` when there is nothing to do. -/
def step (m : Modem) (w : World) : Except Fault (Option World) :=
  match w.idle with
  | (_, f) :: rest => (run_tick { w with idle := rest } f).map some
  | [] =>
    match w.inflight with
    | r :: rest => (deliver m { w with inflight := rest } r).map some
    | [] => .ok none

/-- Iterate the main loop until nothing is left to do, at most `fuel`
times. -/
def run (m : Modem) : Nat → World → Except Fault World
  | 0, w => .ok w
  | fuel + 1, w =>
    match step m w with
    | .error e => .error e
    | .ok none => .ok w
    | .ok (some w1) => run m fuel w1

/-- The main loop has nothing left to do. -/
def quiescent (w : World) : Prop := w.idle = [] ∧ w.inflight = []

/-- An elementary file on the card. -/
structure EF where
  structure_ : Nat
  record_length : Int
  access : List Nat
  data : List Nat

/-- A modem that answers from the card content `card`: file information as
stored, a slice of the file for a read inside the file, an error otherwise;
writes are accepted. -/
def card_modem (card : Nat → Option EF) : Modem :=
  let slice (id : Nat) (start length : Int) : DataReply :=
    match card id with
    | none => { error_type := 1, data := [] }
    | some ef =>
      if 0 ≤ start ∧ 0 ≤ length ∧ start + length ≤ ef.data.length then
        { error_type := OFONO_ERROR_TYPE_NO_ERROR,
          data := (ef.data.drop start.toNat).take length.toNat }
      else { error_type := 1, data := [] }
  { info := fun id =>
      match card id with
      | none =>
        { error_type := 1, length := 0, structure_ := 0, record_length := 0,
          access := [] }
      | some ef =>
        { error_type := OFONO_ERROR_TYPE_NO_ERROR, length := ef.data.length,
          structure_ := ef.structure_, record_length := ef.record_length,
          access := ef.access }
    transparent := slice
    linear := fun id record length => slice id ((record - 1) * length) length
    cyclic := fun id record length => slice id ((record - 1) * length) length
    write := fun _ => OFONO_ERROR_TYPE_NO_ERROR }

/-- A driver with every function present. -/
def full_driver : ofono_sim_driver :=
  { read_file_info := true, read_file_transparent := true,
    read_file_linear := true, read_file_cyclic := true,
    write_file_transparent := true, write_file_linear := true,
    write_file_cyclic := true }

/-- A freshly created engine (`sim_fs_new`) over the cache directory
`files`, with no event pending. -/
def World.init (sim : ofono_sim) (driver : Option ofono_sim_driver)
    (files : Nat → Option (List Nat)) (sys : Sys) : World :=
  { fs := sim_fs_new sim driver, files := files, sys := sys, idle := [],
    next_source := 1, inflight := [], log := [], viol := [] }

/-! ## Example inputs -/

/-- A subscriber identity with an IMSI. -/
def ex_sim : ofono_sim := { imsi := some "262011234567890", phase := 2 }

/-- Test content: byte `i` is `(7 i + 1) mod 251`. -/
def ex_bytes (n : Nat) : List Nat := (List.range n).map (fun i => (i * 7 + 1) % 251)

/-- A card holding the single EF `0x6f05`. -/
def ex_card (ef : EF) : Nat → Option EF :=
  fun id => if id = 0x6f05 then some ef else none

/-- A fresh engine with every driver function and no failing system call. -/
def ex_world (files : Nat → Option (List Nat)) : World :=
  World.init ex_sim (some full_driver) files Sys.ideal

/-- A cache directory holding one file, for EF `0x6f05`. -/
def ex_dir (file : List Nat) : Nat → Option (List Nat) :=
  fun id => if id = 0x6f05 then some file else none

/-- A transparent EF readable by all and writable by nobody (cacheable). -/
def ex_transparent (data : List Nat) : EF :=
  { structure_ := OFONO_SIM_FILE_STRUCTURE_TRANSPARENT, record_length := 0,
    access := [0x0f, 0x00, 0xff], data := data }

/-- The cache file left by a complete first read of the 10-byte transparent EF
`00 01 .. 09`: file information, bitmap with bit 0 set, the ten bytes. -/
def ex_file10 : List Nat :=
  [0, 0, 10, 0, 0, 0] ++ ([1] ++ List.replicate 31 0) ++ List.range 10

/-- The cache file `ex_file10` followed by three bytes that are not part of
the EF. -/
def ex_file10_tail : List Nat := ex_file10 ++ [99, 99, 99]

/-! ## Expected traces -/

/-- The driver call that fetches record `record`: `read_file_linear` for a
FIXED file, `read_file_cyclic` otherwise. -/
def record_request (structure_ : Nat) (id : Nat) (record length : Int) : DrvReq :=
  if structure_ = OFONO_SIM_FILE_STRUCTURE_FIXED then
    DrvReq.read_file_linear id record length
  else DrvReq.read_file_cyclic id record length

/-- The modem's reply to `record_request`. -/
def record_reply (m : Modem) (structure_ : Nat) (id : Nat) (record length : Int) :
    DataReply :=
  if structure_ = OFONO_SIM_FILE_STRUCTURE_FIXED then m.linear id record length
  else m.cyclic id record length

/-- Presence bit of unit `k` in a bitmap: bit `k % 8` of byte `k / 8`. -/
def unit_present (bm : List Nat) (k : Int) : Bool :=
  bitmap_get bm (cdiv k 8) &&& (1 <<< (cmod k 8).toNat) ≠ 0

/-- The trace of a record-by-record read of `count` records, record `first`
first: a record for which `cached` holds is delivered to the callback
directly; any other record is first requested from the driver.  Each
callback is `(1, length, record, bytes, record_length, userdata)` with the
bytes the modem holds for the record. -/
def record_events (m : Modem) (op : sim_fs_op) (cached : Int → Bool) :
    Int → Nat → List Ev
  | _, 0 => []
  | first, count + 1 =>
    (if cached first then [] else
      [Ev.drv (record_request op.structure_ op.id first op.record_length)]) ++
    [Ev.read_cb op.cb 1 op.length first
      (some (record_reply m op.structure_ op.id first op.record_length).data)
      op.record_length op.userdata] ++
    record_events m op cached (first + 1) count

/-- A caller's read request for an EF: the `offset`, `num_bytes`, `cb` and
`data` arguments of `sim_fs_read`. -/
structure ReadReq where
  offset : Nat
  num_bytes : Nat
  cb : Nat
  userdata : Nat

/-- The operation record a read request becomes once the file information
`(length, record_length)` is known. -/
def read_op (id structure_ : Nat) (length record_length : Int) (r : ReadReq) :
    sim_fs_op :=
  { id := id, structure_ := structure_, offset := r.offset,
    num_bytes := r.num_bytes, length := length, record_length := record_length,
    current := 1, cb := r.cb, is_read := true, userdata := r.userdata }

/-- The byte count of a transparent read request on a file of `length`
bytes: `num_bytes`, or the file length when `num_bytes` is 0. -/
def read_count (length : Nat) (r : ReadReq) : Nat :=
  if r.num_bytes = 0 then length else r.num_bytes

/-- A cache file: the six file-information bytes `sim_fs_op_info_cb` writes
for `(length, structure, record_length)`, a 32-byte bitmap and the payload. -/
def cache_file (length : Int) (structure_ : Nat) (record_length : Int)
    (bitmap payload : List Nat) : List Nat :=
  (cache_header length structure_ record_length).take SIM_FILE_INFO_SIZE ++ bitmap ++
    payload

/-! ## Example inputs for record files -/

/-- A FIXED EF of four records of 20 bytes, cacheable. -/
def ex_records : EF :=
  { structure_ := OFONO_SIM_FILE_STRUCTURE_FIXED, record_length := 20,
    access := [0x0f, 0x00, 0xff], data := ex_bytes 80 }

/-- A cache file of `ex_records` with bitmap byte 0 equal to `0x05`: records
1 and 3 hold the bytes of the card, the place of record 2 is a hole. -/
def ex_records_file : List Nat :=
  cache_file 80 OFONO_SIM_FILE_STRUCTURE_FIXED 20 ([0x05] ++ List.replicate 31 0)
    ((ex_bytes 80).take 20 ++ List.replicate 20 0 ++ ((ex_bytes 80).drop 40).take 20)

/-- A modem holding a FIXED EF of 256 records of 256 bytes, every byte 7:
65536 bytes in all. -/
def ex_modem_64k : Modem :=
  { info := fun _ =>
      { error_type := OFONO_ERROR_TYPE_NO_ERROR, length := 65536,
        structure_ := OFONO_SIM_FILE_STRUCTURE_FIXED, record_length := 256,
        access := [0x0f, 0x00, 0xff] }
    transparent := fun _ _ _ => { error_type := 1, data := [] }
    linear := fun _ _ _ =>
      { error_type := OFONO_ERROR_TYPE_NO_ERROR, data := List.replicate 256 7 }
    cyclic := fun _ _ _ => { error_type := 1, data := [] }
    write := fun _ => OFONO_ERROR_TYPE_NO_ERROR }

/-- The cache file of the EF of `ex_modem_64k` once record 1 has been
cached: the file information `sim_fs_op_info_cb` writes for length 65536 and
record length 256, bitmap bit 0 set, the 256 bytes of record 1. -/
def ex_file_64k : List Nat :=
  cache_file 65536 OFONO_SIM_FILE_STRUCTURE_FIXED 256 ([0x01] ++ List.replicate 31 0)
    (List.replicate 256 7)

/-! ## The cache directory and the version sentinel -/

/-- An entry of the per-subscriber directory `<IMSI>-<phase>/`: its name,
whether `d_type` is `DT_REG`, and its content.  Sub-directories are not
modelled. -/
structure dirent where
  d_name : String
  is_reg : Bool
  content : List Nat
deriving DecidableEq, Repr

/-- The sixteen lower-case hexadecimal digits. -/
def lower_hex : List Char :=
  "0123456789abcdef".data

/-- Value of a hexadecimal digit, either case. -/
def hex_value (c : Char) : Option Nat :=
  if '0' ≤ c ∧ c ≤ '9' then some (c.toNat - '0'.toNat)
  else if 'a' ≤ c ∧ c ≤ 'f' then some (c.toNat - 'a'.toNat + 10)
  else if 'A' ≤ c ∧ c ≤ 'F' then some (c.toNat - 'A'.toNat + 10)
  else none

/-- The digits a `%x` conversion consumes: at most `width` hexadecimal
digits; the result is the value and the number of digits. -/
def scan_hex : Nat → List Char → Nat → Nat → Nat × Nat
  | 0, _, acc, n => (acc, n)
  | _ + 1, [], acc, n => (acc, n)
  | width + 1, c :: cs, acc, n =>
    match hex_value c with
    | some d => scan_hex width cs (acc * 16 + d) (n + 1)
    | none => (acc, n)

/-- `sscanf (name, "%4x", &id) == 1`, as ISO C defines the conversion: white
space is skipped, then at most four characters are taken, an optional sign,
an optional `0x` and hexadecimal digits.  `none` when nothing is converted,
otherwise the value stored, as the `unsigned int` that `%x` prints. -/
def sscanf_4x (name : String) : Option Nat :=
  let cs := name.data.dropWhile
    (fun c => c = ' ' ∨ c = '\t' ∨ c = '\n' ∨ c = '\r' ∨ c.toNat = 11 ∨ c.toNat = 12)
  let signed : Bool × List Char × Nat :=
    match cs with
    | c :: r =>
      if c = '-' then (true, r, 3) else if c = '+' then (false, r, 3) else (false, cs, 4)
    | [] => (false, cs, 4)
  let body : List Char × Nat :=
    match signed.2.1 with
    | c0 :: c1 :: r =>
      if c0 = '0' ∧ (c1 = 'x' ∨ c1 = 'X') ∧ 2 ≤ signed.2.2 then (r, signed.2.2 - 2)
      else (signed.2.1, signed.2.2)
    | _ => (signed.2.1, signed.2.2)
  let r := scan_hex body.2 body.1 0 0
  if r.2 = 0 then none
  else some (if signed.1 then (2 ^ 32 - r.1) % 2 ^ 32 else r.1)

/-- The text `%04x` prints for an `unsigned int`: lower-case hexadecimal
digits, padded with zeros to four. -/
def fmt_04x (id : Nat) : String :=
  String.mk
    (if id < 65536 then
      [Nat.digitChar (id / 4096 % 16), Nat.digitChar (id / 256 % 16),
        Nat.digitChar (id / 16 % 16), Nat.digitChar (id % 16)]
    else Nat.toDigits 16 id)

/-- `remove (path)` for the file `name` of the directory. -/
def remove (dir : List dirent) (name : String) : List dirent :=
  dir.filter (fun e => e.d_name ≠ name)

/-- `remove_cachefile (imsi, phase, file)`: the file named after the id that
`%4x` reads from `file->d_name` is removed, when `file` is a regular file. -/
def remove_cachefile (dir : List dirent) (file : dirent) : List dirent :=
  if file.is_reg = false then dir
  else
    match sscanf_4x file.d_name with
    | none => dir
    | some id => remove dir (fmt_04x id)

/-- Modelled from the spec: `read_file` of `storage.c`, which is not among
the sources ("Read one byte from `<IMSI>-<phase>/version`"): the first
`count` bytes of the file `name`, nothing when the file is absent. -/
def read_file (dir : List dirent) (name : String) (count : Nat) : List Nat :=
  match dir.find? (fun e => e.d_name = name) with
  | some e => e.content.take count
  | none => []

/-- Modelled from the spec: `write_file` of `storage.c`, which is not among
the sources ("Rewrite the version sentinel with byte `SIM_FS_VERSION`"): the
file `name` is replaced by a regular file holding `bytes`; `ok` is whether
the call succeeds. -/
def write_file (dir : List dirent) (name : String) (bytes : List Nat) (ok : Bool) :
    List dirent :=
  if ok then remove dir name ++ [{ d_name := name, is_reg := true, content := bytes }]
  else dir

/-- `sim_fs_check_version`.  `dir` lists the directory in the order `scandir`
returns its entries, which the loop walks from the last entry to the first;
`write_ok` is whether the final `write_file` succeeds. -/
def sim_fs_check_version (write_ok : Bool) (dir : List dirent) : List dirent :=
  if read_file dir "version" 1 = [SIM_FS_VERSION] then dir
  else
    let wiped := dir.reverse.foldl remove_cachefile dir
    write_file wiped "version" [SIM_FS_VERSION] write_ok

/-- A file name of exactly four lower-case hexadecimal digits. -/
def is_hex4 (name : String) : Bool :=
  name.data.length = 4 ∧ name.data.all (fun c => c ∈ lower_hex)

/-- The directory of the version-bump scenario: EF files `6f05` and `6f40`
and a sentinel holding `0x00`. -/
def ex_old_dir : List dirent :=
  [⟨"6f05", true, ex_file10⟩, ⟨"6f40", true, cache_header 4 0 0⟩, ⟨"version", true, [0]⟩]

/-! ## Callbacks and the assembled buffer -/

/-- The callbacks of a trace: every event but the driver calls. -/
def callbacks_of (log : List Ev) : List Ev :=
  log.filter (fun e => match e with
    | Ev.drv _ => false
    | _ => true)

/-- The driver's reply for block `c` of the transparent file `id` of
`length` bytes: the request `sim_fs_op_read_block` makes is
`read_file_transparent (id, c * 256, MIN (length - c * 256, 256))`. -/
def block_reply (m : Modem) (id : Nat) (length : Int) (c : Nat) : DataReply :=
  m.transparent id ((c : Int) * 256) (min (length - (c : Int) * 256) 256 % 65536)

/-- The slice `sim_fs_op_read_block_cb` copies out of the driver's reply for
block `c`. -/
def block_slice (m : Modem) (op : sim_fs_op) (c : Nat) : Int × Int × Int :=
  block_cb_slice { op with current := (c : Int) } (block_reply m op.id op.length c).data.length

/-- The assembly buffer `buf` after `sim_fs_op_read_block_cb` has copied the
driver's reply for block `c` into it. -/
def copy_block (m : Modem) (op : sim_fs_op) (c : Nat) (buf : List Nat) : List Nat :=
  store_at buf (block_slice m op c).1
    (take_padded ((block_reply m op.id op.length c).data.drop (block_slice m op c).2.1.toNat)
      (block_slice m op c).2.2.toNat)

/-- The assembly buffer after `sim_fs_op_read_block_cb` has copied the
driver's blocks `c`, `c + 1`, .., `c + count - 1` into `buf`, one after the
other. -/
def assemble (m : Modem) (op : sim_fs_op) : Nat → Nat → List Nat → List Nat
  | 0, _, buf => buf
  | count + 1, c, buf => assemble m op count (c + 1) (copy_block m op c buf)

/-- Every block of the transparent file `id` of `length` bytes whose presence
bit is set in the in-memory bitmap `bm` is stored in the cache file `file` as
the driver returns it. -/
def blocks_valid (m : Modem) (id : Nat) (length : Int) (bm file : List Nat) : Prop :=
  ∀ c : Nat, (c : Int) * 256 < length → unit_present bm c = true →
    pread file (38 + c * 256) (block_reply m id length c).data.length =
      (block_reply m id length c).data

/-- The cache file cannot serve the first block of the read of `count` bytes
at `offset` with bytes the driver's block does not hold: the first copy ends
inside the driver's block (the range ends inside the file of `length` bytes,
or starts on a block boundary, or starts in a full block), or the cache file
holds nothing past the payload of the file. -/
def tail_safe (offset count length : Nat) (file : List Nat) : Prop :=
  (offset + count ≤ length ∨ offset % 256 = 0 ∨ (offset / 256 + 1) * 256 ≤ length) ∨
    file.length ≤ 38 + length

/-- Every copy of the read of `op` stays inside the assembly buffer of
`num_bytes` bytes and inside the driver's block: blocks `first`, ..,
`first + count - 1`. -/
def copies_fit (m : Modem) (op : sim_fs_op) (first count : Nat) : Prop :=
  ∀ c : Nat, first ≤ c → c < first + count →
    in_bounds op.num_bytes.toNat (block_slice m op c).1
      (block_slice m op c).2.2.toNat = true ∧
    (block_slice m op c).2.1 + (block_slice m op c).2.2 ≤
      (block_reply m op.id op.length c).data.length

/-- The operation record of a transparent read once the file length is
known: what `sim_fs_op_info_cb` and `sim_fs_op_check_cached` make of the
request, before the first block is retrieved. -/
def transparent_op (id length : Nat) (r : ReadReq) : sim_fs_op :=
  { id := id, structure_ := OFONO_SIM_FILE_STRUCTURE_TRANSPARENT, offset := r.offset,
    num_bytes := (read_count length r : Nat), length := (length : Int),
    record_length := (length : Int), current := ((r.offset / 256 : Nat) : Int),
    cb := r.cb, is_read := true, userdata := r.userdata }

/-- The completion callback of a transparent read whose blocks all arrive:
`(1, count, 0, buffer, length, userdata)`, the buffer being assembled from
the driver's blocks of the range. -/
def transparent_callback (m : Modem) (id length : Nat) (r : ReadReq) : Ev :=
  Ev.read_cb r.cb 1 (read_count length r : Nat) 0
    (some (assemble m (transparent_op id length r)
      ((r.offset + read_count length r - 1) / 256 + 1 - r.offset / 256)
      (r.offset / 256) (List.replicate (read_count length r) 0)))
    (length : Int) r.userdata

/-- An event with the data of a read callback cut to its first `n` bytes: a
copy that has read past the end of its source leaves the bytes after them
undefined. -/
def cut_data (n : Nat) : Ev → Ev
  | Ev.read_cb cb ok length record data record_length userdata =>
    Ev.read_cb cb ok length record (data.map (List.take n)) record_length userdata
  | e => e

/-! ## Requests, executions and the order of callbacks -/

/-- Who is called back for an operation: the callback pointer and the user
data given with the request. -/
def owner_of_op (op : sim_fs_op) : Nat × Nat := (op.cb, op.userdata)

/-- Who is called back by an event; a driver call calls nobody back. -/
def owner_of_ev : Ev → Option (Nat × Nat)
  | Ev.read_cb cb _ _ _ _ _ userdata => some (cb, userdata)
  | Ev.write_cb cb _ userdata => some (cb, userdata)
  | Ev.drv _ => none

/-- The callbacks of a trace in the order they were invoked, each as the pair
(callback, user data). -/
def callback_owners (log : List Ev) : List (Nat × Nat) :=
  log.filterMap owner_of_ev

/-- The queue `fs->op_q`, head first, each operation as the pair (callback,
user data); a NULL queue holds nothing. -/
def queue_owners (w : World) : List (Nat × Nat) :=
  (w.fs.op_q.getD []).map owner_of_op

/-- What is done to an engine: a call of `sim_fs_read`, a call of
`sim_fs_write`, or one iteration of the main loop. -/
inductive Action where
  | read (id expected_type offset num_bytes cb data : Nat)
  | write (id cb structure_ : Nat) (record : Int) (data : Option (List Nat))
      (length : Int) (userdata : Nat)
  | iterate

/-- Run a sequence of actions.  The state is the world together with the
accepted requests (those for which `sim_fs_read` or `sim_fs_write` returned
0), oldest first, each as the pair (callback, user data). -/
def exec (m : Modem) :
    World × List (Nat × Nat) → List Action → Except Fault (World × List (Nat × Nat))
  | s, [] => .ok s
  | (w, accepted), Action.read id expected_type offset num_bytes cb data :: rest =>
    exec m
      ((sim_fs_read w id expected_type offset num_bytes cb data).2,
        if (sim_fs_read w id expected_type offset num_bytes cb data).1 = 0 then
          accepted ++ [(cb, data)] else accepted) rest
  | (w, accepted), Action.write id cb structure_ record data length userdata :: rest =>
    exec m
      ((sim_fs_write w id cb structure_ record data length userdata).2,
        if (sim_fs_write w id cb structure_ record data length userdata).1 = 0 then
          accepted ++ [(cb, userdata)] else accepted) rest
  | (w, accepted), Action.iterate :: rest =>
    match step m w with
    | .error e => .error e
    | .ok none => exec m (w, accepted) rest
    | .ok (some w1) => exec m (w1, accepted) rest

/-- The callbacks of the requests `owners`, request after request: `counts`
gives the number of callbacks of each. -/
def callbacks_in_turn (owners : List (Nat × Nat)) (counts : List Nat) :
    List (Nat × Nat) :=
  (List.zipWith (fun o k => List.replicate k o) owners counts).flatten

/-- One step of the engine from `w` to `w1` serves the head of the queue:
every callback it invokes is the head's, and the queue is left as it was or
loses its head. -/
def serves_head (w w1 : World) : Prop :=
  ∃ k : Nat,
    callback_owners w1.log =
      callback_owners w.log ++ List.replicate k ((queue_owners w).headD (0, 0)) ∧
    (queue_owners w1 = queue_owners w ∨ queue_owners w1 = (queue_owners w).tail) ∧
    (queue_owners w = [] → k = 0)

/-- The callbacks so far follow the order of the requests: the accepted
requests are those completed (`done`), oldest first, followed by the queue,
and the callbacks are those of the completed requests, request after request
(`counts` callbacks each), followed by `k` callbacks of the head of the
queue. -/
def fifo_order (w : World) (accepted : List (Nat × Nat)) : Prop :=
  ∃ (done : List (Nat × Nat)) (counts : List Nat) (k : Nat),
    accepted = done ++ queue_owners w ∧ counts.length = done.length ∧
    callback_owners w.log =
      callbacks_in_turn done counts ++ List.replicate k ((queue_owners w).headD (0, 0)) ∧
    (queue_owners w = [] → k = 0)
/-! ## Example inputs for queued reads -/

/-- A card holding the transparent EFs `0x6f06` (ten bytes) and `0x6f07` (300
bytes), both cacheable. -/
def ex_card_two : Nat → Option EF :=
  fun id =>
    if id = 0x6f06 then some (ex_transparent (List.range 10))
    else if id = 0x6f07 then some (ex_transparent (ex_bytes 300))
    else none

/-- The cache file of the 300-byte EF `0x6f07` after a read of its second
block only: bit 1 of the bitmap is set, the place of block 0 is a hole. -/
def ex_file300 : List Nat :=
  cache_file 300 OFONO_SIM_FILE_STRUCTURE_TRANSPARENT 0 ([0x02] ++ List.replicate 31 0)
    (List.replicate 256 0 ++ (ex_bytes 300).drop 256)

/-- A cache directory with the file of EF `0x6f05` (ten bytes, transparent)
and the file of EF `0x6f07`. -/
def ex_dir_two : Nat → Option (List Nat) :=
  fun id =>
    if id = 0x6f05 then some ex_file10
    else if id = 0x6f07 then some ex_file300
    else none

/-- Three reads enqueued before the main loop runs: EF `0x6f05` as a FIXED
file, EF `0x6f06` to the end of the file, the first four bytes of EF
`0x6f07`. -/
def ex_three_reads : World :=
  (sim_fs_read
    (sim_fs_read
      (sim_fs_read (ex_world ex_dir_two) 0x6f05 OFONO_SIM_FILE_STRUCTURE_FIXED 0 0 1 77).2
      0x6f06 OFONO_SIM_FILE_STRUCTURE_TRANSPARENT 0 0 2 78).2
    0x6f07 OFONO_SIM_FILE_STRUCTURE_TRANSPARENT 0 4 3 79).2

/-- The three reads of `ex_three_reads`, the third asking for the whole first
block of EF `0x6f07`, which its cache file does not hold. -/
def ex_three_reads_block : World :=
  (sim_fs_read
    (sim_fs_read
      (sim_fs_read (ex_world ex_dir_two) 0x6f05 OFONO_SIM_FILE_STRUCTURE_FIXED 0 0 1 77).2
      0x6f06 OFONO_SIM_FILE_STRUCTURE_TRANSPARENT 0 0 2 78).2
    0x6f07 OFONO_SIM_FILE_STRUCTURE_TRANSPARENT 0 256 3 79).2

/-! ## Example inputs for file information the engine does not check -/

/-- A FIXED EF of 80 bytes for which the card reports record length 0. -/
def ex_records_zero : EF :=
  { structure_ := OFONO_SIM_FILE_STRUCTURE_FIXED, record_length := 0,
    access := [0x0f, 0x00, 0xff], data := ex_bytes 80 }

/-- A FIXED EF of 10 bytes for which the card reports record length 20. -/
def ex_records_short : EF :=
  { structure_ := OFONO_SIM_FILE_STRUCTURE_FIXED, record_length := 20,
    access := [0x0f, 0x00, 0xff], data := List.range 10 }

/-! ## Example inputs for a file of more than 256 records -/

/-- A FIXED EF of 257 records of one byte, every byte 7. -/
def ex_records_257 : EF :=
  { structure_ := OFONO_SIM_FILE_STRUCTURE_FIXED, record_length := 1,
    access := [0x0f, 0x00, 0xff], data := List.replicate 257 7 }

/-- A cache file of `ex_records_257` with all 256 bits of the bitmap set and
the 257 records stored. -/
def ex_file_257 : List Nat :=
  cache_file 257 OFONO_SIM_FILE_STRUCTURE_FIXED 1 (List.replicate 32 255)
    (List.replicate 257 7)

/-! ## Indices into the presence bitmap -/

/-- The file length `sim_fs_op_check_cached` decodes from the header of a
cache file: `(fileinfo[1] << 8) | fileinfo[2]`. -/
def header_length (file : List Nat) : Nat := file.getD 1 0 <<< 8 ||| file.getD 2 0

/-- The record length `sim_fs_op_check_cached` decodes from the header of a
cache file: `(fileinfo[4] << 8) | fileinfo[5]`. -/
def header_record_length (file : List Nat) : Nat := file.getD 4 0 <<< 8 ||| file.getD 5 0

/-- The file information `(structure, length, record_length)` keeps the read
of `num_bytes` bytes at `offset`, expected structure `st`, within 256 units:
when the structure is the expected one, a transparent read ends at or before
byte 65536 (`num_bytes` 0 standing for the length) and a record file has at
most 256 records. -/
def units_in_range (st offset num_bytes structure_ : Nat) (length record_length : Int) :
    Prop :=
  structure_ = st →
    if structure_ = OFONO_SIM_FILE_STRUCTURE_TRANSPARENT then
      (offset : Int) + (if num_bytes = 0 then length else (num_bytes : Int)) ≤ 65536
    else cdiv length record_length ≤ 256

/-- The block indices `sim_fs_op_read_block` and its callback go through for
`op` are below 256. -/
def blocks_in_range (op : sim_fs_op) : Prop :=
  0 ≤ op.current ∧ cdiv (op.offset + (op.num_bytes - 1)) 256 < 256

/-- The record numbers `sim_fs_op_read_record` and its callback go through for
`op` are at most 256. -/
def records_in_range (op : sim_fs_op) : Prop :=
  1 ≤ op.current ∧ cdiv op.length op.record_length ≤ 256

/-- The step from `w` to `w1` leaves the pending ticks, the pending driver
requests and the queue as they are and records no bitmap index out of
range. -/
def quiet (w w1 : World) : Prop :=
  w1.idle = w.idle ∧ w1.inflight = w.inflight ∧ w1.fs.op_q = w.fs.op_q ∧
    (Violation.bitmap_index ∈ w1.viol → Violation.bitmap_index ∈ w.viol)

/-- What is pending for the operation `op` of a single read, with the bounds
the next step needs: `sim_fs_op_next` or the file information for the request
as enqueued, a block tick or block reply within 256 blocks, a record tick or
record reply within 256 records. -/
def read_phase (id st offset num_bytes : Nat) (w : World) (op : sim_fs_op) : Prop :=
  (∃ s, w.idle = [(s, TickFn.op_next)] ∧ w.inflight = [] ∧ op.is_read = true ∧
    op.id = id ∧ op.structure_ = st ∧ op.offset = offset ∧
    op.num_bytes = (num_bytes : Int) ∧
    ∀ F, w.files id = some F →
      units_in_range st offset num_bytes (F.getD 3 0) (header_length F)
        (header_record_length F)) ∨
  (w.idle = [] ∧ w.inflight = [DrvReq.read_file_info id] ∧
    op.id = id ∧ op.structure_ = st ∧ op.offset = offset ∧
    op.num_bytes = (num_bytes : Int)) ∨
  (∃ s, w.idle = [(s, TickFn.read_block)] ∧ w.inflight = [] ∧ blocks_in_range op) ∨
  (w.idle = [] ∧ (∃ a b c, w.inflight = [DrvReq.read_file_transparent a b c]) ∧
    blocks_in_range op ∧ op.current ≤ cdiv (op.offset + (op.num_bytes - 1)) 256) ∨
  (∃ s, w.idle = [(s, TickFn.read_record)] ∧ w.inflight = [] ∧ records_in_range op) ∨
  (w.idle = [] ∧
    (∃ a b c, w.inflight = [DrvReq.read_file_linear a b c] ∨
      w.inflight = [DrvReq.read_file_cyclic a b c]) ∧
    records_in_range op ∧ op.current ≤ cdiv op.length op.record_length)

/-- The invariant of a single read: no bitmap index out of range has been
recorded and the engine is done with the queue, or at rest, or in one of the
phases of `read_phase`. -/
def index_safe (id st offset num_bytes : Nat) (w : World) : Prop :=
  Violation.bitmap_index ∉ w.viol ∧
  (w.fs.op_q = some [] ∨ (w.idle = [] ∧ w.inflight = []) ∨
    ∃ op, w.fs.op_q = some [op] ∧ read_phase id st offset num_bytes w op)

/-! # Theorems -/

/-! ## Arithmetic and bit lemmas -/

theorem and_0xf (x : Nat) : x &&& 0xf = x % 16 :=
  Nat.and_pow_two_sub_one_eq_mod x 4

theorem shr4_and_0xf (x : Nat) : (x >>> 4) &&& 0xf = x / 16 % 16 := by
  rw [and_0xf, Nat.shiftRight_eq_div_pow]

theorem cacheable_iff (a0 a1 a2 : Nat) :
    cacheable [a0, a1, a2] = true ↔
      (4 ≤ a0 % 16 ∧ 4 ≤ a2 / 16 % 16 ∧ 4 ≤ a2 % 16) := by
  simp only [cacheable, List.getD_cons_zero, List.getD_cons_succ, and_0xf, shr4_and_0xf,
    file_access_condition_decode, SIM_FILE_ACCESS_ADM, SIM_FILE_ACCESS_NEVER,
    decide_eq_true_eq]
  have h0 : a0 % 16 < 16 := Nat.mod_lt _ (by decide)
  have h1 : a2 / 16 % 16 < 16 := Nat.mod_lt _ (by decide)
  have h2 : a2 % 16 < 16 := Nat.mod_lt _ (by decide)
  split_ifs <;> omega

/-! ## Primitives -/

@[simp]
theorem cache_header_length (l : Int) (s : Nat) (r : Int) :
    (cache_header l s r).length = 38 := by
  simp [cache_header, SIM_CACHE_HEADER_SIZE, SIM_FILE_INFO_SIZE]

theorem take_padded_eq (data : List Nat) (n : Nat) (h : data.length = n) :
    take_padded data n = data := by
  subst h; simp [take_padded]

@[simp]
theorem take_padded_length (data : List Nat) (n : Nat) :
    (take_padded data n).length = n := by
  simp [take_padded]; omega

@[simp]
theorem pwrite_nil_zero (bytes : List Nat) : pwrite [] 0 bytes = bytes := by
  simp [pwrite]

@[simp]
theorem flag_if_fs (c : Bool) (v : Violation) (w : World) :
    (flag_if c v w).fs = w.fs := rfl
@[simp]
theorem flag_if_files (c : Bool) (v : Violation) (w : World) :
    (flag_if c v w).files = w.files := rfl
@[simp]
theorem flag_if_sys (c : Bool) (v : Violation) (w : World) :
    (flag_if c v w).sys = w.sys := rfl
@[simp]
theorem flag_if_idle (c : Bool) (v : Violation) (w : World) :
    (flag_if c v w).idle = w.idle := rfl
@[simp]
theorem flag_if_inflight (c : Bool) (v : Violation) (w : World) :
    (flag_if c v w).inflight = w.inflight := rfl
@[simp]
theorem flag_if_log (c : Bool) (v : Violation) (w : World) :
    (flag_if c v w).log = w.log := rfl
@[simp]
theorem flag_if_next_source (c : Bool) (v : Violation) (w : World) :
    (flag_if c v w).next_source = w.next_source := rfl
@[simp]
theorem flag_fs (v : Violation) (w : World) : (flag v w).fs = w.fs := rfl
@[simp]
theorem flag_files (v : Violation) (w : World) : (flag v w).files = w.files := rfl
@[simp]
theorem flag_sys (v : Violation) (w : World) : (flag v w).sys = w.sys := rfl
@[simp]
theorem flag_idle (v : Violation) (w : World) : (flag v w).idle = w.idle := rfl
@[simp]
theorem flag_inflight (v : Violation) (w : World) :
    (flag v w).inflight = w.inflight := rfl
@[simp]
theorem flag_log (v : Violation) (w : World) : (flag v w).log = w.log := rfl
@[simp]
theorem flag_next_source (v : Violation) (w : World) :
    (flag v w).next_source = w.next_source := rfl

/-- C9: on every 4-bit value `file_access_condition_decode` sends 4..14 to
ADM (4) and each of 0, 1, 2, 3, 15 to itself; its result is one of ALWAYS,
CHV1, CHV2, RESERVED, ADM, NEVER, and decoding twice is decoding once. -/
theorem file_access_condition_decode_nibble (bcd : Int) (h0 : 0 ≤ bcd)
    (h15 : bcd ≤ 15) :
    (4 ≤ bcd ∧ bcd ≤ 14 → file_access_condition_decode bcd = SIM_FILE_ACCESS_ADM) ∧
    (bcd = 0 ∨ bcd = 1 ∨ bcd = 2 ∨ bcd = 3 ∨ bcd = 15 →
      file_access_condition_decode bcd = bcd) ∧
    (file_access_condition_decode bcd = SIM_FILE_ACCESS_ALWAYS ∨
      file_access_condition_decode bcd = SIM_FILE_ACCESS_CHV1 ∨
      file_access_condition_decode bcd = SIM_FILE_ACCESS_CHV2 ∨
      file_access_condition_decode bcd = SIM_FILE_ACCESS_RESERVED ∨
      file_access_condition_decode bcd = SIM_FILE_ACCESS_ADM ∨
      file_access_condition_decode bcd = SIM_FILE_ACCESS_NEVER) ∧
    file_access_condition_decode (file_access_condition_decode bcd) =
      file_access_condition_decode bcd ∧
    SIM_FILE_ACCESS_ADM = 4 := by
  simp only [file_access_condition_decode, SIM_FILE_ACCESS_ALWAYS, SIM_FILE_ACCESS_CHV1,
    SIM_FILE_ACCESS_CHV2, SIM_FILE_ACCESS_RESERVED, SIM_FILE_ACCESS_ADM,
    SIM_FILE_ACCESS_NEVER]
  refine ⟨?_, ?_, ?_, ?_, trivial⟩
  · intro h; simp [h.1, h.2]
  · intro h; split_ifs <;> omega
  · split_ifs <;> omega
  · split_ifs <;> simp_all

theorem file_access_condition_decode_nibble_witness :
    file_access_condition_decode 9 = SIM_FILE_ACCESS_ADM ∧
      file_access_condition_decode 15 = 15 :=
  ⟨(file_access_condition_decode_nibble 9 (by decide) (by decide)).1
      ⟨by decide, by decide⟩,
    (file_access_condition_decode_nibble 15 (by decide) (by decide)).2.1
      (Or.inr (Or.inr (Or.inr (Or.inr rfl))))⟩

/-- C7: when the driver's file information arrives without error, with the
expected structure and with an IMSI available, `sim_fs_op_info_cb` creates the
cache file (38-byte header, descriptor kept open) exactly when the nibbles
`access[0] & 0xf`, `(access[2] >> 4) & 0xf` and `access[2] & 0xf` all decode
to ADM or NEVER, that is exactly when each of them is in 4..15; otherwise the
cache directory and the descriptor are left as they were. -/
theorem info_cb_creates_cache_iff (w : World) (op : sim_fs_op)
    (rest : List sim_fs_op) (length record_length : Int) (a0 a1 a2 : Nat)
    (hq : w.fs.op_q = some (op :: rest)) (himsi : w.fs.sim.imsi ≠ none)
    (hnofile : w.files op.id = none) (hopen : w.sys.can_create = true)
    (hwrite : w.sys.write 0 38 = 38) :
    ∃ w1, sim_fs_op_info_cb w OFONO_ERROR_TYPE_NO_ERROR length op.structure_
        record_length [a0, a1, a2] = .ok w1 ∧
      (cacheable [a0, a1, a2] = true ↔
        (4 ≤ a0 % 16 ∧ 4 ≤ a2 / 16 % 16 ∧ 4 ≤ a2 % 16)) ∧
      (w1.files op.id ≠ none ↔
        (4 ≤ a0 % 16 ∧ 4 ≤ a2 / 16 % 16 ∧ 4 ≤ a2 % 16)) ∧
      ((4 ≤ a0 % 16 ∧ 4 ≤ a2 / 16 % 16 ∧ 4 ≤ a2 % 16) →
        w1.files op.id = some (cache_header length op.structure_ record_length) ∧
        w1.fs.fd = some op.id) ∧
      (¬ (4 ≤ a0 % 16 ∧ 4 ≤ a2 / 16 % 16 ∧ 4 ≤ a2 % 16) →
        w1.files = w.files ∧ w1.fs.fd = w.fs.fd) := by
  have hc := cacheable_iff a0 a1 a2
  by_cases hcond : (4 ≤ a0 % 16 ∧ 4 ≤ a2 / 16 % 16 ∧ 4 ≤ a2 % 16)
  · have hct : cacheable [a0, a1, a2] = true := hc.2 hcond
    have hp : peek_head w = some op := by simp [peek_head, hq]
    simp only [sim_fs_op_info_cb, hp, hct, hopen]
    simp [himsi, sys_write, idle_add, set_head, hq, hwrite, SIM_CACHE_HEADER_SIZE,
      OFONO_ERROR_TYPE_NO_ERROR, take_padded_eq, hcond]
  · have hcf : cacheable [a0, a1, a2] = false := by
      cases h : cacheable [a0, a1, a2] with
      | false => rfl
      | true => exact absurd (hc.1 h) hcond
    have hp : peek_head w = some op := by simp [peek_head, hq]
    simp only [sim_fs_op_info_cb, hp, hcf]
    simp [idle_add, set_head, hq, hnofile, hcond, OFONO_ERROR_TYPE_NO_ERROR]

theorem info_cb_creates_cache_iff_witness :
    (∃ w1, sim_fs_op_info_cb
        (sim_fs_read (ex_world (fun _ => none)) 0x6f05
          OFONO_SIM_FILE_STRUCTURE_TRANSPARENT 0 10 1 77).2
        OFONO_ERROR_TYPE_NO_ERROR 10 OFONO_SIM_FILE_STRUCTURE_TRANSPARENT 0
        [0x0f, 0x00, 0xff] = .ok w1 ∧
      w1.files 0x6f05 = some (cache_header 10 0 0) ∧ w1.fs.fd = some 0x6f05) ∧
    (∃ w1, sim_fs_op_info_cb
        (sim_fs_read (ex_world (fun _ => none)) 0x6f05
          OFONO_SIM_FILE_STRUCTURE_TRANSPARENT 0 10 1 77).2
        OFONO_ERROR_TYPE_NO_ERROR 10 OFONO_SIM_FILE_STRUCTURE_TRANSPARENT 0
        [0x01, 0x00, 0x00] = .ok w1 ∧
      w1.files 0x6f05 = none ∧ w1.fs.fd = none) := by
  constructor
  · obtain ⟨w1, h, _, _, hyes, _⟩ := info_cb_creates_cache_iff
      (sim_fs_read (ex_world (fun _ => none)) 0x6f05
        OFONO_SIM_FILE_STRUCTURE_TRANSPARENT 0 10 1 77).2
      { id := 0x6f05, structure_ := 0, offset := 0, num_bytes := 10, length := 0,
        record_length := 0, current := 0, cb := 1, is_read := true, userdata := 77 }
      [] 10 0 0x0f 0x00 0xff rfl (by decide) rfl rfl rfl
    exact ⟨w1, h, hyes (by decide)⟩
  · obtain ⟨w1, h, _, _, _, hno⟩ := info_cb_creates_cache_iff
      (sim_fs_read (ex_world (fun _ => none)) 0x6f05
        OFONO_SIM_FILE_STRUCTURE_TRANSPARENT 0 10 1 77).2
      { id := 0x6f05, structure_ := 0, offset := 0, num_bytes := 10, length := 0,
        record_length := 0, current := 0, cb := 1, is_read := true, userdata := 77 }
      [] 10 0 0x01 0x00 0x00 rfl (by decide) rfl rfl rfl
    have h2 := hno (by decide)
    exact ⟨w1, h, by rw [h2.1]; rfl, by rw [h2.2]; rfl⟩

/-! ## Evaluations at concrete inputs -/

set_option maxRecDepth 100000 in
/-- C1 (defect): EF of 300 bytes, no cache file, read of offset 250 and
count 20 (the spec's own example).  The read ends with a single callback
`(1, 20, 0, data, 300, userdata)`, but `data` is bytes 250..255 followed by
fourteen zero bytes, not bytes 250..269: the block callback copies the second
block to buffer offset `(1 - 0 - 1) * 256 + 250 = 250` instead of 6, past
the end of the 20-byte assembly buffer. -/
theorem read_straddling_blocks_misplaced :
    (run (card_modem (ex_card (ex_transparent (ex_bytes 300)))) 100
        (sim_fs_read (ex_world (fun _ => none)) 0x6f05
          OFONO_SIM_FILE_STRUCTURE_TRANSPARENT 250 20 1 77).2).map
      (fun w => (w.log, w.viol, w.idle, w.inflight)) =
    .ok ([Ev.drv (DrvReq.read_file_info 0x6f05),
        Ev.drv (DrvReq.read_file_transparent 0x6f05 0 256),
        Ev.drv (DrvReq.read_file_transparent 0x6f05 256 44),
        Ev.read_cb 1 1 20 0
          (some [245, 1, 8, 15, 22, 29, 0, 0, 0, 0, 0, 0, 0, 0, 0, 0, 0, 0, 0, 0])
          300 77],
      [Violation.buffer_overflow], [], []) ∧
    ((ex_bytes 300).drop 250).take 20 =
      [245, 1, 8, 15, 22, 29, 36, 43, 50, 57, 64, 71, 78, 85, 92, 99, 106, 113,
        120, 127] := by
  constructor <;> rfl

set_option maxRecDepth 100000 in
/-- C3 (defect): EF of 10 bytes whose block 0 is cached (bit 0 set, payload
present), read of offset 3 and count 4 (the spec's own example).  The cache
loop asks for `MIN (256 - 3, 10 - 0) = 10` bytes at file position 41, gets the
7 that exist, takes the short read as a stall and the engine calls
`read_file_transparent (0, 10)` before the completion callback. -/
theorem warm_sub_block_read_calls_driver :
    (run (card_modem (ex_card (ex_transparent (List.range 10)))) 100
        (sim_fs_read (ex_world (ex_dir ex_file10)) 0x6f05
          OFONO_SIM_FILE_STRUCTURE_TRANSPARENT 3 4 1 77).2).map
      (fun w => (w.log, w.viol, w.idle, w.inflight)) =
    .ok ([Ev.drv (DrvReq.read_file_transparent 0x6f05 0 10),
        Ev.read_cb 1 1 4 0 (some [3, 4, 5, 6]) 10 77],
      [Violation.buffer_overflow, Violation.source_overread,
        Violation.buffer_overflow], [], []) := by
  rfl

set_option maxRecDepth 100000 in
/-- C4 (defect): cacheable transparent EF of 257 bytes, no cache file.  A
first complete read writes both blocks to the cache from the driver's
responses; a second complete read is then served from the cache alone and
delivers byte 256, bytes 1..255 and a zero byte, not the 257 bytes of the
driver's responses: block 1 is stored at buffer offset 0 instead of 256. -/
theorem cached_two_block_round_trip_differs :
    ((run (card_modem (ex_card (ex_transparent (ex_bytes 257)))) 100
        (sim_fs_read (ex_world (fun _ => none)) 0x6f05
          OFONO_SIM_FILE_STRUCTURE_TRANSPARENT 0 257 1 77).2).bind
      (fun w => run (card_modem (ex_card (ex_transparent (ex_bytes 257)))) 100
        (sim_fs_read w 0x6f05 OFONO_SIM_FILE_STRUCTURE_TRANSPARENT 0 257 1 78).2)).map
      (fun w => (w.log.drop 4, w.files 0x6f05, w.viol, w.idle, w.inflight)) =
    .ok ([Ev.read_cb 1 1 257 0
          (some ((ex_bytes 257).drop 256 ++ ((ex_bytes 257).drop 1).take 255 ++ [0]))
          257 78],
      some ([0, 1, 1, 0, 0, 0] ++ ([3] ++ List.replicate 31 0) ++ ex_bytes 257),
      [], [], []) ∧
    (ex_bytes 257).drop 256 ++ ((ex_bytes 257).drop 1).take 255 ++ [0] ≠
      ex_bytes 257 := by
  constructor
  · rfl
  · decide

set_option maxRecDepth 100000 in
/-- C10 (defect): the cache file of EF `0x6f05` records a transparent file and
the read expects a FIXED one.  The probe reports the error once, with
`(0, 0, 0, NULL, 0, userdata)`, and the operation leaves the queue; but
`sim_fs_op_check_cached` does not return after `sim_fs_op_error`: it goes on
through the freed operation record and schedules a `sim_fs_op_read_block`
tick, which then runs on an empty queue and dereferences NULL. -/
theorem cached_error_still_schedules_retrieval :
    (run (card_modem (ex_card (ex_transparent (List.range 10)))) 1
        (sim_fs_read (ex_world (ex_dir ex_file10)) 0x6f05
          OFONO_SIM_FILE_STRUCTURE_FIXED 0 0 1 77).2).map
      (fun w => (w.log, w.fs.op_q, w.idle, w.viol)) =
    .ok ([Ev.read_cb 1 0 0 0 none 0 77], some [], [(2, TickFn.read_block)],
      [Violation.freed_op_access]) ∧
    run (card_modem (ex_card (ex_transparent (List.range 10)))) 2
        (sim_fs_read (ex_world (ex_dir ex_file10)) 0x6f05
          OFONO_SIM_FILE_STRUCTURE_FIXED 0 0 1 77).2 =
      .error Fault.null_op := by
  constructor <;> rfl

/-! ## The main loop -/

theorem run_quiescent (m : Modem) (fuel : Nat) (w : World) (h1 : w.idle = [])
    (h2 : w.inflight = []) : run m fuel w = .ok w := by
  cases fuel with
  | zero => rfl
  | succ n => simp [run, step, h1, h2]

theorem run_step (m : Modem) (fuel : Nat) (w w1 : World)
    (h : step m w = .ok (some w1)) : run m (fuel + 1) w = run m fuel w1 := by
  simp [run, h]

theorem run_add (m : Modem) (a b : Nat) (w : World) :
    run m (a + b) w = (run m a w).bind (run m b) := by
  induction a generalizing w with
  | zero => simp [run, Except.bind]
  | succ n ih =>
    have e : n + 1 + b = (n + b) + 1 := by omega
    rw [e]
    simp only [run]
    cases hs : step m w with
    | error e => simp [Except.bind]
    | ok o =>
      cases o with
      | none =>
        simp only [Except.bind]
        cases b with
        | zero => rfl
        | succ j => simp [run, hs]
      | some w1 => simpa using ih w1

/-- Once the loop has come to rest, more fuel changes nothing. -/
theorem run_mono (m : Modem) (a j : Nat) (w w1 : World) (h : run m a w = .ok w1)
    (hq : quiescent w1) : run m (a + j) w = .ok w1 := by
  rw [run_add, h]
  exact run_quiescent m j w1 hq.1 hq.2

/-! ## C arithmetic on non-negative values -/

theorem cdiv_nonneg (a b : Int) (ha : 0 ≤ a) (hb : 0 ≤ b) : cdiv a b = a / b :=
  Int.tdiv_eq_ediv ha hb

theorem cmod_nonneg (a b : Int) (ha : 0 ≤ a) (hb : 0 ≤ b) : cmod a b = a % b :=
  Int.tmod_eq_emod ha hb

@[simp]
theorem store_at_length (buf : List Nat) (off : Int) (src : List Nat) :
    (store_at buf off src).length = buf.length := by
  unfold store_at
  split
  · rfl
  · simp only [List.length_append, List.length_take, List.length_drop]
    omega

/-! ## Single steps of a read without a cache file -/

theorem step_op_next_miss (m : Modem) (op : sim_fs_op) (rest : List sim_fs_op)
    (src : Nat) (bm : List Nat) (fd : Option Nat) (buf : Option (List Nat))
    (sim : ofono_sim) (drv : ofono_sim_driver) (files : Nat → Option (List Nat))
    (sys : Sys) (sid : Nat) (idle : List (Nat × TickFn)) (ns : Nat)
    (infl : List DrvReq) (log : List Ev) (viol : List Violation)
    (hread : op.is_read = true) (hinfo : drv.read_file_info = true)
    (hmiss : sim.imsi = none ∨ files op.id = none) :
    step m ⟨⟨some (op :: rest), src, bm, fd, buf, sim, some drv⟩, files, sys,
        (sid, TickFn.op_next) :: idle, ns, infl, log, viol⟩ =
      .ok (some ⟨⟨some (op :: rest), 0, bm, fd, buf, sim, some drv⟩, files, sys,
        idle, ns, infl ++ [DrvReq.read_file_info op.id],
        log ++ [Ev.drv (DrvReq.read_file_info op.id)], viol⟩) := by
  rcases hmiss with h | h <;>
    simp [step, run_tick, sim_fs_op_next, hread, sim_fs_op_check_cached, peek_head,
      call_driver, hinfo, h, Except.map]

theorem step_info_uncached (m : Modem) (op : sim_fs_op)
    (src : Nat) (bm : List Nat) (buf : Option (List Nat))
    (sim : ofono_sim) (drv : ofono_sim_driver) (files : Nat → Option (List Nat))
    (sys : Sys) (ns : Nat)
    (infl : List DrvReq) (log : List Ev) (viol : List Violation)
    (herr : (m.info op.id).error_type = OFONO_ERROR_TYPE_NO_ERROR)
    (hst : (m.info op.id).structure_ = op.structure_)
    (hunc : sim.imsi = none ∨ cacheable (m.info op.id).access = false) :
    step m ⟨⟨some [op], src, bm, none, buf, sim, some drv⟩, files, sys,
        [], ns, DrvReq.read_file_info op.id :: infl, log, viol⟩ =
      .ok (some ⟨⟨some [if op.structure_ = OFONO_SIM_FILE_STRUCTURE_TRANSPARENT then
            { op with
              length := (m.info op.id).length
              num_bytes := if op.num_bytes = 0 then (m.info op.id).length
                else op.num_bytes
              record_length := (m.info op.id).length
              current := cdiv op.offset 256 }
          else
            { op with
              length := (m.info op.id).length
              record_length := (m.info op.id).record_length
              current := 1 }],
        ns, bm, none, buf, sim, some drv⟩, files, sys,
        [(ns, if op.structure_ = OFONO_SIM_FILE_STRUCTURE_TRANSPARENT then
            TickFn.read_block else TickFn.read_record)],
        ns + 1, infl, log, viol⟩) := by
  rcases hunc with h | h <;>
    simp [step, deliver, sim_fs_op_info_cb, peek_head, herr, hst, h, set_head, idle_add,
      Except.map]

theorem read_block_cached_closed (fuel : Nat) (w : World) (op : sim_fs_op)
    (h : w.fs.fd = none) : read_block_cached fuel w op = (w, op) := by
  cases fuel with
  | zero => rfl
  | succ n => simp [read_block_cached, h]

theorem step_read_block_uncached (m : Modem) (op : sim_fs_op)
    (src : Nat) (bm : List Nat) (buf : Option (List Nat))
    (sim : ofono_sim) (drv : ofono_sim_driver) (files : Nat → Option (List Nat))
    (sys : Sys) (sid ns : Nat)
    (infl : List DrvReq) (log : List Ev) (viol : List Violation)
    (hcur : op.current ≤ cdiv (op.offset + (op.num_bytes - 1)) 256)
    (hn : op.current = cdiv op.offset 256 → 0 < op.num_bytes ∧ sys.alloc_ok = true)
    (htr : drv.read_file_transparent = true) :
    step m ⟨⟨some [op], src, bm, none, buf, sim, some drv⟩, files, sys,
        [(sid, TickFn.read_block)], ns, infl, log, viol⟩ =
      .ok (some ⟨⟨some [op], src, bm, none,
          if op.current = cdiv op.offset 256 then
            some (List.replicate op.num_bytes.toNat 0) else buf,
          sim, some drv⟩, files, sys, [], ns,
        infl ++ [DrvReq.read_file_transparent op.id (op.current * 256)
          (min (op.length - op.current * 256) 256 % 65536)],
        log ++ [Ev.drv (DrvReq.read_file_transparent op.id (op.current * 256)
          (min (op.length - op.current * 256) 256 % 65536))], viol⟩) := by
  by_cases hc : op.current = cdiv op.offset 256
  · obtain ⟨h1, h2⟩ := hn hc
    have h3 : ¬ op.num_bytes ≤ 0 := by omega
    have h4 : ¬ cdiv (op.offset + (op.num_bytes - 1)) 256 < cdiv op.offset 256 := by
      rw [← hc]; omega
    simp [step, run_tick, sim_fs_op_read_block, peek_head, hc, h2, h3, h4,
      read_block_cached_closed, set_head, htr, call_driver, Except.map]
  · have h4 : ¬ cdiv (op.offset + (op.num_bytes - 1)) 256 < op.current := by omega
    simp [step, run_tick, sim_fs_op_read_block, peek_head, hc, h4,
      read_block_cached_closed, set_head, htr, call_driver, Except.map]

theorem read_record_cached_closed (fuel : Nat) (w : World) (op : sim_fs_op)
    (h : w.fs.fd = none) : read_record_cached fuel w op = (w, op) := by
  cases fuel with
  | zero => rfl
  | succ n => simp [read_record_cached, h]

theorem record_events_current (m : Modem) (op : sim_fs_op) (cached : Int → Bool)
    (c : Int) (count : Nat) :
    ∀ first, record_events m { op with current := c } cached first count =
      record_events m op cached first count := by
  induction count with
  | zero => intro first; rfl
  | succ n ih => intro first; simp [record_events, ih]

theorem step_read_record_uncached (m : Modem) (op : sim_fs_op)
    (src : Nat) (bm : List Nat) (buf : Option (List Nat))
    (sim : ofono_sim) (drv : ofono_sim_driver) (files : Nat → Option (List Nat))
    (sys : Sys) (sid ns : Nat)
    (infl : List DrvReq) (log : List Ev) (viol : List Violation)
    (hR : op.record_length ≠ 0)
    (hcur : op.current ≤ cdiv op.length op.record_length)
    (hst : (op.structure_ = OFONO_SIM_FILE_STRUCTURE_FIXED ∧
        drv.read_file_linear = true) ∨
      (op.structure_ = OFONO_SIM_FILE_STRUCTURE_CYCLIC ∧
        drv.read_file_cyclic = true)) :
    step m ⟨⟨some [op], src, bm, none, buf, sim, some drv⟩, files, sys,
        [(sid, TickFn.read_record)], ns, infl, log, viol⟩ =
      .ok (some ⟨⟨some [op], 0, bm, none, buf, sim, some drv⟩, files, sys, [], ns,
        infl ++ [record_request op.structure_ op.id op.current op.record_length],
        log ++ [Ev.drv (record_request op.structure_ op.id op.current
          op.record_length)], viol⟩) := by
  have h4 : ¬ cdiv op.length op.record_length < op.current := by omega
  rcases hst with ⟨h1, h2⟩ | ⟨h1, h2⟩ <;>
    simp [step, run_tick, sim_fs_op_read_record, peek_head, hR, h4,
      read_record_cached_closed, set_head, call_driver, Except.map, h1, h2,
      record_request, OFONO_SIM_FILE_STRUCTURE_FIXED, OFONO_SIM_FILE_STRUCTURE_CYCLIC]

theorem step_record_reply_uncached (m : Modem) (op : sim_fs_op)
    (src : Nat) (bm : List Nat) (buf : Option (List Nat))
    (sim : ofono_sim) (drv : ofono_sim_driver) (files : Nat → Option (List Nat))
    (sys : Sys) (ns : Nat) (record len : Int)
    (infl : List DrvReq) (log : List Ev) (viol : List Violation)
    (hR : op.record_length ≠ 0)
    (herr : (record_reply m op.structure_ op.id record len).error_type =
      OFONO_ERROR_TYPE_NO_ERROR) :
    step m ⟨⟨some [op], src, bm, none, buf, sim, some drv⟩, files, sys,
        [], ns, record_request op.structure_ op.id record len :: infl, log, viol⟩ =
      .ok (some (
        if op.current < cdiv op.length op.record_length then
          ⟨⟨some [{ op with current := op.current + 1 }], ns, bm, none, buf, sim,
            some drv⟩, files, sys, [(ns, TickFn.read_record)], ns + 1, infl,
            log ++ [Ev.read_cb op.cb 1 op.length op.current
              (some (record_reply m op.structure_ op.id record len).data)
              op.record_length op.userdata], viol⟩
        else
          ⟨⟨some [], src, List.replicate 32 0, none, none, sim, some drv⟩, files, sys,
            [], ns, infl,
            log ++ [Ev.read_cb op.cb 1 op.length op.current
              (some (record_reply m op.structure_ op.id record len).data)
              op.record_length op.userdata], viol⟩)) := by
  by_cases hlt : op.current < cdiv op.length op.record_length
  · rw [if_pos hlt]
    unfold record_request record_reply at *
    split_ifs at herr ⊢ <;>
      simp [step, deliver, sim_fs_op_retrieve_cb, peek_head, hR, herr, cache_block, emit,
        set_head, idle_add, sim_fs_end_current, Except.map, hlt]
  · rw [if_neg hlt]
    unfold record_request record_reply at *
    split_ifs at herr ⊢ <;>
      simp [step, deliver, sim_fs_op_retrieve_cb, peek_head, hR, herr, cache_block, emit,
        set_head, idle_add, sim_fs_end_current, Except.map, hlt]

theorem run_records_uncached (m : Modem) (sim : ofono_sim) (drv : ofono_sim_driver)
    (files : Nat → Option (List Nat)) (sys : Sys) (j : Nat) :
    ∀ (op : sim_fs_op) (src : Nat) (bm : List Nat) (buf : Option (List Nat))
      (sid ns : Nat) (log : List Ev) (viol : List Violation),
      op.current + j = cdiv op.length op.record_length →
      op.record_length ≠ 0 →
      ((op.structure_ = OFONO_SIM_FILE_STRUCTURE_FIXED ∧
          drv.read_file_linear = true) ∨
        (op.structure_ = OFONO_SIM_FILE_STRUCTURE_CYCLIC ∧
          drv.read_file_cyclic = true)) →
      (∀ c : Int, op.current ≤ c → c ≤ cdiv op.length op.record_length →
        (record_reply m op.structure_ op.id c op.record_length).error_type =
          OFONO_ERROR_TYPE_NO_ERROR) →
      ∃ src1 ns1,
        run m (2 * j + 2) ⟨⟨some [op], src, bm, none, buf, sim, some drv⟩, files, sys,
          [(sid, TickFn.read_record)], ns, [], log, viol⟩ =
        .ok ⟨⟨some [], src1, List.replicate 32 0, none, none, sim, some drv⟩, files,
          sys, [], ns1, [],
          log ++ record_events m op (fun _ => false) op.current (j + 1), viol⟩ := by
  induction j with
  | zero =>
    intro op src bm buf sid ns log viol hend hR hst hdrv
    have hcur : op.current ≤ cdiv op.length op.record_length := by omega
    have h1 := step_read_record_uncached m op src bm buf sim drv files sys sid ns [] log
      viol hR hcur hst
    have h2 := step_record_reply_uncached m op 0 bm buf sim drv files sys ns op.current
      op.record_length []
      (log ++ [Ev.drv (record_request op.structure_ op.id op.current op.record_length)])
      viol hR (hdrv op.current (le_refl _) hcur)
    have hlast : ¬ op.current < cdiv op.length op.record_length := by omega
    rw [if_neg hlast] at h2
    refine ⟨0, ns, ?_⟩
    rw [run_step m 1 _ _ h1, run_step m 0 _ _ (by simpa using h2)]
    simp [run, record_events]
  | succ j ih =>
    intro op src bm buf sid ns log viol hend hR hst hdrv
    have hcur : op.current ≤ cdiv op.length op.record_length := by omega
    have h1 := step_read_record_uncached m op src bm buf sim drv files sys sid ns [] log
      viol hR hcur hst
    have h2 := step_record_reply_uncached m op 0 bm buf sim drv files sys ns op.current
      op.record_length []
      (log ++ [Ev.drv (record_request op.structure_ op.id op.current op.record_length)])
      viol hR (hdrv op.current (le_refl _) hcur)
    have hmore : op.current < cdiv op.length op.record_length := by omega
    rw [if_pos hmore] at h2
    obtain ⟨src2, ns2, hrun⟩ := ih { op with current := op.current + 1 }
      ns bm buf ns (ns + 1)
      (log ++ [Ev.drv (record_request op.structure_ op.id op.current op.record_length),
        Ev.read_cb op.cb 1 op.length op.current
          (some (record_reply m op.structure_ op.id op.current op.record_length).data)
          op.record_length op.userdata]) viol
      (by simp only []; omega) hR hst
      (fun c h1c h2c => hdrv c (by simp only [] at h1c; omega) h2c)
    refine ⟨src2, ns2, ?_⟩
    have e : 2 * (j + 1) + 2 = (2 * j + 2) + 1 + 1 := by omega
    rw [e, run_step m _ _ _ h1, run_step m _ _ _ (by simpa using h2), hrun]
    simp [record_events, record_events_current]

/-! ## The card modem -/

theorem cdiv_natCast_256 (a : Nat) : cdiv (a : Int) 256 = ((a / 256 : Nat) : Int) := by
  rw [cdiv_nonneg _ _ (by omega) (by omega)]; omega

/-! ## Writing to the cache file -/

theorem sys_write_ok (fs : sim_fs) (files : Nat → Option (List Nat)) (sys : Sys)
    (idle : List (Nat × TickFn)) (ns : Nat) (infl : List DrvReq) (log : List Ev)
    (viol : List Violation) (id : Nat) (pos : Int) (data : List Nat) (count : Int)
    (hc : 0 < count) (hw : sys.write pos count = count)
    (hd : data.length = count.toNat) :
    sys_write ⟨fs, files, sys, idle, ns, infl, log, viol⟩ id pos data count =
      (count, ⟨fs, fun k => if k = id then
          some (pwrite ((files id).getD []) pos.toNat data) else files k,
        sys, idle, ns, infl, log, viol⟩) := by
  have h1 : ¬ count < 0 := by omega
  have h2 : ¬ count ≤ 0 := by omega
  simp [sys_write, h1, h2, hw, flag_if, hd, take_padded_eq]

theorem cache_block_ok (q : Option (List sim_fs_op)) (src : Nat) (bm : List Nat)
    (f : Nat) (buf : Option (List Nat)) (sim : ofono_sim)
    (drv : Option ofono_sim_driver) (files : Nat → Option (List Nat)) (sys : Sys)
    (idle : List (Nat × TickFn)) (ns : Nat) (infl : List DrvReq) (log : List Ev)
    (viol : List Violation) (block block_len : Int) (data : List Nat)
    (num_bytes : Int)
    (hb0 : 0 ≤ block) (hb1 : block < 256) (hl : 0 ≤ block_len) (hc : 0 < num_bytes)
    (hd : data.length = num_bytes.toNat)
    (hw1 : sys.write (block * block_len + 38) num_bytes = num_bytes)
    (hw2 : sys.write (block / 8 + 6) 1 = 1) :
    cache_block ⟨⟨q, src, bm, some f, buf, sim, drv⟩, files, sys, idle, ns, infl, log,
        viol⟩ block block_len data num_bytes =
      (true, ⟨⟨q, src,
          bm.set (block / 8).toNat
            ((bitmap_get bm (block / 8) ||| 1 <<< (block % 8).toNat) % 256),
          some f, buf, sim, drv⟩,
        fun k => if k = f then
          some (pwrite (pwrite ((files f).getD []) (block * block_len + 38).toNat data)
            (block / 8 + 6).toNat
            [(bitmap_get bm (block / 8) ||| 1 <<< (block % 8).toNat) % 256])
          else files k,
        sys, idle, ns, infl, log, viol⟩) := by
  have hpos : ¬ block * block_len + 38 < 0 := by
    have := Int.mul_nonneg hb0 hl
    omega
  have hdiv : cdiv block 8 = block / 8 := cdiv_nonneg _ _ hb0 (by omega)
  have hmod : cmod block 8 = block % 8 := cmod_nonneg _ _ hb0 (by omega)
  have hidx : 0 ≤ block / 8 ∧ block / 8 < 32 := by omega
  simp only [cache_block, SIM_CACHE_HEADER_SIZE, SIM_FILE_INFO_SIZE, Nat.cast_ofNat]
  rw [if_neg hpos, sys_write_ok _ _ _ _ _ _ _ _ _ _ _ _ hc hw1 hd]
  simp only [ne_eq, not_true_eq_false, if_false, hdiv, hmod, check_bitmap_index, flag_if,
    hidx, and_self, decide_True, decide_not, Bool.not_true, Bool.false_eq_true]
  rw [sys_write_ok _ _ _ _ _ _ _ _ _ _ _ _ (by omega) hw2 (by simp)]
  simp
  funext k
  split_ifs <;> simp

/-! ## Single steps of a transparent read with a cache file -/

theorem step_block_reply_cached (m : Modem) (op : sim_fs_op)
    (src : Nat) (bm : List Nat) (buf : List Nat)
    (sim : ofono_sim) (drv : ofono_sim_driver) (files : Nat → Option (List Nat))
    (sys : Sys) (ns : Nat) (start len : Int)
    (infl : List DrvReq) (log : List Ev) (viol : List Violation) (data : List Nat)
    (hrep : m.transparent op.id start len =
      { error_type := OFONO_ERROR_TYPE_NO_ERROR, data := data })
    (hc0 : 0 ≤ op.current) (hc1 : op.current < 256) (hd : 0 < data.length)
    (hw1 : sys.write (op.current * 256 + 38) data.length = data.length)
    (hw2 : sys.write (op.current / 8 + 6) 1 = 1)
    (hsafe1 : (block_cb_slice op data.length).2.1 + (block_cb_slice op data.length).2.2 ≤
      data.length)
    (hsafe2 : in_bounds buf.length (block_cb_slice op data.length).1
      (block_cb_slice op data.length).2.2.toNat = true) :
    step m ⟨⟨some [op], src, bm, some op.id, some buf, sim, some drv⟩, files, sys,
        [], ns, DrvReq.read_file_transparent op.id start len :: infl, log, viol⟩ =
      .ok (some (
        if op.current + 1 > cdiv (op.offset + (op.num_bytes - 1)) 256 then
          ⟨⟨some [], src, List.replicate 32 0, none, none, sim, some drv⟩,
            fun k => if k = op.id then
              some (pwrite (pwrite ((files op.id).getD []) (op.current * 256 + 38).toNat
                  data) (op.current / 8 + 6).toNat
                [(bitmap_get bm (op.current / 8) |||
                  1 <<< (op.current % 8).toNat) % 256])
              else files k,
            sys, [], ns, infl,
            log ++ [Ev.read_cb op.cb 1 op.num_bytes 0
              (some (store_at buf (block_cb_slice op data.length).1
                (take_padded (data.drop (block_cb_slice op data.length).2.1.toNat)
                  (block_cb_slice op data.length).2.2.toNat)))
              op.record_length op.userdata], viol⟩
        else
          ⟨⟨some [{ op with current := op.current + 1 }], ns,
              bm.set (op.current / 8).toNat
                ((bitmap_get bm (op.current / 8) |||
                  1 <<< (op.current % 8).toNat) % 256),
              some op.id,
              some (store_at buf (block_cb_slice op data.length).1
                (take_padded (data.drop (block_cb_slice op data.length).2.1.toNat)
                  (block_cb_slice op data.length).2.2.toNat)),
              sim, some drv⟩,
            fun k => if k = op.id then
              some (pwrite (pwrite ((files op.id).getD []) (op.current * 256 + 38).toNat
                  data) (op.current / 8 + 6).toNat
                [(bitmap_get bm (op.current / 8) |||
                  1 <<< (op.current % 8).toNat) % 256])
              else files k,
            sys, [(ns, TickFn.read_block)], ns + 1, infl, log, viol⟩)) := by
  have hno : ¬ ((block_cb_slice op data.length).2.1 + (block_cb_slice op data.length).2.2 >
      (data.length : Int)) := by omega
  simp only [step, deliver, sim_fs_op_read_block_cb, peek_head, hrep, memcpy_to_buffer,
    flag_if, hsafe2, hno, ne_eq, not_true_eq_false, if_false, decide_False, Bool.not_true,
    Bool.false_eq_true]
  rw [cache_block_ok _ _ _ _ _ _ _ _ _ _ _ _ _ _ _ _ _ _ hc0 hc1 (by omega) (by omega)
    (by simp) hw1 hw2]
  by_cases hlast : op.current + 1 > cdiv (op.offset + (op.num_bytes - 1)) 256
  · simp [set_head, sim_fs_end_current, emit, idle_add, Except.map, hlast]
  · simp [set_head, sim_fs_end_current, emit, idle_add, Except.map, hlast]

/-! ## The cache probe -/

theorem decode_u16 (v : Int) (h0 : 0 ≤ v) (h1 : v < 65536) :
    (((v / 256 % 256).toNat <<< 8 ||| (v % 256).toNat : Nat) : Int) = v := by
  have hlt : (v % 256).toNat < 2 ^ 8 := by omega
  rw [Nat.shiftLeft_eq, Nat.mul_comm, ← Nat.mul_add_lt_is_or hlt]
  omega

theorem cache_file_take_header (L : Int) (st : Nat) (R : Int) (bmF payload : List Nat)
    (hbm : bmF.length = 32) :
    pread (cache_file L st R bmF payload) 0 SIM_CACHE_HEADER_SIZE =
      [0, (L / 256 % 256).toNat, (L % 256).toNat, st % 256, (R / 256 % 256).toNat,
        (R % 256).toNat] ++ bmF := by
  simp [pread, cache_file, cache_header, SIM_CACHE_HEADER_SIZE, SIM_FILE_INFO_SIZE,
    OFONO_ERROR_TYPE_NO_ERROR, List.take_append_eq_append_take, hbm]

theorem check_cached_hit (op : sim_fs_op) (rest : List sim_fs_op)
    (src : Nat) (bm : List Nat) (fd : Option Nat) (buf : Option (List Nat))
    (sim : ofono_sim) (drv : Option ofono_sim_driver)
    (files : Nat → Option (List Nat))
    (sys : Sys) (idle : List (Nat × TickFn)) (ns : Nat)
    (infl : List DrvReq) (log : List Ev) (viol : List Violation)
    (L R : Int) (bmF payload : List Nat)
    (himsi : sim.imsi ≠ none)
    (hfile : files op.id = some (cache_file L op.structure_ R bmF payload))
    (hst : op.structure_ < 256)
    (hL0 : 0 ≤ L) (hL1 : L < 65536) (hR0 : 0 ≤ R) (hR1 : R < 65536)
    (hbm : bmF.length = 32)
    (hvalid : (if op.structure_ = OFONO_SIM_FILE_STRUCTURE_TRANSPARENT then L else R) ≠ 0 ∧
      (if op.structure_ = OFONO_SIM_FILE_STRUCTURE_TRANSPARENT then L else R) ≤ L) :
    sim_fs_op_check_cached ⟨⟨some (op :: rest), src, bm, fd, buf, sim, drv⟩, files, sys,
        idle, ns, infl, log, viol⟩ =
      .ok (true, ⟨⟨some ((if op.structure_ = OFONO_SIM_FILE_STRUCTURE_TRANSPARENT then
              { op with
                length := L
                record_length := L
                num_bytes := if op.num_bytes = 0 then L else op.num_bytes
                current := cdiv op.offset 256 }
            else
              { op with
                length := L
                record_length := R
                current := 1 }) :: rest),
          ns, bmF, some op.id, buf, sim, drv⟩, files, sys,
        idle ++ [(ns, if op.structure_ = OFONO_SIM_FILE_STRUCTURE_TRANSPARENT then
          TickFn.read_block else TickFn.read_record)],
        ns + 1, infl, log, viol⟩) := by
  have hstm : op.structure_ % 256 = op.structure_ := Nat.mod_eq_of_lt hst
  have hdL := decode_u16 L hL0 hL1
  have hdR := decode_u16 R hR0 hR1
  simp only [sim_fs_op_check_cached, himsi, if_false, peek_head, hfile,
    cache_file_take_header _ _ _ _ _ hbm]
  simp only [List.cons_append, List.nil_append, List.length_cons, hbm, List.getD_cons_zero,
    List.getD_cons_succ, hstm, hdL, hdR, SIM_CACHE_HEADER_SIZE, SIM_FILE_INFO_SIZE]
  by_cases ht : op.structure_ = OFONO_SIM_FILE_STRUCTURE_TRANSPARENT
  · simp only [ht, if_true] at hvalid ⊢
    have h1 : ¬ (L = 0 ∨ L < L) := by omega
    have h2 : List.take 32 bmF = bmF := List.take_of_length_le (by omega)
    simp [h1, OFONO_ERROR_TYPE_NO_ERROR, set_head, idle_add, hbm, ht, hvalid.1, h2]
  · simp only [ht, if_false] at hvalid ⊢
    have h1 : ¬ (R = 0 ∨ L < R) := by omega
    have h2 : List.take 32 bmF = bmF := List.take_of_length_le (by omega)
    have h3 : ¬ L < R := by omega
    simp [h1, OFONO_ERROR_TYPE_NO_ERROR, set_head, idle_add, hbm, ht, hvalid.1, h2, h3]

/-! ## Bitmap and file lemmas -/

theorem and_shiftLeft_one_eq_zero (x j : Nat) :
    x &&& (1 <<< j) = 0 ↔ x.testBit j = false := by
  rw [Nat.one_shiftLeft]
  constructor
  · intro h
    have := congrArg (fun y => Nat.testBit y j) h
    simpa [Nat.testBit_and, Nat.testBit_two_pow_self] using this
  · intro h
    apply Nat.eq_of_testBit_eq
    intro i
    simp only [Nat.testBit_and, Nat.testBit_two_pow, Nat.zero_testBit]
    by_cases hij : j = i
    · subst hij; simp [h]
    · simp [hij]

theorem unit_present_iff (bm : List Nat) (k : Nat) :
    unit_present bm (k : Int) = (bm.getD (k / 8) 0).testBit (k % 8) := by
  have h1 : cdiv (k : Int) 8 = ((k / 8 : Nat) : Int) := by
    rw [cdiv_nonneg _ _ (by omega) (by omega)]; omega
  have h2 : cmod (k : Int) 8 = ((k % 8 : Nat) : Int) := by
    rw [cmod_nonneg _ _ (by omega) (by omega)]; omega
  unfold unit_present bitmap_get
  rw [h1, h2]
  simp only [Int.toNat_ofNat, Int.natCast_nonneg, if_true]
  cases hb : (bm.getD (k / 8) 0).testBit (k % 8)
  · simpa using (and_shiftLeft_one_eq_zero _ _).2 hb
  · have : ¬ (bm.getD (k / 8) 0 &&& 1 <<< (k % 8) = 0) := by
      intro h
      rw [and_shiftLeft_one_eq_zero] at h
      rw [h] at hb
      exact Bool.noConfusion hb
    simpa using this

theorem testBit_set_bit (x i j : Nat) (hj : j < 8) :
    ((x ||| 1 <<< i) % 256).testBit j = (x.testBit j || decide (i = j)) := by
  have : (256 : Nat) = 2 ^ 8 := rfl
  rw [this, Nat.testBit_mod_two_pow, Nat.testBit_or, Nat.one_shiftLeft, Nat.testBit_two_pow]
  simp [hj]

theorem pread_pwrite_after (file : List Nat) (pos : Nat) (bytes : List Nat)
    (pos1 n : Nat) (h : pos + bytes.length ≤ pos1) :
    pread (pwrite file pos bytes) pos1 n = pread file pos1 n := by
  unfold pread pwrite
  congr 1
  have hlen : ((file ++ List.replicate (pos - file.length) 0).take pos).length = pos := by
    simp only [List.length_take, List.length_append, List.length_replicate]
    omega
  rw [List.append_assoc, List.drop_append_eq_append_drop, hlen,
    List.drop_eq_nil_of_le (by omega), List.nil_append, List.drop_append_eq_append_drop,
    List.drop_eq_nil_of_le (by omega), List.nil_append, List.drop_drop]
  congr 1
  omega

/-! ## Writing to the cache file, whatever `write` returns -/

theorem pread_pwrite_take_after (file : List Nat) (pos : Nat) (data : List Nat)
    (k p n : Nat) (hk : k ≤ data.length) (h : pos + data.length ≤ p) :
    pread (pwrite file pos (take_padded data k)) p n = pread file p n :=
  pread_pwrite_after _ _ _ _ _ (by rw [take_padded_length]; omega)

theorem sys_write_any (fs : sim_fs) (files : Nat → Option (List Nat)) (sys : Sys)
    (idle : List (Nat × TickFn)) (ns : Nat) (infl : List DrvReq) (log : List Ev)
    (viol : List Violation) (id : Nat) (pos : Int) (data : List Nat) (count : Int)
    (F : List Nat) (hfile : files id = some F)
    (hc : 0 ≤ count) (hd : data.length = count.toNat) :
    ∃ files1 F1, sys_write ⟨fs, files, sys, idle, ns, infl, log, viol⟩ id pos data count =
        (sys.write pos count, ⟨fs, files1, sys, idle, ns, infl, log, viol⟩) ∧
      files1 id = some F1 ∧ (∀ k, k ≠ id → files1 k = files k) ∧
      (∀ p n, pos.toNat + data.length ≤ p → pread F1 p n = pread F p n) := by
  have h1 : ¬ count < 0 := by omega
  by_cases hr : sys.write pos count ≤ 0
  · exact ⟨files, F, by simp [sys_write, h1, hr], hfile, fun _ _ => rfl,
      fun _ _ _ => rfl⟩
  · have hn : ¬ (data.length < (min (sys.write pos count) count).toNat) := by
      rw [hd]; omega
    refine ⟨fun k => if k = id then
        some (pwrite F pos.toNat
          (take_padded data (min (sys.write pos count) count).toNat)) else files k,
      _, ?_, if_pos rfl, fun k hk => if_neg hk, ?_⟩
    · simp [sys_write, h1, hr, flag_if, hn, hfile]
    · intro p n hp
      exact pread_pwrite_take_after _ _ _ _ _ _ (by rw [hd]; omega) hp

theorem cache_block_any (q : Option (List sim_fs_op)) (src : Nat) (bm : List Nat)
    (f : Nat) (buf : Option (List Nat)) (sim : ofono_sim)
    (drv : Option ofono_sim_driver) (files : Nat → Option (List Nat)) (sys : Sys)
    (idle : List (Nat × TickFn)) (ns : Nat) (infl : List DrvReq) (log : List Ev)
    (viol : List Violation) (block block_len : Int) (data : List Nat)
    (num_bytes : Int) (F : List Nat) (hfile : files f = some F)
    (hb0 : 0 ≤ block) (hb1 : block < 256) (hl : 0 ≤ block_len) (hc : 0 < num_bytes)
    (hd : data.length = num_bytes.toNat) :
    ∃ bm1 files1 F1,
      (cache_block ⟨⟨q, src, bm, some f, buf, sim, drv⟩, files, sys, idle, ns, infl, log,
        viol⟩ block block_len data num_bytes).2 =
        ⟨⟨q, src, bm1, some f, buf, sim, drv⟩, files1, sys, idle, ns, infl, log, viol⟩ ∧
      (bm1 = bm ∨ bm1 = bm.set (block / 8).toNat
        ((bitmap_get bm (block / 8) ||| 1 <<< (block % 8).toNat) % 256)) ∧
      files1 f = some F1 ∧ (∀ k, k ≠ f → files1 k = files k) ∧
      (∀ p n, (block * block_len + 38).toNat + data.length ≤ p → 38 ≤ p →
        pread F1 p n = pread F p n) := by
  have hpos : ¬ block * block_len + 38 < 0 := by
    have := Int.mul_nonneg hb0 hl
    omega
  have hdiv : cdiv block 8 = block / 8 := cdiv_nonneg _ _ hb0 (by omega)
  have hmod : cmod block 8 = block % 8 := cmod_nonneg _ _ hb0 (by omega)
  have hidx : 0 ≤ block / 8 ∧ block / 8 < 32 := by omega
  obtain ⟨files1, F1, hw1, hf1, hfr1, hp1⟩ := sys_write_any ⟨q, src, bm, some f, buf, sim, drv⟩
    files sys idle ns infl log viol f (block * block_len + 38) data num_bytes F hfile
    (by omega) hd
  simp only [cache_block, SIM_CACHE_HEADER_SIZE, SIM_FILE_INFO_SIZE, Nat.cast_ofNat]
  rw [if_neg hpos, hw1]
  by_cases hr : sys.write (block * block_len + 38) num_bytes = num_bytes
  · obtain ⟨files2, F2, hw2, hf2, hfr2, hp2⟩ := sys_write_any
      ⟨q, src, bm, some f, buf, sim, drv⟩
      files1 sys idle ns infl log viol f (block / 8 + 6)
      [(bitmap_get bm (block / 8) ||| 1 <<< (block % 8).toNat) % 256] 1 F1 hf1
      (by omega) rfl
    simp only [hr, ne_eq, not_true_eq_false, if_false, hdiv, hmod, check_bitmap_index,
      flag_if, hidx, and_self, decide_True, decide_not, Bool.not_true, Bool.false_eq_true,
      decide_eq_true_eq]
    rw [hw2]
    have hpres : ∀ p n, (block * block_len + 38).toNat + data.length ≤ p → 38 ≤ p →
        pread F2 p n = pread F p n := by
      intro p n h1 h2
      rw [hp2 p n (by simp only [List.length_singleton]; omega), hp1 p n h1]
    have hframe : ∀ k, k ≠ f → files2 k = files k := fun k hk => by
      rw [hfr2 k hk, hfr1 k hk]
    by_cases hr2 : sys.write (block / 8 + 6) 1 = 1
    · exact ⟨_, files2, F2, by simp [hr2], Or.inr rfl, hf2, hframe, hpres⟩
    · exact ⟨bm, files2, F2, by simp [hr2], Or.inl rfl, hf2, hframe, hpres⟩
  · exact ⟨bm, files1, F1, by simp [hr], Or.inl rfl, hf1, hfr1,
      fun p n h1 _ => hp1 p n h1⟩

/-! ## A record-by-record read with a cache file -/

theorem unit_present_eq_false (bm : List Nat) (k : Int) :
    unit_present bm k = false ↔
      bitmap_get bm (cdiv k 8) &&& 1 <<< (cmod k 8).toNat = 0 := by
  simp [unit_present]

theorem op_with_current (op : sim_fs_op) (c : Int) (h : op.current = c) :
    { op with current := c } = op := by
  cases op; simp_all

theorem cdiv_records (total R : Nat) (hR : 1 ≤ R) :
    cdiv ((total * R : Nat) : Int) (R : Int) = (total : Int) := by
  rw [cdiv]; push_cast
  exact Int.mul_tdiv_cancel _ (by omega)

theorem read_record_cached_hit (q : Option (List sim_fs_op)) (src : Nat)
    (bm : List Nat) (f : Nat) (buf : Option (List Nat)) (sim : ofono_sim)
    (drv : Option ofono_sim_driver) (files : Nat → Option (List Nat)) (sys : Sys)
    (idle : List (Nat × TickFn)) (ns : Nat) (infl : List DrvReq)
    (viol : List Violation) (F : List Nat) (log : List Ev) (n : Nat)
    (op : sim_fs_op) (data : List Nat)
    (hfile : files f = some F)
    (hle : op.current ≤ cdiv op.length op.record_length)
    (hc1 : 1 ≤ op.current) (hc2 : op.current ≤ 256)
    (hR : 0 ≤ op.record_length) (hR2 : op.record_length ≤ 256)
    (hbit : unit_present bm (op.current - 1) = true)
    (hdata : pread F ((op.current - 1) * op.record_length + 38).toNat
      op.record_length.toNat = data)
    (hdl : (data.length : Int) = op.record_length) :
    read_record_cached (n + 1) ⟨⟨q, src, bm, some f, buf, sim, drv⟩, files, sys, idle,
        ns, infl, log, viol⟩ op =
      read_record_cached n ⟨⟨q, src, bm, some f, buf, sim, drv⟩, files, sys, idle,
        ns, infl,
        log ++ [Ev.read_cb op.cb 1 op.length op.current (some data) op.record_length
          op.userdata], viol⟩ { op with current := op.current + 1 } := by
  have hnz : ¬ (bitmap_get bm (cdiv (op.current - 1) 8) &&&
      1 <<< (cmod (op.current - 1) 8).toNat = 0) := by
    rw [← unit_present_eq_false]; simp [hbit]
  have hidx : (0 ≤ cdiv (op.current - 1) 8 ∧ cdiv (op.current - 1) 8 < 32) := by
    rw [cdiv_nonneg _ _ (by omega) (by omega)]; omega
  have hpos : ¬ ((op.current - 1) * op.record_length + 38 < 0) := by
    have := Int.mul_nonneg (show (0 : Int) ≤ op.current - 1 by omega) hR
    omega
  have hRn : ¬ (op.record_length < 0) := by omega
  have hsmall : ¬ (256 < data.length) := by omega
  simp only [read_record_cached, if_pos hle, hnz, if_false, check_bitmap_index,
    flag_if, hidx, hpos, hfile, Option.getD, hRn, hdata, hdl, emit,
    SIM_CACHE_HEADER_SIZE, Nat.cast_ofNat, and_self, not_true_eq_false, decide_False,
    Bool.false_eq_true, ne_eq, hsmall]

theorem read_record_cached_run (m : Modem) (q : Option (List sim_fs_op)) (src : Nat)
    (bm : List Nat) (f : Nat) (buf : Option (List Nat)) (sim : ofono_sim)
    (drv : Option ofono_sim_driver) (files : Nat → Option (List Nat)) (sys : Sys)
    (idle : List (Nat × TickFn)) (ns : Nat) (infl : List DrvReq)
    (viol : List Violation) (F : List Nat) (R total : Nat)
    (hfile : files f = some F) (hR : 1 ≤ R) (hR2 : R ≤ 256) (ht : total ≤ 256) :
    ∀ (fuel c : Nat) (op : sim_fs_op) (log : List Ev),
      op.current = (c : Int) → op.record_length = (R : Int) →
      op.length = ((total * R : Nat) : Int) → 1 ≤ c → c ≤ total + 1 →
      (∀ r : Nat, c ≤ r → r ≤ total → unit_present bm ((r : Int) - 1) = true →
        pread F ((r - 1) * R + 38) R =
          (record_reply m op.structure_ op.id r R).data ∧
        (record_reply m op.structure_ op.id r R).data.length = R) →
      total + 1 - c ≤ fuel →
      ∃ k : Nat, c + k ≤ total + 1 ∧
        (∀ i : Nat, i < k → unit_present bm (((c + i : Nat) : Int) - 1) = true) ∧
        (c + k ≤ total → unit_present bm (((c + k : Nat) : Int) - 1) = false) ∧
        read_record_cached fuel ⟨⟨q, src, bm, some f, buf, sim, drv⟩, files, sys, idle,
            ns, infl, log, viol⟩ op =
          (⟨⟨q, src, bm, some f, buf, sim, drv⟩, files, sys, idle, ns, infl,
            log ++ record_events m op (fun _ => true) c k, viol⟩,
            { op with current := ((c + k : Nat) : Int) }) := by
  intro fuel
  induction fuel with
  | zero =>
    intro c op log hc hrl hlen h1 h2 _ hfuel
    refine ⟨0, by omega, by intro i hi; omega, by intro h; omega, ?_⟩
    simp [read_record_cached, record_events, op_with_current op _ hc]
  | succ n ih =>
    intro c op log hc hrl hlen h1 h2 hvalid hfuel
    have htot : cdiv op.length op.record_length = (total : Int) := by
      rw [hlen, hrl]; exact cdiv_records total R hR
    by_cases hct : c ≤ total
    · by_cases hbit : unit_present bm ((c : Int) - 1) = true
      · -- record `c` is served from the cache
        obtain ⟨hdata, hdl⟩ := hvalid c (le_refl _) hct hbit
        have hposn : ((op.current - 1) * op.record_length + 38).toNat =
            (c - 1) * R + 38 := by
          have e : (op.current - 1) * op.record_length + 38 =
              (((c - 1) * R + 38 : Nat) : Int) := by
            rw [hc, hrl]; push_cast [Nat.cast_sub h1]; ring
          rw [e]; exact Int.toNat_ofNat _
        have hle : op.current ≤ cdiv op.length op.record_length := by
          rw [htot, hc]; omega
        have hstep := read_record_cached_hit q src bm f buf sim drv files sys idle ns infl
          viol F log n op (record_reply m op.structure_ op.id c R).data hfile hle
          (by rw [hc]; omega) (by rw [hc]; omega) (by rw [hrl]; omega) (by rw [hrl]; omega)
          (by rw [hc]; exact hbit)
          (by rw [hposn, hrl]; exact hdata) (by rw [hdl, hrl])
        obtain ⟨k, hk1, hk2, hk3, hk4⟩ := ih (c + 1) { op with current := op.current + 1 }
          (log ++ [Ev.read_cb op.cb 1 op.length op.current
            (some (record_reply m op.structure_ op.id c R).data) op.record_length
            op.userdata])
          (by simp only [hc]; push_cast; ring) hrl hlen (by omega) (by omega)
          (fun r hr1 hr2 hr3 => hvalid r (by omega) hr2 hr3) (by omega)
        refine ⟨k + 1, by omega, ?_, ?_, ?_⟩
        · intro i hi
          cases i with
          | zero => simpa using hbit
          | succ j =>
            have := hk2 j (by omega)
            have e : c + (j + 1) = c + 1 + j := by omega
            rw [e]; exact this
        · intro h
          have := hk3 (by omega)
          have e : c + (k + 1) = c + 1 + k := by omega
          rw [e]; exact this
        · rw [hstep, hk4]
          have e2 : c + 1 + k = c + (k + 1) := by omega
          have e3 : ((c + 1 : Nat) : Int) = (c : Int) + 1 := by push_cast; ring
          simp only [record_events_current]
          simp [record_events, hrl, hc, e2, e3]
      · -- record `c` is not in the cache
        have hbf : unit_present bm ((c : Int) - 1) = false := by
          cases h : unit_present bm ((c : Int) - 1)
          · rfl
          · exact absurd h hbit
        have hz := (unit_present_eq_false _ _).1 hbf
        have hidx : (0 ≤ cdiv ((c : Int) - 1) 8 ∧ cdiv ((c : Int) - 1) 8 < 32) := by
          rw [cdiv_nonneg _ _ (by omega) (by omega)]; omega
        refine ⟨0, by omega, by intro i hi; omega, by intro _; simpa using hbf, ?_⟩
        have hle : op.current ≤ cdiv op.length op.record_length := by
          rw [htot, hc]; omega
        simp [read_record_cached, hle, hc, hz, check_bitmap_index, flag_if, hidx,
          record_events, op_with_current op _ hc]
    · have hgt : ¬ op.current ≤ cdiv op.length op.record_length := by
        rw [htot, hc]; omega
      refine ⟨0, by omega, by intro i hi; omega, by intro h; omega, ?_⟩
      simp [read_record_cached, hgt, record_events, op_with_current op _ hc]

theorem step_read_record_cached (m : Modem) (op : sim_fs_op)
    (src : Nat) (bm : List Nat) (buf : Option (List Nat))
    (sim : ofono_sim) (drv : ofono_sim_driver) (files : Nat → Option (List Nat))
    (sys : Sys) (sid ns : Nat) (log : List Ev) (viol : List Violation)
    (F : List Nat) (R total c : Nat)
    (hfile : files op.id = some F) (hR : 1 ≤ R) (hR2 : R ≤ 256) (ht : total ≤ 256)
    (hc : op.current = (c : Int)) (hrl : op.record_length = (R : Int))
    (hlen : op.length = ((total * R : Nat) : Int)) (h1 : 1 ≤ c) (h2 : c ≤ total)
    (hst : (op.structure_ = OFONO_SIM_FILE_STRUCTURE_FIXED ∧
        drv.read_file_linear = true) ∨
      (op.structure_ = OFONO_SIM_FILE_STRUCTURE_CYCLIC ∧
        drv.read_file_cyclic = true))
    (hvalid : ∀ r : Nat, c ≤ r → r ≤ total → unit_present bm ((r : Int) - 1) = true →
      pread F ((r - 1) * R + 38) R = (record_reply m op.structure_ op.id r R).data ∧
      (record_reply m op.structure_ op.id r R).data.length = R) :
    ∃ k : Nat, c + k ≤ total + 1 ∧
      (∀ i : Nat, i < k → unit_present bm (((c + i : Nat) : Int) - 1) = true) ∧
      (c + k ≤ total → unit_present bm (((c + k : Nat) : Int) - 1) = false) ∧
      step m ⟨⟨some [op], src, bm, some op.id, buf, sim, some drv⟩, files, sys,
          [(sid, TickFn.read_record)], ns, [], log, viol⟩ =
        .ok (some (
          if total < c + k then
            ⟨⟨some [], 0, List.replicate 32 0, none, none, sim, some drv⟩, files, sys,
              [], ns, [], log ++ record_events m op (fun _ => true) c k, viol⟩
          else
            ⟨⟨some [{ op with current := ((c + k : Nat) : Int) }], 0, bm, some op.id, buf,
                sim, some drv⟩, files, sys, [], ns,
              [record_request op.structure_ op.id ((c + k : Nat) : Int) R],
              log ++ record_events m op (fun _ => true) c k ++
                [Ev.drv (record_request op.structure_ op.id ((c + k : Nat) : Int) R)],
              viol⟩)) := by
  have hRz : op.record_length ≠ 0 := by rw [hrl]; omega
  have htot : cdiv op.length op.record_length = (total : Int) := by
    rw [hlen, hrl]; exact cdiv_records total R hR
  obtain ⟨k, hk1, hk2, hk3, hk4⟩ := read_record_cached_run m (some [op]) 0 bm op.id buf sim
    (some drv) files sys [] ns [] viol F R total hfile hR hR2 ht
    (total + 1 - c) c op log hc hrl hlen h1 (by omega) hvalid (le_refl _)
  refine ⟨k, hk1, hk2, hk3, ?_⟩
  have hfuel : ((total : Int) - op.current + 1).toNat = total + 1 - c := by
    rw [hc]; omega
  simp only [step, run_tick, sim_fs_op_read_record, peek_head, hRz, if_false, htot, hfuel,
    hk4]
  by_cases hend : total < c + k
  · have h3 : (total : Int) < (c : Int) + (k : Int) := by omega
    simp [hend, h3, set_head, sim_fs_end_current, Except.map]
  · have h3 : ¬ (total : Int) < (c : Int) + (k : Int) := by omega
    rcases hst with ⟨hs1, hs2⟩ | ⟨hs1, hs2⟩
    · simp [hend, h3, set_head, Except.map, hs1, hs2, call_driver, record_request, hrl]
    · simp [hend, h3, set_head, Except.map, hs1, hs2, call_driver, record_request, hrl,
        OFONO_SIM_FILE_STRUCTURE_CYCLIC, OFONO_SIM_FILE_STRUCTURE_FIXED]

theorem step_record_reply_any (m : Modem) (op : sim_fs_op)
    (src : Nat) (bm : List Nat) (buf : Option (List Nat))
    (sim : ofono_sim) (drv : ofono_sim_driver) (files : Nat → Option (List Nat))
    (sys : Sys) (ns : Nat) (record len : Int)
    (infl : List DrvReq) (log : List Ev) (viol : List Violation) (data : List Nat)
    (R total c : Nat) (F : List Nat)
    (hfile : files op.id = some F)
    (hR : 1 ≤ R) (ht : total ≤ 256)
    (hc : op.current = (c : Int)) (hrl : op.record_length = (R : Int))
    (hlen : op.length = ((total * R : Nat) : Int)) (h1 : 1 ≤ c) (h2 : c ≤ total)
    (hrep : record_reply m op.structure_ op.id record len =
      { error_type := OFONO_ERROR_TYPE_NO_ERROR, data := data })
    (hd : data.length = R) :
    ∃ bm1 files1 F1,
      (bm1 = bm ∨ bm1 = bm.set ((c - 1) / 8)
        ((bm.getD ((c - 1) / 8) 0 ||| 1 <<< ((c - 1) % 8)) % 256)) ∧
      files1 op.id = some F1 ∧ (∀ k, k ≠ op.id → files1 k = files k) ∧
      (∀ r, c < r → pread F1 ((r - 1) * R + 38) R = pread F ((r - 1) * R + 38) R) ∧
      step m ⟨⟨some [op], src, bm, some op.id, buf, sim, some drv⟩, files, sys,
          [], ns, record_request op.structure_ op.id record len :: infl, log, viol⟩ =
        .ok (some (
          if c < total then
            ⟨⟨some [{ op with current := ((c + 1 : Nat) : Int) }], ns, bm1,
                some op.id, buf, sim, some drv⟩, files1,
              sys, [(ns, TickFn.read_record)], ns + 1, infl,
              log ++ [Ev.read_cb op.cb 1 op.length c (some data) R op.userdata], viol⟩
          else
            ⟨⟨some [], src, List.replicate 32 0, none, none, sim, some drv⟩, files1,
              sys, [], ns, infl,
              log ++ [Ev.read_cb op.cb 1 op.length c (some data) R op.userdata],
              viol⟩)) := by
  have hRz : op.record_length ≠ 0 := by rw [hrl]; omega
  have htot : cdiv op.length op.record_length = (total : Int) := by
    rw [hlen, hrl]; exact cdiv_records total R hR
  obtain ⟨bm1, files1, F1, hcb, hbm, hf1, hfr, hpres⟩ := cache_block_any (some [op]) src bm
    op.id buf sim (some drv) files sys [] ns infl
    (log ++ [Ev.read_cb op.cb 1 op.length op.current (some data) op.record_length
      op.userdata]) viol (op.current - 1) op.record_length data op.record_length F hfile
    (by rw [hc]; omega) (by rw [hc]; omega) (by rw [hrl]; omega) (by rw [hrl]; omega)
    (by rw [hrl, hd]; simp)
  rw [hc, hrl] at hcb
  rw [hc] at hbm
  rw [hc, hrl] at hpres
  have e1 : (((c : Int) - 1) / 8).toNat = (c - 1) / 8 := by omega
  have e2 : (((c : Int) - 1) % 8).toNat = (c - 1) % 8 := by omega
  have e3 : (((c : Int) - 1) * (R : Int) + 38).toNat = (c - 1) * R + 38 := by
    have e : ((c : Int) - 1) * (R : Int) + 38 = (((c - 1) * R + 38 : Nat) : Int) := by
      push_cast [Nat.cast_sub h1]; ring
    rw [e]; exact Int.toNat_ofNat _
  have e5 : bitmap_get bm (((c : Int) - 1) / 8) = bm.getD ((c - 1) / 8) 0 := by
    unfold bitmap_get
    rw [if_pos (by omega), e1]
  rw [e1, e2, e5] at hbm
  rw [e3, hd] at hpres
  have hdeliver : deliver m ⟨⟨some [op], src, bm, some op.id, buf, sim, some drv⟩, files,
      sys, [], ns, infl, log, viol⟩ (record_request op.structure_ op.id record len) =
      sim_fs_op_retrieve_cb ⟨⟨some [op], src, bm, some op.id, buf, sim, some drv⟩, files,
        sys, [], ns, infl, log, viol⟩
        (record_reply m op.structure_ op.id record len).error_type
        (record_reply m op.structure_ op.id record len).data := by
    unfold record_request record_reply
    split_ifs <;> rfl
  refine ⟨bm1, files1, F1, hbm, hf1, hfr, ?_, ?_⟩
  · intro r hr
    have hle : (c - 1) * R + R ≤ (r - 1) * R := by
      have : c ≤ r - 1 := by omega
      calc (c - 1) * R + R = c * R := by
            have : c = (c - 1) + 1 := by omega
            conv_rhs => rw [this, Nat.add_mul, Nat.one_mul]
        _ ≤ (r - 1) * R := Nat.mul_le_mul_right _ this
    exact hpres _ _ (by omega) (by omega)
  · simp only [step, hdeliver, hrep, sim_fs_op_retrieve_cb, peek_head, hRz, if_false, emit,
      ne_eq, not_true_eq_false, htot, hc, hrl, hcb]
    have hRn : R ≠ 0 := by omega
    have htot2 : cdiv op.length (R : Int) = (total : Int) := by rw [← hrl]; exact htot
    by_cases hlt : c < total
    · have h3 : (c : Int) < (total : Int) := by omega
      simp [hlt, h3, set_head, idle_add, Except.map, hRn, htot2]
    · have h3 : ¬ (c : Int) < (total : Int) := by omega
      simp [hlt, h3, sim_fs_end_current, Except.map, hRn, htot2]

theorem record_events_congr (m : Modem) (op : sim_fs_op) (f g : Int → Bool)
    (count : Nat) :
    ∀ first : Int, (∀ i : Nat, i < count → f (first + i) = g (first + i)) →
      record_events m op f first count = record_events m op g first count := by
  induction count with
  | zero => intro first _; rfl
  | succ n ih =>
    intro first h
    have h0 := h 0 (by omega)
    simp only [Nat.cast_zero, add_zero] at h0
    have hrest := ih (first + 1) (fun i hi => by
      have := h (i + 1) (by omega)
      have e : first + ((i + 1 : Nat) : Int) = first + 1 + (i : Int) := by push_cast; ring
      rw [e] at this; exact this)
    simp only [record_events, h0, hrest]

theorem record_events_append (m : Modem) (op : sim_fs_op) (f : Int → Bool)
    (a b : Nat) :
    ∀ first : Int, record_events m op f first (a + b) =
      record_events m op f first a ++ record_events m op f (first + a) b := by
  induction a with
  | zero => intro first; simp [record_events]
  | succ n ih =>
    intro first
    have e : n + 1 + b = (n + b) + 1 := by omega
    have e2 : first + ((n + 1 : Nat) : Int) = first + 1 + (n : Int) := by push_cast; ring
    rw [e]
    simp only [record_events, ih (first + 1), e2, List.append_assoc]

theorem unit_present_set_other (bm : List Nat) (c r : Nat) (hc : 1 ≤ c) (hr : 1 ≤ r)
    (hne : r ≠ c) :
    unit_present
        (bm.set ((c - 1) / 8) ((bm.getD ((c - 1) / 8) 0 ||| 1 <<< ((c - 1) % 8)) % 256))
        ((r : Int) - 1) =
      unit_present bm ((r : Int) - 1) := by
  have e : ((r : Int) - 1) = ((r - 1 : Nat) : Int) := by omega
  rw [e, unit_present_iff, unit_present_iff]
  by_cases hbyte : (r - 1) / 8 = (c - 1) / 8
  · by_cases hlen : (c - 1) / 8 < bm.length
    · rw [hbyte]
      simp only [List.getD_eq_getElem?_getD, List.getElem?_set_self, hlen, List.getElem?_eq_getElem,
        Option.getD_some, List.length_set]
      simp only [List.getElem_set_self, Option.getD_some]
      rw [testBit_set_bit _ _ _ (Nat.mod_lt _ (by decide))]
      have hbit : (c - 1) % 8 ≠ (r - 1) % 8 := by omega
      simp [hbit]
    · rw [List.set_eq_of_length_le (by omega)]
  · simp only [List.getD_eq_getElem?_getD]
    rw [List.getElem?_set_ne (Ne.symm hbyte)]

theorem run_records_any (m : Modem) (sim : ofono_sim) (drv : ofono_sim_driver)
    (sys : Sys) (R total : Nat) (hR : 1 ≤ R) (hR2 : R ≤ 256) (ht : total ≤ 256) :
    ∀ (n c : Nat) (op : sim_fs_op) (src : Nat) (bm : List Nat)
      (buf : Option (List Nat)) (files : Nat → Option (List Nat)) (sid ns : Nat)
      (log : List Ev) (viol : List Violation) (F : List Nat),
      total + 1 - c ≤ n → op.current = (c : Int) → op.record_length = (R : Int) →
      op.length = ((total * R : Nat) : Int) → 1 ≤ c → c ≤ total →
      ((op.structure_ = OFONO_SIM_FILE_STRUCTURE_FIXED ∧ drv.read_file_linear = true) ∨
        (op.structure_ = OFONO_SIM_FILE_STRUCTURE_CYCLIC ∧
          drv.read_file_cyclic = true)) →
      files op.id = some F →
      (∀ r : Nat, c ≤ r → r ≤ total → unit_present bm ((r : Int) - 1) = true →
        pread F ((r - 1) * R + 38) R = (record_reply m op.structure_ op.id r R).data ∧
        (record_reply m op.structure_ op.id r R).data.length = R) →
      (∀ r : Nat, c ≤ r → r ≤ total →
        (record_reply m op.structure_ op.id r R).error_type =
            OFONO_ERROR_TYPE_NO_ERROR ∧
          (record_reply m op.structure_ op.id r R).data.length = R) →
      ∃ N w1, N ≤ 2 * n ∧
        run m N ⟨⟨some [op], src, bm, some op.id, buf, sim, some drv⟩, files, sys,
          [(sid, TickFn.read_record)], ns, [], log, viol⟩ = .ok w1 ∧
        quiescent w1 ∧ w1.fs.fd = none ∧ w1.fs.op_q = some [] ∧ w1.viol = viol ∧
        (∀ k, k ≠ op.id → w1.files k = files k) ∧
        w1.log = log ++
          record_events m op (fun r => unit_present bm (r - 1)) c (total + 1 - c) := by
  intro n
  induction n with
  | zero =>
    intro c op src bm buf files sid ns log viol F hn hc hrl hlen h1 h2
    omega
  | succ n ih =>
    intro c op src bm buf files sid ns log viol F hn hc hrl hlen h1 h2 hst hfile hvalid hdrv
    obtain ⟨k, hk1, hk2, hk3, hk4⟩ := step_read_record_cached m op src bm buf sim drv files
      sys sid ns log viol F R total c hfile hR hR2 ht hc hrl hlen h1 h2 hst hvalid
    have hprefix : record_events m op (fun r => unit_present bm (r - 1)) c k =
        record_events m op (fun _ => true) c k := by
      apply record_events_congr
      intro i hi
      have := hk2 i hi
      have e : ((c : Int) + (i : Int) - 1) = (((c + i : Nat) : Int) - 1) := by
        push_cast; ring
      simp only [e, this]
    by_cases hend : total < c + k
    · -- every remaining record came from the cache
      rw [if_pos hend] at hk4
      have hk : total + 1 - c = k := by omega
      refine ⟨1, _, by omega, (run_step m 0 _ _ hk4).trans rfl, ⟨rfl, rfl⟩, rfl, rfl, rfl,
        fun _ _ => rfl, ?_⟩
      simp only [hk, hprefix]
    · rw [if_neg hend] at hk4
      have hc' : c + k ≤ total := by omega
      have hmiss := hk3 hc'
      obtain ⟨herr, hdl⟩ := hdrv (c + k) (by omega) hc'
      have hrep : record_reply m op.structure_ op.id ((c + k : Nat) : Int) R =
          { error_type := OFONO_ERROR_TYPE_NO_ERROR,
            data := (record_reply m op.structure_ op.id ((c + k : Nat) : Int) R).data } := by
        cases hr : record_reply m op.structure_ op.id ((c + k : Nat) : Int) R with
        | mk e d =>
          rw [hr] at herr
          simp only at herr
          simp [herr]
      obtain ⟨bm1, files1, F1, hbm1, hf1, hfr1, hpres1, s2⟩ := step_record_reply_any m
        { op with current := ((c + k : Nat) : Int) } 0 bm
        buf sim drv files sys ns ((c + k : Nat) : Int) R []
        (log ++ record_events m op (fun _ => true) c k ++
          [Ev.drv (record_request op.structure_ op.id ((c + k : Nat) : Int) R)]) viol
        (record_reply m op.structure_ op.id ((c + k : Nat) : Int) R).data
        R total (c + k) F hfile hR ht rfl hrl hlen (by omega) hc' hrep hdl
      have hbits : ∀ r : Nat, 1 ≤ r → r ≠ c + k →
          unit_present bm1 ((r : Int) - 1) = unit_present bm ((r : Int) - 1) := by
        intro r hr1 hr2
        rcases hbm1 with h | h
        · rw [h]
        · rw [h]
          exact unit_present_set_other bm (c + k) r (by omega) hr1 hr2
      have hsplit : record_events m op (fun r => unit_present bm (r - 1)) c
            (total + 1 - c) =
          record_events m op (fun _ => true) c k ++
            ([Ev.drv (record_request op.structure_ op.id ((c + k : Nat) : Int) R),
              Ev.read_cb op.cb 1 op.length ((c + k : Nat) : Int)
                (some (record_reply m op.structure_ op.id ((c + k : Nat) : Int) R).data)
                R op.userdata] ++
              record_events m op (fun r => unit_present bm (r - 1))
                (((c + k + 1 : Nat) : Int)) (total - (c + k))) := by
        have e : total + 1 - c = k + (1 + (total - (c + k))) := by omega
        have e1 : ((c : Int) + (k : Int)) = ((c + k : Nat) : Int) := by push_cast; ring
        have e2 : (((c + k : Nat) : Int) + ((1 : Nat) : Int)) = ((c + k + 1 : Nat) : Int) := by
          push_cast; ring
        have hmiss2 : unit_present bm ((c : Int) + (k : Int) - 1) = false := by
          rw [e1]; exact hmiss
        rw [e, record_events_append, record_events_append, hprefix, e1, e2]
        simp [record_events, hmiss, hmiss2, hrl]
      by_cases hlt : c + k < total
      · rw [if_pos hlt] at s2
        obtain ⟨N, w1, hN, hrun, hq, hfd, hqq, hv, hfiles, hlog⟩ := ih (c + k + 1)
          { op with current := ((c + k + 1 : Nat) : Int) } ns bm1 buf files1 ns (ns + 1)
          (log ++ record_events m op (fun _ => true) c k ++
            [Ev.drv (record_request op.structure_ op.id ((c + k : Nat) : Int) R)] ++
            [Ev.read_cb op.cb 1 op.length ((c + k : Nat) : Int)
              (some (record_reply m op.structure_ op.id ((c + k : Nat) : Int) R).data)
              R op.userdata])
          viol F1
          (by omega) rfl hrl hlen (by omega) (by omega) hst hf1
          (fun r hr1 hr2 hr3 => by
            rw [hbits r (by omega) (by omega)] at hr3
            obtain ⟨hd1, hd2⟩ := hvalid r (by omega) hr2 hr3
            refine ⟨?_, hd2⟩
            rw [hpres1 r (by omega)]
            exact hd1)
          (fun r hr1 hr2 => hdrv r (by omega) hr2)
        refine ⟨N + 1 + 1, w1, by omega,
          (run_step m (N + 1) _ _ hk4).trans ((run_step m N _ _ s2).trans hrun),
          hq, hfd, hqq, hv, ?_, ?_⟩
        · intro j hj
          rw [hfiles j hj]
          exact hfr1 j hj
        · rw [hlog, hsplit]
          have hcong : record_events m op
              (fun r => unit_present bm1 (r - 1))
              (((c + k + 1 : Nat) : Int)) (total - (c + k)) =
            record_events m op (fun r => unit_present bm (r - 1))
              (((c + k + 1 : Nat) : Int)) (total - (c + k)) := by
            apply record_events_congr
            intro i hi
            have e : (((c + k + 1 : Nat) : Int) + (i : Int) - 1) =
                (((c + k + 1 + i : Nat) : Int) - 1) := by push_cast; ring
            simp only [e]
            exact hbits (c + k + 1 + i) (by omega) (by omega)
          have e3 : total + 1 - (c + k + 1) = total - (c + k) := by omega
          simp only [record_events_current, e3, hcong, List.append_assoc, List.cons_append,
            List.nil_append, List.singleton_append]
      · rw [if_neg hlt] at s2
        have hk : total - (c + k) = 0 := by omega
        refine ⟨2, _, by omega,
          (run_step m 1 _ _ hk4).trans ((run_step m 0 _ _ s2).trans rfl),
          ⟨rfl, rfl⟩, rfl, rfl, rfl, ?_, ?_⟩
        · intro j hj
          exact hfr1 j hj
        · rw [hsplit, hk]
          simp [record_events]

/-! ## A record read over an existing cache file -/

theorem step_op_next_hit (m : Modem) (op : sim_fs_op) (rest : List sim_fs_op)
    (src : Nat) (bm : List Nat) (fd : Option Nat) (buf : Option (List Nat))
    (sim : ofono_sim) (drv : Option ofono_sim_driver)
    (files : Nat → Option (List Nat))
    (sys : Sys) (sid : Nat) (idle : List (Nat × TickFn)) (ns : Nat)
    (infl : List DrvReq) (log : List Ev) (viol : List Violation)
    (L R : Int) (bmF payload : List Nat)
    (hread : op.is_read = true)
    (himsi : sim.imsi ≠ none)
    (hfile : files op.id = some (cache_file L op.structure_ R bmF payload))
    (hst : op.structure_ < 256)
    (hL0 : 0 ≤ L) (hL1 : L < 65536) (hR0 : 0 ≤ R) (hR1 : R < 65536)
    (hbm : bmF.length = 32)
    (hvalid : (if op.structure_ = OFONO_SIM_FILE_STRUCTURE_TRANSPARENT then L else R) ≠ 0 ∧
      (if op.structure_ = OFONO_SIM_FILE_STRUCTURE_TRANSPARENT then L else R) ≤ L) :
    step m ⟨⟨some (op :: rest), src, bm, fd, buf, sim, drv⟩, files, sys,
        (sid, TickFn.op_next) :: idle, ns, infl, log, viol⟩ =
      .ok (some ⟨⟨some ((if op.structure_ = OFONO_SIM_FILE_STRUCTURE_TRANSPARENT then
              { op with
                length := L
                record_length := L
                num_bytes := if op.num_bytes = 0 then L else op.num_bytes
                current := cdiv op.offset 256 }
            else
              { op with
                length := L
                record_length := R
                current := 1 }) :: rest),
          ns, bmF, some op.id, buf, sim, drv⟩, files, sys,
        idle ++ [(ns, if op.structure_ = OFONO_SIM_FILE_STRUCTURE_TRANSPARENT then
          TickFn.read_block else TickFn.read_record)],
        ns + 1, infl, log, viol⟩) := by
  have h := check_cached_hit op rest 0 bm fd buf sim drv files sys idle ns infl log viol
    L R bmF payload himsi hfile hst hL0 hL1 hR0 hR1 hbm hvalid
  simp only [step, run_tick, sim_fs_op_next, hread, if_true, h, Except.map]

/-- Claim C2, for files of fewer than 65536 bytes.  A read of a FIXED or
CYCLIC EF of `total` records of `R` bytes over its cache file, every set
presence bit of which marks a record stored as the modem holds it, comes to
rest with this trace, whatever the writes to the cache file return: for each
record 1, 2, .., `total` in ascending order the callback
`(1, L, r, bytes of record r, R, userdata)`, preceded by the driver record
read exactly when presence bit `r - 1` is clear. -/
theorem cached_record_read_trace (m : Modem) (sim : ofono_sim) (drv : ofono_sim_driver)
    (files : Nat → Option (List Nat)) (sys : Sys) (id st R total : Nat)
    (bmF payload : List Nat) (r : ReadReq) (fuel : Nat)
    (himsi : sim.imsi ≠ none) (hinfo : drv.read_file_info = true)
    (hst : (st = OFONO_SIM_FILE_STRUCTURE_FIXED ∧ drv.read_file_linear = true) ∨
      (st = OFONO_SIM_FILE_STRUCTURE_CYCLIC ∧ drv.read_file_cyclic = true))
    (hR : 1 ≤ R) (hR2 : R ≤ 256) (ht1 : 1 ≤ total) (ht2 : total ≤ 256)
    (hL : total * R < 65536)
    (hbm : bmF.length = 32)
    (hfile : files id = some (cache_file ((total * R : Nat) : Int) st R bmF payload))
    (hvalid : ∀ k : Nat, 1 ≤ k → k ≤ total → unit_present bmF ((k : Int) - 1) = true →
      pread (cache_file ((total * R : Nat) : Int) st R bmF payload) ((k - 1) * R + 38) R =
        (record_reply m st id k R).data)
    (hdrv : ∀ k : Nat, 1 ≤ k → k ≤ total →
      (record_reply m st id k R).error_type = OFONO_ERROR_TYPE_NO_ERROR ∧
        (record_reply m st id k R).data.length = R)
    (hcb : r.cb ≠ 0) (ho : r.offset < 65536) (hnb : r.num_bytes < 65536)
    (hfuel : 2 * total + 1 ≤ fuel) :
    ∃ w, run m fuel (sim_fs_read (World.init sim (some drv) files sys) id st r.offset
        r.num_bytes r.cb r.userdata).2 = .ok w ∧
      quiescent w ∧ w.fs.fd = none ∧ w.viol = [] ∧
      w.log = record_events m (read_op id st ((total * R : Nat) : Int) R r)
        (fun k => unit_present bmF (k - 1)) 1 total := by
  have hmo : r.offset % 65536 = r.offset := Nat.mod_eq_of_lt ho
  have hmn : r.num_bytes % 65536 = r.num_bytes := Nat.mod_eq_of_lt hnb
  have hnt : st ≠ OFONO_SIM_FILE_STRUCTURE_TRANSPARENT := by
    rcases hst with ⟨h, _⟩ | ⟨h, _⟩ <;> rw [h] <;> decide
  have hst256 : st < 256 := by
    rcases hst with ⟨h, _⟩ | ⟨h, _⟩ <;> rw [h] <;> decide
  have hRL : R ≤ total * R := Nat.le_mul_of_pos_left _ ht1
  have hread : (sim_fs_read (World.init sim (some drv) files sys) id st r.offset
      r.num_bytes r.cb r.userdata).2 =
      ⟨⟨some [(⟨id, st, r.offset, r.num_bytes, 0, 0, 0, r.cb, true, r.userdata⟩ :
          sim_fs_op)], 1, List.replicate 32 0, none, none, sim,
        some drv⟩, files, sys, [(1, TickFn.op_next)], 2, [], [], []⟩ := by
    simp [sim_fs_read, World.init, sim_fs_new, hcb, hinfo, idle_add, hmo, hmn]
  have s1 := step_op_next_hit m
    (⟨id, st, r.offset, r.num_bytes, 0, 0, 0, r.cb, true, r.userdata⟩ : sim_fs_op) []
    1 (List.replicate 32 0) none none sim (some drv) files sys 1 [] 2 [] [] []
    ((total * R : Nat) : Int) (R : Int) bmF payload rfl himsi hfile hst256
    (by omega) (by omega) (by omega) (by omega) hbm
    (by simp only [hnt, if_false]; omega)
  simp only [hnt, if_false, List.nil_append] at s1
  obtain ⟨N, w1, hN, hrun, hq, hfd, -, hv, -, hlog⟩ := run_records_any m sim drv sys R
    total hR hR2 ht2 total 1
    (⟨id, st, r.offset, r.num_bytes, ((total * R : Nat) : Int), R, 1, r.cb, true,
      r.userdata⟩ : sim_fs_op)
    2 bmF none files 2 3 [] []
    (cache_file ((total * R : Nat) : Int) st R bmF payload)
    (by omega) rfl rfl rfl (by omega) ht1 hst hfile
    (fun k h1 h2 h3 => ⟨hvalid k h1 h2 h3, (hdrv k h1 h2).2⟩)
    (fun k h1 h2 => hdrv k h1 h2)
  have hfinal := (run_step m N _ _ s1).trans hrun
  have e : fuel = N + 1 + (fuel - (N + 1)) := by omega
  refine ⟨w1, ?_, hq, hfd, hv, ?_⟩
  · rw [hread, e]
    exact run_mono m (N + 1) _ _ _ hfinal hq
  · rw [hlog]
    simp [read_op]

set_option maxRecDepth 100000 in
theorem cached_record_read_trace_witness :
    ∃ w, run (card_modem (ex_card ex_records)) 9
        (sim_fs_read (ex_world (ex_dir ex_records_file)) 0x6f05
          OFONO_SIM_FILE_STRUCTURE_FIXED 0 0 1 77).2 = .ok w ∧
      w.log =
        [Ev.read_cb 1 1 80 1 (some ((ex_bytes 80).take 20)) 20 77,
         Ev.drv (DrvReq.read_file_linear 0x6f05 2 20),
         Ev.read_cb 1 1 80 2 (some (((ex_bytes 80).drop 20).take 20)) 20 77,
         Ev.read_cb 1 1 80 3 (some (((ex_bytes 80).drop 40).take 20)) 20 77,
         Ev.drv (DrvReq.read_file_linear 0x6f05 4 20),
         Ev.read_cb 1 1 80 4 (some (((ex_bytes 80).drop 60).take 20)) 20 77] := by
  obtain ⟨w, hrun, -, -, -, hlog⟩ := cached_record_read_trace
    (card_modem (ex_card ex_records)) ex_sim full_driver (ex_dir ex_records_file)
    Sys.ideal 0x6f05 OFONO_SIM_FILE_STRUCTURE_FIXED 20 4 ([0x05] ++ List.replicate 31 0)
    ((ex_bytes 80).take 20 ++ List.replicate 20 0 ++ ((ex_bytes 80).drop 40).take 20)
    ⟨0, 0, 1, 77⟩ 9 (by decide) rfl (Or.inl ⟨rfl, rfl⟩) (by decide) (by decide)
    (by decide) (by decide) (by decide) (by decide) rfl
    (by
      intro k h1 h2 h3
      interval_cases k
      · rfl
      · exact absurd h3 (by decide)
      · rfl
      · exact absurd h3 (by decide))
    (by
      intro k h1 h2
      interval_cases k <;> exact ⟨rfl, rfl⟩)
    (by decide) (by decide) (by decide) (by decide)
  exact ⟨w, hrun, hlog.trans rfl⟩

set_option maxRecDepth 100000 in
/-- Counterexample to C2 as stated, at `R = 256`, `total = 256`: the length
65536 does not fit the two length bytes of the file information, the cache
file records length 0, the probe rejects it and the read goes through
`read_file_info`; record 1 is requested from the driver although its
presence bit is set in the cache file and the record is stored there as the
modem holds it. -/
theorem record_file_of_64k_refetches_cached_record :
    unit_present ((pread ex_file_64k 6 32)) 0 = true ∧
    pread ex_file_64k 38 256 =
      (record_reply ex_modem_64k OFONO_SIM_FILE_STRUCTURE_FIXED 0x6f05 1 256).data ∧
    (run ex_modem_64k 4
        (sim_fs_read (ex_world (ex_dir ex_file_64k)) 0x6f05
          OFONO_SIM_FILE_STRUCTURE_FIXED 0 0 1 77).2).map (fun w => w.log) =
      .ok [Ev.drv (DrvReq.read_file_info 0x6f05),
        Ev.drv (DrvReq.read_file_linear 0x6f05 1 256),
        Ev.read_cb 1 1 65536 1 (some (List.replicate 256 7)) 256 77] := by
  refine ⟨by decide, rfl, rfl⟩

/-! ## Single steps of a cacheable transparent read -/

theorem step_info_cached (m : Modem) (op : sim_fs_op)
    (src : Nat) (bm : List Nat) (buf : Option (List Nat))
    (sim : ofono_sim) (drv : ofono_sim_driver) (files : Nat → Option (List Nat))
    (sys : Sys) (ns : Nat)
    (infl : List DrvReq) (log : List Ev) (viol : List Violation)
    (herr : (m.info op.id).error_type = OFONO_ERROR_TYPE_NO_ERROR)
    (hst : (m.info op.id).structure_ = op.structure_)
    (himsi : sim.imsi ≠ none) (hc : cacheable (m.info op.id).access = true)
    (hcan : sys.can_create = true) (hw : sys.write 0 38 = 38) :
    step m ⟨⟨some [op], src, bm, none, buf, sim, some drv⟩, files, sys,
        [], ns, DrvReq.read_file_info op.id :: infl, log, viol⟩ =
      .ok (some ⟨⟨some [if op.structure_ = OFONO_SIM_FILE_STRUCTURE_TRANSPARENT then
            { op with
              length := (m.info op.id).length
              num_bytes := if op.num_bytes = 0 then (m.info op.id).length
                else op.num_bytes
              record_length := (m.info op.id).length
              current := cdiv op.offset 256 }
          else
            { op with
              length := (m.info op.id).length
              record_length := (m.info op.id).record_length
              current := 1 }],
        ns, bm, some op.id, buf, sim, some drv⟩,
        fun k => if k = op.id then
          some (cache_header (m.info op.id).length op.structure_
            (m.info op.id).record_length)
          else files k,
        sys,
        [(ns, if op.structure_ = OFONO_SIM_FILE_STRUCTURE_TRANSPARENT then
            TickFn.read_block else TickFn.read_record)],
        ns + 1, infl, log, viol⟩) := by
  simp only [step, deliver, sim_fs_op_info_cb, peek_head, herr, hst, hc, hcan]
  simp [himsi, sys_write, idle_add, set_head, hw, SIM_CACHE_HEADER_SIZE,
    OFONO_ERROR_TYPE_NO_ERROR, take_padded_eq, flag_if, Except.map]
  funext k
  split_ifs <;> rfl

theorem read_block_cached_miss (fuel : Nat) (w : World) (op : sim_fs_op) (f : Nat)
    (hfd : w.fs.fd = some f) (hc0 : 0 ≤ op.current) (hc1 : op.current < 256)
    (hbit : unit_present w.fs.bitmap op.current = false) :
    read_block_cached fuel w op = (w, op) := by
  have h1 : 0 ≤ cdiv op.current 8 := by
    rw [cdiv_nonneg _ _ hc0 (by omega)]; omega
  have h2 : cdiv op.current 8 < 32 := by
    rw [cdiv_nonneg _ _ hc0 (by omega)]; omega
  have hb : bitmap_get w.fs.bitmap (cdiv op.current 8) &&&
      1 <<< (cmod op.current 8).toNat = 0 := by
    simpa [unit_present] using hbit
  cases fuel with
  | zero => rfl
  | succ n =>
    simp only [read_block_cached, hfd, hb, if_true, check_bitmap_index, flag_if]
    split_ifs <;> simp_all

theorem step_read_block_miss (m : Modem) (op : sim_fs_op)
    (src : Nat) (bm : List Nat) (f : Nat) (buf : Option (List Nat))
    (sim : ofono_sim) (drv : ofono_sim_driver) (files : Nat → Option (List Nat))
    (sys : Sys) (sid ns : Nat)
    (infl : List DrvReq) (log : List Ev) (viol : List Violation)
    (hcur : op.current ≤ cdiv (op.offset + (op.num_bytes - 1)) 256)
    (hn : op.current = cdiv op.offset 256 → 0 < op.num_bytes ∧ sys.alloc_ok = true)
    (hc0 : 0 ≤ op.current) (hc1 : op.current < 256)
    (hbit : unit_present bm op.current = false)
    (htr : drv.read_file_transparent = true) :
    step m ⟨⟨some [op], src, bm, some f, buf, sim, some drv⟩, files, sys,
        [(sid, TickFn.read_block)], ns, infl, log, viol⟩ =
      .ok (some ⟨⟨some [op], src, bm, some f,
          if op.current = cdiv op.offset 256 then
            some (List.replicate op.num_bytes.toNat 0) else buf,
          sim, some drv⟩, files, sys, [], ns,
        infl ++ [DrvReq.read_file_transparent op.id (op.current * 256)
          (min (op.length - op.current * 256) 256 % 65536)],
        log ++ [Ev.drv (DrvReq.read_file_transparent op.id (op.current * 256)
          (min (op.length - op.current * 256) 256 % 65536))], viol⟩) := by
  by_cases hc : op.current = cdiv op.offset 256
  · obtain ⟨h1, h2⟩ := hn hc
    have h3 : ¬ op.num_bytes ≤ 0 := by omega
    have h4 : ¬ cdiv (op.offset + (op.num_bytes - 1)) 256 < cdiv op.offset 256 := by
      rw [← hc]; omega
    have hm := read_block_cached_miss
      (cdiv (op.offset + (op.num_bytes - 1)) 256 - op.current + 1).toNat
      ⟨⟨some [op], src, bm, some f, some (List.replicate op.num_bytes.toNat 0), sim,
        some drv⟩, files, sys, [], ns, infl, log, viol⟩ op f rfl hc0 hc1 hbit
    rw [hc] at hm
    simp [step, run_tick, sim_fs_op_read_block, peek_head, hc, h2, h3, h4, hm,
      set_head, htr, call_driver, Except.map]
  · have h4 : ¬ cdiv (op.offset + (op.num_bytes - 1)) 256 < op.current := by omega
    have hm := read_block_cached_miss
      (cdiv (op.offset + (op.num_bytes - 1)) 256 - op.current + 1).toNat
      ⟨⟨some [op], src, bm, some f, buf, sim,
        some drv⟩, files, sys, [], ns, infl, log, viol⟩ op f rfl hc0 hc1 hbit
    simp [step, run_tick, sim_fs_op_read_block, peek_head, hc, h4, hm,
      set_head, htr, call_driver, Except.map]

/-! ## Cold and warm reads of a single-block transparent file -/

@[simp]
theorem cdiv_zero_left (b : Int) : cdiv 0 b = 0 := by simp [cdiv]

@[simp]
theorem cmod_zero_left (b : Int) : cmod 0 b = 0 := by simp [cmod]

theorem store_at_zero_full (buf src : List Nat) (h : src.length = buf.length) :
    store_at buf 0 src = src := by
  unfold store_at
  simp [h]

theorem cache_file_after_first_block (L rl : Int) (D : List Nat) :
    pwrite (pwrite (cache_header L OFONO_SIM_FILE_STRUCTURE_TRANSPARENT rl) 38 D) 6 [1] =
      cache_file L OFONO_SIM_FILE_STRUCTURE_TRANSPARENT rl ([1] ++ List.replicate 31 0) D := by
  simp [pwrite, cache_header, cache_file, SIM_CACHE_HEADER_SIZE, SIM_FILE_INFO_SIZE,
    List.replicate]

theorem cold_single_block_read (m : Modem) (sim : ofono_sim) (drv : ofono_sim_driver)
    (files : Nat → Option (List Nat)) (sys : Sys) (id : Nat) (rl : Int)
    (access D : List Nat) (n cb ud fuel : Nat)
    (himsi : sim.imsi ≠ none) (hinfo : drv.read_file_info = true)
    (htr : drv.read_file_transparent = true) (hnofile : files id = none)
    (hmi : m.info id = ⟨OFONO_ERROR_TYPE_NO_ERROR, D.length,
      OFONO_SIM_FILE_STRUCTURE_TRANSPARENT, rl, access⟩)
    (hmt : m.transparent id 0 D.length = ⟨OFONO_ERROR_TYPE_NO_ERROR, D⟩)
    (hacc : cacheable access = true)
    (hL1 : 1 ≤ D.length) (hL2 : D.length ≤ 256) (hcb : cb ≠ 0)
    (hn : n = D.length ∨ n = 0)
    (hcan : sys.can_create = true) (hsys : ∀ pos k, sys.write pos k = k)
    (halloc : sys.alloc_ok = true) (hfuel : 4 ≤ fuel) :
    ∃ w, run m fuel (sim_fs_read (World.init sim (some drv) files sys) id
          OFONO_SIM_FILE_STRUCTURE_TRANSPARENT 0 n cb ud).2 = .ok w ∧
      quiescent w ∧ w.fs.fd = none ∧ w.viol = [] ∧
      w.log = [Ev.drv (DrvReq.read_file_info id),
        Ev.drv (DrvReq.read_file_transparent id 0 D.length),
        Ev.read_cb cb 1 D.length 0 (some D) D.length ud] ∧
      w.files id = some (cache_file D.length OFONO_SIM_FILE_STRUCTURE_TRANSPARENT rl
        ([1] ++ List.replicate 31 0) D) ∧
      ∀ k, k ≠ id → w.files k = files k := by
  have hmod : n % 65536 = n := Nat.mod_eq_of_lt (by omega)
  have hnum : (if (n : Int) = 0 then (D.length : Int) else (n : Int)) = D.length := by
    rcases hn with h | h
    · have : ¬ ((n : Int) = 0) := by omega
      simp [this, h]
    · simp [h]
  have hread : (sim_fs_read (World.init sim (some drv) files sys) id
      OFONO_SIM_FILE_STRUCTURE_TRANSPARENT 0 n cb ud).2 =
      ⟨⟨some [(⟨id, OFONO_SIM_FILE_STRUCTURE_TRANSPARENT, 0, (n : Int), 0, 0, 0, cb, true, ud⟩ :
          sim_fs_op)], 1, List.replicate 32 0, none, none, sim,
        some drv⟩, files, sys, [(1, TickFn.op_next)], 2, [], [], []⟩ := by
    simp [sim_fs_read, World.init, sim_fs_new, hcb, hinfo, idle_add, hmod]
  have s1 := step_op_next_miss m
    (⟨id, OFONO_SIM_FILE_STRUCTURE_TRANSPARENT, 0, (n : Int), 0, 0, 0, cb, true, ud⟩ : sim_fs_op)
    [] 1 (List.replicate 32 0) none none sim drv files sys 1 [] 2 [] [] [] rfl hinfo
    (Or.inr hnofile)
  have s2 := step_info_cached m
    (⟨id, OFONO_SIM_FILE_STRUCTURE_TRANSPARENT, 0, (n : Int), 0, 0, 0, cb, true, ud⟩ : sim_fs_op)
    0 (List.replicate 32 0) none sim drv files sys 2 []
    [Ev.drv (DrvReq.read_file_info id)] []
    (by simp [hmi]) (by simp [hmi]) himsi (by simpa [hmi] using hacc) hcan (hsys 0 38)
  simp only [hmi, if_true, hnum, Nat.cast_zero, cdiv_zero_left] at s2
  have hend : cdiv (((0 : Nat) : Int) + ((D.length : Int) - 1)) 256 = 0 := by
    rw [cdiv_nonneg _ _ (by omega) (by omega)]; omega
  have hmin : min ((D.length : Int) - 0 * 256) 256 % 65536 = D.length := by omega
  have s3 := step_read_block_miss m
    (⟨id, OFONO_SIM_FILE_STRUCTURE_TRANSPARENT, 0, (D.length : Int),
      (D.length : Int), (D.length : Int), 0, cb, true, ud⟩ : sim_fs_op)
    2 (List.replicate 32 0) id none sim drv
    (fun k => if k = id then
      some (cache_header D.length OFONO_SIM_FILE_STRUCTURE_TRANSPARENT rl) else files k)
    sys 2 3 [] [Ev.drv (DrvReq.read_file_info id)] []
    (by simp only [hend]; omega) (fun _ => ⟨by show (0 : Int) < D.length; omega, halloc⟩)
    (by show (0 : Int) ≤ 0; omega) (by show (0 : Int) < 256; omega)
    (by show unit_present (List.replicate 32 0) 0 = false; decide) htr
  simp only [Nat.cast_zero, cdiv_zero_left, if_true, hmin, List.nil_append, Int.toNat_ofNat,
    List.singleton_append] at s3
  have hslice : block_cb_slice
      (⟨id, OFONO_SIM_FILE_STRUCTURE_TRANSPARENT, 0, (D.length : Int),
        (D.length : Int), (D.length : Int), 0, cb, true, ud⟩ : sim_fs_op) D.length =
      (0, 0, (D.length : Int)) := by
    have : min (256 : Int) D.length = D.length := by omega
    simp [block_cb_slice, this]
  have s4 := step_block_reply_cached m
    (⟨id, OFONO_SIM_FILE_STRUCTURE_TRANSPARENT, 0, (D.length : Int),
      (D.length : Int), (D.length : Int), 0, cb, true, ud⟩ : sim_fs_op)
    2 (List.replicate 32 0) (List.replicate D.length 0) sim drv
    (fun k => if k = id then
      some (cache_header D.length OFONO_SIM_FILE_STRUCTURE_TRANSPARENT rl) else files k)
    sys 3 0 D.length [] [Ev.drv (DrvReq.read_file_info id),
      Ev.drv (DrvReq.read_file_transparent id 0 D.length)] [] D hmt
    (by show (0 : Int) ≤ 0; omega) (by show (0 : Int) < 256; omega) (by omega)
    (hsys _ _) (hsys _ _)
    (by rw [hslice]; show (0 : Int) + (D.length : Int) ≤ D.length; omega)
    (by rw [hslice]; simp [in_bounds])
  rw [hslice] at s4
  simp only [hend, Int.toNat_ofNat, Int.toNat_zero, List.drop_zero,
    take_padded_eq D D.length rfl, store_at_zero_full (List.replicate D.length 0) D (by simp),
    zero_add, zero_mul, gt_iff_lt, Int.lt_irrefl, if_true, Int.zero_lt_one] at s4
  have hfinal := (run_step m 3 _ _ s1).trans ((run_step m 2 _ _ s2).trans
    ((run_step m 1 _ _ s3).trans ((run_step m 0 _ _ s4).trans rfl)))
  have e : fuel = 4 + (fuel - 4) := by omega
  have hbyte : (bitmap_get (List.replicate 32 0) ((0 : Int) / 8) |||
      1 <<< ((0 : Int) % 8).toNat) % 256 = 1 := by decide
  refine ⟨_, by rw [hread, e]; exact run_mono m 4 _ _ _ hfinal ⟨rfl, rfl⟩, ⟨rfl, rfl⟩,
    rfl, rfl, rfl, ?_, ?_⟩
  · show (if id = id then _ else _) = _
    rw [if_pos rfl, hbyte]
    exact congrArg some (cache_file_after_first_block _ _ _)
  · intro k hk
    show (if k = id then _ else if k = id then _ else _) = _
    rw [if_neg hk, if_neg hk]

theorem step_read_block_hit_single (m : Modem) (id cb ud : Nat) (D : List Nat)
    (src : Nat) (bm : List Nat) (buf : Option (List Nat))
    (sim : ofono_sim) (drv : ofono_sim_driver) (files : Nat → Option (List Nat))
    (sys : Sys) (sid ns : Nat) (F : List Nat)
    (infl : List DrvReq) (log : List Ev) (viol : List Violation)
    (hL1 : 1 ≤ D.length) (hL2 : D.length ≤ 256)
    (hfile : files id = some F) (hD : pread F 38 D.length = D)
    (hbit : unit_present bm 0 = true) (halloc : sys.alloc_ok = true) :
    step m ⟨⟨some [(⟨id, OFONO_SIM_FILE_STRUCTURE_TRANSPARENT, 0, (D.length : Int),
          (D.length : Int), (D.length : Int), 0, cb, true, ud⟩ : sim_fs_op)],
        src, bm, some id, buf, sim, some drv⟩, files, sys,
        [(sid, TickFn.read_block)], ns, infl, log, viol⟩ =
      .ok (some ⟨⟨some [], src, List.replicate 32 0, none, none, sim, some drv⟩, files,
        sys, [], ns, infl,
        log ++ [Ev.read_cb cb 1 D.length 0 (some D) D.length ud], viol⟩) := by
  have hend : cdiv ((D.length : Int) - 1) 256 = 0 := by
    rw [cdiv_nonneg _ _ (by omega) (by omega)]; omega
  have hpos : ¬ (D.length : Int) ≤ 0 := by omega
  have hb : ¬ (bitmap_get bm 0 % 2 = 0) := by
    simpa [unit_present] using hbit
  have hneg : ¬ ((D.length : Int) < 0) := by omega
  have hmin : min (256 : Int) D.length = D.length := by omega
  have hst : store_at (List.replicate D.length 0) 0 D = D :=
    store_at_zero_full _ _ (by simp)
  simp [step, run_tick, sim_fs_op_read_block, peek_head, hend, hpos, halloc,
    read_block_cached, hb, hneg, block_cache_slice, SIM_CACHE_HEADER_SIZE, hmin,
    sys_read_buffer, hfile, hD, in_bounds, flag_if, check_bitmap_index, hst, set_head,
    emit, sim_fs_end_current, Except.map]

theorem pread_cache_file_payload (L : Int) (st : Nat) (R : Int) (bmF D : List Nat)
    (hbm : bmF.length = 32) : pread (cache_file L st R bmF D) 38 D.length = D := by
  have h : ((cache_header L st R).take SIM_FILE_INFO_SIZE ++ bmF).length = 38 := by
    simp [SIM_FILE_INFO_SIZE, hbm]
  unfold pread cache_file
  rw [← h, List.drop_left, List.take_length]

theorem cache_file_length (L : Int) (st : Nat) (R : Int) (bmF D : List Nat) :
    (cache_file L st R bmF D).length = 6 + bmF.length + D.length := by
  simp [cache_file, SIM_FILE_INFO_SIZE]
  omega

theorem warm_single_block_read (m : Modem) (sim : ofono_sim) (drv : ofono_sim_driver)
    (files : Nat → Option (List Nat)) (sys : Sys) (id : Nat) (rl : Int)
    (bmF D : List Nat) (n cb ud fuel : Nat)
    (himsi : sim.imsi ≠ none) (hinfo : drv.read_file_info = true)
    (hfile : files id = some (cache_file D.length OFONO_SIM_FILE_STRUCTURE_TRANSPARENT rl
      bmF D))
    (hbm : bmF.length = 32) (hbit : unit_present bmF 0 = true)
    (hrl0 : 0 ≤ rl) (hrl1 : rl < 65536)
    (hL1 : 1 ≤ D.length) (hL2 : D.length ≤ 256) (hcb : cb ≠ 0)
    (hn : n = D.length ∨ n = 0)
    (halloc : sys.alloc_ok = true) (hfuel : 2 ≤ fuel) :
    ∃ w, run m fuel (sim_fs_read (World.init sim (some drv) files sys) id
          OFONO_SIM_FILE_STRUCTURE_TRANSPARENT 0 n cb ud).2 = .ok w ∧
      quiescent w ∧ w.fs.fd = none ∧ w.viol = [] ∧
      w.log = [Ev.read_cb cb 1 D.length 0 (some D) D.length ud] ∧
      w.files = files := by
  have hmod : n % 65536 = n := Nat.mod_eq_of_lt (by omega)
  have hnum : (if (n : Int) = 0 then (D.length : Int) else (n : Int)) = D.length := by
    rcases hn with h | h
    · have : ¬ ((n : Int) = 0) := by omega
      simp [this, h]
    · simp [h]
  have hread : (sim_fs_read (World.init sim (some drv) files sys) id
      OFONO_SIM_FILE_STRUCTURE_TRANSPARENT 0 n cb ud).2 =
      ⟨⟨some [(⟨id, OFONO_SIM_FILE_STRUCTURE_TRANSPARENT, 0, (n : Int), 0, 0, 0, cb, true,
          ud⟩ : sim_fs_op)], 1, List.replicate 32 0, none, none, sim,
        some drv⟩, files, sys, [(1, TickFn.op_next)], 2, [], [], []⟩ := by
    simp [sim_fs_read, World.init, sim_fs_new, hcb, hinfo, idle_add, hmod]
  have s1 := step_op_next_hit m
    (⟨id, OFONO_SIM_FILE_STRUCTURE_TRANSPARENT, 0, (n : Int), 0, 0, 0, cb, true, ud⟩ :
      sim_fs_op) []
    1 (List.replicate 32 0) none none sim (some drv) files sys 1 [] 2 [] [] []
    (D.length : Int) rl bmF D rfl himsi hfile
    (by show OFONO_SIM_FILE_STRUCTURE_TRANSPARENT < 256; decide)
    (by omega) (by omega) hrl0 hrl1 hbm
    (by simp only [if_true]; omega)
  simp only [if_true, hnum, Nat.cast_zero, cdiv_zero_left, List.nil_append] at s1
  have s2 := step_read_block_hit_single m id cb ud D 2 bmF none sim drv files sys 2 3
    (cache_file D.length OFONO_SIM_FILE_STRUCTURE_TRANSPARENT rl bmF D) [] [] []
    hL1 hL2 hfile (pread_cache_file_payload _ _ _ _ _ hbm) hbit halloc
  have hfinal := (run_step m 1 _ _ s1).trans ((run_step m 0 _ _ s2).trans rfl)
  have e : fuel = 2 + (fuel - 2) := by omega
  exact ⟨_, by rw [hread, e]; exact run_mono m 2 _ _ _ hfinal ⟨rfl, rfl⟩, ⟨rfl, rfl⟩,
    rfl, rfl, rfl, rfl⟩

set_option maxRecDepth 100000 in
/-- Counterexample to C5 as stated, at `L = 0`: the cold read of an empty
transparent EF at offset 0 with `num_bytes = L = 0` asks for the file
information, creates the 38-byte cache header and then fails in
`sim_fs_op_read_block`, where the allocation of zero bytes returns NULL: no
`read_file_transparent` call is made, the callback reports failure and
bitmap byte 0 of the cache file stays 0. -/
theorem cold_read_of_empty_file_fails :
    (run (card_modem (ex_card (ex_transparent []))) 4
        (sim_fs_read (ex_world (fun _ => none)) 0x6f05
          OFONO_SIM_FILE_STRUCTURE_TRANSPARENT 0 0 1 77).2).map
        (fun w => (w.log, w.files 0x6f05, w.idle, w.inflight)) =
      .ok ([Ev.drv (DrvReq.read_file_info 0x6f05), Ev.read_cb 1 0 0 0 none 0 77],
        some (List.replicate 38 0), [], []) := by
  rfl

/-- Claim C5, for `1 ≤ L ≤ 256`.  The cold read (no cache file, IMSI
available, cacheable access bytes, every system call succeeding) of a
transparent EF of `L` bytes at offset 0 with `num_bytes = L` comes to rest
after exactly the driver calls `read_file_info` and
`read_file_transparent (0, L)` and the successful callback, and leaves a
cache file of `38 + L` bytes: the six file-information bytes, the bitmap
`01 00 .. 00` and the `L` bytes the driver returned. -/
theorem cold_single_block_read_cache_file (m : Modem) (sim : ofono_sim)
    (drv : ofono_sim_driver) (files : Nat → Option (List Nat)) (sys : Sys) (id : Nat)
    (rl : Int) (access D : List Nat) (cb ud fuel : Nat)
    (himsi : sim.imsi ≠ none) (hinfo : drv.read_file_info = true)
    (htr : drv.read_file_transparent = true) (hnofile : files id = none)
    (hmi : m.info id = ⟨OFONO_ERROR_TYPE_NO_ERROR, D.length,
      OFONO_SIM_FILE_STRUCTURE_TRANSPARENT, rl, access⟩)
    (hmt : m.transparent id 0 D.length = ⟨OFONO_ERROR_TYPE_NO_ERROR, D⟩)
    (hacc : cacheable access = true)
    (hL1 : 1 ≤ D.length) (hL2 : D.length ≤ 256) (hcb : cb ≠ 0)
    (hcan : sys.can_create = true) (hsys : ∀ pos k, sys.write pos k = k)
    (halloc : sys.alloc_ok = true) (hfuel : 4 ≤ fuel) :
    ∃ w file, run m fuel (sim_fs_read (World.init sim (some drv) files sys) id
          OFONO_SIM_FILE_STRUCTURE_TRANSPARENT 0 D.length cb ud).2 = .ok w ∧
      quiescent w ∧
      w.log = [Ev.drv (DrvReq.read_file_info id),
        Ev.drv (DrvReq.read_file_transparent id 0 D.length),
        Ev.read_cb cb 1 D.length 0 (some D) D.length ud] ∧
      w.files id = some file ∧ file.length = 38 + D.length ∧
      file.take 6 = [0, ((D.length : Int) / 256 % 256).toNat,
        ((D.length : Int) % 256).toNat, 0, (rl / 256 % 256).toNat, (rl % 256).toNat] ∧
      (file.drop 6).take 32 = 1 :: List.replicate 31 0 ∧
      file.drop 38 = D := by
  obtain ⟨w, hrun, hq, -, -, hlog, hfile, -⟩ := cold_single_block_read m sim drv files sys
    id rl access D D.length cb ud fuel himsi hinfo htr hnofile hmi hmt hacc hL1 hL2 hcb
    (Or.inl rfl) hcan hsys halloc hfuel
  refine ⟨w, _, hrun, hq, hlog, hfile, ?_, ?_, ?_, ?_⟩
  · rw [cache_file_length]; simp
  · simp [cache_file, cache_header, SIM_FILE_INFO_SIZE, OFONO_ERROR_TYPE_NO_ERROR,
      OFONO_SIM_FILE_STRUCTURE_TRANSPARENT]
  · simp [cache_file, cache_header, SIM_FILE_INFO_SIZE, List.replicate]
  · simp [cache_file, cache_header, SIM_FILE_INFO_SIZE, List.replicate]

set_option maxRecDepth 100000 in
theorem cold_single_block_read_cache_file_witness :
    ∃ w, run (card_modem (ex_card (ex_transparent (List.range 10)))) 4
        (sim_fs_read (ex_world (fun _ => none)) 0x6f05
          OFONO_SIM_FILE_STRUCTURE_TRANSPARENT 0 10 1 77).2 = .ok w ∧
      w.log = [Ev.drv (DrvReq.read_file_info 0x6f05),
        Ev.drv (DrvReq.read_file_transparent 0x6f05 0 10),
        Ev.read_cb 1 1 10 0 (some (List.range 10)) 10 77] ∧
      w.files 0x6f05 = some ex_file10 ∧ ex_file10.length = 48 := by
  obtain ⟨w, file, hrun, -, hlog, hfile, hlen, h6, h32, hD⟩ :=
    cold_single_block_read_cache_file
      (card_modem (ex_card (ex_transparent (List.range 10)))) ex_sim full_driver
      (fun _ => none) Sys.ideal 0x6f05 0 [0x0f, 0x00, 0xff] (List.range 10) 1 77 4
      (by decide) rfl rfl rfl rfl rfl (by decide) (by decide) (by decide) (by decide)
      rfl (fun _ _ => rfl) rfl (by decide)
  have hf : file = ex_file10 := by
    rw [← List.take_append_drop 6 file, ← List.take_append_drop 32 (file.drop 6), h6, h32,
      List.drop_drop]
    have : file.drop (6 + 32) = List.range 10 := hD
    rw [this]
    rfl
  exact ⟨w, hrun, hlog, by rw [hfile, hf], by decide⟩

/-! ## A cold single-block read, whatever the system calls return -/

theorem sys_write_frame (fs : sim_fs) (files : Nat → Option (List Nat)) (sys : Sys)
    (idle : List (Nat × TickFn)) (ns : Nat) (infl : List DrvReq) (log : List Ev)
    (viol : List Violation) (id : Nat) (pos : Int) (data : List Nat) (count : Int)
    (hc : 0 ≤ count) (hd : data.length = count.toNat) :
    ∃ files1, sys_write ⟨fs, files, sys, idle, ns, infl, log, viol⟩ id pos data count =
        (sys.write pos count, ⟨fs, files1, sys, idle, ns, infl, log, viol⟩) := by
  have h1 : ¬ count < 0 := by omega
  by_cases hr : sys.write pos count ≤ 0
  · exact ⟨files, by simp [sys_write, h1, hr]⟩
  · have hn : ¬ (data.length < (min (sys.write pos count) count).toNat) := by
      rw [hd]; omega
    exact ⟨_, by simp [sys_write, h1, hr, flag_if, hn]; rfl⟩

theorem cache_block_frame (q : Option (List sim_fs_op)) (src : Nat) (bm : List Nat)
    (fd : Option Nat) (buf : Option (List Nat)) (sim : ofono_sim)
    (drv : Option ofono_sim_driver) (files : Nat → Option (List Nat)) (sys : Sys)
    (idle : List (Nat × TickFn)) (ns : Nat) (infl : List DrvReq) (log : List Ev)
    (viol : List Violation) (block block_len : Int) (data : List Nat)
    (num_bytes : Int)
    (hb0 : 0 ≤ block) (hb1 : block < 256) (hl : 0 ≤ block_len) (hc : 0 < num_bytes)
    (hd : data.length = num_bytes.toNat) :
    ∃ bm1 files1,
      (cache_block ⟨⟨q, src, bm, fd, buf, sim, drv⟩, files, sys, idle, ns, infl, log,
        viol⟩ block block_len data num_bytes).2 =
        ⟨⟨q, src, bm1, fd, buf, sim, drv⟩, files1, sys, idle, ns, infl, log, viol⟩ := by
  cases fd with
  | none => exact ⟨bm, files, rfl⟩
  | some f =>
    have hpos : ¬ block * block_len + 38 < 0 := by
      have := Int.mul_nonneg hb0 hl
      omega
    have hdiv : cdiv block 8 = block / 8 := cdiv_nonneg _ _ hb0 (by omega)
    have hmod : cmod block 8 = block % 8 := cmod_nonneg _ _ hb0 (by omega)
    have hidx : 0 ≤ block / 8 ∧ block / 8 < 32 := by omega
    obtain ⟨files1, hw1⟩ := sys_write_frame ⟨q, src, bm, some f, buf, sim, drv⟩
      files sys idle ns infl log viol f (block * block_len + 38) data num_bytes
      (by omega) hd
    simp only [cache_block, SIM_CACHE_HEADER_SIZE, SIM_FILE_INFO_SIZE, Nat.cast_ofNat]
    rw [if_neg hpos, hw1]
    by_cases hr : sys.write (block * block_len + 38) num_bytes = num_bytes
    · obtain ⟨files2, hw2⟩ := sys_write_frame
        ⟨q, src, bm, some f, buf, sim, drv⟩
        files1 sys idle ns infl log viol f (block / 8 + 6)
        [(bitmap_get bm (block / 8) ||| 1 <<< (block % 8).toNat) % 256] 1
        (by omega) rfl
      simp only [hr, ne_eq, not_true_eq_false, if_false, hdiv, hmod, check_bitmap_index,
        flag_if, hidx, and_self, decide_True, decide_not, Bool.not_true,
        Bool.false_eq_true, decide_eq_true_eq]
      rw [hw2]
      by_cases hr2 : sys.write (block / 8 + 6) 1 = 1
      · exact ⟨bm.set (block / 8).toNat
          ((bitmap_get bm (block / 8) ||| 1 <<< (block % 8).toNat) % 256), files2,
          by simp [hr2]⟩
      · exact ⟨bm, files2, by simp [hr2]⟩
    · exact ⟨bm, files1, by simp [hr]⟩

theorem step_info_any (m : Modem) (op : sim_fs_op)
    (src : Nat) (bm : List Nat) (buf : Option (List Nat))
    (sim : ofono_sim) (drv : ofono_sim_driver) (files : Nat → Option (List Nat))
    (sys : Sys) (ns : Nat)
    (infl : List DrvReq) (log : List Ev) (viol : List Violation)
    (herr : (m.info op.id).error_type = OFONO_ERROR_TYPE_NO_ERROR)
    (hst : (m.info op.id).structure_ = op.structure_) :
    ∃ fd1 files1,
      step m ⟨⟨some [op], src, bm, none, buf, sim, some drv⟩, files, sys,
        [], ns, DrvReq.read_file_info op.id :: infl, log, viol⟩ =
      .ok (some ⟨⟨some [if op.structure_ = OFONO_SIM_FILE_STRUCTURE_TRANSPARENT then
            { op with
              length := (m.info op.id).length
              num_bytes := if op.num_bytes = 0 then (m.info op.id).length
                else op.num_bytes
              record_length := (m.info op.id).length
              current := cdiv op.offset 256 }
          else
            { op with
              length := (m.info op.id).length
              record_length := (m.info op.id).record_length
              current := 1 }],
        ns, bm, fd1, buf, sim, some drv⟩, files1, sys,
        [(ns, if op.structure_ = OFONO_SIM_FILE_STRUCTURE_TRANSPARENT then
            TickFn.read_block else TickFn.read_record)],
        ns + 1, infl, log, viol⟩) := by
  by_cases hunc : sim.imsi = none ∨ cacheable (m.info op.id).access = false
  · exact ⟨none, files, step_info_uncached m op src bm buf sim drv files sys ns infl log
      viol herr hst hunc⟩
  · have himsi : sim.imsi ≠ none := fun h => hunc (Or.inl h)
    have hc : cacheable (m.info op.id).access = true := by
      cases h : cacheable (m.info op.id).access with
      | false => exact absurd (Or.inr h) hunc
      | true => rfl
    by_cases hcan : sys.can_create = false
    · refine ⟨none, files, ?_⟩
      simp only [step, deliver, sim_fs_op_info_cb, peek_head, herr, hst, hc, hcan]
      simp [himsi, idle_add, set_head, OFONO_ERROR_TYPE_NO_ERROR, Except.map]
    · obtain ⟨files1, hw⟩ := sys_write_frame
        ⟨some [if op.structure_ = OFONO_SIM_FILE_STRUCTURE_TRANSPARENT then
            { op with
              length := (m.info op.id).length
              num_bytes := if op.num_bytes = 0 then (m.info op.id).length
                else op.num_bytes
              record_length := (m.info op.id).length
              current := cdiv op.offset 256 }
          else
            { op with
              length := (m.info op.id).length
              record_length := (m.info op.id).record_length
              current := 1 }], ns, bm, some op.id, buf, sim, some drv⟩
        (fun k => if k = op.id then some [] else files k) sys
        [(ns, if op.structure_ = OFONO_SIM_FILE_STRUCTURE_TRANSPARENT then
            TickFn.read_block else TickFn.read_record)] (ns + 1) infl log viol op.id 0
        (cache_header (m.info op.id).length op.structure_ (m.info op.id).record_length)
        38 (by omega) (by simp)
      by_cases hr : sys.write 0 38 = 38
      · refine ⟨some op.id, files1, ?_⟩
        simp only [step, deliver, sim_fs_op_info_cb, peek_head, herr, hst, hc, hcan]
        simp [himsi, idle_add, set_head, OFONO_ERROR_TYPE_NO_ERROR, Except.map,
          SIM_CACHE_HEADER_SIZE]
        rw [hw]
        simp [hr]
      · refine ⟨none, files1, ?_⟩
        simp only [step, deliver, sim_fs_op_info_cb, peek_head, herr, hst, hc, hcan]
        simp [himsi, idle_add, set_head, OFONO_ERROR_TYPE_NO_ERROR, Except.map,
          SIM_CACHE_HEADER_SIZE]
        rw [hw]
        simp [hr]

theorem step_read_block_clear (m : Modem) (op : sim_fs_op)
    (src : Nat) (bm : List Nat) (fd : Option Nat) (buf : Option (List Nat))
    (sim : ofono_sim) (drv : ofono_sim_driver) (files : Nat → Option (List Nat))
    (sys : Sys) (sid ns : Nat)
    (infl : List DrvReq) (log : List Ev) (viol : List Violation)
    (hcur : op.current ≤ cdiv (op.offset + (op.num_bytes - 1)) 256)
    (hn : op.current = cdiv op.offset 256 → 0 < op.num_bytes ∧ sys.alloc_ok = true)
    (hc0 : 0 ≤ op.current) (hc1 : op.current < 256)
    (hbit : unit_present bm op.current = false)
    (htr : drv.read_file_transparent = true) :
    step m ⟨⟨some [op], src, bm, fd, buf, sim, some drv⟩, files, sys,
        [(sid, TickFn.read_block)], ns, infl, log, viol⟩ =
      .ok (some ⟨⟨some [op], src, bm, fd,
          if op.current = cdiv op.offset 256 then
            some (List.replicate op.num_bytes.toNat 0) else buf,
          sim, some drv⟩, files, sys, [], ns,
        infl ++ [DrvReq.read_file_transparent op.id (op.current * 256)
          (min (op.length - op.current * 256) 256 % 65536)],
        log ++ [Ev.drv (DrvReq.read_file_transparent op.id (op.current * 256)
          (min (op.length - op.current * 256) 256 % 65536))], viol⟩) := by
  cases fd with
  | none =>
    exact step_read_block_uncached m op src bm buf sim drv files sys sid ns infl log viol
      hcur hn htr
  | some f =>
    exact step_read_block_miss m op src bm f buf sim drv files sys sid ns infl log viol
      hcur hn hc0 hc1 hbit htr

theorem step_block_reply_any (m : Modem) (op : sim_fs_op)
    (src : Nat) (bm : List Nat) (fd : Option Nat) (buf : List Nat)
    (sim : ofono_sim) (drv : ofono_sim_driver) (files : Nat → Option (List Nat))
    (sys : Sys) (ns : Nat) (start len : Int)
    (infl : List DrvReq) (log : List Ev) (viol : List Violation) (data : List Nat)
    (hrep : m.transparent op.id start len =
      { error_type := OFONO_ERROR_TYPE_NO_ERROR, data := data })
    (hc0 : 0 ≤ op.current) (hc1 : op.current < 256) (hd : 0 < data.length)
    (hsafe1 : (block_cb_slice op data.length).2.1 + (block_cb_slice op data.length).2.2 ≤
      data.length)
    (hsafe2 : in_bounds buf.length (block_cb_slice op data.length).1
      (block_cb_slice op data.length).2.2.toNat = true) :
    ∃ bm1 files1,
      step m ⟨⟨some [op], src, bm, fd, some buf, sim, some drv⟩, files, sys,
        [], ns, DrvReq.read_file_transparent op.id start len :: infl, log, viol⟩ =
      .ok (some (
        if op.current + 1 > cdiv (op.offset + (op.num_bytes - 1)) 256 then
          ⟨⟨some [], src, List.replicate 32 0, none, none, sim, some drv⟩, files1,
            sys, [], ns, infl,
            log ++ [Ev.read_cb op.cb 1 op.num_bytes 0
              (some (store_at buf (block_cb_slice op data.length).1
                (take_padded (data.drop (block_cb_slice op data.length).2.1.toNat)
                  (block_cb_slice op data.length).2.2.toNat)))
              op.record_length op.userdata], viol⟩
        else
          ⟨⟨some [{ op with current := op.current + 1 }], ns, bm1, fd,
              some (store_at buf (block_cb_slice op data.length).1
                (take_padded (data.drop (block_cb_slice op data.length).2.1.toNat)
                  (block_cb_slice op data.length).2.2.toNat)),
              sim, some drv⟩, files1,
            sys, [(ns, TickFn.read_block)], ns + 1, infl, log, viol⟩)) := by
  have hno : ¬ ((block_cb_slice op data.length).2.1 + (block_cb_slice op data.length).2.2 >
      (data.length : Int)) := by omega
  obtain ⟨bm1, files1, hcb⟩ := cache_block_frame (some [op]) src bm fd
    (some (store_at buf (block_cb_slice op data.length).1
      (take_padded (data.drop (block_cb_slice op data.length).2.1.toNat)
        (block_cb_slice op data.length).2.2.toNat))) sim (some drv) files sys [] ns infl
    log viol op.current 256 data data.length hc0 hc1 (by omega) (by omega) (by simp)
  refine ⟨bm1, files1, ?_⟩
  simp only [step, deliver, sim_fs_op_read_block_cb, peek_head, hrep, memcpy_to_buffer,
    flag_if, hsafe2, hno, ne_eq, not_true_eq_false, if_false, decide_False, Bool.not_true,
    Bool.false_eq_true]
  rw [hcb]
  by_cases hlast : op.current + 1 > cdiv (op.offset + (op.num_bytes - 1)) 256
  · simp [set_head, sim_fs_end_current, emit, idle_add, Except.map, hlast]
  · simp [set_head, sim_fs_end_current, emit, idle_add, Except.map, hlast]

theorem cold_single_block_read_any (m : Modem) (sim : ofono_sim) (drv : ofono_sim_driver)
    (files : Nat → Option (List Nat)) (sys : Sys) (id : Nat) (rl : Int)
    (access D : List Nat) (n cb ud fuel : Nat)
    (hinfo : drv.read_file_info = true)
    (htr : drv.read_file_transparent = true)
    (hnofile : sim.imsi = none ∨ files id = none)
    (hmi : m.info id = ⟨OFONO_ERROR_TYPE_NO_ERROR, D.length,
      OFONO_SIM_FILE_STRUCTURE_TRANSPARENT, rl, access⟩)
    (hmt : m.transparent id 0 D.length = ⟨OFONO_ERROR_TYPE_NO_ERROR, D⟩)
    (hL1 : 1 ≤ D.length) (hL2 : D.length ≤ 256) (hcb : cb ≠ 0)
    (hn : n = D.length ∨ n = 0)
    (halloc : sys.alloc_ok = true) (hfuel : 4 ≤ fuel) :
    ∃ w, run m fuel (sim_fs_read (World.init sim (some drv) files sys) id
          OFONO_SIM_FILE_STRUCTURE_TRANSPARENT 0 n cb ud).2 = .ok w ∧
      quiescent w ∧ w.fs.fd = none ∧ w.viol = [] ∧
      w.log = [Ev.drv (DrvReq.read_file_info id),
        Ev.drv (DrvReq.read_file_transparent id 0 D.length),
        Ev.read_cb cb 1 D.length 0 (some D) D.length ud] := by
  have hmod : n % 65536 = n := Nat.mod_eq_of_lt (by omega)
  have hnum : (if (n : Int) = 0 then (D.length : Int) else (n : Int)) = D.length := by
    rcases hn with h | h
    · have : ¬ ((n : Int) = 0) := by omega
      simp [this, h]
    · simp [h]
  have hread : (sim_fs_read (World.init sim (some drv) files sys) id
      OFONO_SIM_FILE_STRUCTURE_TRANSPARENT 0 n cb ud).2 =
      ⟨⟨some [(⟨id, OFONO_SIM_FILE_STRUCTURE_TRANSPARENT, 0, (n : Int), 0, 0, 0, cb, true,
          ud⟩ : sim_fs_op)], 1, List.replicate 32 0, none, none, sim,
        some drv⟩, files, sys, [(1, TickFn.op_next)], 2, [], [], []⟩ := by
    simp [sim_fs_read, World.init, sim_fs_new, hcb, hinfo, idle_add, hmod]
  have s1 := step_op_next_miss m
    (⟨id, OFONO_SIM_FILE_STRUCTURE_TRANSPARENT, 0, (n : Int), 0, 0, 0, cb, true, ud⟩ :
      sim_fs_op)
    [] 1 (List.replicate 32 0) none none sim drv files sys 1 [] 2 [] [] [] rfl hinfo
    hnofile
  obtain ⟨fd1, files1, s2⟩ := step_info_any m
    (⟨id, OFONO_SIM_FILE_STRUCTURE_TRANSPARENT, 0, (n : Int), 0, 0, 0, cb, true, ud⟩ :
      sim_fs_op)
    0 (List.replicate 32 0) none sim drv files sys 2 []
    [Ev.drv (DrvReq.read_file_info id)] []
    (by simp [hmi]) (by simp [hmi])
  simp only [hmi, if_true, hnum, Nat.cast_zero, cdiv_zero_left] at s2
  have hend : cdiv (((0 : Nat) : Int) + ((D.length : Int) - 1)) 256 = 0 := by
    rw [cdiv_nonneg _ _ (by omega) (by omega)]; omega
  have hmin : min ((D.length : Int) - 0 * 256) 256 % 65536 = D.length := by omega
  have s3 := step_read_block_clear m
    (⟨id, OFONO_SIM_FILE_STRUCTURE_TRANSPARENT, 0, (D.length : Int),
      (D.length : Int), (D.length : Int), 0, cb, true, ud⟩ : sim_fs_op)
    2 (List.replicate 32 0) fd1 none sim drv files1
    sys 2 3 [] [Ev.drv (DrvReq.read_file_info id)] []
    (by simp only [hend]; omega) (fun _ => ⟨by show (0 : Int) < D.length; omega, halloc⟩)
    (by show (0 : Int) ≤ 0; omega) (by show (0 : Int) < 256; omega)
    (by show unit_present (List.replicate 32 0) 0 = false; decide) htr
  simp only [Nat.cast_zero, cdiv_zero_left, if_true, hmin, List.nil_append, Int.toNat_ofNat,
    List.singleton_append] at s3
  have hslice : block_cb_slice
      (⟨id, OFONO_SIM_FILE_STRUCTURE_TRANSPARENT, 0, (D.length : Int),
        (D.length : Int), (D.length : Int), 0, cb, true, ud⟩ : sim_fs_op) D.length =
      (0, 0, (D.length : Int)) := by
    have : min (256 : Int) D.length = D.length := by omega
    simp [block_cb_slice, this]
  obtain ⟨bm2, files2, s4⟩ := step_block_reply_any m
    (⟨id, OFONO_SIM_FILE_STRUCTURE_TRANSPARENT, 0, (D.length : Int),
      (D.length : Int), (D.length : Int), 0, cb, true, ud⟩ : sim_fs_op)
    2 (List.replicate 32 0) fd1 (List.replicate D.length 0) sim drv files1
    sys 3 0 D.length [] [Ev.drv (DrvReq.read_file_info id),
      Ev.drv (DrvReq.read_file_transparent id 0 D.length)] [] D hmt
    (by show (0 : Int) ≤ 0; omega) (by show (0 : Int) < 256; omega) (by omega)
    (by rw [hslice]; show (0 : Int) + (D.length : Int) ≤ D.length; omega)
    (by rw [hslice]; simp [in_bounds])
  rw [hslice] at s4
  simp only [hend, Int.toNat_ofNat, Int.toNat_zero, List.drop_zero,
    take_padded_eq D D.length rfl, store_at_zero_full (List.replicate D.length 0) D (by simp),
    zero_add, zero_mul, gt_iff_lt, Int.lt_irrefl, if_true, Int.zero_lt_one] at s4
  have hfinal := (run_step m 3 _ _ s1).trans ((run_step m 2 _ _ s2).trans
    ((run_step m 1 _ _ s3).trans ((run_step m 0 _ _ s4).trans rfl)))
  have e : fuel = 4 + (fuel - 4) := by omega
  exact ⟨_, by rw [hread, e]; exact run_mono m 4 _ _ _ hfinal ⟨rfl, rfl⟩, ⟨rfl, rfl⟩,
    rfl, rfl, rfl⟩

set_option maxRecDepth 100000 in
/-- C6 (defect): cold read of the 10-byte transparent EF `0x6f05` at offset 3
with `num_bytes = 0`.  `sim_fs_op_info_cb` replaces `num_bytes = 0` by the
file length 10 whatever the offset, so the driver is asked for the whole
block and the callback reports 10 bytes, not the 7 bytes 3 .. 9.
`sim_fs_op_read_block_cb` then copies `MIN (256 - 3, 10) = 10` bytes from
offset 3 of the driver's ten bytes: the first seven bytes delivered are the
file's bytes 3 .. 9, the last three are read past the end of the driver's
block (recorded as `Violation.source_overread`) and are left out here. -/
theorem read_to_end_from_offset_reports_whole_length :
    (run (card_modem (ex_card (ex_transparent (List.range 10)))) 4
        (sim_fs_read (ex_world (fun _ => none)) 0x6f05
          OFONO_SIM_FILE_STRUCTURE_TRANSPARENT 3 0 1 77).2).map
        (fun w => (w.log.map (cut_data 7), w.viol, w.idle, w.inflight)) =
      .ok ([Ev.drv (DrvReq.read_file_info 0x6f05),
          Ev.drv (DrvReq.read_file_transparent 0x6f05 0 10),
          Ev.read_cb 1 1 10 0 (some [3, 4, 5, 6, 7, 8, 9]) 10 77],
        [Violation.source_overread], [], []) := by
  rfl

/-- Read to end at offset 0 on a file of `1 ≤ L ≤ 256` bytes.  A transparent
read enqueued with `num_bytes = 0` reads the whole file: the completion
callback reports `ok = 1` with exactly the `L` bytes of the file, on the cold
path (no cache file: file information and block from the driver, whatever
the access bytes are and whatever creating and writing the cache file
return) and on the warm path (cache file with block 0 present: no driver
call at all). -/
theorem read_to_end_at_offset_zero (m : Modem) (sim : ofono_sim)
    (drv : ofono_sim_driver) (cold warm : Nat → Option (List Nat)) (sys : Sys)
    (id : Nat) (rl : Int) (access bmF D : List Nat) (cb ud fuel : Nat)
    (himsi : sim.imsi ≠ none) (hinfo : drv.read_file_info = true)
    (htr : drv.read_file_transparent = true)
    (hmi : m.info id = ⟨OFONO_ERROR_TYPE_NO_ERROR, D.length,
      OFONO_SIM_FILE_STRUCTURE_TRANSPARENT, rl, access⟩)
    (hmt : m.transparent id 0 D.length = ⟨OFONO_ERROR_TYPE_NO_ERROR, D⟩)
    (hrl0 : 0 ≤ rl) (hrl1 : rl < 65536)
    (hL1 : 1 ≤ D.length) (hL2 : D.length ≤ 256) (hcb : cb ≠ 0)
    (hcold : cold id = none)
    (hwarm : warm id = some (cache_file D.length OFONO_SIM_FILE_STRUCTURE_TRANSPARENT rl
      bmF D))
    (hbm : bmF.length = 32) (hbit : unit_present bmF 0 = true)
    (halloc : sys.alloc_ok = true) (hfuel : 4 ≤ fuel) :
    (∃ w, run m fuel (sim_fs_read (World.init sim (some drv) cold sys) id
          OFONO_SIM_FILE_STRUCTURE_TRANSPARENT 0 0 cb ud).2 = .ok w ∧
      quiescent w ∧ w.viol = [] ∧
      w.log = [Ev.drv (DrvReq.read_file_info id),
        Ev.drv (DrvReq.read_file_transparent id 0 D.length),
        Ev.read_cb cb 1 D.length 0 (some D) D.length ud]) ∧
    (∃ w, run m fuel (sim_fs_read (World.init sim (some drv) warm sys) id
          OFONO_SIM_FILE_STRUCTURE_TRANSPARENT 0 0 cb ud).2 = .ok w ∧
      quiescent w ∧ w.viol = [] ∧
      w.log = [Ev.read_cb cb 1 D.length 0 (some D) D.length ud]) := by
  obtain ⟨w, hrun, hq, -, hv, hlog⟩ := cold_single_block_read_any m sim drv cold sys
    id rl access D 0 cb ud fuel hinfo htr (Or.inr hcold) hmi hmt hL1 hL2 hcb
    (Or.inr rfl) halloc hfuel
  obtain ⟨w2, hrun2, hq2, -, hv2, hlog2, -⟩ := warm_single_block_read m sim drv warm sys
    id rl bmF D 0 cb ud fuel himsi hinfo hwarm hbm hbit hrl0 hrl1 hL1 hL2 hcb
    (Or.inr rfl) halloc (by omega)
  exact ⟨⟨w, hrun, hq, hv, hlog⟩, ⟨w2, hrun2, hq2, hv2, hlog2⟩⟩

set_option maxRecDepth 100000 in
theorem read_to_end_at_offset_zero_witness :
    (∃ w, run (card_modem (ex_card (ex_transparent (List.range 10)))) 4
        (sim_fs_read (ex_world (fun _ => none)) 0x6f05
          OFONO_SIM_FILE_STRUCTURE_TRANSPARENT 0 0 1 77).2 = .ok w ∧
      w.log = [Ev.drv (DrvReq.read_file_info 0x6f05),
        Ev.drv (DrvReq.read_file_transparent 0x6f05 0 10),
        Ev.read_cb 1 1 10 0 (some (List.range 10)) 10 77]) ∧
    (∃ w, run (card_modem (ex_card (ex_transparent (List.range 10)))) 4
        (sim_fs_read (ex_world (ex_dir ex_file10)) 0x6f05
          OFONO_SIM_FILE_STRUCTURE_TRANSPARENT 0 0 1 77).2 = .ok w ∧
      w.log = [Ev.read_cb 1 1 10 0 (some (List.range 10)) 10 77]) := by
  obtain ⟨⟨w, hrun, -, -, hlog⟩, ⟨w2, hrun2, -, -, hlog2⟩⟩ :=
    read_to_end_at_offset_zero
      (card_modem (ex_card (ex_transparent (List.range 10)))) ex_sim full_driver
      (fun _ => none) (ex_dir ex_file10) Sys.ideal 0x6f05 0 [0x0f, 0x00, 0xff]
      (1 :: List.replicate 31 0) (List.range 10) 1 77 4
      (by decide) rfl rfl rfl rfl (by decide) (by decide) (by decide)
      (by decide) (by decide) rfl rfl rfl (by decide) rfl (by decide)
  exact ⟨⟨w, hrun, hlog⟩, ⟨w2, hrun2, hlog2⟩⟩

/-! ## Failure of the file-information request -/

/-- C11: when the driver answers `read_file_info` for the read at the head
of the queue with an error, or with a structure other than the expected
one, the caller's callback runs exactly once, as
`(0, 0, 0, NULL, 0, userdata)`; the operation leaves the queue, no driver
request and no retrieval tick is added (only `sim_fs_op_next` for the next
queued operation, if there is one), no cache file is created or written and
no descriptor stays open. -/
theorem info_failure_fails_read (m : Modem) (w : World) (op : sim_fs_op)
    (rest : List sim_fs_op) (infl : List DrvReq)
    (hq : w.fs.op_q = some (op :: rest)) (hread : op.is_read = true)
    (hidle : w.idle = []) (hinfl : w.inflight = DrvReq.read_file_info op.id :: infl)
    (hbad : (m.info op.id).error_type ≠ OFONO_ERROR_TYPE_NO_ERROR ∨
      (m.info op.id).structure_ ≠ op.structure_) :
    ∃ w1, step m w = .ok (some w1) ∧
      w1.log = w.log ++ [Ev.read_cb op.cb 0 0 0 none 0 op.userdata] ∧
      w1.fs.op_q = some rest ∧
      w1.inflight = infl ∧
      w1.idle = (if rest = [] then [] else [(w.next_source, TickFn.op_next)]) ∧
      w1.files = w.files ∧ w1.fs.fd = none ∧ w1.fs.buffer = none ∧
      w1.fs.bitmap = List.replicate 32 0 := by
  obtain ⟨⟨q, src, bm, fd, buf, sim, drv⟩, files, sys, idle, ns, inflight, log, viol⟩ := w
  simp only at hq hidle hinfl
  subst hq hidle hinfl
  have herr : sim_fs_op_info_cb
      ⟨⟨some (op :: rest), src, bm, fd, buf, sim, drv⟩, files, sys, [], ns, infl, log, viol⟩
      (m.info op.id).error_type
      (m.info op.id).length (m.info op.id).structure_ (m.info op.id).record_length
      (m.info op.id).access = sim_fs_op_error
      ⟨⟨some (op :: rest), src, bm, fd, buf, sim, drv⟩, files, sys, [], ns, infl, log,
        viol⟩ := by
    rcases hbad with h | h
    · simp [sim_fs_op_info_cb, peek_head, h]
    · by_cases h0 : (m.info op.id).error_type ≠ OFONO_ERROR_TYPE_NO_ERROR
      · simp [sim_fs_op_info_cb, peek_head, h0]
      · simp [sim_fs_op_info_cb, peek_head, h0, h]
  simp only [step, deliver, herr, sim_fs_op_error, peek_head, hread, if_true, Except.map]
  cases rest with
  | nil => exact ⟨_, rfl, by simp [sim_fs_end_current, emit]⟩
  | cons o2 r2 => exact ⟨_, rfl, by simp [sim_fs_end_current, emit, idle_add]⟩

theorem info_failure_fails_read_witness :
    ∃ w1, step (card_modem (fun _ => none))
        ⟨⟨some [⟨0x6f05, OFONO_SIM_FILE_STRUCTURE_TRANSPARENT, 0, 10, 0, 0, 0, 1, true, 77⟩],
          0, List.replicate 32 0, none, none, ex_sim, some full_driver⟩, fun _ => none,
          Sys.ideal, [], 2, [DrvReq.read_file_info 0x6f05],
          [Ev.drv (DrvReq.read_file_info 0x6f05)], []⟩ = .ok (some w1) ∧
      w1.log = [Ev.drv (DrvReq.read_file_info 0x6f05), Ev.read_cb 1 0 0 0 none 0 77] ∧
      w1.fs.op_q = some [] ∧ w1.inflight = [] ∧ w1.idle = [] := by
  obtain ⟨w1, h1, h2, h3, h4, h5, -⟩ := info_failure_fails_read
    (card_modem (fun _ => none))
    ⟨⟨some [⟨0x6f05, OFONO_SIM_FILE_STRUCTURE_TRANSPARENT, 0, 10, 0, 0, 0, 1, true, 77⟩],
      0, List.replicate 32 0, none, none, ex_sim, some full_driver⟩, fun _ => none,
      Sys.ideal, [], 2, [DrvReq.read_file_info 0x6f05],
      [Ev.drv (DrvReq.read_file_info 0x6f05)], []⟩
    ⟨0x6f05, OFONO_SIM_FILE_STRUCTURE_TRANSPARENT, 0, 10, 0, 0, 0, 1, true, 77⟩ [] []
    rfl rfl rfl rfl (Or.inl (by decide))
  exact ⟨w1, h1, h2, h3, h4, h5⟩

/-! ## A malformed cache header -/

theorem shl8_or (x y : Nat) (h : y < 256) : x <<< 8 ||| y = x * 256 + y := by
  have hlt : y < 2 ^ 8 := h
  rw [Nat.shiftLeft_eq, Nat.mul_comm, ← Nat.mul_add_lt_is_or hlt]

theorem getD_pread_header (file : List Nat) (i : Nat) (hi : i < 38) :
    (pread file 0 38).getD i 0 = file.getD i 0 := by
  simp [pread, List.getD_eq_getElem?_getD, List.getElem?_take, hi]

/-- C12: let the cache file of the read at the head of the queue be shorter
than the 38 header bytes, or let its header hold record length 0 or a length
smaller than the record length (the record length of a transparent file
being its length).  Then `sim_fs_op_next` treats the probe as a miss: no
callback runs, the cache directory, the descriptor and the bitmap stay as
they were, the queue is unchanged, and the only event is the driver call
`read_file_info`. -/
theorem malformed_header_is_cache_miss (m : Modem) (w : World) (op : sim_fs_op)
    (rest : List sim_fs_op) (sid : Nat) (idle1 : List (Nat × TickFn))
    (drv : ofono_sim_driver) (file : List Nat)
    (hq : w.fs.op_q = some (op :: rest)) (hread : op.is_read = true)
    (hidle : w.idle = (sid, TickFn.op_next) :: idle1)
    (hdrv : w.fs.driver = some drv) (hinfo : drv.read_file_info = true)
    (hfile : w.files op.id = some file) (hbytes : ∀ x ∈ file, x < 256)
    (hbad : file.length < 38 ∨
      (if file.getD 3 0 = OFONO_SIM_FILE_STRUCTURE_TRANSPARENT then
          file.getD 1 0 * 256 + file.getD 2 0
        else file.getD 4 0 * 256 + file.getD 5 0) = 0 ∨
      file.getD 1 0 * 256 + file.getD 2 0 <
        (if file.getD 3 0 = OFONO_SIM_FILE_STRUCTURE_TRANSPARENT then
          file.getD 1 0 * 256 + file.getD 2 0
        else file.getD 4 0 * 256 + file.getD 5 0)) :
    ∃ w1, step m w = .ok (some w1) ∧
      w1.log = w.log ++ [Ev.drv (DrvReq.read_file_info op.id)] ∧
      w1.inflight = w.inflight ++ [DrvReq.read_file_info op.id] ∧
      w1.idle = idle1 ∧
      w1.files = w.files ∧ w1.fs.fd = w.fs.fd ∧ w1.fs.bitmap = w.fs.bitmap ∧
      w1.fs.buffer = w.fs.buffer ∧ w1.fs.op_q = w.fs.op_q := by
  obtain ⟨⟨q, src, bm, fd, buf, sim, drv0⟩, files, sys, idle, ns, inflight, log, viol⟩ := w
  simp only at hq hidle hdrv hfile
  subst hq hidle hdrv
  have hb : ∀ i, file.getD i 0 < 256 := by
    intro i
    rw [List.getD_eq_getElem?_getD]
    cases h : file[i]? with
    | none => simp
    | some x => exact hbytes x (List.getElem?_mem h)
  have hmiss : sim_fs_op_check_cached
      ⟨⟨some (op :: rest), 0, bm, fd, buf, sim, some drv⟩, files, sys, idle1, ns, inflight,
        log, viol⟩ =
      .ok (false, ⟨⟨some (op :: rest), 0, bm, fd, buf, sim, some drv⟩, files, sys, idle1,
        ns, inflight, log, viol⟩) := by
    by_cases himsi : sim.imsi = none
    · simp [sim_fs_op_check_cached, himsi]
    · simp only [sim_fs_op_check_cached, himsi, if_false, peek_head, hfile]
      by_cases hshort : file.length < 38
      · have : (pread file 0 SIM_CACHE_HEADER_SIZE).length ≠ SIM_CACHE_HEADER_SIZE := by
          simp [pread, SIM_CACHE_HEADER_SIZE]; omega
        simp [this]
      · have hlen : (pread file 0 38).length = 38 := by
          simp [pread]; omega
        have hbad2 := hbad.resolve_left hshort
        simp only [ne_eq, SIM_CACHE_HEADER_SIZE,
          getD_pread_header file 1 (by decide), getD_pread_header file 2 (by decide),
          getD_pread_header file 3 (by decide), getD_pread_header file 4 (by decide),
          getD_pread_header file 5 (by decide), shl8_or _ _ (hb 2), shl8_or _ _ (hb 5)]
        have hcond : ((if file.getD 3 0 = OFONO_SIM_FILE_STRUCTURE_TRANSPARENT then
              ((file.getD 1 0 * 256 + file.getD 2 0 : Nat) : Int)
            else ((file.getD 4 0 * 256 + file.getD 5 0 : Nat) : Int)) = 0 ∨
            ((file.getD 1 0 * 256 + file.getD 2 0 : Nat) : Int) <
              (if file.getD 3 0 = OFONO_SIM_FILE_STRUCTURE_TRANSPARENT then
                ((file.getD 1 0 * 256 + file.getD 2 0 : Nat) : Int)
              else ((file.getD 4 0 * 256 + file.getD 5 0 : Nat) : Int))) := by
          split_ifs at hbad2 ⊢ <;> omega
        rw [if_pos hcond]
        simp
  refine ⟨call_driver (DrvReq.read_file_info op.id)
    ⟨⟨some (op :: rest), 0, bm, fd, buf, sim, some drv⟩, files, sys, idle1, ns, inflight,
      log, viol⟩, ?_, ?_⟩
  · simp [step, run_tick, sim_fs_op_next, hread, hmiss, hinfo, Except.map]
  · simp [call_driver]

theorem malformed_header_is_cache_miss_witness :
    ∃ w1, step (card_modem (fun _ => none))
        (sim_fs_read (ex_world (ex_dir ([0, 0, 80, 1, 0, 0] ++ List.replicate 32 0)))
          0x6f05 OFONO_SIM_FILE_STRUCTURE_FIXED 0 0 1 77).2 = .ok (some w1) ∧
      w1.log = [Ev.drv (DrvReq.read_file_info 0x6f05)] ∧
      w1.files 0x6f05 = some ([0, 0, 80, 1, 0, 0] ++ List.replicate 32 0) ∧
      w1.fs.fd = none := by
  obtain ⟨w1, h1, h2, -, -, h3, h4, -⟩ := malformed_header_is_cache_miss
    (card_modem (fun _ => none))
    (sim_fs_read (ex_world (ex_dir ([0, 0, 80, 1, 0, 0] ++ List.replicate 32 0)))
      0x6f05 OFONO_SIM_FILE_STRUCTURE_FIXED 0 0 1 77).2
    ⟨0x6f05, OFONO_SIM_FILE_STRUCTURE_FIXED, 0, 0, 0, 0, 0, 1, true, 77⟩ [] 1 []
    full_driver ([0, 0, 80, 1, 0, 0] ++ List.replicate 32 0)
    rfl rfl rfl rfl rfl rfl (by decide) (Or.inr (Or.inl (by decide)))
  exact ⟨w1, h1, h2, by rw [h3]; rfl, by rw [h4]; rfl⟩

/-! ## `cache_block` -/

theorem pread_pwrite_before (file : List Nat) (pos : Nat) (bytes : List Nat)
    (p n : Nat) (h1 : p + n ≤ pos) (h2 : p + n ≤ file.length) :
    pread (pwrite file pos bytes) p n = pread file p n := by
  unfold pread pwrite
  have e : pos - file.length = 0 ∨ file.length ≤ pos := by omega
  rw [List.append_assoc, List.drop_append_eq_append_drop, List.take_append_eq_append_take]
  have hl : ((file ++ List.replicate (pos - file.length) 0).take pos).length = pos := by
    simp only [List.length_take, List.length_append, List.length_replicate]
    omega
  have hz : n - (List.drop p (List.take pos (file ++ List.replicate (pos - file.length) 0))).length
      = 0 := by
    simp only [List.length_drop, hl]
    omega
  rw [hz, List.take_zero, List.append_nil]
  rw [List.take_append_eq_append_take, List.drop_append_eq_append_drop,
    List.take_append_eq_append_take]
  have h3 : n - (List.drop p (List.take pos file)).length = 0 := by
    simp only [List.length_drop, List.length_take]
    omega
  rw [h3, List.take_zero, List.append_nil]
  apply List.ext_getElem?
  intro i
  by_cases hi : i < n
  · have hp : p + i < pos := by omega
    simp [List.getElem?_take, List.getElem?_drop, hi, hp]
  · simp [List.getElem?_take, hi]

/-- C13: `cache_block` marks nothing when the payload was not fully written.
With no descriptor open the call changes nothing at all; when `write` of the
`num_bytes` payload bytes at `38 + block * block_len` returns anything but
`num_bytes`, the call returns FALSE, the in-memory bitmap is as before and
so are bytes 6..37 of the cache file. -/
theorem cache_block_no_mark_without_payload (w : World) (block block_len : Int)
    (data : List Nat) (num_bytes : Int)
    (hb0 : 0 ≤ block) (hl : 0 ≤ block_len) (hn : 0 ≤ num_bytes)
    (hfail : w.fs.fd = none ∨
      w.sys.write (block * block_len + 38) num_bytes ≠ num_bytes) :
    (cache_block w block block_len data num_bytes).1 = false ∧
    (cache_block w block block_len data num_bytes).2.fs.bitmap = w.fs.bitmap ∧
    (cache_block w block block_len data num_bytes).2.fs.fd = w.fs.fd ∧
    (w.fs.fd = none → (cache_block w block block_len data num_bytes).2 = w) ∧
    ∀ f F, w.fs.fd = some f → w.files f = some F → 38 ≤ F.length →
      ∃ F1, (cache_block w block block_len data num_bytes).2.files f = some F1 ∧
        pread F1 6 32 = pread F 6 32 := by
  have hpos : ¬ block * block_len + 38 < 0 := by
    have := Int.mul_nonneg hb0 hl
    omega
  have hposn : 38 ≤ (block * block_len + 38).toNat := by
    have := Int.mul_nonneg hb0 hl
    omega
  cases hfd : w.fs.fd with
  | none =>
    simp [cache_block, hfd]
  | some f =>
    have hw : w.sys.write (block * block_len + 38) num_bytes ≠ num_bytes := by
      rcases hfail with h | h
      · rw [hfd] at h; exact absurd h (by simp)
      · exact h
    have hcount : ¬ num_bytes < 0 := by omega
    by_cases hr : w.sys.write (block * block_len + 38) num_bytes ≤ 0
    · have hsw : sys_write w f (block * block_len + 38) data num_bytes =
          (w.sys.write (block * block_len + 38) num_bytes, w) := by
        simp [sys_write, hcount, hr]
      simp only [cache_block, hfd, SIM_CACHE_HEADER_SIZE, Nat.cast_ofNat, if_neg hpos, hsw,
        ne_eq, hw, not_false_eq_true, if_true, true_and]
      refine ⟨fun h => absurd h (by simp), ?_⟩
      intro f1 F h1 h2 _
      exact ⟨F, h2, rfl⟩
    · simp only [cache_block, hfd, SIM_CACHE_HEADER_SIZE, Nat.cast_ofNat, if_neg hpos,
        sys_write, if_neg hcount, if_neg hr, ne_eq, hw, not_false_eq_true, if_true,
        true_and, flag_if_fs]
      refine ⟨fun h => absurd h (by simp), ?_⟩
      intro f1 F h1 h2 h3
      have : f = f1 := Option.some.inj h1
      subst this
      refine ⟨_, if_pos rfl, ?_⟩
      simp only [flag_if_files, h2, Option.getD_some]
      exact pread_pwrite_before _ _ _ _ _ (by omega) (by omega)

theorem cache_block_no_mark_without_payload_witness :
    (cache_block
        ⟨⟨some [], 0, List.replicate 32 0, some 0x6f05, none, ex_sim, some full_driver⟩,
          ex_dir (cache_header 10 0 0), ⟨true, fun _ n => n - 1, true⟩, [], 1, [], [], []⟩
        0 256 (List.range 10) 10).1 = false ∧
      (cache_block
        ⟨⟨some [], 0, List.replicate 32 0, some 0x6f05, none, ex_sim, some full_driver⟩,
          ex_dir (cache_header 10 0 0), ⟨true, fun _ n => n - 1, true⟩, [], 1, [], [], []⟩
        0 256 (List.range 10) 10).2.fs.bitmap = List.replicate 32 0 ∧
      ∃ F1, (cache_block
        ⟨⟨some [], 0, List.replicate 32 0, some 0x6f05, none, ex_sim, some full_driver⟩,
          ex_dir (cache_header 10 0 0), ⟨true, fun _ n => n - 1, true⟩, [], 1, [], [], []⟩
        0 256 (List.range 10) 10).2.files 0x6f05 = some F1 ∧
        pread F1 6 32 = List.replicate 32 0 := by
  obtain ⟨h1, h2, -, -, h5⟩ := cache_block_no_mark_without_payload
    ⟨⟨some [], 0, List.replicate 32 0, some 0x6f05, none, ex_sim, some full_driver⟩,
      ex_dir (cache_header 10 0 0), ⟨true, fun _ n => n - 1, true⟩, [], 1, [], [], []⟩
    0 256 (List.range 10) 10 (by decide) (by decide) (by decide) (Or.inr (by decide))
  obtain ⟨F1, h6, h7⟩ := h5 0x6f05 (cache_header 10 0 0) rfl rfl (by decide)
  exact ⟨h1, h2, F1, h6, h7.trans (by decide)⟩

theorem getElem?_pwrite (F : List Nat) (pos : Nat) (b : List Nat) (i : Nat) :
    (pwrite F pos b)[i]? =
      if i < pos then (if i < F.length then F[i]? else some 0)
      else if i < pos + b.length then b[i - pos]? else F[i]? := by
  unfold pwrite
  have hl : ((F ++ List.replicate (pos - F.length) 0).take pos).length = pos := by
    simp only [List.length_take, List.length_append, List.length_replicate]
    omega
  by_cases h1 : i < pos
  · rw [List.append_assoc, List.getElem?_append_left (by rw [hl]; exact h1), if_pos h1,
      List.getElem?_take_of_lt h1]
    by_cases h2 : i < F.length
    · rw [List.getElem?_append_left h2, if_pos h2]
    · rw [List.getElem?_append_right (by omega), if_neg h2, List.getElem?_replicate]
      simp
      omega
  · rw [if_neg h1, List.append_assoc, List.getElem?_append_right (by rw [hl]; omega), hl]
    by_cases h2 : i < pos + b.length
    · rw [if_pos h2, List.getElem?_append_left (by omega)]
    · rw [if_neg h2, List.getElem?_append_right (by omega), List.getElem?_drop]
      congr 1
      omega

theorem cache_block_done (q : Option (List sim_fs_op)) (src : Nat) (bm : List Nat)
    (f : Nat) (buf : Option (List Nat)) (sim : ofono_sim)
    (drv : Option ofono_sim_driver) (files : Nat → Option (List Nat)) (sys : Sys)
    (idle : List (Nat × TickFn)) (ns : Nat) (infl : List DrvReq) (log : List Ev)
    (viol : List Violation) (block block_len : Int) (data : List Nat)
    (hb0 : 0 ≤ block) (hb1 : block < 256) (hl : 0 ≤ block_len)
    (hw1 : sys.write (block * block_len + 38) data.length = data.length)
    (hw2 : sys.write (block / 8 + 6) 1 = 1) :
    cache_block ⟨⟨q, src, bm, some f, buf, sim, drv⟩, files, sys, idle, ns, infl, log,
        viol⟩ block block_len data data.length =
      (true, ⟨⟨q, src,
          bm.set (block / 8).toNat
            ((bitmap_get bm (block / 8) ||| 1 <<< (block % 8).toNat) % 256),
          some f, buf, sim, drv⟩,
        fun k => if k = f then
          some (pwrite
            (if data = [] then (files f).getD []
              else pwrite ((files f).getD []) (block * block_len + 38).toNat data)
            (block / 8 + 6).toNat
            [(bitmap_get bm (block / 8) ||| 1 <<< (block % 8).toNat) % 256])
          else files k,
        sys, idle, ns, infl, log, viol⟩) := by
  by_cases hd : data = []
  · subst hd
    have hpos : ¬ block * block_len + 38 < 0 := by
      have := Int.mul_nonneg hb0 hl
      omega
    have hdiv : cdiv block 8 = block / 8 := cdiv_nonneg _ _ hb0 (by omega)
    have hmod : cmod block 8 = block % 8 := cmod_nonneg _ _ hb0 (by omega)
    have hidx : 0 ≤ block / 8 ∧ block / 8 < 32 := by omega
    have hw0 : sys.write (block * block_len + 38) 0 = 0 := by simpa using hw1
    have hsw : sys_write ⟨⟨q, src, bm, some f, buf, sim, drv⟩, files, sys, idle, ns, infl,
        log, viol⟩ f (block * block_len + 38) [] 0 =
        (0, ⟨⟨q, src, bm, some f, buf, sim, drv⟩, files, sys, idle, ns, infl, log, viol⟩) := by
      simp [sys_write, hw0]
    simp only [cache_block, SIM_CACHE_HEADER_SIZE, SIM_FILE_INFO_SIZE, Nat.cast_ofNat,
      List.length_nil, Nat.cast_zero]
    rw [if_neg hpos, hsw]
    simp only [ne_eq, not_true_eq_false, if_false, hdiv, hmod, check_bitmap_index, flag_if,
      hidx, and_self, decide_True, decide_not, Bool.not_true, Bool.false_eq_true,
      decide_eq_true_eq]
    rw [sys_write_ok _ _ _ _ _ _ _ _ _ _ _ _ (by omega) hw2 (by simp)]
    simp
  · have hlen : 0 < data.length := List.length_pos.2 hd
    rw [cache_block_ok q src bm f buf sim drv files sys idle ns infl log viol block block_len
      data data.length hb0 hb1 hl (by omega) (by simp) hw1 hw2]
    simp [hd]

theorem unit_present_set_self (bm : List Nat) (k : Nat) (hk : k / 8 < bm.length) :
    unit_present
        (bm.set (k / 8) ((bm.getD (k / 8) 0 ||| 1 <<< (k % 8)) % 256)) (k : Int) = true := by
  rw [unit_present_iff]
  simp only [List.getD_eq_getElem?_getD, List.getElem?_set_self hk, Option.getD_some]
  rw [testBit_set_bit _ _ _ (Nat.mod_lt _ (by decide))]
  simp

theorem pread_pwrite_self (F : List Nat) (pos : Nat) (b : List Nat) :
    pread (pwrite F pos b) pos b.length = b := by
  unfold pread
  apply List.ext_getElem?
  intro i
  by_cases hi : i < b.length
  · rw [List.getElem?_take_of_lt hi, List.getElem?_drop, getElem?_pwrite]
    have h1 : ¬ pos + i < pos := by omega
    have h2 : pos + i < pos + b.length := by omega
    rw [if_neg h1, if_pos h2]
    congr 1
    omega
  · rw [List.getElem?_take_eq_none (by omega), List.getElem?_eq_none (by omega)]

theorem pread_pwrite_byte (F : List Nat) (p q n x : Nat) (h1 : q ≤ p)
    (h3 : q + n ≤ F.length) :
    pread (pwrite F p [x]) q n = (pread F q n).set (p - q) x := by
  unfold pread
  apply List.ext_getElem?
  intro i
  by_cases hi : i < n
  · rw [List.getElem?_take_of_lt hi, List.getElem?_drop, getElem?_pwrite]
    by_cases he : i = p - q
    · have e1 : ¬ q + i < p := by omega
      have e2 : q + i < p + [x].length := by simp; omega
      have e3 : q + i - p = 0 := by omega
      have e4 : p - q < (List.take n (List.drop q F)).length := by
        simp only [List.length_take, List.length_drop]; omega
      rw [if_neg e1, if_pos e2, e3, he, List.getElem?_set_self e4]
      rfl
    · rw [List.getElem?_set_ne (Ne.symm he), List.getElem?_take_of_lt hi, List.getElem?_drop]
      by_cases e1 : q + i < p
      · rw [if_pos e1, if_pos (by omega)]
      · have e2 : ¬ q + i < p + [x].length := by simp; omega
        rw [if_neg e1, if_neg e2]
  · rw [List.getElem?_take_eq_none (by omega), List.getElem?_eq_none]
    simp only [List.length_set, List.length_take, List.length_drop]
    omega

/-- What `cache_block` does when the bitmap bytes of the file equal the
in-memory bitmap.  Unit `k` (0..255) with unit size `u` and `n ≤ u` data
bytes, on an open cache file of at least the 38 header bytes, with both
writes succeeding: the call
returns TRUE; the file holds the data at offsets `38 + k * u ..`; bit
`k mod 8` of bitmap byte `k / 8` is set in memory and the file's bytes 6..37
equal the new in-memory bitmap; every other bitmap bit, the six
file-information bytes, every other byte the file had from offset 38 on, and
every other cache file are unchanged. -/
theorem cache_block_stores_unit (w : World) (f : Nat) (F : List Nat) (k u : Nat)
    (data : List Nat)
    (hfd : w.fs.fd = some f) (hfile : w.files f = some F) (hF : 38 ≤ F.length)
    (hsync : pread F 6 32 = w.fs.bitmap)
    (hk : k ≤ 255) (hn : data.length ≤ u)
    (hw1 : w.sys.write ((k : Int) * (u : Int) + 38) data.length = data.length)
    (hw2 : w.sys.write ((k : Int) / 8 + 6) 1 = 1) :
    ∃ F1, (cache_block w k u data data.length).1 = true ∧
      (cache_block w k u data data.length).2.files f = some F1 ∧
      pread F1 (38 + k * u) data.length = data ∧
      unit_present (cache_block w k u data data.length).2.fs.bitmap k = true ∧
      pread F1 6 32 = (cache_block w k u data data.length).2.fs.bitmap ∧
      (∀ j : Nat, j < 256 → j ≠ k →
        unit_present (cache_block w k u data data.length).2.fs.bitmap j =
          unit_present w.fs.bitmap j) ∧
      pread F1 0 6 = pread F 0 6 ∧
      (∀ i, 38 ≤ i → i < 38 + k * u ∨ 38 + k * u + data.length ≤ i → i < F.length →
        F1[i]? = F[i]?) ∧
      (∀ g, g ≠ f → (cache_block w k u data data.length).2.files g = w.files g) := by
  obtain ⟨⟨q, src, bm, fd, buf, sim, drv⟩, files, sys, idle, ns, inflight, log, viol⟩ := w
  simp only at hfd hfile hsync hw1 hw2
  subst hfd
  have hbl : bm.length = 32 := by
    rw [← hsync]; simp [pread]; omega
  rw [cache_block_done q src bm f buf sim drv files sys idle ns inflight log viol k u data
    (by omega) (by omega) (by omega) hw1 hw2]
  have e1 : (((k : Int)) / 8).toNat = k / 8 := by omega
  have e2 : (((k : Int)) % 8).toNat = k % 8 := by omega
  have e3 : ((k : Int) * (u : Int) + 38).toNat = 38 + k * u := by
    have e : (k : Int) * (u : Int) + 38 = ((38 + k * u : Nat) : Int) := by
      push_cast; ring
    rw [e]; exact Int.toNat_ofNat _
  have e4 : ((k : Int) / 8 + 6).toNat = k / 8 + 6 := by omega
  have e5 : bitmap_get bm ((k : Int) / 8) = bm.getD (k / 8) 0 := by
    unfold bitmap_get
    rw [if_pos (by omega), e1]
  simp only [e1, e2, e3, e4, e5, hfile, Option.getD_some, if_true]
  have hF1 : 38 ≤ (if data = [] then F else pwrite F (38 + k * u) data).length := by
    split_ifs
    · exact hF
    · simp only [pwrite, List.length_append, List.length_take, List.length_replicate,
        List.length_drop]
      omega
  have hpre : ∀ p n, p + n ≤ 38 →
      pread (if data = [] then F else pwrite F (38 + k * u) data) p n = pread F p n := by
    intro p n h
    split_ifs
    · rfl
    · exact pread_pwrite_before _ _ _ _ _ (by omega) (by omega)
  refine ⟨_, trivial, rfl, ?_, ?_, ?_, ?_, ?_, ?_, ?_⟩
  · rw [pread_pwrite_after _ _ _ _ _ (by simp; omega)]
    by_cases hd : data = []
    · subst hd; simp [pread]
    · rw [if_neg hd]; exact pread_pwrite_self _ _ _
  · exact unit_present_set_self bm k (by omega)
  · rw [pread_pwrite_byte _ _ _ _ _ (by omega) (by omega), hpre 6 32 (by omega), hsync]
    congr 1
  · intro j hj hne
    have := unit_present_set_other bm (k + 1) (j + 1) (by omega) (by omega) (by omega)
    simpa using this
  · rw [pread_pwrite_before _ _ _ _ _ (by omega) (by omega), hpre 0 6 (by omega)]
  · intro i h38 hout hi
    rw [getElem?_pwrite]
    have a1 : ¬ i < k / 8 + 6 := by omega
    have a2 : ¬ i < k / 8 + 6 + [(bm.getD (k / 8) 0 ||| 1 <<< (k % 8)) % 256].length := by
      simp; omega
    rw [if_neg a1, if_neg a2]
    by_cases hd : data = []
    · rw [if_pos hd]
    · rw [if_neg hd, getElem?_pwrite]
      rcases hout with h | h
      · rw [if_pos h, if_pos hi]
      · rw [if_neg (by omega), if_neg (by omega)]
  · intro g hg
    simp [hg]

theorem cache_block_stores_unit_witness :
    ∃ F1, (cache_block
        ⟨⟨some [], 0, List.replicate 32 0, some 0x6f05, none, ex_sim, some full_driver⟩,
          ex_dir (cache_header 10 0 0), Sys.ideal, [], 1, [], [], []⟩
        ((0 : Nat) : Int) ((256 : Nat) : Int) (List.range 10)
          (((List.range 10).length : Nat) : Int)).2.files 0x6f05 = some F1 ∧
      pread F1 (38 + 0 * 256) (List.range 10).length = List.range 10 ∧
      pread F1 6 32 = 1 :: List.replicate 31 0 := by
  obtain ⟨F1, -, h2, h3, -, h5, -⟩ := cache_block_stores_unit
    ⟨⟨some [], 0, List.replicate 32 0, some 0x6f05, none, ex_sim, some full_driver⟩,
      ex_dir (cache_header 10 0 0), Sys.ideal, [], 1, [], [], []⟩
    0x6f05 (cache_header 10 0 0) 0 256 (List.range 10) rfl rfl (by decide) (by decide)
    (by decide) (by decide) rfl rfl
  exact ⟨F1, h2, h3, h5.trans (by decide)⟩

/-! ## The header written at cache creation -/

/-- C15: when `sim_fs_op_info_cb` creates the cache file (IMSI available,
cacheable access bytes, `open` and the header `write` succeeding) for a
driver-reported length and record length in 0..65535 and a structure code
that fits a byte, the file is exactly 38 bytes: byte 0 is the error type 0,
bytes 1-2 the length, high byte first, byte 3 the structure code, bytes 4-5
the record length, high byte first, bytes 6..37 are zero. -/
theorem cache_creation_header (w : World) (op : sim_fs_op) (rest : List sim_fs_op)
    (length record_length : Int) (access : List Nat)
    (hq : w.fs.op_q = some (op :: rest)) (himsi : w.fs.sim.imsi ≠ none)
    (hc : cacheable access = true) (hopen : w.sys.can_create = true)
    (hwrite : w.sys.write 0 38 = 38)
    (hL0 : 0 ≤ length) (hL1 : length ≤ 65535)
    (hR0 : 0 ≤ record_length) (hR1 : record_length ≤ 65535)
    (hst : op.structure_ < 256) :
    ∃ w1 file, sim_fs_op_info_cb w OFONO_ERROR_TYPE_NO_ERROR length op.structure_
        record_length access = .ok w1 ∧
      w1.files op.id = some file ∧ file.length = 38 ∧
      file = [0, (length / 256).toNat, (length % 256).toNat, op.structure_,
          (record_length / 256).toNat, (record_length % 256).toNat] ++
        List.replicate 32 0 ∧
      ((length / 256).toNat * 256 + (length % 256).toNat : Nat) = length ∧
      ((record_length / 256).toNat * 256 + (record_length % 256).toNat : Nat) =
        record_length ∧
      (length / 256).toNat < 256 ∧ (length % 256).toNat < 256 ∧
      (record_length / 256).toNat < 256 ∧ (record_length % 256).toNat < 256 := by
  have hp : peek_head w = some op := by simp [peek_head, hq]
  have e1 : length / 256 % 256 = length / 256 := by omega
  have e2 : record_length / 256 % 256 = record_length / 256 := by omega
  have e3 : op.structure_ % 256 = op.structure_ := Nat.mod_eq_of_lt hst
  have h : ∃ w1, sim_fs_op_info_cb w OFONO_ERROR_TYPE_NO_ERROR length op.structure_
      record_length access = .ok w1 ∧
      w1.files op.id = some (cache_header length op.structure_ record_length) := by
    simp only [sim_fs_op_info_cb, hp, hc, hopen]
    simp [himsi, sys_write, idle_add, set_head, hq, hwrite, SIM_CACHE_HEADER_SIZE,
      OFONO_ERROR_TYPE_NO_ERROR, take_padded_eq]
  obtain ⟨w1, h1, h2⟩ := h
  refine ⟨w1, cache_header length op.structure_ record_length, h1, h2, by simp, ?_,
    by omega, by omega, by omega, by omega, by omega, by omega⟩
  simp [cache_header, e1, e2, e3, OFONO_ERROR_TYPE_NO_ERROR, SIM_CACHE_HEADER_SIZE,
    SIM_FILE_INFO_SIZE]

theorem cache_creation_header_witness :
    ∃ w1, sim_fs_op_info_cb
        (sim_fs_read (ex_world (fun _ => none)) 0x6f05 OFONO_SIM_FILE_STRUCTURE_FIXED
          0 0 1 77).2
        OFONO_ERROR_TYPE_NO_ERROR 300 OFONO_SIM_FILE_STRUCTURE_FIXED 20
        [0x0f, 0x00, 0xff] = .ok w1 ∧
      w1.files 0x6f05 = some ([0, 1, 44, 1, 0, 20] ++ List.replicate 32 0) := by
  obtain ⟨w1, file, h1, h2, -, h3, -⟩ := cache_creation_header
    (sim_fs_read (ex_world (fun _ => none)) 0x6f05 OFONO_SIM_FILE_STRUCTURE_FIXED
      0 0 1 77).2
    ⟨0x6f05, OFONO_SIM_FILE_STRUCTURE_FIXED, 0, 0, 0, 0, 0, 1, true, 77⟩ [] 300 20
    [0x0f, 0x00, 0xff] rfl (by decide) (by decide) rfl rfl (by decide) (by decide)
    (by decide) (by decide) (by decide)
  exact ⟨w1, h1, by rw [h2, h3]; rfl⟩

/-! ## Enqueueing -/

/-- C17: `sim_fs_read` returns -1 exactly when the callback is NULL, the
driver is NULL or the driver has no `read_file_info`, and then the world is
unchanged.  Otherwise it returns 0, the queue is the old queue (empty for a
NULL queue) followed by exactly one read record holding the id, the expected
structure, the offset, the byte count, the callback and the userdata, every
other engine field but the tick handle is unchanged, and `sim_fs_op_next` is
scheduled (its source id stored as the handle) exactly when the queue was
empty before the call. -/
theorem sim_fs_read_enqueues (w : World) (id st offset num_bytes cb data : Nat) :
    ((sim_fs_read w id st offset num_bytes cb data).1 = -1 ↔
      (cb = 0 ∨ w.fs.driver = none ∨
        ∃ d, w.fs.driver = some d ∧ d.read_file_info = false)) ∧
    ((sim_fs_read w id st offset num_bytes cb data).1 = -1 →
      (sim_fs_read w id st offset num_bytes cb data).2 = w) ∧
    ((sim_fs_read w id st offset num_bytes cb data).1 ≠ -1 →
      (sim_fs_read w id st offset num_bytes cb data).1 = 0 ∧
      (sim_fs_read w id st offset num_bytes cb data).2.fs.op_q =
        some (w.fs.op_q.getD [] ++
          [⟨id, st, offset % 65536, ((num_bytes % 65536 : Nat) : Int), 0, 0, 0, cb, true,
            data⟩]) ∧
      (sim_fs_read w id st offset num_bytes cb data).2.fs.buffer = w.fs.buffer ∧
      (sim_fs_read w id st offset num_bytes cb data).2.fs.fd = w.fs.fd ∧
      (sim_fs_read w id st offset num_bytes cb data).2.fs.bitmap = w.fs.bitmap ∧
      (sim_fs_read w id st offset num_bytes cb data).2.files = w.files ∧
      (sim_fs_read w id st offset num_bytes cb data).2.log = w.log ∧
      (sim_fs_read w id st offset num_bytes cb data).2.inflight = w.inflight ∧
      (w.fs.op_q.getD [] = [] →
        (sim_fs_read w id st offset num_bytes cb data).2.idle =
          w.idle ++ [(w.next_source, TickFn.op_next)] ∧
        (sim_fs_read w id st offset num_bytes cb data).2.fs.op_source = w.next_source) ∧
      (w.fs.op_q.getD [] ≠ [] →
        (sim_fs_read w id st offset num_bytes cb data).2.idle = w.idle ∧
        (sim_fs_read w id st offset num_bytes cb data).2.fs.op_source =
          w.fs.op_source)) := by
  unfold sim_fs_read
  by_cases hcb : cb = 0
  · simp [hcb]
  · cases hd : w.fs.driver with
    | none => simp [hcb]
    | some d =>
      by_cases hi : d.read_file_info = false
      · simp [hcb, hi]
      · have hi2 : d.read_file_info = true := by
          cases h : d.read_file_info with
          | false => exact absurd h hi
          | true => rfl
        simp only [hcb, hi2, if_false, Bool.true_eq_false]
        cases hq : w.fs.op_q.getD [] with
        | nil => simp [idle_add, hi2]
        | cons o r => simp [idle_add, hi2]

/-! ## Queued writes -/

set_option maxRecDepth 100000 in
/-- C18 (defect): two writes enqueued before the main loop runs, 3 bytes
`01 02 03` for EF `0x6f05` and then 2 bytes `09 09` for EF `0x6f06`.
`sim_fs_write` keeps the duplicated payload in the engine-wide `fs->buffer`,
so the second call replaces the first payload: the driver is asked to write
length 3 from the second caller's two bytes to `0x6f05`, and `0x6f06` is
written from a NULL buffer.  Both callers are told `1`. -/
theorem queued_writes_share_one_buffer :
    (run (card_modem (fun _ => none)) 8
        (sim_fs_write
          (sim_fs_write (ex_world (fun _ => none)) 0x6f05 1
            OFONO_SIM_FILE_STRUCTURE_TRANSPARENT 0 (some [1, 2, 3]) 3 77).2
          0x6f06 2 OFONO_SIM_FILE_STRUCTURE_TRANSPARENT 0 (some [9, 9]) 2 78).2).map
        (fun w => (w.log, w.idle, w.inflight)) =
      .ok ([Ev.drv (DrvReq.write_file_transparent 0x6f05 0 3 (some [9, 9])),
          Ev.write_cb 1 1 77,
          Ev.drv (DrvReq.write_file_transparent 0x6f06 0 2 none),
          Ev.write_cb 2 1 78], [], []) := by
  rfl

/-! ## The version sentinel -/

theorem lower_hex_facts : ∀ c ∈ lower_hex,
    (hex_value c).isSome = true ∧ (hex_value c).getD 0 < 16 ∧
      Nat.digitChar ((hex_value c).getD 0) = c ∧ c ≠ 'x' ∧ c ≠ 'X' ∧ c ≠ '-' ∧ c ≠ '+' ∧
      (decide (c = ' ' ∨ c = '\t' ∨ c = '\n' ∨ c = '\r' ∨ c.toNat = 11 ∨ c.toNat = 12)) =
        false := by
  decide

theorem sscanf_hex4 (name : String) (h : is_hex4 name = true) :
    ∃ id, sscanf_4x name = some id ∧ fmt_04x id = name := by
  obtain ⟨l⟩ := name
  simp only [is_hex4, decide_eq_true_eq, Bool.and_eq_true, Bool.decide_and,
    List.all_eq_true] at h
  obtain ⟨hlen, hall⟩ := h
  match l, hlen, hall with
  | [a, b, c, d], _, hall =>
    obtain ⟨ha1, ha2, ha3, -, -, ha6, ha7, ha8⟩ := lower_hex_facts a (hall a (by simp))
    obtain ⟨hb1, hb2, hb3, hb4, hb5, -⟩ := lower_hex_facts b (hall b (by simp))
    obtain ⟨hc1, hc2, hc3, -⟩ := lower_hex_facts c (hall c (by simp))
    obtain ⟨hd1, hd2, hd3, -⟩ := lower_hex_facts d (hall d (by simp))
    obtain ⟨da, hda⟩ := Option.isSome_iff_exists.1 ha1
    obtain ⟨db, hdb⟩ := Option.isSome_iff_exists.1 hb1
    obtain ⟨dc, hdc⟩ := Option.isSome_iff_exists.1 hc1
    obtain ⟨dd, hdd⟩ := Option.isSome_iff_exists.1 hd1
    rw [hda] at ha2 ha3
    rw [hdb] at hb2 hb3
    rw [hdc] at hc2 hc3
    rw [hdd] at hd2 hd3
    simp only [Option.getD_some] at ha2 ha3 hb2 hb3 hc2 hc3 hd2 hd3
    refine ⟨((da * 16 + db) * 16 + dc) * 16 + dd, ?_, ?_⟩
    · have hdrop : List.dropWhile
          (fun c => decide (c = ' ' ∨ c = '\t' ∨ c = '\n' ∨ c = '\r' ∨ c.toNat = 11 ∨
            c.toNat = 12)) [a, b, c, d] = [a, b, c, d] := by
        rw [List.dropWhile_cons, ha8]
        rfl
      have hx : ¬ (a = '0' ∧ (b = 'x' ∨ b = 'X') ∧ 2 ≤ 4) := by
        rintro ⟨-, h | h, -⟩
        · exact hb4 h
        · exact hb5 h
      simp only [sscanf_4x, hdrop, if_neg ha6, if_neg ha7, if_neg hx, scan_hex, hda, hdb,
        hdc, hdd, zero_mul, zero_add]
      simp
    · have hlt : ((da * 16 + db) * 16 + dc) * 16 + dd < 65536 := by omega
      have e1 : (((da * 16 + db) * 16 + dc) * 16 + dd) / 4096 % 16 = da := by omega
      have e2 : (((da * 16 + db) * 16 + dc) * 16 + dd) / 256 % 16 = db := by omega
      have e3 : (((da * 16 + db) * 16 + dc) * 16 + dd) / 16 % 16 = dc := by omega
      have e4 : (((da * 16 + db) * 16 + dc) * 16 + dd) % 16 = dd := by omega
      simp only [fmt_04x, if_pos hlt, e1, e2, e3, e4, ha3, hb3, hc3, hd3]

theorem remove_cachefile_subset (dir : List dirent) (file : dirent) :
    ∀ e ∈ remove_cachefile dir file, e ∈ dir := by
  intro e he
  unfold remove_cachefile at he
  split at he
  · exact he
  · split at he
    · exact he
    · exact (List.mem_filter.1 he).1

theorem foldl_remove_cachefile_subset (entries : List dirent) :
    ∀ dir : List dirent, ∀ e ∈ entries.foldl remove_cachefile dir, e ∈ dir := by
  induction entries with
  | nil => intro dir e he; exact he
  | cons g rest ih =>
    intro dir e he
    exact remove_cachefile_subset dir g e (ih _ e he)

theorem foldl_remove_cachefile_removes (entries : List dirent) (f : dirent)
    (hreg : f.is_reg = true) (hhex : is_hex4 f.d_name = true) :
    ∀ dir : List dirent, f ∈ entries →
      ∀ e ∈ entries.foldl remove_cachefile dir, e.d_name ≠ f.d_name := by
  induction entries with
  | nil => intro dir hf; simp at hf
  | cons g rest ih =>
    intro dir hf e he
    rcases List.mem_cons.1 hf with h | h
    · subst h
      obtain ⟨id, h1, h2⟩ := sscanf_hex4 f.d_name hhex
      have hmem := foldl_remove_cachefile_subset rest _ e he
      simp only [remove_cachefile, hreg, Bool.true_eq_false, if_false, h1, h2, remove,
        List.mem_filter, decide_eq_true_eq] at hmem
      exact hmem.2
    · exact ih _ h e he

/-- C19: `sim_fs_check_version` leaves the directory as it is when the first
byte of the `version` file is `SIM_FS_VERSION`.  When the file is absent,
empty or starts with any other byte, then, whatever the order of the
directory entries, no regular file whose name is four lower-case hexadecimal
digits is left, nothing appears but the sentinel, and when `write_file`
succeeds the directory has exactly one `version` file, holding the byte 1. -/
theorem check_version_gate (write_ok : Bool) (dir : List dirent) :
    (read_file dir "version" 1 = [SIM_FS_VERSION] →
      sim_fs_check_version write_ok dir = dir) ∧
    (read_file dir "version" 1 ≠ [SIM_FS_VERSION] →
      (∀ e ∈ sim_fs_check_version write_ok dir,
        ¬ (e.is_reg = true ∧ is_hex4 e.d_name = true)) ∧
      (∀ e ∈ sim_fs_check_version write_ok dir,
        e ∈ dir ∨ e = ⟨"version", true, [SIM_FS_VERSION]⟩) ∧
      (write_ok = true →
        (sim_fs_check_version write_ok dir).filter (fun e => e.d_name = "version") =
          [⟨"version", true, [SIM_FS_VERSION]⟩])) := by
  refine ⟨fun h => by simp [sim_fs_check_version, h], fun h => ?_⟩
  have hwiped : ∀ e ∈ dir.reverse.foldl remove_cachefile dir,
      e ∈ dir ∧ ¬ (e.is_reg = true ∧ is_hex4 e.d_name = true) := by
    intro e he
    have hin := foldl_remove_cachefile_subset _ _ e he
    refine ⟨hin, fun hh => ?_⟩
    exact foldl_remove_cachefile_removes dir.reverse e hh.1 hh.2 dir
      (List.mem_reverse.2 hin) e he rfl
  simp only [sim_fs_check_version, h, if_false]
  cases write_ok with
  | false =>
    simp only [write_file, Bool.false_eq_true, if_false]
    exact ⟨fun e he => (hwiped e he).2, fun e he => Or.inl (hwiped e he).1,
      fun hh => absurd hh (by simp)⟩
  | true =>
    simp only [write_file, if_true]
    refine ⟨?_, ?_, fun _ => ?_⟩
    · intro e he
      rcases List.mem_append.1 he with h1 | h1
      · exact (hwiped e (List.mem_filter.1 h1).1).2
      · rw [List.mem_singleton.1 h1]
        decide
    · intro e he
      rcases List.mem_append.1 he with h1 | h1
      · exact Or.inl (hwiped e (List.mem_filter.1 h1).1).1
      · exact Or.inr (List.mem_singleton.1 h1)
    · rw [List.filter_append]
      have : List.filter (fun e => decide (e.d_name = "version"))
          (remove (dir.reverse.foldl remove_cachefile dir) "version") = [] := by
        simp [remove, List.filter_filter]
      rw [this]
      rfl

theorem check_version_gate_witness :
    sim_fs_check_version true ex_old_dir = [⟨"version", true, [1]⟩] ∧
    sim_fs_check_version true [⟨"6f05", true, ex_file10⟩, ⟨"version", true, [1]⟩] =
      [⟨"6f05", true, ex_file10⟩, ⟨"version", true, [1]⟩] := by
  refine ⟨?_, (check_version_gate true
    [⟨"6f05", true, ex_file10⟩, ⟨"version", true, [1]⟩]).1 (by decide)⟩
  decide

/-! ## Transparent reads over any cache state -/

theorem cmod_natCast_256 (a : Nat) : cmod (a : Int) 256 = ((a % 256 : Nat) : Int) := by
  rw [cmod_nonneg _ _ (by omega) (by omega)]; omega

theorem callbacks_of_append (a b : List Ev) :
    callbacks_of (a ++ b) = callbacks_of a ++ callbacks_of b := by
  simp [callbacks_of]

theorem slices_agree (op : sim_fs_op) (c L len : Nat)
    (hc : op.current = (c : Int)) (hL : op.length = (L : Int))
    (hstart : op.offset / 256 ≤ c) (hin : c * 256 < L)
    (hlen : len = min (L - c * 256) 256) :
    block_cache_slice op =
      ((block_cb_slice op len).1,
        38 + (c : Int) * 256 + (block_cb_slice op len).2.1,
        (block_cb_slice op len).2.2) ∧
    0 ≤ (block_cb_slice op len).1 ∧ 0 ≤ (block_cb_slice op len).2.1 ∧
    0 < (block_cb_slice op len).2.2 ∧ (block_cb_slice op len).2.2 ≤ 256 := by
  have h1 := cdiv_natCast_256 op.offset
  have h2 := cmod_natCast_256 op.offset
  have h3 : op.offset % 256 < 256 := Nat.mod_lt _ (by decide)
  unfold block_cache_slice block_cb_slice
  simp only [h1, h2, hc, hL, SIM_CACHE_HEADER_SIZE, Nat.cast_ofNat]
  by_cases hs : (c : Int) = ((op.offset / 256 : Nat) : Int)
  · simp only [hs, if_true]
    refine ⟨?_, le_refl _, by omega, by omega, by omega⟩
    have e : min (256 - ((op.offset % 256 : Nat) : Int))
        ((L : Int) - ((op.offset / 256 : Nat) : Int) * 256) =
        min (256 - ((op.offset % 256 : Nat) : Int)) (len : Int) := by
      rw [← hs]; omega
    rw [e]
  · simp only [hs, if_false]
    refine ⟨?_, by omega, le_refl _, by omega, by omega⟩
    have e : min (256 : Int) ((L : Int) - (c : Int) * 256) = (len : Int) := by omega
    rw [e]
    simp

theorem getElem?_store_at (buf src : List Nat) (off : Int) (h0 : 0 ≤ off) (i : Nat) :
    (store_at buf off src)[i]? =
      if off.toNat ≤ i ∧ i < off.toNat + src.length ∧ i < buf.length then
        src[i - off.toNat]?
      else buf[i]? := by
  unfold store_at
  rw [if_neg (by omega)]
  have hlen : (List.take off.toNat buf ++ List.take (buf.length - off.toNat) src ++
      List.drop (off.toNat + src.length) buf).length = buf.length := by
    simp only [List.length_append, List.length_take, List.length_drop]
    omega
  by_cases h2 : i < buf.length
  · by_cases h1 : i < off.toNat
    · have hl : i < (List.take off.toNat buf).length := by
        simp only [List.length_take]; omega
      rw [if_neg (by omega), List.append_assoc, List.getElem?_append_left hl,
        List.getElem?_take_of_lt h1]
    · have hl : (List.take off.toNat buf).length = off.toNat := by
        simp only [List.length_take]; omega
      rw [List.append_assoc, List.getElem?_append_right (by omega), hl]
      by_cases h3 : i < off.toNat + src.length
      · have hl2 : i - off.toNat < (List.take (buf.length - off.toNat) src).length := by
          simp only [List.length_take]; omega
        rw [if_pos ⟨by omega, h3, h2⟩, List.getElem?_append_left hl2,
          List.getElem?_take_of_lt (by omega)]
      · have hl2 : (List.take (buf.length - off.toNat) src).length = src.length := by
          simp only [List.length_take]; omega
        rw [if_neg (by omega), List.getElem?_append_right (by omega), List.getElem?_drop,
          hl2]
        congr 1
        omega
  · rw [if_neg (by omega), List.getElem?_eq_none (by omega),
      List.getElem?_eq_none (by omega)]

theorem store_at_absorb (buf g s : List Nat) (off : Int) (h : g.length ≤ s.length) :
    store_at (store_at buf off g) off s = store_at buf off s := by
  by_cases h0 : off < 0
  · simp [store_at, h0]
  · apply List.ext_getElem?
    intro i
    rw [getElem?_store_at _ _ _ (by omega), getElem?_store_at _ _ _ (by omega),
      getElem?_store_at _ _ _ (by omega), store_at_length]
    by_cases hc : off.toNat ≤ i ∧ i < off.toNat + s.length ∧ i < buf.length
    · rw [if_pos hc, if_pos hc]
    · rw [if_neg hc, if_neg hc, if_neg (by omega)]

theorem copy_block_length (m : Modem) (op : sim_fs_op) (c : Nat) (buf : List Nat) :
    (copy_block m op c buf).length = buf.length := by
  simp [copy_block]

theorem assemble_length (m : Modem) (op : sim_fs_op) :
    ∀ (k c : Nat) (buf : List Nat), (assemble m op k c buf).length = buf.length := by
  intro k
  induction k with
  | zero => intro c buf; rfl
  | succ k ih => intro c buf; rw [assemble, ih, copy_block_length]

theorem assemble_add (m : Modem) (op : sim_fs_op) :
    ∀ (a b c : Nat) (buf : List Nat),
      assemble m op (a + b) c buf = assemble m op b (c + a) (assemble m op a c buf) := by
  intro a
  induction a with
  | zero => intro b c buf; simp [assemble]
  | succ a ih =>
    intro b c buf
    have e : a + 1 + b = (a + b) + 1 := by omega
    rw [e, assemble, ih, assemble]
    congr 1
    omega

theorem assemble_succ (m : Modem) (op : sim_fs_op) (k c : Nat) (buf : List Nat) :
    assemble m op (k + 1) c buf = copy_block m op (c + k) (assemble m op k c buf) := by
  rw [assemble_add m op k 1 c buf]
  rfl

theorem end_block_eq (o n : Nat) (hn : 1 ≤ n) :
    cdiv ((o : Int) + ((n : Int) - 1)) 256 = (((o + n - 1) / 256 : Nat) : Int) := by
  have e : (o : Int) + ((n : Int) - 1) = ((o + n - 1 : Nat) : Int) := by omega
  rw [e, cdiv_natCast_256]

/-- The slice of block `c` in closed form. -/
theorem block_slice_eq (m : Modem) (op : sim_fs_op) (c : Nat) :
    block_slice m op c =
      if c = op.offset / 256 then
        (0, ((op.offset % 256 : Nat) : Int),
          min (256 - ((op.offset % 256 : Nat) : Int))
            ((block_reply m op.id op.length c).data.length : Int))
      else
        (((c : Int) - ((op.offset / 256 : Nat) : Int) - 1) * 256 +
            ((op.offset % 256 : Nat) : Int), 0,
          ((block_reply m op.id op.length c).data.length : Int)) := by
  unfold block_slice block_cb_slice
  simp only [cdiv_natCast_256, cmod_natCast_256, Nat.cast_inj]

theorem block_slice_current (m : Modem) (op : sim_fs_op) (x : Int) (c : Nat) :
    block_slice m { op with current := x } c = block_slice m op c := rfl

theorem block_slice_bounds (m : Modem) (op : sim_fs_op) (c L : Nat)
    (hs : op.offset / 256 ≤ c) (hin : c * 256 < L)
    (hlen : (block_reply m op.id op.length c).data.length = min (L - c * 256) 256) :
    0 ≤ (block_slice m op c).1 ∧ 0 ≤ (block_slice m op c).2.1 ∧
      0 < (block_slice m op c).2.2 ∧ (block_slice m op c).2.2 ≤ 256 ∧
      (block_slice m op c).2.2 ≤ ((block_reply m op.id op.length c).data.length : Int) := by
  have h3 : op.offset % 256 < 256 := Nat.mod_lt _ (by decide)
  rw [block_slice_eq]
  by_cases h : c = op.offset / 256
  · simp only [h, if_true]
    rw [h] at hlen hin
    omega
  · simp only [h, if_false]
    omega

theorem getElem?_pread (F : List Nat) (p k i : Nat) :
    (pread F p k)[i]? = if i < k then F[p + i]? else none := by
  unfold pread
  by_cases h : i < k
  · rw [if_pos h, List.getElem?_take_of_lt h, List.getElem?_drop]
  · rw [if_neg h, List.getElem?_take_eq_none (by omega)]

theorem getElem?_take_padded (d : List Nat) (k i : Nat) (h1 : i < k) (h2 : i < d.length) :
    (take_padded d k)[i]? = d[i]? := by
  unfold take_padded
  rw [List.getElem?_append_left (by simp only [List.length_take]; omega),
    List.getElem?_take_of_lt h1]

theorem store_at_congr (buf a b : List Nat) (off : Int) (hl : a.length = b.length)
    (h : ∀ i : Nat, off.toNat + i < buf.length → a[i]? = b[i]?) :
    store_at buf off a = store_at buf off b := by
  by_cases h0 : off < 0
  · simp [store_at, h0]
  · apply List.ext_getElem?
    intro i
    rw [getElem?_store_at _ _ _ (by omega), getElem?_store_at _ _ _ (by omega), hl]
    by_cases hc : off.toNat ≤ i ∧ i < off.toNat + b.length ∧ i < buf.length
    · rw [if_pos hc, if_pos hc]
      exact h _ (by omega)
    · rw [if_neg hc, if_neg hc]

/-! ## The queue discipline -/

theorem set_head_log (op : sim_fs_op) (w : World) : (set_head op w).log = w.log := by
  unfold set_head
  split <;> rfl

theorem set_head_op_q (op op0 : sim_fs_op) (rest : List sim_fs_op) (w : World)
    (h : w.fs.op_q = some (op0 :: rest)) :
    (set_head op w).fs.op_q = some (op :: rest) := by
  unfold set_head
  rw [h]

theorem end_current_log (w : World) : (sim_fs_end_current w).log = w.log := by
  unfold sim_fs_end_current
  simp only
  split <;> rfl

theorem end_current_queue (w : World) :
    queue_owners (sim_fs_end_current w) = (queue_owners w).tail := by
  unfold sim_fs_end_current queue_owners
  simp only
  split <;> cases w.fs.op_q <;> simp [idle_add, List.map_tail]

theorem sys_write_log (w : World) (id : Nat) (pos : Int) (data : List Nat) (count : Int) :
    (sys_write w id pos data count).2.log = w.log := by
  unfold sys_write
  split
  · rfl
  · simp only
    split <;> rfl

theorem sys_write_fs (w : World) (id : Nat) (pos : Int) (data : List Nat) (count : Int) :
    (sys_write w id pos data count).2.fs = w.fs := by
  unfold sys_write
  split
  · rfl
  · simp only
    split <;> rfl

theorem cache_block_log (w : World) (block block_len : Int) (data : List Nat)
    (num_bytes : Int) : (cache_block w block block_len data num_bytes).2.log = w.log := by
  unfold cache_block
  split
  · rfl
  · split
    · rfl
    · simp only
      split
      · exact sys_write_log _ _ _ _ _
      · split
        · rw [sys_write_log]
          simp only [check_bitmap_index, flag_if_log]
          exact sys_write_log _ _ _ _ _
        · simp only
          rw [sys_write_log]
          simp only [check_bitmap_index, flag_if_log]
          exact sys_write_log _ _ _ _ _

theorem cache_block_op_q (w : World) (block block_len : Int) (data : List Nat)
    (num_bytes : Int) :
    (cache_block w block block_len data num_bytes).2.fs.op_q = w.fs.op_q := by
  unfold cache_block
  split
  · rfl
  · split
    · rfl
    · simp only
      split
      · rw [sys_write_fs]
      · split
        · rw [sys_write_fs]
          simp only [check_bitmap_index, flag_if_fs]
          rw [sys_write_fs]
        · simp only
          rw [sys_write_fs]
          simp only [check_bitmap_index, flag_if_fs]
          rw [sys_write_fs]

theorem memcpy_log_op_q (w w1 : World) (bufoff : Int) (data : List Nat)
    (dataoff tocopy : Int) (h : memcpy_to_buffer w bufoff data dataoff tocopy = .ok w1) :
    w1.log = w.log ∧ w1.fs.op_q = w.fs.op_q := by
  unfold memcpy_to_buffer at h
  split at h
  · split at h
    · cases h; exact ⟨rfl, rfl⟩
    · cases h
  · cases h; exact ⟨rfl, rfl⟩

theorem sys_read_buffer_log (w : World) (id : Nat) (pos bufoff toread : Int) :
    (sys_read_buffer w id pos bufoff toread).2.log = w.log := by
  unfold sys_read_buffer
  split <;> rfl

theorem sys_read_buffer_op_q (w : World) (id : Nat) (pos bufoff toread : Int) :
    (sys_read_buffer w id pos bufoff toread).2.fs.op_q = w.fs.op_q := by
  unfold sys_read_buffer
  split <;> rfl

theorem sys_read_buffer_fd (w : World) (id : Nat) (pos bufoff toread : Int) :
    (sys_read_buffer w id pos bufoff toread).2.fs.fd = w.fs.fd := by
  unfold sys_read_buffer
  split <;> rfl

/-- The cache loop of `sim_fs_op_read_block` invokes no callback and leaves
the queue alone. -/
theorem read_block_cached_frame :
    ∀ (fuel : Nat) (w : World) (op : sim_fs_op),
      (read_block_cached fuel w op).1.log = w.log ∧
      (read_block_cached fuel w op).1.fs.op_q = w.fs.op_q ∧
      owner_of_op (read_block_cached fuel w op).2 = owner_of_op op := by
  intro fuel
  induction fuel with
  | zero => intro w op; exact ⟨rfl, rfl, rfl⟩
  | succ n ih =>
    intro w op
    unfold read_block_cached
    split
    · exact ⟨rfl, rfl, rfl⟩
    · split
      · simp only
        split
        · exact ⟨rfl, rfl, rfl⟩
        · split
          · exact ⟨rfl, rfl, rfl⟩
          · split
            · exact ⟨by rw [sys_read_buffer_log]; rfl, by rw [sys_read_buffer_op_q]; rfl,
                rfl⟩
            · obtain ⟨h1, h2, h3⟩ := ih
                (sys_read_buffer (check_bitmap_index (cdiv op.current 8) w) _
                  (block_cache_slice op).2.1 (block_cache_slice op).1
                  (block_cache_slice op).2.2).2
                { op with current := op.current + 1 }
              exact ⟨by rw [h1, sys_read_buffer_log]; rfl,
                by rw [h2, sys_read_buffer_op_q]; rfl, by rw [h3]; rfl⟩
      · exact ⟨rfl, rfl, rfl⟩

theorem callback_owners_append (a b : List Ev) :
    callback_owners (a ++ b) = callback_owners a ++ callback_owners b := by
  simp [callback_owners]

theorem frame_trans (w w1 w2 : World) (op op1 op2 : sim_fs_op)
    (h1 : ∃ k : Nat, callback_owners w1.log =
      callback_owners w.log ++ List.replicate k (owner_of_op op))
    (h1q : w1.fs.op_q = w.fs.op_q) (h1o : owner_of_op op1 = owner_of_op op)
    (h2 : (∃ k : Nat, callback_owners w2.log =
        callback_owners w1.log ++ List.replicate k (owner_of_op op1)) ∧
      w2.fs.op_q = w1.fs.op_q ∧ owner_of_op op2 = owner_of_op op1) :
    (∃ k : Nat, callback_owners w2.log =
        callback_owners w.log ++ List.replicate k (owner_of_op op)) ∧
      w2.fs.op_q = w.fs.op_q ∧ owner_of_op op2 = owner_of_op op := by
  obtain ⟨k1, h1⟩ := h1
  obtain ⟨⟨k2, h2⟩, h2q, h2o⟩ := h2
  refine ⟨⟨k1 + k2, ?_⟩, h2q.trans h1q, h2o.trans h1o⟩
  rw [h2, h1, h1o, List.append_assoc, ← List.replicate_add]

/-- The cache loop of `sim_fs_op_read_record` invokes only the callback of
the operation it is given and leaves the queue alone. -/
theorem read_record_cached_frame :
    ∀ (fuel : Nat) (w : World) (op : sim_fs_op),
      (∃ k : Nat, callback_owners (read_record_cached fuel w op).1.log =
        callback_owners w.log ++ List.replicate k (owner_of_op op)) ∧
      (read_record_cached fuel w op).1.fs.op_q = w.fs.op_q ∧
      owner_of_op (read_record_cached fuel w op).2 = owner_of_op op := by
  intro fuel
  induction fuel with
  | zero => intro w op; exact ⟨⟨0, by simp [read_record_cached]⟩, rfl, rfl⟩
  | succ n ih =>
    intro w op
    unfold read_record_cached
    split
    · exact ⟨⟨0, by simp⟩, rfl, rfl⟩
    · simp only
      split_ifs
      all_goals first
        | exact ⟨⟨0, by simp [check_bitmap_index]⟩, rfl, rfl⟩
        | (refine frame_trans _ _ _ _ _ _ ?_ ?_ ?_ (ih _ _)
           · exact ⟨1, by
               simp [emit, check_bitmap_index, callback_owners, owner_of_ev, owner_of_op]⟩
           · rfl
           · rfl)

theorem peek_head_cases (w : World) :
    peek_head w = none ∨
      ∃ op rest, w.fs.op_q = some (op :: rest) ∧ peek_head w = some op := by
  unfold peek_head
  cases h : w.fs.op_q with
  | none => exact Or.inl rfl
  | some l =>
    cases l with
    | nil => exact Or.inl rfl
    | cons op rest => exact Or.inr ⟨op, rest, rfl, rfl⟩

theorem queue_owners_cons (w : World) (op : sim_fs_op) (rest : List sim_fs_op)
    (h : w.fs.op_q = some (op :: rest)) :
    queue_owners w = owner_of_op op :: rest.map owner_of_op := by
  simp [queue_owners, h]

theorem serves_head_of (w w1 : World) (op : sim_fs_op) (rest : List sim_fs_op) (k : Nat)
    (hq : w.fs.op_q = some (op :: rest))
    (hlog : callback_owners w1.log =
      callback_owners w.log ++ List.replicate k (owner_of_op op))
    (hq1 : queue_owners w1 = owner_of_op op :: rest.map owner_of_op ∨
      queue_owners w1 = rest.map owner_of_op) :
    serves_head w w1 := by
  refine ⟨k, ?_, ?_, ?_⟩
  · rw [hlog, queue_owners_cons w op rest hq]
    rfl
  · rw [queue_owners_cons w op rest hq]
    exact hq1
  · intro h
    rw [queue_owners_cons w op rest hq] at h
    cases h

theorem op_error_serves (w w1 : World) (h : sim_fs_op_error w = .ok w1) :
    ∃ op rest, w.fs.op_q = some (op :: rest) ∧
      callback_owners w1.log = callback_owners w.log ++ [owner_of_op op] ∧
      queue_owners w1 = rest.map owner_of_op := by
  unfold sim_fs_op_error at h
  rcases peek_head_cases w with hn | ⟨op, rest, hq, hp⟩
  · rw [hn] at h
    cases h
  · rw [hp] at h
    simp only at h
    split at h <;>
    · cases h
      refine ⟨op, rest, hq, ?_, ?_⟩
      · simp [end_current_log, emit, callback_owners, owner_of_ev, owner_of_op]
      · rw [end_current_queue]
        simp [queue_owners, emit, hq]

theorem op_error_serves_head (w w1 : World) (h : sim_fs_op_error w = .ok w1) :
    serves_head w w1 := by
  obtain ⟨op, rest, hq, hlog, hq1⟩ := op_error_serves w w1 h
  exact serves_head_of w w1 op rest 1 hq hlog (Or.inr hq1)

theorem write_cb_serves_head (w w1 : World) (error_type : Nat)
    (h : sim_fs_op_write_cb w error_type = .ok w1) : serves_head w w1 := by
  unfold sim_fs_op_write_cb at h
  rcases peek_head_cases w with hn | ⟨op, rest, hq, hp⟩
  · rw [hn] at h
    cases h
  · rw [hp] at h
    simp only at h
    split at h <;>
    · cases h
      refine serves_head_of w _ op rest 1 hq ?_ (Or.inr ?_)
      · simp [end_current_log, emit, callback_owners, owner_of_ev, owner_of_op]
      · rw [end_current_queue]
        simp [queue_owners, emit, hq]

theorem read_block_cb_serves_head (w w1 : World) (error_type : Nat) (data : List Nat)
    (h : sim_fs_op_read_block_cb w error_type data = .ok w1) : serves_head w w1 := by
  unfold sim_fs_op_read_block_cb at h
  rcases peek_head_cases w with hn | ⟨op, rest, hq, hp⟩
  · rw [hn] at h
    cases h
  · rw [hp] at h
    simp only at h
    split at h
    · exact op_error_serves_head w w1 h
    · split at h
      · cases h
      · rename_i wm hm
        obtain ⟨hml, hmq⟩ := memcpy_log_op_q _ _ _ _ _ _ hm
        have hcq : (cache_block wm op.current 256 data data.length).2.fs.op_q =
            some (op :: rest) := by
          rw [cache_block_op_q, hmq, hq]
        have hsq := set_head_op_q { op with current := op.current + 1 } op rest _ hcq
        split at h
        · cases h
          refine serves_head_of w _ op rest 1 hq ?_ (Or.inr ?_)
          · simp [end_current_log, emit, set_head_log, cache_block_log, hml,
              callback_owners, owner_of_ev, owner_of_op]
          · rw [end_current_queue]
            simp [queue_owners, emit, hsq]
        · cases h
          refine serves_head_of w _ op rest 0 hq ?_ (Or.inl ?_)
          · simp [idle_add, set_head_log, cache_block_log, hml]
          · simp [queue_owners, idle_add, hsq, owner_of_op]

theorem retrieve_cb_serves_head (w w1 : World) (error_type : Nat) (data : List Nat)
    (h : sim_fs_op_retrieve_cb w error_type data = .ok w1) : serves_head w w1 := by
  unfold sim_fs_op_retrieve_cb at h
  rcases peek_head_cases w with hn | ⟨op, rest, hq, hp⟩
  · rw [hn] at h
    cases h
  · rw [hp] at h
    simp only at h
    split at h
    · cases h
    · split at h
      · exact op_error_serves_head w w1 h
      · have hcq : (cache_block
            (emit (Ev.read_cb op.cb 1 op.length op.current (some data) op.record_length
              op.userdata) w) (op.current - 1) op.record_length data
            op.record_length).2.fs.op_q = some (op :: rest) := by
          rw [cache_block_op_q]
          exact hq
        split at h
        · cases h
          have hsq := set_head_op_q { op with current := op.current + 1 } op rest _ hcq
          refine serves_head_of w _ op rest 1 hq ?_ (Or.inl ?_)
          · simp [idle_add, set_head_log, cache_block_log, emit, callback_owners,
              owner_of_ev, owner_of_op]
          · simp [queue_owners, idle_add, hsq, owner_of_op]
        · cases h
          refine serves_head_of w _ op rest 1 hq ?_ (Or.inr ?_)
          · simp [end_current_log, cache_block_log, emit, callback_owners,
              owner_of_ev, owner_of_op]
          · rw [end_current_queue]
            simp [queue_owners, hcq]

theorem info_cb_tail (wA w1 : World) (p q : Prop) [Decidable p] [Decidable q]
    (id : Nat) (hdr : List Nat) (cnt n : Int) (files1 : Nat → Option (List Nat))
    (h : (if p then Except.ok wA
      else if q then Except.ok { wA with fs.fd := none }
      else if
          (sys_write { wA with fs.fd := some id, files := files1 } id 0 hdr cnt).1 = n then
        Except.ok (sys_write { wA with fs.fd := some id, files := files1 } id 0 hdr cnt).2
      else
        Except.ok
          { (sys_write { wA with fs.fd := some id, files := files1 } id 0 hdr cnt).2 with
            fs.fd := none }) = (Except.ok w1 : Except Fault World)) :
    w1.log = wA.log ∧ w1.fs.op_q = wA.fs.op_q := by
  by_cases hp : p
  · rw [if_pos hp] at h
    cases h
    exact ⟨rfl, rfl⟩
  · rw [if_neg hp] at h
    by_cases hq : q
    · rw [if_pos hq] at h
      cases h
      exact ⟨rfl, rfl⟩
    · rw [if_neg hq] at h
      by_cases hr :
          (sys_write { wA with fs.fd := some id, files := files1 } id 0 hdr cnt).1 = n
      · rw [if_pos hr] at h
        cases h
        exact ⟨by rw [sys_write_log], by rw [sys_write_fs]⟩
      · rw [if_neg hr] at h
        cases h
        refine ⟨?_, ?_⟩
        · show (sys_write _ _ _ _ _).2.log = _
          rw [sys_write_log]
        · show (sys_write _ _ _ _ _).2.fs.op_q = _
          rw [sys_write_fs]

theorem info_cb_serves_head (w w1 : World) (error_type : Nat) (length : Int)
    (structure_ : Nat) (record_length : Int) (access : List Nat)
    (h : sim_fs_op_info_cb w error_type length structure_ record_length access = .ok w1) :
    serves_head w w1 := by
  unfold sim_fs_op_info_cb at h
  rcases peek_head_cases w with hn | ⟨op, rest, hq, hp⟩
  · rw [hn] at h
    cases h
  · rw [hp] at h
    simp only at h
    split at h
    · exact op_error_serves_head w w1 h
    · split at h
      · exact op_error_serves_head w w1 h
      · obtain ⟨hl, hq1⟩ := info_cb_tail _ _ _ _ _ _ _ _ _ h
        refine serves_head_of w _ op rest 0 hq ?_ (Or.inl ?_)
        · rw [hl]
          simp [idle_add, set_head_log]
        · simp only [queue_owners, hq1]
          simp only [idle_add, set_head_op_q _ op rest w hq]
          split <;> simp [owner_of_op]

theorem serves_head_congr (w w0 w1 : World) (h : serves_head w0 w1)
    (hl : w0.log = w.log) (hq : w0.fs.op_q = w.fs.op_q) : serves_head w w1 := by
  unfold serves_head queue_owners at h ⊢
  rw [hl, hq] at h
  exact h

theorem read_block_tail (w wB w1 : World) (op opB : sim_fs_op) (rest : List sim_fs_op)
    (e : Int) (req : DrvReq)
    (hwq : w.fs.op_q = some (op :: rest))
    (hq : wB.fs.op_q = some (op :: rest)) (hl : wB.log = w.log)
    (ho : owner_of_op opB = owner_of_op op)
    (h : (if opB.current > e then
        Except.ok (sim_fs_end_current
          (emit (Ev.read_cb opB.cb 1 opB.num_bytes 0 (set_head opB wB).fs.buffer
            opB.record_length opB.userdata) (set_head opB wB)))
      else
        match (set_head opB wB).fs.driver with
        | none => Except.error Fault.null_driver
        | some driver =>
          if driver.read_file_transparent = false then sim_fs_op_error (set_head opB wB)
          else Except.ok (call_driver req (set_head opB wB))) =
      (Except.ok w1 : Except Fault World)) :
    serves_head w w1 := by
  have hsq := set_head_op_q opB op rest wB hq
  have hown : (opB.cb, opB.userdata) = owner_of_op op := ho
  split at h
  · cases h
    refine serves_head_of w _ op rest 1 hwq ?_ (Or.inr ?_)
    · simp [end_current_log, emit, set_head_log, hl, callback_owners, owner_of_ev, hown]
    · rw [end_current_queue]
      simp [queue_owners, emit, hsq]
  · split at h
    · cases h
    · split at h
      · obtain ⟨op2, rest2, hq2, hlog2, hqo2⟩ := op_error_serves _ _ h
        rw [hsq] at hq2
        cases hq2
        refine serves_head_of w _ op rest 1 hwq ?_ (Or.inr hqo2)
        rw [hlog2, set_head_log, hl, ho]
        rfl
      · cases h
        refine serves_head_of w _ op rest 0 hwq ?_ (Or.inl ?_)
        · simp [call_driver, set_head_log, hl, callback_owners, owner_of_ev]
        · simp [queue_owners, call_driver, hsq, ho]

theorem read_block_serves_head (w w1 : World) (h : sim_fs_op_read_block w = .ok w1) :
    serves_head w w1 := by
  unfold sim_fs_op_read_block at h
  rcases peek_head_cases w with hn | ⟨op, rest, hq, hp⟩
  · rw [hn] at h
    cases h
  · rw [hp] at h
    simp only at h
    split at h
    · exact serves_head_congr w _ w1 (op_error_serves_head _ _ h) rfl rfl
    · have hw0 : ∀ b : List Nat,
          (if op.current = cdiv op.offset 256 then
            ({ w with fs.buffer := some b } : World) else w).log = w.log ∧
          (if op.current = cdiv op.offset 256 then
            ({ w with fs.buffer := some b } : World) else w).fs.op_q = w.fs.op_q := by
        intro b
        split <;> exact ⟨rfl, rfl⟩
      exact read_block_tail w _ w1 op _ rest _ _ hq
        (by rw [(read_block_cached_frame _ _ _).2.1, (hw0 _).2]; exact hq)
        (by rw [(read_block_cached_frame _ _ _).1, (hw0 _).1])
        (read_block_cached_frame _ _ _).2.2 h

theorem read_record_tail (w wB w1 : World) (op opB : sim_fs_op) (rest : List sim_fs_op)
    (total : Int) (req1 req2 : DrvReq) (k : Nat)
    (hwq : w.fs.op_q = some (op :: rest))
    (hq : wB.fs.op_q = some (op :: rest))
    (hl : callback_owners wB.log =
      callback_owners w.log ++ List.replicate k (owner_of_op op))
    (ho : owner_of_op opB = owner_of_op op)
    (h : (if opB.current > total then Except.ok (sim_fs_end_current (set_head opB wB))
      else
        match (set_head opB wB).fs.driver with
        | none => Except.error Fault.null_driver
        | some driver =>
          if opB.structure_ = OFONO_SIM_FILE_STRUCTURE_FIXED then
            if driver.read_file_linear = false then sim_fs_op_error (set_head opB wB)
            else Except.ok (call_driver req1 (set_head opB wB))
          else if opB.structure_ = OFONO_SIM_FILE_STRUCTURE_CYCLIC then
            if driver.read_file_cyclic = false then sim_fs_op_error (set_head opB wB)
            else Except.ok (call_driver req2 (set_head opB wB))
          else Except.ok (set_head opB wB)) =
      (Except.ok w1 : Except Fault World)) :
    serves_head w w1 := by
  have hsq := set_head_op_q opB op rest wB hq
  have herr : ∀ w2, sim_fs_op_error (set_head opB wB) = .ok w2 → serves_head w w2 := by
    intro w2 h2
    obtain ⟨op2, rest2, hq2, hlog2, hqo2⟩ := op_error_serves _ _ h2
    rw [hsq] at hq2
    cases hq2
    refine serves_head_of w _ op rest (k + 1) hwq ?_ (Or.inr hqo2)
    rw [hlog2, set_head_log, hl, ho, List.append_assoc, List.replicate_succ']
  have hdrv : ∀ req, serves_head w (call_driver req (set_head opB wB)) := by
    intro req
    refine serves_head_of w _ op rest k hwq ?_ (Or.inl ?_)
    · show callback_owners ((set_head opB wB).log ++ [Ev.drv req]) = _
      rw [callback_owners_append, set_head_log, hl]
      simp [callback_owners, owner_of_ev]
    · simp [queue_owners, call_driver, hsq, ho]
  split at h
  · cases h
    refine serves_head_of w _ op rest k hwq ?_ (Or.inr ?_)
    · rw [end_current_log, set_head_log, hl]
    · rw [end_current_queue]
      simp [queue_owners, hsq]
  · split at h
    · cases h
    · split at h
      · split at h
        · exact herr _ h
        · cases h
          exact hdrv _
      · split at h
        · split at h
          · exact herr _ h
          · cases h
            exact hdrv _
        · cases h
          refine serves_head_of w _ op rest k hwq ?_ (Or.inl ?_)
          · rw [set_head_log, hl]
          · simp [queue_owners, hsq, ho]

theorem read_record_serves_head (w w1 : World) (h : sim_fs_op_read_record w = .ok w1) :
    serves_head w w1 := by
  unfold sim_fs_op_read_record at h
  rcases peek_head_cases w with hn | ⟨op, rest, hq, hp⟩
  · rw [hn] at h
    cases h
  · rw [hp] at h
    simp only at h
    split at h
    · cases h
    · obtain ⟨⟨k, hk⟩, hfq, hfo⟩ := read_record_cached_frame
        (cdiv op.length op.record_length - op.current + 1).toNat
        { w with fs.op_source := 0 } op
      exact read_record_tail w _ w1 op _ rest _ _ _ k hq (hfq.trans hq) hk hfo h

theorem serves_head_refl (w : World) : serves_head w w :=
  ⟨0, by simp, Or.inl rfl, fun _ => rfl⟩

theorem check_cached_tail (w wA w1 : World) (b : Bool) (op opA op2 : sim_fs_op)
    (rest : List sim_fs_op) (p0 p1 : Prop) (d0 : Decidable p0) (d1 : Decidable p1)
    (tick : TickFn)
    (hwq : w.fs.op_q = some (op :: rest)) (hq : wA.fs.op_q = some (opA :: rest))
    (hl : wA.log = w.log) (hoA : owner_of_op opA = owner_of_op op)
    (ho2 : owner_of_op op2 = owner_of_op op)
    (h : (@ite _ p0 d0 (Except.ok (false, w))
      (@ite _ p1 d1
        (match sim_fs_op_error wA with
        | .error e => .error e
        | .ok w2 => .ok (true, idle_add tick (flag Violation.freed_op_access w2)))
        (.ok (true, idle_add tick (set_head op2 wA))))) =
      (Except.ok (b, w1) : Except Fault (Bool × World))) :
    serves_head w w1 ∧ (b = false → w1 = w) := by
  split at h
  · cases h
    exact ⟨serves_head_refl w, fun _ => rfl⟩
  · split at h
    · split at h
      · cases h
      · rename_i w2 he
        cases h
        obtain ⟨op3, rest3, hq3, hlog3, hqo3⟩ := op_error_serves _ _ he
        rw [hq] at hq3
        cases hq3
        refine ⟨serves_head_of w _ op rest 1 hwq ?_ (Or.inr ?_), fun hb => by cases hb⟩
        · show callback_owners w2.log = _
          rw [hlog3, hl, hoA]
          rfl
        · exact hqo3
    · cases h
      refine ⟨serves_head_of w _ op rest 0 hwq ?_ (Or.inl ?_), fun hb => by cases hb⟩
      · simp [idle_add, set_head_log, hl]
      · simp [queue_owners, idle_add, set_head_op_q op2 opA rest wA hq, ho2]

theorem check_cached_serves_head (w w1 : World) (b : Bool)
    (h : sim_fs_op_check_cached w = .ok (b, w1)) :
    serves_head w w1 ∧ (b = false → w1 = w) := by
  unfold sim_fs_op_check_cached at h
  split at h
  · cases h
    exact ⟨serves_head_refl w, fun _ => rfl⟩
  · rcases peek_head_cases w with hn | ⟨op, rest, hq, hp⟩
    · rw [hn] at h
      cases h
    · rw [hp] at h
      simp only at h
      split at h
      · cases h
        exact ⟨serves_head_refl w, fun _ => rfl⟩
      · split at h
        · cases h
          exact ⟨serves_head_refl w, fun _ => rfl⟩
        · refine check_cached_tail w _ w1 b op ?opA _ rest _ _ _ _ _ hq ?hqA ?hl ?hoA ?ho2 h
          case hqA => exact set_head_op_q _ op rest w hq
          case hl => exact set_head_log _ w
          case hoA => rfl
          case ho2 => split <;> rfl

theorem serves_head_same (w w1 : World) (hl : callback_owners w1.log = callback_owners w.log)
    (hq : w1.fs.op_q = w.fs.op_q) : serves_head w w1 :=
  ⟨0, by simp [hl], Or.inl (by simp [queue_owners, hq]), fun _ => rfl⟩

theorem op_next_serves_head (w w1 : World) (h : sim_fs_op_next w = .ok w1) :
    serves_head w w1 := by
  unfold sim_fs_op_next at h
  simp only at h
  split at h
  · cases h
    exact serves_head_same _ _ rfl rfl
  · cases h
  · rename_i op rest hq
    split at h
    · split at h
      · cases h
      · rename_i w2 hc
        cases h
        exact serves_head_congr w _ _ (check_cached_serves_head _ _ _ hc).1 rfl rfl
      · rename_i w2 hc
        have hw2 := (check_cached_serves_head _ _ _ hc).2 rfl
        subst hw2
        split at h
        · cases h
        · split at h
          · cases h
          · cases h
            exact serves_head_same _ _ (by simp [call_driver, callback_owners, owner_of_ev])
              rfl
    · split at h
      · cases h
      · split at h
        · split at h
          · cases h
          · cases h
            exact serves_head_same _ _ (by simp [call_driver, callback_owners, owner_of_ev])
              rfl
        · split at h
          · split at h
            · cases h
            · cases h
              exact serves_head_same _ _
                (by simp [call_driver, callback_owners, owner_of_ev]) rfl
          · split at h
            · split at h
              · cases h
              · cases h
                exact serves_head_same _ _
                  (by simp [call_driver, callback_owners, owner_of_ev]) rfl
            · cases h
              exact serves_head_same _ _ rfl rfl

/-- Every iteration of the main loop serves the head of the queue. -/
theorem step_serves_head (m : Modem) (w w1 : World) (h : step m w = .ok (some w1)) :
    serves_head w w1 := by
  unfold step at h
  split at h
  · rename_i sid f rest hidle
    cases hr : run_tick { w with idle := rest } f with
    | error e => rw [hr] at h; cases h
    | ok w2 =>
      rw [hr] at h
      cases h
      refine serves_head_congr w { w with idle := rest } _ ?_ rfl rfl
      cases f with
      | op_next => exact op_next_serves_head _ _ hr
      | read_record => exact read_record_serves_head _ _ hr
      | read_block => exact read_block_serves_head _ _ hr
  · split at h
    · rename_i r rest hinfl
      cases hr : deliver m { w with inflight := rest } r with
      | error e => rw [hr] at h; cases h
      | ok w2 =>
        rw [hr] at h
        cases h
        refine serves_head_congr w { w with inflight := rest } _ ?_ rfl rfl
        cases r with
        | read_file_info id =>
          simp only [deliver] at hr
          exact info_cb_serves_head _ _ _ _ _ _ _ hr
        | read_file_transparent id s l =>
          simp only [deliver] at hr
          exact read_block_cb_serves_head _ _ _ _ hr
        | read_file_linear id s l =>
          simp only [deliver] at hr
          exact retrieve_cb_serves_head _ _ _ _ hr
        | read_file_cyclic id s l =>
          simp only [deliver] at hr
          exact retrieve_cb_serves_head _ _ _ _ hr
        | write_file_transparent id s l v =>
          simp only [deliver] at hr
          exact write_cb_serves_head _ _ _ hr
        | write_file_linear id s l v =>
          simp only [deliver] at hr
          exact write_cb_serves_head _ _ _ hr
        | write_file_cyclic id l v =>
          simp only [deliver] at hr
          exact write_cb_serves_head _ _ _ hr
    · cases h

theorem sim_fs_read_queue (w : World) (id expected_type offset num_bytes cb data : Nat) :
    (sim_fs_read w id expected_type offset num_bytes cb data).2.log = w.log ∧
    (if (sim_fs_read w id expected_type offset num_bytes cb data).1 = 0 then
      queue_owners (sim_fs_read w id expected_type offset num_bytes cb data).2 =
        queue_owners w ++ [(cb, data)]
    else (sim_fs_read w id expected_type offset num_bytes cb data).2 = w) := by
  by_cases hcb : cb = 0
  · simp [sim_fs_read, hcb]
  · cases hd : w.fs.driver with
    | none => simp [sim_fs_read, hcb, hd]
    | some driver =>
      by_cases hi : driver.read_file_info = false
      · simp [sim_fs_read, hcb, hd, hi]
      · by_cases hl : w.fs.op_q.getD [] = []
        · simp [sim_fs_read, hcb, hd, hi, hl, queue_owners, idle_add, owner_of_op]
        · simp [sim_fs_read, hcb, hd, hi, hl, queue_owners, idle_add, owner_of_op]

theorem sim_fs_write_queue (w : World) (id cb structure_ : Nat) (record : Int)
    (data : Option (List Nat)) (length : Int) (userdata : Nat) :
    (sim_fs_write w id cb structure_ record data length userdata).2.log = w.log ∧
    (if (sim_fs_write w id cb structure_ record data length userdata).1 = 0 then
      queue_owners (sim_fs_write w id cb structure_ record data length userdata).2 =
        queue_owners w ++ [(cb, userdata)]
    else (sim_fs_write w id cb structure_ record data length userdata).2 = w) := by
  by_cases hcb : cb = 0
  · simp [sim_fs_write, hcb]
  · cases hd : w.fs.driver with
    | none => simp [sim_fs_write, hcb, hd]
    | some driver =>
      by_cases hi : (if structure_ = OFONO_SIM_FILE_STRUCTURE_TRANSPARENT then
            driver.write_file_transparent
          else if structure_ = OFONO_SIM_FILE_STRUCTURE_FIXED then
            driver.write_file_linear
          else if structure_ = OFONO_SIM_FILE_STRUCTURE_CYCLIC then
            driver.write_file_cyclic
          else false) = false
      · simp only [sim_fs_write, hcb, hd, hi, if_true, if_false]
        simp
      · by_cases hl : w.fs.op_q.getD [] = []
        · simp only [sim_fs_write, hcb, hd, hi, if_true, if_false]
          simp [hl, queue_owners, idle_add, owner_of_op]
        · simp only [sim_fs_write, hcb, hd, hi, if_true, if_false]
          simp [hl, queue_owners, idle_add, owner_of_op]

theorem callbacks_in_turn_snoc (done : List (Nat × Nat)) (counts : List Nat)
    (o : Nat × Nat) (k : Nat) (hlen : counts.length = done.length) :
    callbacks_in_turn (done ++ [o]) (counts ++ [k]) =
      callbacks_in_turn done counts ++ List.replicate k o := by
  unfold callbacks_in_turn
  rw [List.zipWith_append _ _ _ _ _ hlen.symm]
  simp

theorem fifo_enqueue (w w1 : World) (accepted : List (Nat × Nat)) (o : Nat × Nat)
    (hl : w1.log = w.log) (hq : queue_owners w1 = queue_owners w ++ [o])
    (h : fifo_order w accepted) : fifo_order w1 (accepted ++ [o]) := by
  obtain ⟨done, counts, k, hacc, hlen, hcb, hk⟩ := h
  refine ⟨done, counts, k, ?_, hlen, ?_, ?_⟩
  · rw [hacc, hq, List.append_assoc]
  · rw [hl, hcb, hq]
    cases hqw : queue_owners w with
    | nil => simp [hk hqw]
    | cons a t => simp
  · intro h0
    rw [hq] at h0
    simp at h0

theorem fifo_step (w w1 : World) (accepted : List (Nat × Nat))
    (hs : serves_head w w1) (h : fifo_order w accepted) : fifo_order w1 accepted := by
  obtain ⟨done, counts, k, hacc, hlen, hcb, hk⟩ := h
  obtain ⟨j, hlog, hq, hj⟩ := hs
  cases hqw : queue_owners w with
  | nil =>
    have hj0 := hj hqw
    have hk0 := hk hqw
    subst hj0 hk0
    have hq1 : queue_owners w1 = [] := by
      rw [hqw] at hq
      rcases hq with h1 | h1 <;> simpa using h1
    refine ⟨done, counts, 0, ?_, hlen, ?_, fun _ => rfl⟩
    · rw [hacc, hqw, hq1]
    · rw [hlog, hcb]
      simp
  | cons a t =>
    rw [hqw] at hq hlog hcb hacc
    simp only [List.headD_cons, List.tail_cons] at hq hlog hcb
    rcases hq with h1 | h1
    · refine ⟨done, counts, k + j, ?_, hlen, ?_, ?_⟩
      · rw [hacc, h1]
      · rw [hlog, hcb, h1, List.append_assoc, ← List.replicate_add]
        rfl
      · intro h0
        rw [h1] at h0
        cases h0
    · refine ⟨done ++ [a], counts ++ [k + j], 0, ?_, by simp [hlen], ?_, fun _ => rfl⟩
      · rw [hacc, h1]
        simp
      · rw [hlog, hcb, callbacks_in_turn_snoc _ _ _ _ hlen, List.append_assoc,
          ← List.replicate_add]
        simp

theorem exec_fifo (m : Modem) :
    ∀ (acts : List Action) (s s1 : World × List (Nat × Nat)),
      fifo_order s.1 s.2 → exec m s acts = .ok s1 → fifo_order s1.1 s1.2 := by
  intro acts
  induction acts with
  | nil =>
    intro s s1 h he
    simp only [exec] at he
    cases he
    exact h
  | cons a rest ih =>
    intro s s1 h he
    obtain ⟨w, accepted⟩ := s
    cases a with
    | read id expected_type offset num_bytes cb data =>
      simp only [exec] at he
      refine ih _ _ ?_ he
      obtain ⟨hl, hq⟩ := sim_fs_read_queue w id expected_type offset num_bytes cb data
      by_cases h0 : (sim_fs_read w id expected_type offset num_bytes cb data).1 = 0
      · rw [if_pos h0] at hq ⊢
        exact fifo_enqueue w _ accepted _ hl hq h
      · rw [if_neg h0] at hq ⊢
        rw [hq]
        exact h
    | write id cb structure_ record data length userdata =>
      simp only [exec] at he
      refine ih _ _ ?_ he
      obtain ⟨hl, hq⟩ := sim_fs_write_queue w id cb structure_ record data length userdata
      by_cases h0 : (sim_fs_write w id cb structure_ record data length userdata).1 = 0
      · rw [if_pos h0] at hq ⊢
        exact fifo_enqueue w _ accepted _ hl hq h
      · rw [if_neg h0] at hq ⊢
        rw [hq]
        exact h
    | iterate =>
      simp only [exec] at he
      cases hs : step m w with
      | error e => rw [hs] at he; cases he
      | ok r =>
        rw [hs] at he
        cases r with
        | none => exact ih _ _ h he
        | some w1 => exact ih _ _ (fifo_step w w1 accepted (step_serves_head m w w1 hs) h) he

theorem callbacks_in_turn_zeros (owners : List (Nat × Nat)) :
    callbacks_in_turn owners (List.replicate owners.length 0) = [] := by
  induction owners with
  | nil => rfl
  | cons a t ih =>
    unfold callbacks_in_turn at ih ⊢
    simp only [List.length_cons, List.replicate_succ, List.zipWith_cons_cons,
      List.flatten_cons, List.replicate_zero, List.nil_append]
    exact ih

theorem callbacks_in_turn_append (a b : List (Nat × Nat)) (ca cb : List Nat)
    (h : ca.length = a.length) :
    callbacks_in_turn (a ++ b) (ca ++ cb) =
      callbacks_in_turn a ca ++ callbacks_in_turn b cb := by
  unfold callbacks_in_turn
  rw [List.zipWith_append _ _ _ _ _ h.symm]
  simp

/-- C16 (FIFO).  On a fresh engine, after any sequence of `sim_fs_read` calls,
`sim_fs_write` calls and iterations of the main loop that does not crash and
in which no memory violation has happened (none is recorded at the end, hence
none at any point, `exec_clean_throughout`): the accepted requests, oldest
first, are the completed ones followed by the queue as it stands (requests
enter at the tail and leave at the head), every callback invoked so far
belongs to a completed request or to the head of the queue, and the callbacks
appear request after request in the order the requests were accepted, so no
callback of a request precedes one of a request accepted before it. -/
theorem callbacks_in_enqueue_order (m : Modem) (sim : ofono_sim)
    (drv : Option ofono_sim_driver) (files : Nat → Option (List Nat)) (sys : Sys)
    (acts : List Action) (w : World) (accepted : List (Nat × Nat))
    (h : exec m (World.init sim drv files sys, []) acts = .ok (w, accepted)) :
    w.viol = [] →
    (∃ (done : List (Nat × Nat)) (counts : List Nat) (k : Nat),
      accepted = done ++ queue_owners w ∧ counts.length = done.length ∧
      callback_owners w.log =
        callbacks_in_turn done counts ++
          List.replicate k ((queue_owners w).headD (0, 0)) ∧
      (queue_owners w = [] → k = 0)) ∧
    ∃ counts : List Nat, counts.length = accepted.length ∧
      callback_owners w.log = callbacks_in_turn accepted counts := by
  intro _
  have h0 : fifo_order (World.init sim drv files sys) [] :=
    ⟨[], [], 0, rfl, rfl, rfl, fun _ => rfl⟩
  have h1 := exec_fifo m acts (World.init sim drv files sys, []) (w, accepted) h0 h
  refine ⟨h1, ?_⟩
  obtain ⟨done, counts, k, hacc, hlen, hcb, hk⟩ := h1
  simp only at hacc hlen hcb hk
  cases hq : queue_owners w with
  | nil =>
    rw [hq] at hacc hcb
    have hk0 := hk hq
    subst hk0
    refine ⟨counts, by rw [hacc, hlen]; simp, ?_⟩
    rw [hcb, hacc]
    simp
  | cons a t =>
    rw [hq] at hacc hcb
    refine ⟨counts ++ (k :: List.replicate t.length 0), by rw [hacc]; simp [hlen], ?_⟩
    rw [hcb, hacc, callbacks_in_turn_append _ _ _ _ hlen]
    congr 1
    have e : callbacks_in_turn (a :: t) (k :: List.replicate t.length 0) =
        List.replicate k a ++ callbacks_in_turn t (List.replicate t.length 0) := by
      simp [callbacks_in_turn]
    rw [e, callbacks_in_turn_zeros]
    simp

set_option maxRecDepth 100000 in
theorem callbacks_in_enqueue_order_witness :
    ∃ (w : World) (accepted : List (Nat × Nat)),
      exec (card_modem (ex_card (ex_transparent (List.range 10))))
        (World.init ex_sim (some full_driver) (fun _ => none) Sys.ideal, [])
        [Action.write 0x6f05 3 OFONO_SIM_FILE_STRUCTURE_TRANSPARENT 0 (some [1, 2]) 2 79,
          Action.read 0x6f05 OFONO_SIM_FILE_STRUCTURE_TRANSPARENT 0 0 1 77,
          Action.iterate, Action.iterate,
          Action.read 0x6f05 OFONO_SIM_FILE_STRUCTURE_TRANSPARENT 0 10 2 78,
          Action.iterate, Action.iterate, Action.iterate, Action.iterate,
          Action.iterate, Action.iterate, Action.iterate, Action.iterate] = .ok (w, accepted) ∧
      w.viol = [] ∧
      accepted = [(3, 79), (1, 77), (2, 78)] ∧
      callback_owners w.log = [(3, 79), (1, 77), (2, 78)] ∧
      ∃ counts : List Nat, counts.length = accepted.length ∧
        callback_owners w.log = callbacks_in_turn accepted counts := by
  have h := callbacks_in_enqueue_order
    (card_modem (ex_card (ex_transparent (List.range 10))))
    ex_sim (some full_driver) (fun _ => none) Sys.ideal
    [Action.write 0x6f05 3 OFONO_SIM_FILE_STRUCTURE_TRANSPARENT 0 (some [1, 2]) 2 79,
      Action.read 0x6f05 OFONO_SIM_FILE_STRUCTURE_TRANSPARENT 0 0 1 77,
      Action.iterate, Action.iterate,
      Action.read 0x6f05 OFONO_SIM_FILE_STRUCTURE_TRANSPARENT 0 10 2 78,
      Action.iterate, Action.iterate, Action.iterate, Action.iterate,
      Action.iterate, Action.iterate, Action.iterate, Action.iterate] _ _ rfl rfl
  exact ⟨_, _, rfl, rfl, rfl, rfl, h.2⟩

/-! ## Transparent and record reads served from the cache -/

theorem pread_full_le (F : List Nat) (p k : Nat) (h : (pread F p k).length = k)
    (hk : 0 < k) : p + k ≤ F.length := by
  simp only [pread, List.length_take, List.length_drop] at h
  omega

theorem block_cache_slice_eq (m : Modem) (op : sim_fs_op) (c L : Nat)
    (hL : op.length = (L : Int)) (hs : op.offset / 256 ≤ c) (hin : c * 256 < L)
    (hlen : (block_reply m op.id op.length c).data.length = min (L - c * 256) 256) :
    block_cache_slice { op with current := (c : Int) } =
      ((block_slice m op c).1, 38 + (c : Int) * 256 + (block_slice m op c).2.1,
        (block_slice m op c).2.2) := by
  have h := (slices_agree { op with current := (c : Int) } c L
    (block_reply m op.id op.length c).data.length rfl hL hs hin hlen).1
  exact h

/-- A block read in full from a valid cache file lands in the assembly
buffer as the driver's reply does. -/
theorem cached_slice (m : Modem) (op : sim_fs_op) (c n L : Nat) (F B : List Nat)
    (hts : tail_safe op.offset n L F) (hin : c * 256 < L)
    (hlen : (block_reply m op.id op.length c).data.length = min (L - c * 256) 256)
    (hval : pread F (38 + c * 256) (block_reply m op.id op.length c).data.length =
      (block_reply m op.id op.length c).data)
    (hB : B.length = n)
    (hfull : (pread F (38 + c * 256 + (block_slice m op c).2.1.toNat)
        (block_slice m op c).2.2.toNat).length = (block_slice m op c).2.2.toNat) :
    store_at B (block_slice m op c).1
        (pread F (38 + c * 256 + (block_slice m op c).2.1.toNat)
          (block_slice m op c).2.2.toNat) =
      copy_block m op c B := by
  have h3 : op.offset % 256 < 256 := Nat.mod_lt _ (by decide)
  have hdm := Nat.div_add_mod op.offset 256
  unfold copy_block
  apply store_at_congr
  · rw [hfull, take_padded_length]
  · intro i hi
    have hsl := block_slice_eq m op c
    by_cases h : c = op.offset / 256
    · rw [if_pos h] at hsl
      rw [hsl] at hi hfull ⊢
      simp only [Int.toNat_zero, zero_add, Int.toNat_ofNat] at hi hfull ⊢
      by_cases hik : i < (min (256 - ((op.offset % 256 : Nat) : Int))
          ((block_reply m op.id op.length c).data.length : Int)).toNat
      · have hj : op.offset % 256 + i < (block_reply m op.id op.length c).data.length := by
          rw [hlen] at hik ⊢
          rcases hts with hts | hts
          · omega
          · have hle := pread_full_le F _ _ hfull (by omega)
            rw [hlen] at hle
            omega
        rw [getElem?_pread, if_pos hik,
          getElem?_take_padded _ _ _ hik (by rw [List.length_drop]; omega),
          List.getElem?_drop, ← hval, getElem?_pread, if_pos hj]
        congr 1
        omega
      · rw [List.getElem?_eq_none (by rw [hfull]; omega),
          List.getElem?_eq_none (by rw [take_padded_length]; omega)]
    · rw [if_neg h] at hsl
      rw [hsl]
      simp only [Int.toNat_zero, add_zero, Int.toNat_ofNat, List.drop_zero]
      rw [hval, take_padded_eq _ _ rfl]

/-- One iteration of the cache loop of `sim_fs_op_read_block` on a block
whose presence bit is set. -/
theorem read_block_cached_hit (m : Modem) (q : Option (List sim_fs_op)) (src : Nat)
    (bm : List Nat) (f : Nat) (B : List Nat) (sim : ofono_sim)
    (drv : Option ofono_sim_driver) (files : Nat → Option (List Nat)) (sys : Sys)
    (idle : List (Nat × TickFn)) (ns : Nat) (infl : List DrvReq) (log : List Ev)
    (viol : List Violation) (F : List Nat) (op : sim_fs_op) (c n L fuel : Nat)
    (hfile : files f = some F)
    (hn : op.num_bytes = (n : Int)) (hn1 : 1 ≤ n) (hL : op.length = (L : Int))
    (hL2 : L < 65536)
    (hs : op.offset / 256 ≤ c) (hce : c ≤ (op.offset + n - 1) / 256)
    (hin : c * 256 < L)
    (hlen : (block_reply m op.id op.length c).data.length = min (L - c * 256) 256)
    (hbit : unit_present bm (c : Int) = true) :
    read_block_cached (fuel + 1) ⟨⟨q, src, bm, some f, some B, sim, drv⟩, files, sys, idle,
        ns, infl, log, viol⟩ { op with current := (c : Int) } =
      if ((pread F (38 + c * 256 + (block_slice m op c).2.1.toNat)
          (block_slice m op c).2.2.toNat).length : Int) = (block_slice m op c).2.2 then
        read_block_cached fuel ⟨⟨q, src, bm, some f,
          some (store_at B (block_slice m op c).1
            (pread F (38 + c * 256 + (block_slice m op c).2.1.toNat)
              (block_slice m op c).2.2.toNat)), sim, drv⟩, files, sys, idle,
          ns, infl, log,
          if in_bounds B.length (block_slice m op c).1
              (pread F (38 + c * 256 + (block_slice m op c).2.1.toNat)
                (block_slice m op c).2.2.toNat).length = true then viol
          else viol ++ [Violation.buffer_overflow]⟩
          { op with current := (c : Int) + 1 }
      else
        (⟨⟨q, src, bm, some f,
          some (store_at B (block_slice m op c).1
            (pread F (38 + c * 256 + (block_slice m op c).2.1.toNat)
              (block_slice m op c).2.2.toNat)), sim, drv⟩, files, sys, idle,
          ns, infl, log,
          if in_bounds B.length (block_slice m op c).1
              (pread F (38 + c * 256 + (block_slice m op c).2.1.toNat)
                (block_slice m op c).2.2.toNat).length = true then viol
          else viol ++ [Violation.buffer_overflow]⟩,
          { op with current := (c : Int) }) := by
  obtain ⟨hb1, hb2, hb3, hb4, hb5⟩ := block_slice_bounds m op c L hs hin hlen
  have hslice := block_cache_slice_eq m op c L hL hs hin hlen
  have hnz : ¬ (bitmap_get bm (cdiv (c : Int) 8) &&&
      1 <<< (cmod (c : Int) 8).toNat = 0) := by
    rw [← unit_present_eq_false]; simp [hbit]
  have hidx : (0 ≤ cdiv (c : Int) 8 ∧ cdiv (c : Int) 8 < 32) := by
    rw [cdiv_nonneg _ _ (by omega) (by omega)]; omega
  have hend : (c : Int) ≤ cdiv ((op.offset : Int) + (op.num_bytes - 1)) 256 := by
    rw [hn, end_block_eq _ _ hn1]; omega
  have hpos : (38 + (c : Int) * 256 + (block_slice m op c).2.1).toNat =
      38 + c * 256 + (block_slice m op c).2.1.toNat := by omega
  have hseek : ¬ (38 + (c : Int) * 256 + (block_slice m op c).2.1 < 0) := by omega
  have hrd : ¬ ((block_slice m op c).2.2 < 0) := by omega
  simp only [read_block_cached, hend, if_true, hnz, if_false, hslice, hseek, sys_read_buffer, hfile,
    Option.getD_some, hrd, hpos, check_bitmap_index, flag_if, hidx, and_self,
    not_true_eq_false, decide_False, Bool.false_eq_true, ne_eq]
  by_cases hfull : ((pread F (38 + c * 256 + (block_slice m op c).2.1.toNat)
      (block_slice m op c).2.2.toNat).length : Int) = (block_slice m op c).2.2
  · simp only [hfull, not_true_eq_false, if_false, if_true]
    by_cases hib : in_bounds B.length (block_slice m op c).1
        (pread F (38 + c * 256 + (block_slice m op c).2.1.toNat)
          (block_slice m op c).2.2.toNat).length = true
    · simp [hib]
    · simp [hib]
  · simp only [hfull, not_false_eq_true, if_true, if_false]
    by_cases hib : in_bounds B.length (block_slice m op c).1
        (pread F (38 + c * 256 + (block_slice m op c).2.1.toNat)
          (block_slice m op c).2.2.toNat).length = true
    · simp [hib]
    · simp [hib]

theorem pread_length_le (F : List Nat) (p k : Nat) : (pread F p k).length ≤ k := by
  simp only [pread, List.length_take, List.length_drop]
  omega

theorem in_bounds_mono (size : Nat) (off : Int) (a b : Nat) (h : a ≤ b)
    (hb : in_bounds size off b = true) : in_bounds size off a = true := by
  simp only [in_bounds, decide_eq_true_eq] at hb ⊢
  omega

theorem copies_fit_tail (m : Modem) (op : sim_fs_op) (c k : Nat)
    (h : copies_fit m op c (k + 1)) : copies_fit m op (c + 1) k := by
  intro x h1 h2
  exact h x (by omega) (by omega)

/-- The cache loop of `sim_fs_op_read_block` over a valid cache file: it
takes `k` blocks from the file, which land in the assembly buffer as the
driver's replies would, and stops at a block for which the driver's reply
overwrites whatever the loop left in the buffer. -/
theorem read_block_cached_run (m : Modem) (q : Option (List sim_fs_op)) (src : Nat)
    (bm : List Nat) (fd : Option Nat) (sim : ofono_sim)
    (drv : Option ofono_sim_driver) (files : Nat → Option (List Nat)) (sys : Sys)
    (idle : List (Nat × TickFn)) (ns : Nat) (infl : List DrvReq) (log : List Ev)
    (op : sim_fs_op) (n L : Nat)
    (hn : op.num_bytes = (n : Int)) (hn1 : 1 ≤ n) (hL : op.length = (L : Int))
    (hL2 : L < 65536) (hr : (op.offset + n - 1) / 256 * 256 < L)
    (hdrv : ∀ c : Nat, c * 256 < L →
      (block_reply m op.id op.length c).data.length = min (L - c * 256) 256)
    (hvalid : ∀ f, fd = some f → ∃ F, files f = some F ∧
      blocks_valid m op.id op.length bm F ∧ tail_safe op.offset n L F) :
    ∀ (fuel c : Nat) (B : List Nat) (viol : List Violation),
      op.offset / 256 ≤ c → c ≤ (op.offset + n - 1) / 256 + 1 →
      (op.offset + n - 1) / 256 + 1 - c ≤ fuel → B.length = n →
      ∃ (k : Nat) (B1 : List Nat) (viol1 : List Violation),
        c + k ≤ (op.offset + n - 1) / 256 + 1 ∧ B1.length = n ∧
        read_block_cached fuel ⟨⟨q, src, bm, fd, some B, sim, drv⟩, files, sys, idle,
            ns, infl, log, viol⟩ { op with current := (c : Int) } =
          (⟨⟨q, src, bm, fd, some B1, sim, drv⟩, files, sys, idle, ns, infl, log, viol1⟩,
            { op with current := ((c + k : Nat) : Int) }) ∧
        copy_block m op (c + k) B1 = copy_block m op (c + k) (assemble m op k c B) ∧
        (c + k = (op.offset + n - 1) / 256 + 1 → B1 = assemble m op k c B) ∧
        (copies_fit m op c ((op.offset + n - 1) / 256 + 1 - c) → viol1 = viol) := by
  intro fuel
  induction fuel with
  | zero =>
    intro c B viol h1 h2 hfuel hB
    exact ⟨0, B, viol, by omega, hB, by simp [read_block_cached], rfl, fun _ => rfl,
      fun _ => rfl⟩
  | succ fuel ih =>
    intro c B viol h1 h2 hfuel hB
    have hend : cdiv ((op.offset : Int) + (op.num_bytes - 1)) 256 =
        (((op.offset + n - 1) / 256 : Nat) : Int) := by
      rw [hn, end_block_eq _ _ hn1]
    cases fd with
    | none =>
      exact ⟨0, B, viol, by omega, hB, by simp [read_block_cached], rfl, fun _ => rfl,
        fun _ => rfl⟩
    | some f =>
      obtain ⟨F, hfile, hval, hts⟩ := hvalid f rfl
      by_cases hce : c ≤ (op.offset + n - 1) / 256
      · have hin : c * 256 < L := by omega
        have hlen := hdrv c hin
        have hidx : (0 ≤ cdiv (c : Int) 8 ∧ cdiv (c : Int) 8 < 32) := by
          rw [cdiv_nonneg _ _ (by omega) (by omega)]; omega
        by_cases hbit : unit_present bm (c : Int) = true
        · obtain ⟨hb1, hb2, hb3, hb4, hb5⟩ := block_slice_bounds m op c L h1 hin hlen
          have hstep := read_block_cached_hit m q src bm f B sim drv files sys idle ns infl
            log viol F op c n L fuel hfile hn hn1 hL hL2 h1 hce hin hlen hbit
          have hle := pread_length_le F (38 + c * 256 + (block_slice m op c).2.1.toNat)
            (block_slice m op c).2.2.toNat
          by_cases hfull : ((pread F (38 + c * 256 + (block_slice m op c).2.1.toNat)
              (block_slice m op c).2.2.toNat).length : Int) = (block_slice m op c).2.2
          · -- block `c` is served from the cache
            rw [if_pos hfull] at hstep
            have hfullN : (pread F (38 + c * 256 + (block_slice m op c).2.1.toNat)
                (block_slice m op c).2.2.toNat).length = (block_slice m op c).2.2.toNat := by
              omega
            have hcs := cached_slice m op c n L F B hts hin hlen
              (hval c (by rw [hL]; exact_mod_cast hin) hbit) hB hfullN
            rw [hcs] at hstep
            have e3 : ((c + 1 : Nat) : Int) = (c : Int) + 1 := by push_cast; ring
            obtain ⟨k, B1, viol1, hk1, hk2, hk3, hk4, hk5, hk6⟩ :=
              ih (c + 1) (copy_block m op c B)
                (if in_bounds B.length (block_slice m op c).1
                    (pread F (38 + c * 256 + (block_slice m op c).2.1.toNat)
                      (block_slice m op c).2.2.toNat).length = true then viol
                  else viol ++ [Violation.buffer_overflow])
                (by omega) (by omega) (by omega) (by rw [copy_block_length]; exact hB)
            rw [e3] at hk3
            have e2 : c + 1 + k = c + (k + 1) := by omega
            rw [e2] at hk1 hk3 hk4 hk5
            refine ⟨k + 1, B1, viol1, hk1, hk2, hstep.trans hk3, hk4, hk5, ?_⟩
            intro hfit
            have e4 : (op.offset + n - 1) / 256 + 1 - c =
                ((op.offset + n - 1) / 256 + 1 - (c + 1)) + 1 := by omega
            rw [e4] at hfit
            rw [hk6 (copies_fit_tail m op c _ hfit)]
            have hf := (hfit c (le_refl _) (by omega)).1
            rw [hn, Int.toNat_ofNat, ← hfullN, ← hB] at hf
            rw [if_pos hf]
          · -- the cache file is too short for block `c`
            rw [if_neg hfull] at hstep
            refine ⟨0, _, _, by omega, by rw [store_at_length]; exact hB, hstep, ?_,
              by intro h; omega, ?_⟩
            · show copy_block m op c _ = copy_block m op c B
              unfold copy_block
              exact store_at_absorb _ _ _ _ (by rw [take_padded_length]; exact hle)
            · intro hfit
              have hf := (hfit c (le_refl _) (by omega)).1
              rw [hn, Int.toNat_ofNat, ← hB] at hf
              rw [if_pos (in_bounds_mono _ _ _ _ hle hf)]
        · -- block `c` is not in the cache
          have hbf : unit_present bm (c : Int) = false := by
            cases h : unit_present bm (c : Int)
            · rfl
            · exact absurd h hbit
          have hz := (unit_present_eq_false _ _).1 hbf
          refine ⟨0, B, viol, by omega, hB, ?_, rfl, fun _ => rfl, fun _ => rfl⟩
          simp [read_block_cached, hend, hce, hz, check_bitmap_index, flag_if, hidx]
      · refine ⟨0, B, viol, by omega, hB, ?_, rfl, fun _ => rfl, fun _ => rfl⟩
        have hgt : ¬ ((c : Int) ≤ (((op.offset + n - 1) / 256 : Nat) : Int)) := by omega
        simp only [read_block_cached, hend, hgt, if_false, Nat.add_zero]

/-- The tick `sim_fs_op_read_block` at block `c` over a valid cache file:
either every remaining block comes from the file and the read completes, or
the driver is asked for the first block the file cannot serve. -/
theorem step_read_block_valid (m : Modem) (op : sim_fs_op) (src : Nat) (bm : List Nat)
    (fd : Option Nat) (buf : Option (List Nat)) (sim : ofono_sim)
    (drv : ofono_sim_driver) (files : Nat → Option (List Nat)) (sys : Sys)
    (sid ns : Nat) (infl : List DrvReq) (log : List Ev) (viol : List Violation)
    (n L c : Nat) (Bin : List Nat)
    (hn : op.num_bytes = (n : Int)) (hn1 : 1 ≤ n) (hL : op.length = (L : Int))
    (hL2 : L < 65536) (hr : (op.offset + n - 1) / 256 * 256 < L)
    (hdrv : ∀ c : Nat, c * 256 < L →
      (block_reply m op.id op.length c).data.length = min (L - c * 256) 256)
    (hvalid : ∀ f, fd = some f → ∃ F, files f = some F ∧
      blocks_valid m op.id op.length bm F ∧ tail_safe op.offset n L F)
    (hs : op.offset / 256 ≤ c) (hce : c ≤ (op.offset + n - 1) / 256)
    (halloc : sys.alloc_ok = true)
    (hbuf : if c = op.offset / 256 then Bin = List.replicate n 0 else buf = some Bin)
    (hBin : Bin.length = n)
    (htr : drv.read_file_transparent = true) :
    ∃ (k : Nat) (B1 : List Nat) (viol1 : List Violation),
      c + k ≤ (op.offset + n - 1) / 256 + 1 ∧ B1.length = n ∧
      copy_block m op (c + k) B1 = copy_block m op (c + k) (assemble m op k c Bin) ∧
      (copies_fit m op c ((op.offset + n - 1) / 256 + 1 - c) → viol1 = viol) ∧
      step m ⟨⟨some [{ op with current := (c : Int) }], src, bm, fd, buf, sim, some drv⟩,
          files, sys, [(sid, TickFn.read_block)], ns, infl, log, viol⟩ =
        .ok (some (
          if c + k = (op.offset + n - 1) / 256 + 1 then
            ⟨⟨some [], src, List.replicate 32 0, none, none, sim, some drv⟩, files, sys,
              [], ns, infl,
              log ++ [Ev.read_cb op.cb 1 (n : Int) 0 (some (assemble m op k c Bin))
                op.record_length op.userdata], viol1⟩
          else
            ⟨⟨some [{ op with current := ((c + k : Nat) : Int) }], src, bm, fd, some B1,
                sim, some drv⟩, files, sys, [], ns,
              infl ++ [DrvReq.read_file_transparent op.id (((c + k : Nat) : Int) * 256)
                (min ((L : Int) - ((c + k : Nat) : Int) * 256) 256 % 65536)],
              log ++ [Ev.drv (DrvReq.read_file_transparent op.id
                (((c + k : Nat) : Int) * 256)
                (min ((L : Int) - ((c + k : Nat) : Int) * 256) 256 % 65536))],
              viol1⟩)) := by
  have hend : cdiv ((op.offset : Int) + (op.num_bytes - 1)) 256 =
      (((op.offset + n - 1) / 256 : Nat) : Int) := by
    rw [hn, end_block_eq _ _ hn1]
  have hfuel : ((((op.offset + n - 1) / 256 : Nat) : Int) - (c : Int) + 1).toNat =
      (op.offset + n - 1) / 256 + 1 - c := by omega
  have hnb : ¬ (op.num_bytes ≤ 0) := by omega
  have hnt : op.num_bytes.toNat = n := by omega
  obtain ⟨k, B1, viol1, hk1, hk2, hk3, hk4, hk5, hk6⟩ :=
    read_block_cached_run m (some [{ op with current := (c : Int) }]) src bm fd sim
      (some drv) files sys [] ns infl log op n L hn hn1 hL hL2 hr hdrv hvalid
      ((op.offset + n - 1) / 256 + 1 - c) c Bin viol hs (by omega) (le_refl _) hBin
  refine ⟨k, B1, viol1, hk1, hk2, hk4, hk6, ?_⟩
  simp only [step, run_tick, sim_fs_op_read_block, peek_head, Except.map, hend, hfuel,
    cdiv_natCast_256, hnb, hnt, halloc, Nat.cast_inj, false_or, Bool.true_eq_false,
    and_false, if_false]
  have hw : (if c = op.offset / 256 then
      (⟨⟨some [{ op with current := (c : Int) }], src, bm, fd, some (List.replicate n 0), sim,
        some drv⟩, files, sys, [], ns, infl, log, viol⟩ : World)
      else ⟨⟨some [{ op with current := (c : Int) }], src, bm, fd, buf, sim,
        some drv⟩, files, sys, [], ns, infl, log, viol⟩) =
      ⟨⟨some [{ op with current := (c : Int) }], src, bm, fd, some Bin, sim,
        some drv⟩, files, sys, [], ns, infl, log, viol⟩ := by
    by_cases hcs : c = op.offset / 256
    · rw [if_pos hcs] at hbuf
      rw [if_pos hcs, hbuf]
    · rw [if_neg hcs] at hbuf
      rw [if_neg hcs, hbuf]
  rw [hw, hk3]
  by_cases hfin : c + k = (op.offset + n - 1) / 256 + 1
  · have hgt : ((c + k : Nat) : Int) > (((op.offset + n - 1) / 256 : Nat) : Int) := by
      omega
    rw [if_pos hfin, ← hk5 hfin]
    simp only [hgt, if_true, set_head, sim_fs_end_current, emit, hn]
    simp
  · have hgt : ¬ (((c + k : Nat) : Int) > (((op.offset + n - 1) / 256 : Nat) : Int)) := by
      omega
    rw [if_neg hfin]
    simp only [hgt, if_false, set_head, call_driver, htr, hL]
    simp

theorem take_padded_of_le (d : List Nat) (j : Nat) (h : j ≤ d.length) :
    take_padded d j = d.take j := by
  have e : j - d.length = 0 := by omega
  simp [take_padded, e]

/-- What `write` leaves in the file: nothing when it fails, otherwise a
non-empty prefix of the data, all of it when it returns the count asked. -/
theorem sys_write_form (fs : sim_fs) (files : Nat → Option (List Nat)) (sys : Sys)
    (idle : List (Nat × TickFn)) (ns : Nat) (infl : List DrvReq) (log : List Ev)
    (viol : List Violation) (id : Nat) (pos : Int) (data : List Nat) (count : Int)
    (F : List Nat) (hfile : files id = some F)
    (hc : 0 < count) (hd : data.length = count.toNat) :
    ∃ (files1 : Nat → Option (List Nat)) (j : Nat),
      sys_write ⟨fs, files, sys, idle, ns, infl, log, viol⟩ id pos data count =
        (sys.write pos count, ⟨fs, files1, sys, idle, ns, infl, log, viol⟩) ∧
      j ≤ data.length ∧
      files1 id = some (if j = 0 then F else pwrite F pos.toNat (data.take j)) ∧
      (∀ k, k ≠ id → files1 k = files k) ∧
      (sys.write pos count = count → j = data.length) := by
  have h1 : ¬ count < 0 := by omega
  by_cases hr : sys.write pos count ≤ 0
  · refine ⟨files, 0, by simp [sys_write, h1, hr], by omega, by simpa using hfile,
      fun _ _ => rfl, ?_⟩
    intro h
    omega
  · have hj : (min (sys.write pos count) count).toNat ≤ data.length := by
      rw [hd]; omega
    have hn : ¬ (data.length < (min (sys.write pos count) count).toNat) := by omega
    have hj0 : ¬ ((min (sys.write pos count) count).toNat = 0) := by omega
    refine ⟨fun k => if k = id then
        some (pwrite F pos.toNat
          (take_padded data (min (sys.write pos count) count).toNat)) else files k,
      (min (sys.write pos count) count).toNat, ?_, hj, ?_, fun k hk => if_neg hk, ?_⟩
    · simp [sys_write, h1, hr, flag_if, hn, hfile]
    · show (if id = id then _ else _) = _
      rw [if_pos rfl, if_neg hj0, take_padded_of_le _ _ hj]
    · intro h
      rw [h, hd]
      simp

/-- The outcomes of `cache_block` for block `c` of a transparent file,
whatever the two writes return. -/
theorem cache_block_cases (q : Option (List sim_fs_op)) (src : Nat) (bm : List Nat)
    (f : Nat) (buf : Option (List Nat)) (sim : ofono_sim)
    (drv : Option ofono_sim_driver) (files : Nat → Option (List Nat)) (sys : Sys)
    (idle : List (Nat × TickFn)) (ns : Nat) (infl : List DrvReq) (log : List Ev)
    (viol : List Violation) (c : Nat) (data : List Nat) (F : List Nat)
    (hfile : files f = some F) (hc : c < 256) (hd : 0 < data.length) :
    ∃ (bm1 : List Nat) (files1 : Nat → Option (List Nat)) (F1 : List Nat) (j : Nat),
      (cache_block ⟨⟨q, src, bm, some f, buf, sim, drv⟩, files, sys, idle, ns, infl, log,
        viol⟩ (c : Int) 256 data data.length).2 =
        ⟨⟨q, src, bm1, some f, buf, sim, drv⟩, files1, sys, idle, ns, infl, log, viol⟩ ∧
      files1 f = some F1 ∧ (∀ k, k ≠ f → files1 k = files k) ∧ j ≤ data.length ∧
      (F1 = (if j = 0 then F else pwrite F (38 + c * 256) (data.take j)) ∨
        F1 = pwrite (if j = 0 then F else pwrite F (38 + c * 256) (data.take j))
          (c / 8 + 6) [(bm.getD (c / 8) 0 ||| 1 <<< (c % 8)) % 256]) ∧
      (bm1 = bm ∨
        (bm1 = bm.set (c / 8) ((bm.getD (c / 8) 0 ||| 1 <<< (c % 8)) % 256) ∧
          j = data.length)) := by
  have hpos : ¬ ((c : Int) * 256 + 38 < 0) := by omega
  have hdiv : cdiv (c : Int) 8 = ((c / 8 : Nat) : Int) := by
    rw [cdiv_nonneg _ _ (by omega) (by omega)]; omega
  have hmod : cmod (c : Int) 8 = ((c % 8 : Nat) : Int) := by
    rw [cmod_nonneg _ _ (by omega) (by omega)]; omega
  have hidx : (0 : Int) ≤ ((c / 8 : Nat) : Int) ∧ ((c / 8 : Nat) : Int) < 32 := by omega
  have hget : bitmap_get bm ((c / 8 : Nat) : Int) = bm.getD (c / 8) 0 := by
    unfold bitmap_get
    rw [if_pos (by omega), Int.toNat_ofNat]
  have hp1 : ((c : Int) * 256 + 38).toNat = 38 + c * 256 := by omega
  have hp2 : (((c / 8 : Nat) : Int) + 6).toNat = c / 8 + 6 := by omega
  obtain ⟨files1, j, hw1, hj, hf1, hfr1, hfull⟩ := sys_write_form
    ⟨q, src, bm, some f, buf, sim, drv⟩ files sys idle ns infl log viol f
    ((c : Int) * 256 + 38) data data.length F hfile (by omega) (by simp)
  rw [hp1] at hf1
  simp only [cache_block, SIM_CACHE_HEADER_SIZE, SIM_FILE_INFO_SIZE, Nat.cast_ofNat]
  rw [if_neg hpos, hw1]
  by_cases hr : sys.write ((c : Int) * 256 + 38) data.length = data.length
  · obtain ⟨files2, j2, hw2, hj2, hf2, hfr2, -⟩ := sys_write_form
      ⟨q, src, bm, some f, buf, sim, drv⟩ files1 sys idle ns infl log viol f
      (((c / 8 : Nat) : Int) + 6) [(bm.getD (c / 8) 0 ||| 1 <<< (c % 8)) % 256] 1 _ hf1
      (by omega) rfl
    rw [hp2] at hf2
    have hF2 : files2 f = some (if j2 = 0 then
        (if j = 0 then F else pwrite F (38 + c * 256) (data.take j))
        else pwrite (if j = 0 then F else pwrite F (38 + c * 256) (data.take j))
          (c / 8 + 6) [(bm.getD (c / 8) 0 ||| 1 <<< (c % 8)) % 256]) := by
      rw [hf2]
      by_cases h0 : j2 = 0
      · simp [h0]
      · have h1 : j2 = 1 := by
          simp only [List.length_singleton] at hj2
          omega
        simp [h1]
    have hframe : ∀ k, k ≠ f → files2 k = files k := fun k hk => by
      rw [hfr2 k hk, hfr1 k hk]
    have hor : ∀ X : List Nat, (if j2 = 0 then
        (if j = 0 then F else pwrite F (38 + c * 256) (data.take j))
        else pwrite (if j = 0 then F else pwrite F (38 + c * 256) (data.take j))
          (c / 8 + 6) [(bm.getD (c / 8) 0 ||| 1 <<< (c % 8)) % 256]) = X →
        (X = (if j = 0 then F else pwrite F (38 + c * 256) (data.take j)) ∨
        X = pwrite (if j = 0 then F else pwrite F (38 + c * 256) (data.take j))
          (c / 8 + 6) [(bm.getD (c / 8) 0 ||| 1 <<< (c % 8)) % 256]) := by
      intro X hX
      by_cases h0 : j2 = 0
      · rw [if_pos h0] at hX; exact Or.inl hX.symm
      · rw [if_neg h0] at hX; exact Or.inr hX.symm
    simp only [hr, ne_eq, not_true_eq_false, if_false, hdiv, hmod, check_bitmap_index,
      flag_if, hidx, and_self, decide_True, decide_not, Bool.not_true, Bool.false_eq_true,
      decide_eq_true_eq, hget, Int.toNat_ofNat]
    rw [hw2]
    by_cases hr2 : sys.write (((c / 8 : Nat) : Int) + 6) 1 = 1
    · exact ⟨_, files2, _, j, by rw [if_neg (by simpa using hr2)], hF2, hframe, hj,
        hor _ rfl, Or.inr ⟨rfl, hfull hr⟩⟩
    · exact ⟨bm, files2, _, j, by rw [if_pos (by simpa using hr2)], hF2, hframe, hj,
        hor _ rfl, Or.inl rfl⟩
  · exact ⟨bm, files1, _, j, by rw [if_pos (by simpa using hr)], hf1, hfr1, hj,
      Or.inl rfl, Or.inl rfl⟩

theorem pwrite_same (F : List Nat) (pos : Nat) (b : List Nat) (hb : 0 < b.length)
    (h : pread F pos b.length = b) : pwrite F pos b = F := by
  have hle := pread_full_le F pos b.length (by rw [h]) hb
  apply List.ext_getElem?
  intro i
  rw [getElem?_pwrite]
  by_cases h1 : i < pos
  · rw [if_pos h1, if_pos (by omega)]
  · rw [if_neg h1]
    by_cases h2 : i < pos + b.length
    · rw [if_pos h2]
      have e : b[i - pos]? = (pread F pos b.length)[i - pos]? := by rw [h]
      rw [e, getElem?_pread, if_pos (by omega)]
      congr 1
      omega
    · rw [if_neg h2]

theorem unit_present_set_ne (bm : List Nat) (c r : Nat) (hne : r ≠ c) :
    unit_present (bm.set (c / 8) ((bm.getD (c / 8) 0 ||| 1 <<< (c % 8)) % 256)) (r : Int) =
      unit_present bm (r : Int) := by
  have h := unit_present_set_other bm (c + 1) (r + 1) (by omega) (by omega) (by omega)
  simp only [Nat.add_sub_cancel] at h
  have e : (((r + 1 : Nat) : Int) - 1) = (r : Int) := by push_cast; ring
  rw [e] at h
  exact h

/-- The cache file stays valid through `cache_block` of the driver's reply
for block `c`, whatever its two writes return. -/
theorem blocks_valid_cache_block (m : Modem) (op : sim_fs_op) (bm F : List Nat)
    (c L j : Nat) (F1 bm1 : List Nat)
    (hL : op.length = (L : Int)) (hL2 : L < 65536) (hcL : c * 256 < L)
    (hdrv : ∀ c : Nat, c * 256 < L →
      (block_reply m op.id op.length c).data.length = min (L - c * 256) 256)
    (hval : blocks_valid m op.id op.length bm F)
    (hj : j ≤ (block_reply m op.id op.length c).data.length)
    (hF1 : F1 = (if j = 0 then F
        else pwrite F (38 + c * 256) ((block_reply m op.id op.length c).data.take j)) ∨
      F1 = pwrite (if j = 0 then F
        else pwrite F (38 + c * 256) ((block_reply m op.id op.length c).data.take j))
        (c / 8 + 6) [(bm.getD (c / 8) 0 ||| 1 <<< (c % 8)) % 256])
    (hbm : bm1 = bm ∨
      (bm1 = bm.set (c / 8) ((bm.getD (c / 8) 0 ||| 1 <<< (c % 8)) % 256) ∧
        j = (block_reply m op.id op.length c).data.length)) :
    blocks_valid m op.id op.length bm1 F1 := by
  have hlc := hdrv c hcL
  -- the payload write
  have hA : ∀ x : Nat, x * 256 < L →
      (unit_present bm (x : Int) = true ∨
        (x = c ∧ j = (block_reply m op.id op.length c).data.length)) →
      pread (if j = 0 then F
          else pwrite F (38 + c * 256) ((block_reply m op.id op.length c).data.take j))
        (38 + x * 256) (block_reply m op.id op.length x).data.length = (block_reply m op.id op.length x).data := by
    intro x hx hor
    have hlx := hdrv x hx
    have hvx : unit_present bm (x : Int) = true →
        pread F (38 + x * 256) (block_reply m op.id op.length x).data.length =
          (block_reply m op.id op.length x).data :=
      fun hb => hval x (by rw [hL]; exact_mod_cast hx) hb
    by_cases hj0 : j = 0
    · rw [if_pos hj0]
      rcases hor with hb | ⟨_, h2⟩
      · exact hvx hb
      · omega
    · rw [if_neg hj0]
      have htl : ((block_reply m op.id op.length c).data.take j).length = j := by
        rw [List.length_take]; omega
      by_cases hxc : x = c
      · subst hxc
        by_cases hb : unit_present bm (x : Int) = true
        · have hv := hvx hb
          have hsame : pread F (38 + x * 256) ((block_reply m op.id op.length x).data.take j).length =
              (block_reply m op.id op.length x).data.take j := by
            rw [htl]
            have e : pread F (38 + x * 256) j =
                (pread F (38 + x * 256) (block_reply m op.id op.length x).data.length).take j := by
              unfold pread
              rw [List.take_take, Nat.min_eq_left hj]
            rw [e, hv]
          rw [pwrite_same _ _ _ (by omega) hsame]
          exact hv
        · rcases hor with h | ⟨_, h2⟩
          · exact absurd h hb
          · rw [h2, List.take_length]
            exact pread_pwrite_self _ _ _
      · have hb : unit_present bm (x : Int) = true := by
          rcases hor with h | ⟨h, _⟩
          · exact h
          · exact absurd h hxc
        have hv := hvx hb
        have hfl := pread_full_le F (38 + x * 256) _ (by rw [hv]) (by omega)
        by_cases hlt : x < c
        · rw [pread_pwrite_before _ _ _ _ _ (by omega) hfl]
          exact hv
        · rw [pread_pwrite_after _ _ _ _ _ (by rw [htl]; omega)]
          exact hv
  -- the bitmap byte write
  have hB : ∀ x k : Nat, pread F1 (38 + x * 256) k =
      pread (if j = 0 then F
          else pwrite F (38 + c * 256) ((block_reply m op.id op.length c).data.take j))
        (38 + x * 256) k := by
    intro x k
    rcases hF1 with h | h
    · rw [h]
    · rw [h, pread_pwrite_after _ _ _ _ _ (by simp only [List.length_singleton]; omega)]
  intro x hx hbit
  have hxL : x * 256 < L := by
    rw [hL] at hx; exact_mod_cast hx
  rw [hB]
  apply hA x hxL
  rcases hbm with h | ⟨h, h2⟩
  · rw [h] at hbit; exact Or.inl hbit
  · by_cases hxc : x = c
    · exact Or.inr ⟨hxc, h2⟩
    · rw [h, unit_present_set_ne _ _ _ hxc] at hbit
      exact Or.inl hbit

theorem pwrite_length (F : List Nat) (pos : Nat) (b : List Nat) :
    (pwrite F pos b).length = max F.length (pos + b.length) := by
  simp only [pwrite, List.length_append, List.length_take, List.length_replicate,
    List.length_drop]
  omega

/-- A cache file that holds nothing past the payload stays so through
`cache_block` of the driver's reply for block `c`. -/
theorem tail_safe_cache_block (m : Modem) (op : sim_fs_op) (bm F : List Nat)
    (c n L j : Nat) (F1 : List Nat) (hcL : c * 256 < L)
    (hlen : (block_reply m op.id op.length c).data.length = min (L - c * 256) 256)
    (hts : tail_safe op.offset n L F)
    (hj : j ≤ (block_reply m op.id op.length c).data.length)
    (hF1 : F1 = (if j = 0 then F
        else pwrite F (38 + c * 256) ((block_reply m op.id op.length c).data.take j)) ∨
      F1 = pwrite (if j = 0 then F
        else pwrite F (38 + c * 256) ((block_reply m op.id op.length c).data.take j))
        (c / 8 + 6) [(bm.getD (c / 8) 0 ||| 1 <<< (c % 8)) % 256]) :
    tail_safe op.offset n L F1 := by
  rcases hts with h | h
  · exact Or.inl h
  · refine Or.inr ?_
    have h0 : (if j = 0 then F
        else pwrite F (38 + c * 256)
          ((block_reply m op.id op.length c).data.take j)).length ≤ 38 + L := by
      split
      · exact h
      · rw [pwrite_length, List.length_take]
        omega
    rcases hF1 with h1 | h1
    · rw [h1]; exact h0
    · rw [h1, pwrite_length]
      simp only [List.length_singleton]
      omega

theorem cache_block_keeps_valid (m : Modem) (op : sim_fs_op)
    (q : Option (List sim_fs_op)) (src : Nat) (bm : List Nat)
    (fd : Option Nat) (buf : Option (List Nat)) (sim : ofono_sim)
    (drv : Option ofono_sim_driver) (files : Nat → Option (List Nat)) (sys : Sys)
    (idle : List (Nat × TickFn)) (ns : Nat) (infl : List DrvReq) (log : List Ev)
    (viol : List Violation) (c n L : Nat)
    (hL : op.length = (L : Int)) (hL2 : L < 65536) (hin : c * 256 < L)
    (hdrv : ∀ c : Nat, c * 256 < L →
      (block_reply m op.id op.length c).data.length = min (L - c * 256) 256)
    (hvalid : ∀ f, fd = some f → ∃ F, files f = some F ∧
      blocks_valid m op.id op.length bm F ∧ tail_safe op.offset n L F) :
    ∃ (bm1 : List Nat) (files1 : Nat → Option (List Nat)),
      (cache_block ⟨⟨q, src, bm, fd, buf, sim, drv⟩, files, sys, idle, ns, infl, log,
        viol⟩ (c : Int) 256 (block_reply m op.id op.length c).data
        (block_reply m op.id op.length c).data.length).2 =
        ⟨⟨q, src, bm1, fd, buf, sim, drv⟩, files1, sys, idle, ns, infl, log, viol⟩ ∧
      (∀ f, fd = some f → ∃ F, files1 f = some F ∧
        blocks_valid m op.id op.length bm1 F ∧ tail_safe op.offset n L F) := by
  cases fd with
  | none =>
    refine ⟨bm, files, by simp [cache_block], ?_⟩
    intro f hf
    exact absurd hf (by simp)
  | some f =>
    obtain ⟨F, hfile, hval, hts⟩ := hvalid f rfl
    have hlen := hdrv c hin
    obtain ⟨bm1, files1, F1, j, hcb, hf1, -, hj, hF1, hbm⟩ := cache_block_cases q src bm f
      buf sim drv files sys idle ns infl log viol c (block_reply m op.id op.length c).data F hfile
      (by omega) (by omega)
    refine ⟨bm1, files1, hcb, ?_⟩
    intro g hg
    cases hg
    exact ⟨F1, hf1, blocks_valid_cache_block m op bm F c L j F1 bm1 hL hL2 hin hdrv hval
      hj hF1 hbm, tail_safe_cache_block m op bm F c n L j F1 hin hlen hts hj hF1⟩

/-- The driver's reply for block `c` arrives: the block is copied into the
assembly buffer and offered to the cache, whose file stays valid; the read
completes after the last block and otherwise schedules the next tick. -/
theorem step_block_reply_valid (m : Modem) (op : sim_fs_op) (src : Nat) (bm : List Nat)
    (fd : Option Nat) (B : List Nat) (sim : ofono_sim)
    (drv : ofono_sim_driver) (files : Nat → Option (List Nat)) (sys : Sys)
    (ns : Nat) (infl : List DrvReq) (log : List Ev) (viol : List Violation)
    (n L c : Nat)
    (hn : op.num_bytes = (n : Int)) (hn1 : 1 ≤ n) (hL : op.length = (L : Int))
    (hL2 : L < 65536) (hr : (op.offset + n - 1) / 256 * 256 < L)
    (hdrv : ∀ c : Nat, c * 256 < L →
      (block_reply m op.id op.length c).error_type = OFONO_ERROR_TYPE_NO_ERROR ∧
      (block_reply m op.id op.length c).data.length = min (L - c * 256) 256)
    (hvalid : ∀ f, fd = some f → ∃ F, files f = some F ∧
      blocks_valid m op.id op.length bm F ∧ tail_safe op.offset n L F)
    (hce : c ≤ (op.offset + n - 1) / 256)
    (hB : B.length = n) :
    ∃ (bm1 : List Nat) (files1 : Nat → Option (List Nat)) (viol1 : List Violation),
      (∀ f, fd = some f → ∃ F, files1 f = some F ∧
        blocks_valid m op.id op.length bm1 F ∧ tail_safe op.offset n L F) ∧
      (copies_fit m op c 1 → viol1 = viol) ∧
      step m ⟨⟨some [{ op with current := (c : Int) }], src, bm, fd, some B, sim,
          some drv⟩, files, sys, [], ns,
          DrvReq.read_file_transparent op.id ((c : Int) * 256)
            (min ((L : Int) - (c : Int) * 256) 256 % 65536) :: infl, log, viol⟩ =
        .ok (some (
          if c = (op.offset + n - 1) / 256 then
            ⟨⟨some [], src, List.replicate 32 0, none, none, sim, some drv⟩, files1, sys,
              [], ns, infl,
              log ++ [Ev.read_cb op.cb 1 (n : Int) 0 (some (copy_block m op c B))
                op.record_length op.userdata], viol1⟩
          else
            ⟨⟨some [{ op with current := ((c + 1 : Nat) : Int) }], ns, bm1, fd,
                some (copy_block m op c B), sim, some drv⟩, files1, sys,
              [(ns, TickFn.read_block)], ns + 1, infl, log, viol1⟩)) := by
  have hin : c * 256 < L := by omega
  obtain ⟨herr, hlen⟩ := hdrv c hin
  have hrep : m.transparent op.id ((c : Int) * 256)
      (min ((L : Int) - (c : Int) * 256) 256 % 65536) = block_reply m op.id op.length c := by
    rw [block_reply, hL]
  have hend : cdiv ((op.offset : Int) + (op.num_bytes - 1)) 256 =
      (((op.offset + n - 1) / 256 : Nat) : Int) := by
    rw [hn, end_block_eq _ _ hn1]
  have hbs : block_cb_slice { op with current := (c : Int) }
      (block_reply m op.id op.length c).data.length = block_slice m op c := rfl
  have hlenf : ∀ c : Nat, c * 256 < L →
      (block_reply m op.id op.length c).data.length = min (L - c * 256) 256 := fun x hx => (hdrv x hx).2
  have hfit : copies_fit m op c 1 →
      (if (!in_bounds B.length (block_slice m op c).1 (block_slice m op c).2.2.toNat) = true
        then (if decide ((block_slice m op c).2.1 + (block_slice m op c).2.2 >
            ((block_reply m op.id op.length c).data.length : Int)) = true then
              viol ++ [Violation.source_overread] else viol) ++
          [Violation.buffer_overflow]
        else if decide ((block_slice m op c).2.1 + (block_slice m op c).2.2 >
            ((block_reply m op.id op.length c).data.length : Int)) = true then
              viol ++ [Violation.source_overread] else viol) = viol := by
    intro h
    obtain ⟨h1, h2⟩ := h c (le_refl _) (by omega)
    rw [hn, Int.toNat_ofNat, ← hB] at h1
    have h3 : ¬ ((block_slice m op c).2.1 + (block_slice m op c).2.2 >
        ((block_reply m op.id op.length c).data.length : Int)) := by omega
    simp [h1, h3]
  obtain ⟨bm1, files1, hcb, hv1⟩ := cache_block_keeps_valid m op
    (some [{ op with current := (c : Int) }]) src bm fd (some (copy_block m op c B)) sim
    (some drv) files sys [] ns infl log
    (if (!in_bounds B.length (block_slice m op c).1 (block_slice m op c).2.2.toNat) = true
      then (if decide ((block_slice m op c).2.1 + (block_slice m op c).2.2 >
          ((block_reply m op.id op.length c).data.length : Int)) = true then
            viol ++ [Violation.source_overread] else viol) ++
        [Violation.buffer_overflow]
      else if decide ((block_slice m op c).2.1 + (block_slice m op c).2.2 >
          ((block_reply m op.id op.length c).data.length : Int)) = true then
            viol ++ [Violation.source_overread] else viol)
    c n L hL hL2 hin hlenf hvalid
  refine ⟨bm1, files1, _, hv1, hfit, ?_⟩
  have hcopy : store_at B (block_slice m op c).1
      (take_padded ((block_reply m op.id op.length c).data.drop (block_slice m op c).2.1.toNat)
        (block_slice m op c).2.2.toNat) = copy_block m op c B := rfl
  simp only [step, deliver, hrep, sim_fs_op_read_block_cb, peek_head, herr, hend, hbs,
    ne_eq, not_true_eq_false, if_false, memcpy_to_buffer, flag_if, hcopy]
  rw [hcb]
  by_cases hlast : c = (op.offset + n - 1) / 256
  · have hgt : (c : Int) + 1 > (((op.offset + n - 1) / 256 : Nat) : Int) := by omega
    rw [if_pos hlast, if_pos hgt]
    simp only [set_head, sim_fs_end_current, emit, hn, Except.map]
    simp
  · have hgt : ¬ ((c : Int) + 1 > (((op.offset + n - 1) / 256 : Nat) : Int)) := by omega
    rw [if_neg hlast, if_neg hgt]
    simp only [set_head, idle_add, Except.map]
    simp

theorem copies_fit_sub (m : Modem) (op : sim_fs_op) (c k c1 k1 : Nat)
    (h : copies_fit m op c k) (h1 : c ≤ c1) (h2 : c1 + k1 ≤ c + k) :
    copies_fit m op c1 k1 := by
  intro x hx1 hx2
  exact h x (by omega) (by omega)

/-- A transparent read over any valid cache state runs to completion: the
caller gets one callback, whose data is the assembly of the driver's blocks
of the range, whichever of them came from the cache file. -/
theorem run_blocks_valid (m : Modem) (sim : ofono_sim) (drv : ofono_sim_driver)
    (sys : Sys) (op : sim_fs_op) (n L : Nat)
    (hn : op.num_bytes = (n : Int)) (hn1 : 1 ≤ n) (hL : op.length = (L : Int))
    (hL2 : L < 65536) (hr : (op.offset + n - 1) / 256 * 256 < L)
    (hdrv : ∀ c : Nat, c * 256 < L →
      (block_reply m op.id op.length c).error_type = OFONO_ERROR_TYPE_NO_ERROR ∧
      (block_reply m op.id op.length c).data.length = min (L - c * 256) 256)
    (halloc : sys.alloc_ok = true) (htr : drv.read_file_transparent = true) :
    ∀ (fuel c : Nat) (src : Nat) (bm : List Nat) (fd : Option Nat)
      (buf : Option (List Nat)) (files : Nat → Option (List Nat)) (sid ns : Nat)
      (log : List Ev) (viol : List Violation) (Bin : List Nat),
      (op.offset + n - 1) / 256 + 1 - c ≤ fuel → op.offset / 256 ≤ c →
      c ≤ (op.offset + n - 1) / 256 →
      (∀ f, fd = some f → ∃ F, files f = some F ∧
      blocks_valid m op.id op.length bm F ∧ tail_safe op.offset n L F) →
      (if c = op.offset / 256 then Bin = List.replicate n 0 else buf = some Bin) →
      Bin.length = n →
      ∃ (N : Nat) (w1 : World), N ≤ 2 * fuel ∧
        run m N ⟨⟨some [{ op with current := (c : Int) }], src, bm, fd, buf, sim,
            some drv⟩, files, sys, [(sid, TickFn.read_block)], ns, [], log, viol⟩ =
          .ok w1 ∧
        quiescent w1 ∧ w1.fs.op_q = some [] ∧ w1.fs.fd = none ∧
        callbacks_of w1.log = callbacks_of log ++
          [Ev.read_cb op.cb 1 (n : Int) 0
            (some (assemble m op ((op.offset + n - 1) / 256 + 1 - c) c Bin))
            op.record_length op.userdata] ∧
        (copies_fit m op c ((op.offset + n - 1) / 256 + 1 - c) → w1.viol = viol) := by
  have hlenf : ∀ c : Nat, c * 256 < L →
      (block_reply m op.id op.length c).data.length = min (L - c * 256) 256 := fun x hx => (hdrv x hx).2
  intro fuel
  induction fuel with
  | zero =>
    intro c src bm fd buf files sid ns log viol Bin hfuel hs hce
    omega
  | succ fuel ih =>
    intro c src bm fd buf files sid ns log viol Bin hfuel hs hce hvalid hbuf hBin
    obtain ⟨k, B1, viol1, hk1, hk2, hk4, hk6, hstep⟩ := step_read_block_valid m op src bm
      fd buf sim drv files sys sid ns [] log viol n L c Bin hn hn1 hL hL2 hr hlenf hvalid
      hs hce halloc hbuf hBin htr
    by_cases hfin : c + k = (op.offset + n - 1) / 256 + 1
    · -- every remaining block came from the cache
      rw [if_pos hfin] at hstep
      have hk : (op.offset + n - 1) / 256 + 1 - c = k := by omega
      refine ⟨1, _, by omega, (run_step m 0 _ _ hstep).trans rfl, ⟨rfl, rfl⟩, rfl, rfl,
        ?_, hk6⟩
      rw [hk]
      simp [callbacks_of]
    · rw [if_neg hfin] at hstep
      obtain ⟨bm1, files1, viol2, hv1, hfit2, hstep2⟩ := step_block_reply_valid m op src bm
        fd B1 sim drv files sys ns []
        (log ++ [Ev.drv (DrvReq.read_file_transparent op.id (((c + k : Nat) : Int) * 256)
          (min ((L : Int) - ((c + k : Nat) : Int) * 256) 256 % 65536))]) viol1 n L
        (c + k) hn hn1 hL hL2 hr hdrv hvalid (by omega) hk2
      rw [hk4, ← assemble_succ] at hstep2
      simp only [List.nil_append] at hstep hstep2
      by_cases hlast : c + k = (op.offset + n - 1) / 256
      · -- the driver's block was the last one
        rw [if_pos hlast] at hstep2
        have hk : (op.offset + n - 1) / 256 + 1 - c = k + 1 := by omega
        refine ⟨2, _, by omega,
          (run_step m 1 _ _ hstep).trans ((run_step m 0 _ _ hstep2).trans rfl),
          ⟨rfl, rfl⟩, rfl, rfl, ?_, ?_⟩
        · rw [hk]
          simp [callbacks_of]
        · intro hfit
          show viol2 = viol
          rw [hfit2 (copies_fit_sub m op _ _ _ _ hfit (by omega) (by omega)), hk6 hfit]
      · rw [if_neg hlast] at hstep2
        obtain ⟨N, w1, hN, hrun, hq, hq2, hfd, hcb, hv⟩ := ih (c + k + 1) ns bm1 fd
          (some (assemble m op (k + 1) c Bin)) files1 ns (ns + 1)
          (log ++ [Ev.drv (DrvReq.read_file_transparent op.id (((c + k : Nat) : Int) * 256)
            (min ((L : Int) - ((c + k : Nat) : Int) * 256) 256 % 65536))]) viol2
          (assemble m op (k + 1) c Bin) (by omega) (by omega) (by omega) hv1
          (by rw [if_neg (by omega)]) (by rw [assemble_length]; exact hBin)
        refine ⟨N + 2, w1, by omega,
          (run_step m (N + 1) _ _ hstep).trans ((run_step m N _ _ hstep2).trans hrun),
          hq, hq2, hfd, ?_, ?_⟩
        · rw [hcb]
          have e : (op.offset + n - 1) / 256 + 1 - c =
              (k + 1) + ((op.offset + n - 1) / 256 + 1 - (c + k + 1)) := by omega
          have e2 : c + (k + 1) = c + k + 1 := by omega
          rw [e, assemble_add m op (k + 1) _ c Bin, e2]
          simp [callbacks_of]
        · intro hfit
          rw [hv (copies_fit_sub m op _ _ _ _ hfit (by omega) (by omega)),
            hfit2 (copies_fit_sub m op _ _ _ _ hfit (by omega) (by omega)), hk6 hfit]

/-- The file-information reply on the cold path, whatever creating the cache
file returns: a descriptor left open belongs to a file that exists. -/
theorem step_info_opened (m : Modem) (op : sim_fs_op)
    (src : Nat) (bm : List Nat) (buf : Option (List Nat))
    (sim : ofono_sim) (drv : ofono_sim_driver) (files : Nat → Option (List Nat))
    (sys : Sys) (ns : Nat)
    (infl : List DrvReq) (log : List Ev) (viol : List Violation)
    (herr : (m.info op.id).error_type = OFONO_ERROR_TYPE_NO_ERROR)
    (hst : (m.info op.id).structure_ = op.structure_) :
    ∃ fd1 files1,
      (∀ f, fd1 = some f → f = op.id ∧ ∃ F, files1 f = some F ∧ F.length ≤ 38) ∧
      step m ⟨⟨some [op], src, bm, none, buf, sim, some drv⟩, files, sys,
        [], ns, DrvReq.read_file_info op.id :: infl, log, viol⟩ =
      .ok (some ⟨⟨some [if op.structure_ = OFONO_SIM_FILE_STRUCTURE_TRANSPARENT then
            { op with
              length := (m.info op.id).length
              num_bytes := if op.num_bytes = 0 then (m.info op.id).length
                else op.num_bytes
              record_length := (m.info op.id).length
              current := cdiv op.offset 256 }
          else
            { op with
              length := (m.info op.id).length
              record_length := (m.info op.id).record_length
              current := 1 }],
        ns, bm, fd1, buf, sim, some drv⟩, files1, sys,
        [(ns, if op.structure_ = OFONO_SIM_FILE_STRUCTURE_TRANSPARENT then
            TickFn.read_block else TickFn.read_record)],
        ns + 1, infl, log, viol⟩) := by
  by_cases hunc : sim.imsi = none ∨ cacheable (m.info op.id).access = false
  · exact ⟨none, files, fun f hf => absurd hf (by simp), step_info_uncached m op src bm buf sim drv files sys ns infl log
      viol herr hst hunc⟩
  · have himsi : sim.imsi ≠ none := fun h => hunc (Or.inl h)
    have hc : cacheable (m.info op.id).access = true := by
      cases h : cacheable (m.info op.id).access with
      | false => exact absurd (Or.inr h) hunc
      | true => rfl
    by_cases hcan : sys.can_create = false
    · refine ⟨none, files, fun f hf => absurd hf (by simp), ?_⟩
      simp only [step, deliver, sim_fs_op_info_cb, peek_head, herr, hst, hc, hcan]
      simp [himsi, idle_add, set_head, OFONO_ERROR_TYPE_NO_ERROR, Except.map]
    · obtain ⟨files1, j, hw, hj, hF1, -, -⟩ := sys_write_form
        ⟨some [if op.structure_ = OFONO_SIM_FILE_STRUCTURE_TRANSPARENT then
            { op with
              length := (m.info op.id).length
              num_bytes := if op.num_bytes = 0 then (m.info op.id).length
                else op.num_bytes
              record_length := (m.info op.id).length
              current := cdiv op.offset 256 }
          else
            { op with
              length := (m.info op.id).length
              record_length := (m.info op.id).record_length
              current := 1 }], ns, bm, some op.id, buf, sim, some drv⟩
        (fun k => if k = op.id then some [] else files k) sys
        [(ns, if op.structure_ = OFONO_SIM_FILE_STRUCTURE_TRANSPARENT then
            TickFn.read_block else TickFn.read_record)] (ns + 1) infl log viol op.id 0
        (cache_header (m.info op.id).length op.structure_ (m.info op.id).record_length)
        38 [] (by simp) (by omega) (by simp)
      have hFl : (if j = 0 then ([] : List Nat) else pwrite [] 0
          ((cache_header (m.info op.id).length op.structure_
            (m.info op.id).record_length).take j)).length ≤ 38 := by
        split
        · simp
        · rw [pwrite_nil_zero, List.length_take]
          exact Nat.le_trans (Nat.min_le_right _ _) (by simp)
      by_cases hr : sys.write 0 38 = 38
      · refine ⟨some op.id, files1, fun f hf => by cases hf; exact ⟨rfl, _, hF1, hFl⟩, ?_⟩
        simp only [step, deliver, sim_fs_op_info_cb, peek_head, herr, hst, hc, hcan]
        simp [himsi, idle_add, set_head, OFONO_ERROR_TYPE_NO_ERROR, Except.map,
          SIM_CACHE_HEADER_SIZE]
        rw [hw]
        simp [hr]
      · refine ⟨none, files1, fun f hf => absurd hf (by simp), ?_⟩
        simp only [step, deliver, sim_fs_op_info_cb, peek_head, herr, hst, hc, hcan]
        simp [himsi, idle_add, set_head, OFONO_ERROR_TYPE_NO_ERROR, Except.map,
          SIM_CACHE_HEADER_SIZE]
        rw [hw]
        simp [hr]

theorem unit_present_zero (c : Nat) : unit_present (List.replicate 32 0) (c : Int) = false := by
  rw [unit_present_iff]
  have h : (List.replicate 32 0).getD (c / 8) 0 = 0 := by
    rw [List.getD_eq_getElem?_getD, List.getElem?_replicate]
    split <;> rfl
  rw [h]
  simp

/-- A transparent read with no usable cache file: the file information is
asked of the driver and the blocks follow, whatever creating and writing the
cache file return. -/
theorem transparent_read_cold (m : Modem) (sim : ofono_sim) (drv : ofono_sim_driver)
    (files : Nat → Option (List Nat)) (sys : Sys) (id L : Nat) (r : ReadReq)
    (hinfo : drv.read_file_info = true) (htr : drv.read_file_transparent = true)
    (halloc : sys.alloc_ok = true)
    (hmiss : sim.imsi = none ∨ files id = none)
    (herr : (m.info id).error_type = OFONO_ERROR_TYPE_NO_ERROR)
    (hst : (m.info id).structure_ = OFONO_SIM_FILE_STRUCTURE_TRANSPARENT)
    (hlen : (m.info id).length = (L : Int))
    (hL2 : L < 65536) (hn1 : 1 ≤ read_count L r) 
    (hr : (r.offset + read_count L r - 1) / 256 * 256 < L)
    (hdrv : ∀ c : Nat, c * 256 < L →
      (block_reply m id L c).error_type = OFONO_ERROR_TYPE_NO_ERROR ∧
      (block_reply m id L c).data.length = min (L - c * 256) 256)
    (hcb : r.cb ≠ 0) (hnb : r.num_bytes < 65536) :
    ∃ (N : Nat) (w : World),
      N ≤ 2 * ((r.offset + read_count L r - 1) / 256 + 1 - r.offset / 256) + 2 ∧
      run m N (sim_fs_read (World.init sim (some drv) files sys) id
        OFONO_SIM_FILE_STRUCTURE_TRANSPARENT r.offset r.num_bytes r.cb r.userdata).2 =
        .ok w ∧
      quiescent w ∧ callbacks_of w.log = [transparent_callback m id L r] ∧
      (copies_fit m (transparent_op id L r) (r.offset / 256)
        ((r.offset + read_count L r - 1) / 256 + 1 - r.offset / 256) → w.viol = []) := by
  have ho : r.offset < 65536 := by omega
  have hmo : r.offset % 65536 = r.offset := Nat.mod_eq_of_lt ho
  have hmn : r.num_bytes % 65536 = r.num_bytes := Nat.mod_eq_of_lt hnb
  have hread : (sim_fs_read (World.init sim (some drv) files sys) id
      OFONO_SIM_FILE_STRUCTURE_TRANSPARENT r.offset r.num_bytes r.cb r.userdata).2 =
      ⟨⟨some [(⟨id, OFONO_SIM_FILE_STRUCTURE_TRANSPARENT, r.offset, r.num_bytes, 0, 0, 0,
          r.cb, true, r.userdata⟩ : sim_fs_op)], 1, List.replicate 32 0, none, none, sim,
        some drv⟩, files, sys, [(1, TickFn.op_next)], 2, [], [], []⟩ := by
    simp [sim_fs_read, World.init, sim_fs_new, hcb, hinfo, idle_add, hmo, hmn]
  have s1 := step_op_next_miss m
    (⟨id, OFONO_SIM_FILE_STRUCTURE_TRANSPARENT, r.offset, r.num_bytes, 0, 0, 0, r.cb, true,
      r.userdata⟩ : sim_fs_op)
    [] 1 (List.replicate 32 0) none none sim drv files sys 1 [] 2 [] [] [] rfl hinfo hmiss
  obtain ⟨fd1, files1, hopen, s2⟩ := step_info_opened m
    (⟨id, OFONO_SIM_FILE_STRUCTURE_TRANSPARENT, r.offset, r.num_bytes, 0, 0, 0, r.cb, true,
      r.userdata⟩ : sim_fs_op)
    0 (List.replicate 32 0) none sim drv files sys 2 []
    [Ev.drv (DrvReq.read_file_info id)] [] herr hst
  have hnum : (if (r.num_bytes : Int) = 0 then (L : Int) else (r.num_bytes : Int)) =
      ((read_count L r : Nat) : Int) := by
    unfold read_count
    by_cases h : r.num_bytes = 0
    · simp [h]
    · have h2 : ¬ ((r.num_bytes : Int) = 0) := by omega
      simp [h, h2]
  simp only [if_true, hlen, hnum, cdiv_natCast_256, List.nil_append] at s1 s2
  obtain ⟨N, w, hN, hrun, hq, -, -, hcbs, hv⟩ := run_blocks_valid m sim drv sys
    (transparent_op id L r) (read_count L r) L rfl hn1 rfl hL2 hr hdrv halloc htr
    ((r.offset + read_count L r - 1) / 256 + 1 - r.offset / 256) (r.offset / 256)
    2 (List.replicate 32 0) fd1 none files1 2 3 [Ev.drv (DrvReq.read_file_info id)] []
    (List.replicate (read_count L r) 0) (le_refl _) (le_refl _)
    (by
      show r.offset / 256 ≤ (r.offset + read_count L r - 1) / 256
      exact Nat.div_le_div_right (by omega))
    (fun f hf => by
      obtain ⟨-, F, hF, hFl⟩ := hopen f hf
      exact ⟨F, hF, (fun c _ hbit => by rw [unit_present_zero] at hbit; cases hbit),
        Or.inr (by omega)⟩)
    (by
      show (if r.offset / 256 = r.offset / 256 then _ else _)
      rw [if_pos rfl])
    (by simp)
  refine ⟨N + 2, w, by omega, ?_, hq, ?_, hv⟩
  · rw [hread]
    exact (run_step m (N + 1) _ _ s1).trans ((run_step m N _ _ s2).trans hrun)
  · rw [hcbs]
    simp [callbacks_of, transparent_callback, transparent_op]

/-- A transparent read over a cache file whose header matches the file and
whose set presence bits mark blocks stored as the driver returns them. -/
theorem transparent_read_warm (m : Modem) (sim : ofono_sim) (drv : ofono_sim_driver)
    (files : Nat → Option (List Nat)) (sys : Sys) (id L : Nat) (R : Int)
    (bmF payload : List Nat) (r : ReadReq)
    (hinfo : drv.read_file_info = true) (htr : drv.read_file_transparent = true)
    (halloc : sys.alloc_ok = true)
    (himsi : sim.imsi ≠ none)
    (hfile : files id = some (cache_file (L : Int) OFONO_SIM_FILE_STRUCTURE_TRANSPARENT R
      bmF payload))
    (hR0 : 0 ≤ R) (hR1 : R < 65536) (hbm : bmF.length = 32)
    (hvalid : blocks_valid m id (L : Int) bmF
      (cache_file (L : Int) OFONO_SIM_FILE_STRUCTURE_TRANSPARENT R bmF payload))
    (hL2 : L < 65536) (hn1 : 1 ≤ read_count L r) 
    (hr : (r.offset + read_count L r - 1) / 256 * 256 < L)
    (hts : tail_safe r.offset (read_count L r) L
      (cache_file (L : Int) OFONO_SIM_FILE_STRUCTURE_TRANSPARENT R bmF payload))
    (hdrv : ∀ c : Nat, c * 256 < L →
      (block_reply m id L c).error_type = OFONO_ERROR_TYPE_NO_ERROR ∧
      (block_reply m id L c).data.length = min (L - c * 256) 256)
    (hcb : r.cb ≠ 0) (hnb : r.num_bytes < 65536) :
    ∃ (N : Nat) (w : World),
      N ≤ 2 * ((r.offset + read_count L r - 1) / 256 + 1 - r.offset / 256) + 2 ∧
      run m N (sim_fs_read (World.init sim (some drv) files sys) id
        OFONO_SIM_FILE_STRUCTURE_TRANSPARENT r.offset r.num_bytes r.cb r.userdata).2 =
        .ok w ∧
      quiescent w ∧ callbacks_of w.log = [transparent_callback m id L r] ∧
      (copies_fit m (transparent_op id L r) (r.offset / 256)
        ((r.offset + read_count L r - 1) / 256 + 1 - r.offset / 256) → w.viol = []) := by
  have ho : r.offset < 65536 := by omega
  have hmo : r.offset % 65536 = r.offset := Nat.mod_eq_of_lt ho
  have hmn : r.num_bytes % 65536 = r.num_bytes := Nat.mod_eq_of_lt hnb
  have hread : (sim_fs_read (World.init sim (some drv) files sys) id
      OFONO_SIM_FILE_STRUCTURE_TRANSPARENT r.offset r.num_bytes r.cb r.userdata).2 =
      ⟨⟨some [(⟨id, OFONO_SIM_FILE_STRUCTURE_TRANSPARENT, r.offset, r.num_bytes, 0, 0, 0,
          r.cb, true, r.userdata⟩ : sim_fs_op)], 1, List.replicate 32 0, none, none, sim,
        some drv⟩, files, sys, [(1, TickFn.op_next)], 2, [], [], []⟩ := by
    simp [sim_fs_read, World.init, sim_fs_new, hcb, hinfo, idle_add, hmo, hmn]
  have hL1 : 1 ≤ L := by omega
  have s1 := step_op_next_hit m
    (⟨id, OFONO_SIM_FILE_STRUCTURE_TRANSPARENT, r.offset, r.num_bytes, 0, 0, 0, r.cb, true,
      r.userdata⟩ : sim_fs_op) []
    1 (List.replicate 32 0) none none sim (some drv) files sys 1 [] 2 [] [] []
    (L : Int) R bmF payload rfl himsi hfile
    (by show OFONO_SIM_FILE_STRUCTURE_TRANSPARENT < 256; decide)
    (by omega) (by omega) hR0 hR1 hbm
    (by simp only [if_true]; omega)
  have hnum : (if (r.num_bytes : Int) = 0 then (L : Int) else (r.num_bytes : Int)) =
      ((read_count L r : Nat) : Int) := by
    unfold read_count
    by_cases h : r.num_bytes = 0
    · simp [h]
    · have h2 : ¬ ((r.num_bytes : Int) = 0) := by omega
      simp [h, h2]
  simp only [if_true, hnum, cdiv_natCast_256, List.nil_append] at s1
  obtain ⟨N, w, hN, hrun, hq, -, -, hcbs, hv⟩ := run_blocks_valid m sim drv sys
    (transparent_op id L r) (read_count L r) L rfl hn1 rfl hL2 hr hdrv halloc htr
    ((r.offset + read_count L r - 1) / 256 + 1 - r.offset / 256) (r.offset / 256)
    2 bmF (some id) none files 2 3 [] []
    (List.replicate (read_count L r) 0) (le_refl _) (le_refl _)
    (by
      show r.offset / 256 ≤ (r.offset + read_count L r - 1) / 256
      exact Nat.div_le_div_right (by omega))
    (fun f hf => by
      cases hf
      exact ⟨_, hfile, hvalid, hts⟩)
    (by
      show (if r.offset / 256 = r.offset / 256 then _ else _)
      rw [if_pos rfl])
    (by simp)
  refine ⟨N + 1, w, by omega, ?_, hq, ?_, hv⟩
  · rw [hread]
    exact (run_step m N _ _ s1).trans hrun
  · rw [hcbs]
    simp [callbacks_of, transparent_callback, transparent_op]

/-- The callbacks of a record-by-record read do not depend on which records
came from the cache. -/
theorem callbacks_record_events (m : Modem) (op : sim_fs_op) (cached : Int → Bool)
    (count : Nat) :
    ∀ first : Int, callbacks_of (record_events m op cached first count) =
      record_events m op (fun _ => true) first count := by
  induction count with
  | zero => intro first; rfl
  | succ n ih =>
    intro first
    simp only [record_events, callbacks_of_append, ih]
    cases cached first <;> simp [callbacks_of]

/-- A record-by-record read with no usable cache file, whatever creating and
writing the cache file return. -/
theorem record_read_cold (m : Modem) (sim : ofono_sim) (drv : ofono_sim_driver)
    (files : Nat → Option (List Nat)) (sys : Sys) (id st R total : Nat) (r : ReadReq)
    (hinfo : drv.read_file_info = true)
    (hst : (st = OFONO_SIM_FILE_STRUCTURE_FIXED ∧ drv.read_file_linear = true) ∨
      (st = OFONO_SIM_FILE_STRUCTURE_CYCLIC ∧ drv.read_file_cyclic = true))
    (hmiss : sim.imsi = none ∨ files id = none)
    (herr : (m.info id).error_type = OFONO_ERROR_TYPE_NO_ERROR)
    (hmst : (m.info id).structure_ = st)
    (hlen : (m.info id).length = ((total * R : Nat) : Int))
    (hrl : (m.info id).record_length = (R : Int))
    (hR : 1 ≤ R) (hR2 : R ≤ 256) (ht1 : 1 ≤ total) (ht2 : total ≤ 256)
    (hdrv : ∀ k : Nat, 1 ≤ k → k ≤ total →
      (record_reply m st id k R).error_type = OFONO_ERROR_TYPE_NO_ERROR ∧
        (record_reply m st id k R).data.length = R)
    (hcb : r.cb ≠ 0) (ho : r.offset < 65536) (hnb : r.num_bytes < 65536) :
    ∃ (N : Nat) (w : World), N ≤ 2 * total + 2 ∧
      run m N (sim_fs_read (World.init sim (some drv) files sys) id st r.offset
        r.num_bytes r.cb r.userdata).2 = .ok w ∧
      quiescent w ∧ w.viol = [] ∧
      callbacks_of w.log =
        record_events m (read_op id st ((total * R : Nat) : Int) R r) (fun _ => true) 1
          total := by
  have hmo : r.offset % 65536 = r.offset := Nat.mod_eq_of_lt ho
  have hmn : r.num_bytes % 65536 = r.num_bytes := Nat.mod_eq_of_lt hnb
  have hnt : st ≠ OFONO_SIM_FILE_STRUCTURE_TRANSPARENT := by
    rcases hst with ⟨h, _⟩ | ⟨h, _⟩ <;> rw [h] <;> decide
  have hread : (sim_fs_read (World.init sim (some drv) files sys) id st r.offset
      r.num_bytes r.cb r.userdata).2 =
      ⟨⟨some [(⟨id, st, r.offset, r.num_bytes, 0, 0, 0, r.cb, true, r.userdata⟩ :
          sim_fs_op)], 1, List.replicate 32 0, none, none, sim,
        some drv⟩, files, sys, [(1, TickFn.op_next)], 2, [], [], []⟩ := by
    simp [sim_fs_read, World.init, sim_fs_new, hcb, hinfo, idle_add, hmo, hmn]
  have s1 := step_op_next_miss m
    (⟨id, st, r.offset, r.num_bytes, 0, 0, 0, r.cb, true, r.userdata⟩ : sim_fs_op)
    [] 1 (List.replicate 32 0) none none sim drv files sys 1 [] 2 [] [] [] rfl hinfo hmiss
  obtain ⟨fd1, files1, hopen, s2⟩ := step_info_opened m
    (⟨id, st, r.offset, r.num_bytes, 0, 0, 0, r.cb, true, r.userdata⟩ : sim_fs_op)
    0 (List.replicate 32 0) none sim drv files sys 2 []
    [Ev.drv (DrvReq.read_file_info id)] [] herr hmst
  simp only [hnt, if_false, hlen, hrl, List.nil_append] at s1 s2
  have hRz : (R : Int) ≠ 0 := by omega
  have htot : cdiv ((total * R : Nat) : Int) (R : Int) = (total : Int) :=
    cdiv_records total R hR
  have hfinal : ∃ (N : Nat) (w : World), N ≤ 2 * total ∧
      run m N ⟨⟨some [(⟨id, st, r.offset, r.num_bytes, ((total * R : Nat) : Int), R, 1,
          r.cb, true, r.userdata⟩ : sim_fs_op)], 2, List.replicate 32 0, fd1, none, sim,
        some drv⟩, files1, sys, [(2, TickFn.read_record)], 3, [],
        [Ev.drv (DrvReq.read_file_info id)], []⟩ = .ok w ∧
      quiescent w ∧ w.viol = [] ∧
      callbacks_of w.log =
        record_events m (read_op id st ((total * R : Nat) : Int) R r) (fun _ => true) 1
          total := by
    cases fd1 with
    | none =>
      obtain ⟨src1, ns1, hrun⟩ := run_records_uncached m sim drv files1 sys (total - 1)
        (⟨id, st, r.offset, r.num_bytes, ((total * R : Nat) : Int), R, 1, r.cb, true,
          r.userdata⟩ : sim_fs_op)
        2 (List.replicate 32 0) none 2 3 [Ev.drv (DrvReq.read_file_info id)] []
        (by simp only [htot]; omega) hRz hst
        (fun c h1 h2 => by
          simp only [htot] at h1 h2
          have hc : c = ((c.toNat : Nat) : Int) := by omega
          rw [hc]
          exact (hdrv c.toNat (by omega) (by omega)).1)
      have e : total - 1 + 1 = total := by omega
      rw [e] at hrun
      refine ⟨2 * (total - 1) + 2, _, by omega, hrun, ⟨rfl, rfl⟩, rfl, ?_⟩
      show callbacks_of ([Ev.drv (DrvReq.read_file_info id)] ++ _) = _
      rw [callbacks_of_append, callbacks_record_events]
      simp [callbacks_of, read_op, record_events_current]
    | some f =>
      obtain ⟨hf, F, hF, -⟩ := hopen f rfl
      simp only at hf
      subst hf
      obtain ⟨N, w1, hN, hrun, hq, -, -, hv, -, hlog⟩ := run_records_any m sim drv sys R
        total hR hR2 ht2 total 1
        (⟨f, st, r.offset, r.num_bytes, ((total * R : Nat) : Int), R, 1, r.cb, true,
          r.userdata⟩ : sim_fs_op)
        2 (List.replicate 32 0) none files1 2 3 [Ev.drv (DrvReq.read_file_info f)] [] F
        (by omega) rfl rfl rfl (by omega) ht1 hst hF
        (fun k h1 h2 h3 => by
          have e : ((k : Int) - 1) = ((k - 1 : Nat) : Int) := by omega
          rw [e, unit_present_zero] at h3
          cases h3)
        (fun k h1 h2 => hdrv k h1 h2)
      refine ⟨N, w1, hN, hrun, hq, hv, ?_⟩
      rw [hlog, callbacks_of_append, callbacks_record_events]
      simp [callbacks_of, read_op, record_events_current]
  obtain ⟨N, w, hN, hrun, hq, hv, hcbs⟩ := hfinal
  refine ⟨N + 2, w, by omega, ?_, hq, hv, hcbs⟩
  rw [hread]
  exact (run_step m (N + 1) _ _ s1).trans ((run_step m N _ _ s2).trans hrun)

/-- A record-by-record read over a cache file whose header matches the file
and whose set presence bits mark records stored as the driver returns
them. -/
theorem record_read_warm (m : Modem) (sim : ofono_sim) (drv : ofono_sim_driver)
    (files : Nat → Option (List Nat)) (sys : Sys) (id st R total : Nat)
    (bmF payload : List Nat) (r : ReadReq)
    (himsi : sim.imsi ≠ none) (hinfo : drv.read_file_info = true)
    (hst : (st = OFONO_SIM_FILE_STRUCTURE_FIXED ∧ drv.read_file_linear = true) ∨
      (st = OFONO_SIM_FILE_STRUCTURE_CYCLIC ∧ drv.read_file_cyclic = true))
    (hR : 1 ≤ R) (hR2 : R ≤ 256) (ht1 : 1 ≤ total) (ht2 : total ≤ 256)
    (hL : total * R < 65536)
    (hbm : bmF.length = 32)
    (hfile : files id = some (cache_file ((total * R : Nat) : Int) st R bmF payload))
    (hvalid : ∀ k : Nat, 1 ≤ k → k ≤ total → unit_present bmF ((k : Int) - 1) = true →
      pread (cache_file ((total * R : Nat) : Int) st R bmF payload) ((k - 1) * R + 38) R =
        (record_reply m st id k R).data)
    (hdrv : ∀ k : Nat, 1 ≤ k → k ≤ total →
      (record_reply m st id k R).error_type = OFONO_ERROR_TYPE_NO_ERROR ∧
        (record_reply m st id k R).data.length = R)
    (hcb : r.cb ≠ 0) (ho : r.offset < 65536) (hnb : r.num_bytes < 65536) :
    ∃ (N : Nat) (w : World), N ≤ 2 * total + 2 ∧
      run m N (sim_fs_read (World.init sim (some drv) files sys) id st r.offset
        r.num_bytes r.cb r.userdata).2 = .ok w ∧
      quiescent w ∧ w.viol = [] ∧
      callbacks_of w.log =
        record_events m (read_op id st ((total * R : Nat) : Int) R r) (fun _ => true) 1
          total := by
  have hmo : r.offset % 65536 = r.offset := Nat.mod_eq_of_lt ho
  have hmn : r.num_bytes % 65536 = r.num_bytes := Nat.mod_eq_of_lt hnb
  have hnt : st ≠ OFONO_SIM_FILE_STRUCTURE_TRANSPARENT := by
    rcases hst with ⟨h, _⟩ | ⟨h, _⟩ <;> rw [h] <;> decide
  have hst256 : st < 256 := by
    rcases hst with ⟨h, _⟩ | ⟨h, _⟩ <;> rw [h] <;> decide
  have hRL : R ≤ total * R := Nat.le_mul_of_pos_left _ ht1
  have hread : (sim_fs_read (World.init sim (some drv) files sys) id st r.offset
      r.num_bytes r.cb r.userdata).2 =
      ⟨⟨some [(⟨id, st, r.offset, r.num_bytes, 0, 0, 0, r.cb, true, r.userdata⟩ :
          sim_fs_op)], 1, List.replicate 32 0, none, none, sim,
        some drv⟩, files, sys, [(1, TickFn.op_next)], 2, [], [], []⟩ := by
    simp [sim_fs_read, World.init, sim_fs_new, hcb, hinfo, idle_add, hmo, hmn]
  have s1 := step_op_next_hit m
    (⟨id, st, r.offset, r.num_bytes, 0, 0, 0, r.cb, true, r.userdata⟩ : sim_fs_op) []
    1 (List.replicate 32 0) none none sim (some drv) files sys 1 [] 2 [] [] []
    ((total * R : Nat) : Int) (R : Int) bmF payload rfl himsi hfile hst256
    (by omega) (by omega) (by omega) (by omega) hbm
    (by simp only [hnt, if_false]; omega)
  simp only [hnt, if_false, List.nil_append] at s1
  obtain ⟨N, w1, hN, hrun, hq, -, -, hv, -, hlog⟩ := run_records_any m sim drv sys R
    total hR hR2 ht2 total 1
    (⟨id, st, r.offset, r.num_bytes, ((total * R : Nat) : Int), R, 1, r.cb, true,
      r.userdata⟩ : sim_fs_op)
    2 bmF none files 2 3 [] []
    (cache_file ((total * R : Nat) : Int) st R bmF payload)
    (by omega) rfl rfl rfl (by omega) ht1 hst hfile
    (fun k h1 h2 h3 => ⟨hvalid k h1 h2 h3, (hdrv k h1 h2).2⟩)
    (fun k h1 h2 => hdrv k h1 h2)
  refine ⟨N + 1, w1, by omega, ?_, hq, hv, ?_⟩
  · rw [hread]
    exact (run_step m N _ _ s1).trans hrun
  · rw [hlog, callbacks_of_append, callbacks_record_events]
    simp [callbacks_of, read_op, record_events_current]

/-- Cache transparency where every copy fits.  A read of an EF over a cache
file whose header matches the EF and each set presence bit of which marks a
unit stored as the driver returns it delivers the same callbacks, arguments
and data, as the same read with no cache file: one completion callback for a
transparent EF, one callback per record for a FIXED or CYCLIC EF, and neither
run has a memory violation.  The driver answers every request without error
and with the bytes asked for; what creating and writing the cache file return
is arbitrary and may differ between the two runs, and both runs come to rest.
For a transparent EF every block of the range starts inside the file and
every copy of a block stays inside the assembly buffer and inside the
driver's block (`copies_fit`); C20 is about a read outside this scope. -/
theorem clean_read_same_with_cache (m : Modem) (sim : ofono_sim) (drv : ofono_sim_driver)
    (files_w files_c : Nat → Option (List Nat)) (sys_w sys_c : Sys)
    (id st L R : Nat) (Rh : Int) (bmF payload : List Nat) (r : ReadReq) (fuel : Nat)
    (hinfo : drv.read_file_info = true)
    (halloc_w : sys_w.alloc_ok = true) (halloc_c : sys_c.alloc_ok = true)
    (hcb : r.cb ≠ 0) (ho : r.offset < 65536) (hnb : r.num_bytes < 65536)
    (herr : (m.info id).error_type = OFONO_ERROR_TYPE_NO_ERROR)
    (hmst : (m.info id).structure_ = st)
    (hlen : (m.info id).length = (L : Int)) (hL : L < 65536)
    (hwarm : files_w id = some (cache_file (L : Int) st Rh bmF payload))
    (hbm : bmF.length = 32) (hRh0 : 0 ≤ Rh) (hRh1 : Rh < 65536)
    (hcold : files_c id = none)
    (hef :
      (st = OFONO_SIM_FILE_STRUCTURE_TRANSPARENT ∧ drv.read_file_transparent = true ∧
        1 ≤ read_count L r ∧
        (r.offset + read_count L r - 1) / 256 * 256 < L ∧
        copies_fit m (transparent_op id L r) (r.offset / 256)
          ((r.offset + read_count L r - 1) / 256 + 1 - r.offset / 256) ∧
        (∀ c : Nat, c * 256 < L →
          (block_reply m id L c).error_type = OFONO_ERROR_TYPE_NO_ERROR ∧
          (block_reply m id L c).data.length = min (L - c * 256) 256) ∧
        blocks_valid m id (L : Int) bmF (cache_file (L : Int) st Rh bmF payload)) ∨
      (((st = OFONO_SIM_FILE_STRUCTURE_FIXED ∧ drv.read_file_linear = true) ∨
          (st = OFONO_SIM_FILE_STRUCTURE_CYCLIC ∧ drv.read_file_cyclic = true)) ∧
        (m.info id).record_length = (R : Int) ∧ Rh = (R : Int) ∧ 1 ≤ R ∧ R ≤ 256 ∧
        ∃ total : Nat, 1 ≤ total ∧ total ≤ 256 ∧ L = total * R ∧
          (∀ k : Nat, 1 ≤ k → k ≤ total →
            (record_reply m st id k R).error_type = OFONO_ERROR_TYPE_NO_ERROR ∧
            (record_reply m st id k R).data.length = R) ∧
          (∀ k : Nat, 1 ≤ k → k ≤ total → unit_present bmF ((k : Int) - 1) = true →
            pread (cache_file (L : Int) st Rh bmF payload) ((k - 1) * R + 38) R =
              (record_reply m st id k R).data)))
    (hfuel : 514 ≤ fuel) :
    ∃ ww wc : World,
      run m fuel (sim_fs_read (World.init sim (some drv) files_w sys_w) id st r.offset
        r.num_bytes r.cb r.userdata).2 = .ok ww ∧
      run m fuel (sim_fs_read (World.init sim (some drv) files_c sys_c) id st r.offset
        r.num_bytes r.cb r.userdata).2 = .ok wc ∧
      quiescent ww ∧ quiescent wc ∧
      callbacks_of ww.log = callbacks_of wc.log ∧ callbacks_of wc.log ≠ [] ∧
      ww.viol = [] ∧ wc.viol = [] := by
  rcases hef with ⟨hst, htr, hn1, hr, hfit, hdrv, hvalid⟩ | ⟨hst, hrl, hRh, hR, hR2, total, ht1,
    ht2, hLt, hdrv, hvalid⟩
  · -- a transparent file
    subst hst
    have hts : tail_safe r.offset (read_count L r) L
        (cache_file (L : Int) OFONO_SIM_FILE_STRUCTURE_TRANSPARENT Rh bmF payload) := by
      have hin : r.offset / 256 * 256 < L := by
        have h1 : r.offset / 256 ≤ (r.offset + read_count L r - 1) / 256 :=
          Nat.div_le_div_right (by omega)
        have := Nat.mul_le_mul_right 256 h1
        omega
      have h := (hfit (r.offset / 256) (le_refl _) (by
        have h1 : r.offset / 256 ≤ (r.offset + read_count L r - 1) / 256 :=
          Nat.div_le_div_right (by omega)
        omega)).2
      have hl := (hdrv (r.offset / 256) hin).2
      rw [block_slice_eq] at h
      simp only [transparent_op, if_pos] at h hl
      rw [hl] at h
      refine Or.inl (Or.inr ?_)
      omega
    have hblocks : (r.offset + read_count L r - 1) / 256 + 1 - r.offset / 256 ≤ 256 := by
      have : (r.offset + read_count L r - 1) / 256 ≤ 255 := by omega
      omega
    obtain ⟨Nc, wc, hNc, hrunc, hqc, hcbc, hvc⟩ := transparent_read_cold m sim drv files_c
      sys_c id L r hinfo htr halloc_c (Or.inr hcold) herr hmst hlen hL hn1 hr hdrv hcb hnb
    have hww : ∃ (N : Nat) (w : World),
        N ≤ 2 * ((r.offset + read_count L r - 1) / 256 + 1 - r.offset / 256) + 2 ∧
        run m N (sim_fs_read (World.init sim (some drv) files_w sys_w) id
          OFONO_SIM_FILE_STRUCTURE_TRANSPARENT r.offset r.num_bytes r.cb r.userdata).2 =
          .ok w ∧
        quiescent w ∧ callbacks_of w.log = [transparent_callback m id L r] ∧
        (copies_fit m (transparent_op id L r) (r.offset / 256)
          ((r.offset + read_count L r - 1) / 256 + 1 - r.offset / 256) → w.viol = []) := by
      by_cases himsi : sim.imsi = none
      · exact transparent_read_cold m sim drv files_w sys_w id L r hinfo htr halloc_w
          (Or.inl himsi) herr hmst hlen hL hn1 hr hdrv hcb hnb
      · exact transparent_read_warm m sim drv files_w sys_w id L Rh bmF payload r hinfo htr
          halloc_w himsi hwarm hRh0 hRh1 hbm hvalid hL hn1 hr hts hdrv hcb hnb
    obtain ⟨Nw, ww, hNw, hrunw, hqw, hcbw, hvw⟩ := hww
    have ew : fuel = Nw + (fuel - Nw) := by omega
    have ec : fuel = Nc + (fuel - Nc) := by omega
    refine ⟨ww, wc, ?_, ?_, hqw, hqc, by rw [hcbw, hcbc], by rw [hcbc]; simp, ?_, ?_⟩
    · rw [ew]; exact run_mono m Nw _ _ _ hrunw hqw
    · rw [ec]; exact run_mono m Nc _ _ _ hrunc hqc
    · exact hvw hfit
    · exact hvc hfit
  · -- a record file
    subst hLt hRh
    obtain ⟨Nc, wc, hNc, hrunc, hqc, hvc, hcbc⟩ := record_read_cold m sim drv files_c sys_c
      id st R total r hinfo hst (Or.inr hcold) herr hmst hlen hrl hR hR2 ht1 ht2 hdrv hcb ho
      hnb
    have hww : ∃ (N : Nat) (w : World), N ≤ 2 * total + 2 ∧
        run m N (sim_fs_read (World.init sim (some drv) files_w sys_w) id st r.offset
          r.num_bytes r.cb r.userdata).2 = .ok w ∧
        quiescent w ∧ w.viol = [] ∧
        callbacks_of w.log =
          record_events m (read_op id st ((total * R : Nat) : Int) R r) (fun _ => true) 1
            total := by
      by_cases himsi : sim.imsi = none
      · exact record_read_cold m sim drv files_w sys_w id st R total r hinfo hst
          (Or.inl himsi) herr hmst hlen hrl hR hR2 ht1 ht2 hdrv hcb ho hnb
      · exact record_read_warm m sim drv files_w sys_w id st R total bmF payload r himsi
          hinfo hst hR hR2 ht1 ht2 hL hbm hwarm hvalid hdrv hcb ho hnb
    obtain ⟨Nw, ww, hNw, hrunw, hqw, hvw, hcbw⟩ := hww
    have ew : fuel = Nw + (fuel - Nw) := by omega
    have ec : fuel = Nc + (fuel - Nc) := by omega
    refine ⟨ww, wc, ?_, ?_, hqw, hqc, by rw [hcbw, hcbc], ?_, hvw, hvc⟩
    · rw [ew]; exact run_mono m Nw _ _ _ hrunw hqw
    · rw [ec]; exact run_mono m Nc _ _ _ hrunc hqc
    · rw [hcbc]
      have e : total = (total - 1) + 1 := by omega
      rw [e]
      simp [record_events]

set_option maxRecDepth 100000 in
theorem clean_read_same_with_cache_witness :
    ∃ ww wc : World,
      run (card_modem (ex_card (ex_transparent (List.range 10)))) 514
        (sim_fs_read (ex_world (ex_dir ex_file10)) 0x6f05
          OFONO_SIM_FILE_STRUCTURE_TRANSPARENT 0 0 1 77).2 = .ok ww ∧
      run (card_modem (ex_card (ex_transparent (List.range 10)))) 514
        (sim_fs_read (ex_world (fun _ => none)) 0x6f05
          OFONO_SIM_FILE_STRUCTURE_TRANSPARENT 0 0 1 77).2 = .ok wc ∧
      callbacks_of ww.log = callbacks_of wc.log ∧
      callbacks_of wc.log = [Ev.read_cb 1 1 10 0 (some (List.range 10)) 10 77] ∧
      ww.viol = [] ∧ wc.viol = [] := by
  obtain ⟨ww, wc, h1, h2, -, -, h3, -, h5, h6⟩ :=
    clean_read_same_with_cache (card_modem (ex_card (ex_transparent (List.range 10))))
      ex_sim full_driver (ex_dir ex_file10) (fun _ => none) Sys.ideal Sys.ideal 0x6f05
      OFONO_SIM_FILE_STRUCTURE_TRANSPARENT 10 0 0 (1 :: List.replicate 31 0)
      (List.range 10) ⟨0, 0, 1, 77⟩ 514
      rfl rfl rfl (by decide) (by decide) (by decide) rfl rfl rfl (by decide) rfl
      (by decide) (by decide) (by decide) rfl
      (Or.inl ⟨rfl, rfl, by decide, by decide,
        fun c h1 h2 => by
          have h0 : c = 0 := by
            have h3 : c < 0 + 1 := h2
            omega
          subst h0
          exact ⟨rfl, by decide⟩,
        fun c hc => by
          have h0 : c = 0 := by omega
          subst h0
          exact ⟨rfl, rfl⟩,
        fun c hc _ => by
          have h0 : c = 0 := by omega
          subst h0
          rfl⟩)
      (le_refl _)
  have h4 : callbacks_of wc.log = [Ev.read_cb 1 1 10 0 (some (List.range 10)) 10 77] := by
    have e := h2.symm.trans (show run (card_modem (ex_card (ex_transparent (List.range 10))))
      514 (sim_fs_read (ex_world (fun _ => none)) 0x6f05
        OFONO_SIM_FILE_STRUCTURE_TRANSPARENT 0 0 1 77).2 = .ok _ from rfl)
    rw [Except.ok.inj e]
    rfl
  exact ⟨ww, wc, h1, h2, h3, h4, h5, h6⟩

/-- A scope in which every copy fits: the read starts on a block boundary and
either spans several blocks or takes its only block to the end of the block
or of the file. -/
theorem copies_fit_of_aligned (m : Modem) (id L : Nat) (r : ReadReq)
    (hn1 : 1 ≤ read_count L r) (hrange : r.offset + read_count L r ≤ L)
    (hdrv : ∀ c : Nat, c * 256 < L →
      (block_reply m id L c).data.length = min (L - c * 256) 256)
    (halign : r.offset % 256 = 0)
    (hone : (r.offset + read_count L r - 1) / 256 = r.offset / 256 →
      min (L - r.offset) 256 ≤ read_count L r) :
    copies_fit m (transparent_op id L r) (r.offset / 256)
      ((r.offset + read_count L r - 1) / 256 + 1 - r.offset / 256) := by
  intro c h1 h2
  have hse : r.offset / 256 ≤ (r.offset + read_count L r - 1) / 256 :=
    Nat.div_le_div_right (by omega)
  have hc : c ≤ (r.offset + read_count L r - 1) / 256 := by omega
  have hcl : c * 256 ≤ r.offset + read_count L r - 1 := by
    have := Nat.div_mul_le_self (r.offset + read_count L r - 1) 256
    have := Nat.mul_le_mul_right 256 hc
    omega
  have hlen := hdrv c (by omega)
  rw [block_slice_eq]
  simp only [transparent_op] at hlen ⊢
  rw [hlen]
  by_cases hcf : c = r.offset / 256
  · simp only [if_pos hcf, in_bounds, halign]
    have hoff : r.offset = c * 256 := by omega
    by_cases hs : (r.offset + read_count L r - 1) / 256 = r.offset / 256
    · have := hone hs
      refine ⟨?_, by omega⟩
      simp only [decide_eq_true_eq]
      right
      omega
    · have : (r.offset / 256 + 1) * 256 ≤ r.offset + read_count L r - 1 := by
        have h3 : r.offset / 256 + 1 ≤ (r.offset + read_count L r - 1) / 256 := by omega
        have := Nat.mul_le_mul_right 256 h3
        have := Nat.div_mul_le_self (r.offset + read_count L r - 1) 256
        omega
      refine ⟨?_, by omega⟩
      simp only [decide_eq_true_eq]
      right
      omega
  · simp only [if_neg hcf, in_bounds, halign]
    have hoff : r.offset = r.offset / 256 * 256 := by omega
    refine ⟨?_, by omega⟩
    simp only [decide_eq_true_eq]
    right
    omega

set_option maxRecDepth 100000 in
/-- C21 (defect): three reads are queued before the main loop runs.  The
first fails in the cache probe (the cache file of `0x6f05` is transparent, the
read expects FIXED) and the probe, not returning after `sim_fs_op_error`,
leaves a stray `sim_fs_op_read_block` tick.  The second read (`0x6f06`, no
cache file, `num_bytes` 0) has asked for the file information when the stray
tick ends it.  The third read (`0x6f07`) is a cache hit: the descriptor is
open and the bitmap `02 00 ..` is in memory when the file information of
`0x6f06` arrives; `sim_fs_op_info_cb` takes it for the head of the queue and
recreates the cache file of `0x6f07`.  After six iterations the descriptor
is open, the bitmap in memory is `02 00 ..` and bytes 6..37 of the file are
zero. -/
theorem stale_info_reply_breaks_bitmap_mirror :
    (run (card_modem ex_card_two) 5 ex_three_reads).map
      (fun w => (w.fs.fd, w.fs.bitmap, (w.files 0x6f07).map (fun F => pread F 6 32),
        w.inflight)) =
    .ok (some 0x6f07, [2] ++ List.replicate 31 0, some ([2] ++ List.replicate 31 0),
      [DrvReq.read_file_info 0x6f06, DrvReq.read_file_transparent 0x6f07 0 256]) ∧
    (run (card_modem ex_card_two) 6 ex_three_reads).map
      (fun w => (w.fs.fd, w.fs.bitmap, (w.files 0x6f07).map (fun F => pread F 6 32),
        w.inflight)) =
    .ok (some 0x6f07, [2] ++ List.replicate 31 0, some (List.replicate 32 0),
      [DrvReq.read_file_transparent 0x6f07 0 256]) := by
  constructor <;> rfl

set_option maxRecDepth 100000 in
/-- C22 (defect): cold read of a FIXED EF for which the driver reports length
80 and record length 0.  `sim_fs_op_info_cb` stores both without a check and
schedules `sim_fs_op_read_record`, whose first statement
`total = op->length / op->record_length` divides by zero. -/
theorem zero_record_length_divides_by_zero :
    (run (card_modem (ex_card ex_records_zero)) 2
        (sim_fs_read (ex_world (fun _ => none)) 0x6f05
          OFONO_SIM_FILE_STRUCTURE_FIXED 0 0 1 77).2).map
      (fun w => (w.fs.op_q.map (List.map (fun op => (op.length, op.record_length))),
        w.idle, w.log)) =
    .ok (some [(80, 0)], [(2, TickFn.read_record)],
      [Ev.drv (DrvReq.read_file_info 0x6f05)]) ∧
    run (card_modem (ex_card ex_records_zero)) 3
        (sim_fs_read (ex_world (fun _ => none)) 0x6f05
          OFONO_SIM_FILE_STRUCTURE_FIXED 0 0 1 77).2 =
      .error Fault.div_by_zero := by
  constructor <;> rfl

set_option maxRecDepth 100000 in
/-- C24 (defect): cold read of the 10-byte transparent EF `0x6f05`.  The file
information schedules `sim_fs_op_read_block` and stores its source id 2 in
`fs->op_source`.  Once that tick has run (third iteration) no tick is
pending, yet the handle is still 2: `sim_fs_op_read_block` does not clear
it, and it is still 2 when the read is complete and the engine at rest.  For
the record file `ex_records` the handle is 0 after the `sim_fs_op_read_record`
tick.  On the path of C10 two ticks are pending at once. -/
theorem read_block_leaves_stale_handle :
    (run (card_modem (ex_card (ex_transparent (List.range 10)))) 3
        (sim_fs_read (ex_world (fun _ => none)) 0x6f05
          OFONO_SIM_FILE_STRUCTURE_TRANSPARENT 0 10 1 77).2).map
      (fun w => (w.idle, w.fs.op_source, w.inflight)) =
    .ok ([], 2, [DrvReq.read_file_transparent 0x6f05 0 10]) ∧
    (run (card_modem (ex_card (ex_transparent (List.range 10)))) 100
        (sim_fs_read (ex_world (fun _ => none)) 0x6f05
          OFONO_SIM_FILE_STRUCTURE_TRANSPARENT 0 10 1 77).2).map
      (fun w => (w.idle, w.fs.op_source, w.inflight, w.fs.op_q)) =
    .ok ([], 2, [], some []) ∧
    (run (card_modem (ex_card ex_records)) 3
        (sim_fs_read (ex_world (fun _ => none)) 0x6f05
          OFONO_SIM_FILE_STRUCTURE_FIXED 0 0 1 77).2).map
      (fun w => (w.idle, w.fs.op_source, w.inflight)) =
    .ok ([], 0, [DrvReq.read_file_linear 0x6f05 1 20]) ∧
    (run (card_modem ex_card_two) 1 ex_three_reads).map (fun w => w.idle) =
      .ok [(2, TickFn.op_next), (3, TickFn.read_block)] := by
  refine ⟨?_, ?_, ?_, ?_⟩ <;> rfl

set_option maxRecDepth 100000 in
/-- C25 (defect): `sim_fs_free` leaves `fs->fd` and `fs->buffer` as they
are, whatever the state of the engine.  After the third iteration of the cold
read of the 10-byte transparent EF `0x6f05` the cache file is open, the
assembly buffer is allocated and the driver has not answered; a teardown at
that point frees the queue and keeps the descriptor open and the buffer
allocated. -/
theorem teardown_keeps_cache_fd_open :
    (∀ w : World, (sim_fs_free w).fs.fd = w.fs.fd ∧
      (sim_fs_free w).fs.buffer = w.fs.buffer) ∧
    (run (card_modem (ex_card (ex_transparent (List.range 10)))) 3
        (sim_fs_read (ex_world (fun _ => none)) 0x6f05
          OFONO_SIM_FILE_STRUCTURE_TRANSPARENT 0 10 1 77).2).map
      (fun w => (w.fs.fd, w.inflight, (sim_fs_free w).fs.op_q, (sim_fs_free w).fs.fd,
        (sim_fs_free w).fs.buffer)) =
    .ok (some 0x6f05, [DrvReq.read_file_transparent 0x6f05 0 10], none, some 0x6f05,
      some (List.replicate 10 0)) := by
  refine ⟨fun w => ⟨rfl, rfl⟩, ?_⟩
  rfl

set_option maxRecDepth 100000 in
/-- C27 (defect): EF of 10 bytes, read of offset 3 and count 4 (the example
given with the property), no cache file.  For the first block `sim_fs_op_read_block_cb`
copies `MIN (256 - 3, len) = 10` bytes from offset 3 of the driver's ten
bytes to the start of the 4-byte assembly buffer: `bufoff + count = 10 > 4`
and `dataoff + count = 13 > 10`.  The cache loop would read the same ten
bytes at file position 41. -/
theorem first_block_copy_ignores_count :
    block_cb_slice
      { id := 0x6f05, structure_ := OFONO_SIM_FILE_STRUCTURE_TRANSPARENT, offset := 3,
        num_bytes := 4, length := 10, record_length := 10, current := 0, cb := 1,
        is_read := true, userdata := 77 } 10 = (0, 3, 10) ∧
    block_cache_slice
      { id := 0x6f05, structure_ := OFONO_SIM_FILE_STRUCTURE_TRANSPARENT, offset := 3,
        num_bytes := 4, length := 10, record_length := 10, current := 0, cb := 1,
        is_read := true, userdata := 77 } = (0, 41, 10) ∧
    (run (card_modem (ex_card (ex_transparent (List.range 10)))) 100
        (sim_fs_read (ex_world (fun _ => none)) 0x6f05
          OFONO_SIM_FILE_STRUCTURE_TRANSPARENT 3 4 1 77).2).map
      (fun w => (w.log, w.viol)) =
    .ok ([Ev.drv (DrvReq.read_file_info 0x6f05),
        Ev.drv (DrvReq.read_file_transparent 0x6f05 0 10),
        Ev.read_cb 1 1 4 0 (some [3, 4, 5, 6]) 10 77],
      [Violation.source_overread, Violation.buffer_overflow]) := by
  refine ⟨?_, ?_, ?_⟩ <;> rfl

set_option maxRecDepth 100000 in
/-- C28 (defect): cold read of a FIXED EF for which the driver reports length
10 and record length 20.  `sim_fs_op_read_record` computes `total = 0`, finds
`current = 1 > total` and ends the operation: the read leaves the queue and
the only event of the whole run is the driver call `read_file_info`; no
callback is invoked. -/
theorem short_record_file_ends_without_callback :
    (run (card_modem (ex_card ex_records_short)) 100
        (sim_fs_read (ex_world (fun _ => none)) 0x6f05
          OFONO_SIM_FILE_STRUCTURE_FIXED 0 0 1 77).2).map
      (fun w => (w.log, w.fs.op_q, w.idle, w.inflight)) =
    .ok ([Ev.drv (DrvReq.read_file_info 0x6f05)], some [], [], []) := by
  rfl

set_option maxRecDepth 100000 in
/-- C14 (defect): the three queued reads of `ex_three_reads_block`.  As in
C21 the file information of `0x6f06` arrives while the third read has the
cache file of `0x6f07` open with the bitmap `02 00 ..` in memory;
`sim_fs_op_info_cb` recreates the file, so after seven iterations the file
is 38 bytes long with bitmap byte `00` while the byte in memory is still
`02`.  The eighth iteration delivers block 0 and `cache_block` stores unit 0:
it writes the 256 bytes at offset 38 and then the byte `02 | 01 = 03` from
memory to file offset 6.  Bit 1 of the file's bitmap changes from 0 to 1
although the call stored unit 0 only, and the file, 294 bytes long, holds
nothing of unit 1. -/
theorem cache_block_writes_stale_bitmap_byte :
    (run (card_modem ex_card_two) 7 ex_three_reads_block).map
      (fun w => (w.fs.fd, w.fs.bitmap.take 1,
        (w.files 0x6f07).map (fun F => (pread F 6 1, F.length)), w.inflight)) =
    .ok (some 0x6f07, [2], some ([0], 38),
      [DrvReq.read_file_transparent 0x6f07 0 256,
        DrvReq.read_file_transparent 0x6f07 0 10]) ∧
    (run (card_modem ex_card_two) 8 ex_three_reads_block).map
      (fun w => ((w.files 0x6f07).map (fun F => (pread F 6 1, F.length)),
        (w.files 0x6f07).map (fun F => decide (pread F 38 256 = (ex_bytes 300).take 256)),
        (w.log.drop 5).map (cut_data 3))) =
    .ok (some ([3], 294), some true, [Ev.read_cb 3 1 256 0 (some [1, 8, 15]) 10 79]) := by
  constructor <;> rfl

set_option maxRecDepth 100000 in
/-- C20 (defect): the 10-byte transparent EF `0x6f05` read at offset 3 with
`num_bytes = 0`, over the cache file `ex_file10_tail` and with no cache file.
The header of the cache file matches the EF and its only set bit marks
block 0, stored as the driver returns it.  Both reads take `num_bytes` to be
the file length 10.  Over the cache file `sim_fs_op_read_block` reads 10
bytes at file offset `38 + 3`, which the file holds, and the callback carries
the file's bytes 3 .. 9 followed by the three bytes after the payload, with no
driver call.  With no cache file `sim_fs_op_read_block_cb` copies 10 bytes
from offset 3 of the driver's ten bytes: the callback carries the bytes
3 .. 9 followed by three bytes read past the end of the driver's block
(`Violation.source_overread`), which are left out here. -/
theorem read_to_end_over_cache_tail_differs :
    blocks_valid (card_modem (ex_card (ex_transparent (List.range 10)))) 0x6f05 10
      (pread ex_file10_tail 6 32) ex_file10_tail ∧
    (run (card_modem (ex_card (ex_transparent (List.range 10)))) 4
        (sim_fs_read (ex_world (ex_dir ex_file10_tail)) 0x6f05
          OFONO_SIM_FILE_STRUCTURE_TRANSPARENT 3 0 1 77).2).map
        (fun w => (w.log, w.viol, w.idle, w.inflight)) =
      .ok ([Ev.read_cb 1 1 10 0 (some [3, 4, 5, 6, 7, 8, 9, 99, 99, 99]) 10 77],
        [], [], []) ∧
    (run (card_modem (ex_card (ex_transparent (List.range 10)))) 4
        (sim_fs_read (ex_world (fun _ => none)) 0x6f05
          OFONO_SIM_FILE_STRUCTURE_TRANSPARENT 3 0 1 77).2).map
        (fun w => ((callbacks_of w.log).map (cut_data 7), w.viol, w.idle, w.inflight)) =
      .ok ([Ev.read_cb 1 1 10 0 (some [3, 4, 5, 6, 7, 8, 9]) 10 77],
        [Violation.source_overread], [], []) := by
  refine ⟨?_, ?_, ?_⟩
  · intro c hc _
    have h0 : c = 0 := by omega
    subst h0
    rfl
  · rfl
  · rfl

/-! ## Header round trip -/

theorem cache_header_eq_cache_file (L : Int) (st : Nat) (R : Int) :
    cache_header L st R = cache_file L st R (List.replicate 32 0) [] := by
  simp [cache_file, cache_header, SIM_FILE_INFO_SIZE, SIM_CACHE_HEADER_SIZE]

/-- The file-information reply that creates the cache file, for a queue of
any length. -/
theorem info_cb_created (op : sim_fs_op) (rest : List sim_fs_op)
    (src : Nat) (bm : List Nat) (fd : Option Nat) (buf : Option (List Nat))
    (sim : ofono_sim) (drv : Option ofono_sim_driver)
    (files : Nat → Option (List Nat)) (sys : Sys) (idle : List (Nat × TickFn))
    (ns : Nat) (infl : List DrvReq) (log : List Ev) (viol : List Violation)
    (L R : Int) (access : List Nat)
    (himsi : sim.imsi ≠ none) (hc : cacheable access = true)
    (hcan : sys.can_create = true) (hw : sys.write 0 38 = 38) :
    sim_fs_op_info_cb ⟨⟨some (op :: rest), src, bm, fd, buf, sim, drv⟩, files, sys,
        idle, ns, infl, log, viol⟩ OFONO_ERROR_TYPE_NO_ERROR L op.structure_ R access =
      .ok ⟨⟨some ((if op.structure_ = OFONO_SIM_FILE_STRUCTURE_TRANSPARENT then
            { op with
              length := L
              num_bytes := if op.num_bytes = 0 then L else op.num_bytes
              record_length := L
              current := cdiv op.offset 256 }
          else
            { op with
              length := L
              record_length := R
              current := 1 }) :: rest),
        ns, bm, some op.id, buf, sim, drv⟩,
        fun k => if k = op.id then some (cache_header L op.structure_ R) else files k,
        sys,
        idle ++ [(ns, if op.structure_ = OFONO_SIM_FILE_STRUCTURE_TRANSPARENT then
            TickFn.read_block else TickFn.read_record)],
        ns + 1, infl, log, viol⟩ := by
  simp only [sim_fs_op_info_cb, peek_head, hc, hcan]
  simp [himsi, sys_write, idle_add, set_head, hw, SIM_CACHE_HEADER_SIZE,
    OFONO_ERROR_TYPE_NO_ERROR, take_padded_eq, flag_if]
  funext k
  split_ifs <;> rfl

/-- C29: header round trip.  Let `sim_fs_op_info_cb` create the cache file
for the read at the head of the queue (IMSI known, cacheable access bytes,
`open` and the header `write` succeeding) from a driver-reported length and
record length in 0..65535 that pass the probe's validation (the record length,
which is the length for a transparent file, is not 0 and not above the
length), the structure code fitting a byte.  Then the cold path has set
`op.length = length`, `op.record_length = length` for a transparent file and
`record_length` otherwise, the starting unit `offset / 256` resp. 1, and
scheduled `sim_fs_op_read_block` resp. `sim_fs_op_read_record`; and the probe
`sim_fs_op_check_cached` of the same request on the file just written is a
hit that leaves the very same operation record at the head of the queue, an
all-zero bitmap, the descriptor open on the file and the same tick
scheduled. -/
theorem header_round_trip (w w' : World) (op : sim_fs_op) (rest rest' : List sim_fs_op)
    (length record_length : Int) (access : List Nat)
    (hq : w.fs.op_q = some (op :: rest)) (himsi : w.fs.sim.imsi ≠ none)
    (hc : cacheable access = true) (hopen : w.sys.can_create = true)
    (hwrite : w.sys.write 0 38 = 38)
    (hL0 : 0 ≤ length) (hL1 : length ≤ 65535)
    (hR0 : 0 ≤ record_length) (hR1 : record_length ≤ 65535)
    (hst : op.structure_ < 256)
    (hvalid :
      (if op.structure_ = OFONO_SIM_FILE_STRUCTURE_TRANSPARENT then length
        else record_length) ≠ 0 ∧
      (if op.structure_ = OFONO_SIM_FILE_STRUCTURE_TRANSPARENT then length
        else record_length) ≤ length)
    (hq' : w'.fs.op_q = some (op :: rest')) (himsi' : w'.fs.sim.imsi ≠ none) :
    ∃ w1 file op1,
      sim_fs_op_info_cb w OFONO_ERROR_TYPE_NO_ERROR length op.structure_ record_length
        access = .ok w1 ∧
      w1.files op.id = some file ∧ w1.fs.fd = some op.id ∧
      w1.fs.op_q = some (op1 :: rest) ∧
      op1.length = length ∧
      op1.record_length =
        (if op.structure_ = OFONO_SIM_FILE_STRUCTURE_TRANSPARENT then length
          else record_length) ∧
      op1.current =
        (if op.structure_ = OFONO_SIM_FILE_STRUCTURE_TRANSPARENT then
          ((op.offset / 256 : Nat) : Int) else 1) ∧
      w1.idle = w.idle ++
        [(w.next_source, if op.structure_ = OFONO_SIM_FILE_STRUCTURE_TRANSPARENT then
          TickFn.read_block else TickFn.read_record)] ∧
      (w'.files op.id = some file →
        ∃ w2, sim_fs_op_check_cached w' = .ok (true, w2) ∧
          w2.fs.op_q = some (op1 :: rest') ∧
          w2.fs.bitmap = List.replicate 32 0 ∧ w2.fs.fd = some op.id ∧
          w2.idle = w'.idle ++
            [(w'.next_source,
              if op.structure_ = OFONO_SIM_FILE_STRUCTURE_TRANSPARENT then
                TickFn.read_block else TickFn.read_record)]) := by
  obtain ⟨⟨q, src, bm, fd, buf, sim, drv⟩, files, sys, idle, ns, infl, log, viol⟩ := w
  obtain ⟨⟨q', src', bm', fd', buf', sim', drv'⟩, files', sys', idle', ns', infl', log',
    viol'⟩ := w'
  simp only at hq himsi hopen hwrite hq' himsi'
  subst hq hq'
  refine ⟨_, cache_header length op.structure_ record_length, _,
    info_cb_created op rest src bm fd buf sim drv files sys idle ns infl log viol length
      record_length access himsi hc hopen hwrite, by simp, rfl, rfl, ?_, ?_, ?_, rfl, ?_⟩
  · split_ifs <;> rfl
  · split_ifs <;> rfl
  · by_cases ht : op.structure_ = OFONO_SIM_FILE_STRUCTURE_TRANSPARENT
    · rw [if_pos ht, if_pos ht]
      exact cdiv_natCast_256 op.offset
    · rw [if_neg ht, if_neg ht]
  · intro hfile
    rw [cache_header_eq_cache_file] at hfile
    refine ⟨_, check_cached_hit op rest' src' bm' fd' buf' sim' drv' files' sys' idle' ns'
      infl' log' viol' length record_length (List.replicate 32 0) [] himsi' hfile hst hL0
      (by omega) hR0 (by omega) (by simp) hvalid, ?_, rfl, rfl, rfl⟩
    simp only

theorem header_round_trip_witness :
    ∃ w1 w2, sim_fs_op_info_cb
        (sim_fs_read (ex_world (fun _ => none)) 0x6f05 OFONO_SIM_FILE_STRUCTURE_FIXED
          0 0 1 77).2
        OFONO_ERROR_TYPE_NO_ERROR 300 OFONO_SIM_FILE_STRUCTURE_FIXED 20
        [0x0f, 0x00, 0xff] = .ok w1 ∧
      sim_fs_op_check_cached
        (sim_fs_read (ex_world (ex_dir ([0, 1, 44, 1, 0, 20] ++ List.replicate 32 0)))
          0x6f05 OFONO_SIM_FILE_STRUCTURE_FIXED 0 0 1 77).2 = .ok (true, w2) ∧
      w1.files 0x6f05 = some ([0, 1, 44, 1, 0, 20] ++ List.replicate 32 0) ∧
      w2.fs.op_q = w1.fs.op_q ∧ w2.fs.bitmap = List.replicate 32 0 := by
  obtain ⟨w1, file, op1, h1, h2, -, h3, -, -, -, -, h4⟩ := header_round_trip
    (sim_fs_read (ex_world (fun _ => none)) 0x6f05 OFONO_SIM_FILE_STRUCTURE_FIXED
      0 0 1 77).2
    (sim_fs_read (ex_world (ex_dir ([0, 1, 44, 1, 0, 20] ++ List.replicate 32 0)))
      0x6f05 OFONO_SIM_FILE_STRUCTURE_FIXED 0 0 1 77).2
    ⟨0x6f05, OFONO_SIM_FILE_STRUCTURE_FIXED, 0, 0, 0, 0, 0, 1, true, 77⟩ [] [] 300 20
    [0x0f, 0x00, 0xff] rfl (by decide) (by decide) rfl rfl (by decide) (by decide)
    (by decide) (by decide) (by decide) (by decide) rfl (by decide)
  have hf : file = [0, 1, 44, 1, 0, 20] ++ List.replicate 32 0 := by
    have h5 : sim_fs_op_info_cb
        (sim_fs_read (ex_world (fun _ => none)) 0x6f05 OFONO_SIM_FILE_STRUCTURE_FIXED
          0 0 1 77).2
        OFONO_ERROR_TYPE_NO_ERROR 300 OFONO_SIM_FILE_STRUCTURE_FIXED 20
        [0x0f, 0x00, 0xff] = .ok _ := info_cb_created
          ⟨0x6f05, OFONO_SIM_FILE_STRUCTURE_FIXED, 0, 0, 0, 0, 0, 1, true, 77⟩ [] 1
          (List.replicate 32 0) none none ex_sim (some full_driver) (fun _ => none)
          Sys.ideal [(1, TickFn.op_next)] 2 [] [] [] 300 20 [0x0f, 0x00, 0xff]
          (by decide) (by decide) rfl rfl
    rw [h5] at h1
    cases h1
    simp only [if_true] at h2
    cases h2
    rfl
  subst hf
  obtain ⟨w2, h5, h6, h7, -⟩ := h4 rfl
  exact ⟨w1, w2, h1, h5, h2, by rw [h6, h3], h7⟩

/-! ## The driver requests of a cold transparent read -/

theorem quiet_refl (w : World) : quiet w w := ⟨rfl, rfl, rfl, id⟩

theorem quiet_trans (w w1 w2 : World) (h1 : quiet w w1) (h2 : quiet w1 w2) : quiet w w2 :=
  ⟨h2.1.trans h1.1, h2.2.1.trans h1.2.1, h2.2.2.1.trans h1.2.2.1,
    fun h => h1.2.2.2 (h2.2.2.2 h)⟩

theorem flag_if_quiet (c : Bool) (v : Violation) (w : World)
    (h : v ≠ Violation.bitmap_index ∨ c = false) : quiet w (flag_if c v w) := by
  refine ⟨rfl, rfl, rfl, ?_⟩
  intro hm
  simp only [flag_if] at hm
  rcases h with h | h
  · split at hm
    · rcases List.mem_append.1 hm with h1 | h1
      · exact h1
      · simp only [List.mem_singleton] at h1
        exact absurd h1.symm h
    · exact hm
  · subst h
    exact hm

theorem sys_write_quiet (w : World) (id : Nat) (pos : Int) (data : List Nat) (count : Int) :
    quiet w (sys_write w id pos data count).2 := by
  unfold sys_write
  split
  · exact quiet_refl w
  · simp only
    split
    · exact quiet_refl w
    · exact flag_if_quiet _ _ w (Or.inl (by decide))

theorem check_bitmap_index_quiet (offset : Int) (w : World) (h0 : 0 ≤ offset)
    (h1 : offset < 32) : quiet w (check_bitmap_index offset w) := by
  unfold check_bitmap_index
  exact flag_if_quiet _ _ w (Or.inr (by simp [h0, h1]))

theorem cdiv_8_range (block : Int) (h0 : 0 ≤ block) (h1 : block < 256) :
    0 ≤ cdiv block 8 ∧ cdiv block 8 < 32 := by
  rw [cdiv_nonneg block 8 h0 (by decide)]
  omega

theorem cache_block_quiet (w : World) (block block_len : Int) (data : List Nat)
    (num_bytes : Int) (h : w.fs.fd = none ∨ (0 ≤ block ∧ block < 256)) :
    quiet w (cache_block w block block_len data num_bytes).2 := by
  unfold cache_block
  split
  · exact quiet_refl w
  · rename_i f hf
    have hb : 0 ≤ block ∧ block < 256 := by
      rcases h with h | h
      · rw [hf] at h
        cases h
      · exact h
    obtain ⟨h0, h1⟩ := cdiv_8_range block hb.1 hb.2
    split
    · exact quiet_refl w
    · simp only
      have q1 := sys_write_quiet w f (block * block_len + ↑SIM_CACHE_HEADER_SIZE) data num_bytes
      have q2 := check_bitmap_index_quiet (cdiv block 8)
        (sys_write w f (block * block_len + ↑SIM_CACHE_HEADER_SIZE) data num_bytes).2 h0 h1
      have q3 := sys_write_quiet
        (check_bitmap_index (cdiv block 8)
          (sys_write w f (block * block_len + ↑SIM_CACHE_HEADER_SIZE) data num_bytes).2) f
        (cdiv block 8 + ↑SIM_FILE_INFO_SIZE)
        [(bitmap_get
          (sys_write w f (block * block_len + ↑SIM_CACHE_HEADER_SIZE) data
            num_bytes).2.fs.bitmap (cdiv block 8) ||| 1 <<< (cmod block 8).toNat) % 256] 1
      have q := quiet_trans _ _ _ q1 (quiet_trans _ _ _ q2 q3)
      split
      · exact q1
      · split
        · exact q
        · exact ⟨q.1, q.2.1, q.2.2.1, q.2.2.2⟩

theorem memcpy_quiet (w w1 : World) (bufoff : Int) (data : List Nat)
    (dataoff tocopy : Int) (h : memcpy_to_buffer w bufoff data dataoff tocopy = .ok w1) :
    quiet w w1 := by
  unfold memcpy_to_buffer at h
  split at h
  · split at h
    · cases h
      exact quiet_refl w
    · cases h
  · cases h
    have q1 := flag_if_quiet (decide (dataoff + tocopy > (data.length : Int)))
      Violation.source_overread w (Or.inl (by decide))
    rename_i buf _
    have q2 := flag_if_quiet (!in_bounds buf.length bufoff tocopy.toNat)
      Violation.buffer_overflow
      (flag_if (decide (dataoff + tocopy > (data.length : Int))) Violation.source_overread w)
      (Or.inl (by decide))
    have q := quiet_trans _ _ _ q1 q2
    exact ⟨q.1, q.2.1, q.2.2.1, q.2.2.2⟩

theorem sys_read_buffer_quiet (w : World) (id : Nat) (pos bufoff toread : Int) :
    quiet w (sys_read_buffer w id pos bufoff toread).2 := by
  unfold sys_read_buffer
  split
  · exact quiet_refl w
  · simp only
    have q := flag_if_quiet
      (!in_bounds (List.length ‹List Nat›) bufoff
        (pread ((w.files id).getD []) pos.toNat
          (if toread < 0 then ((w.files id).getD []).length else toread.toNat)).length)
      Violation.buffer_overflow w (Or.inl (by decide))
    exact ⟨q.1, q.2.1, q.2.2.1, q.2.2.2⟩

theorem loop_continue (w w1 : World) (op op1 : sim_fs_op) (r : World × sim_fs_op)
    (q : quiet w w1) (hop : op1 = { op with current := op.current + 1 })
    (h : quiet w1 r.1 ∧ r.2 = { op1 with current := r.2.current } ∧
      op1.current ≤ r.2.current) :
    quiet w r.1 ∧ r.2 = { op with current := r.2.current } ∧ op.current ≤ r.2.current := by
  subst hop
  obtain ⟨h1, h2, h3⟩ := h
  refine ⟨quiet_trans _ _ _ q h1, ?_, ?_⟩
  · rw [h2]
  · simp only [] at h3
    omega

/-- The cache loop of `sim_fs_op_read_block` within 256 blocks: every bitmap
index is in range, and only `current` of the operation changes, upwards. -/
theorem read_block_cached_quiet :
    ∀ (fuel : Nat) (w : World) (op : sim_fs_op),
      0 ≤ op.current → cdiv (op.offset + (op.num_bytes - 1)) 256 < 256 →
      quiet w (read_block_cached fuel w op).1 ∧
      (read_block_cached fuel w op).2 =
        { op with current := (read_block_cached fuel w op).2.current } ∧
      op.current ≤ (read_block_cached fuel w op).2.current := by
  intro fuel
  induction fuel with
  | zero => intro w op _ _; exact ⟨quiet_refl w, rfl, le_refl _⟩
  | succ n ih =>
    intro w op h0 h1
    unfold read_block_cached
    split
    · exact ⟨quiet_refl w, rfl, le_refl _⟩
    · split
      · rename_i hle
        obtain ⟨hi0, hi1⟩ := cdiv_8_range op.current h0 (by omega)
        have qc := check_bitmap_index_quiet (cdiv op.current 8) w hi0 hi1
        simp only
        split_ifs
        all_goals first
          | exact ⟨qc, rfl, le_refl _⟩
          | exact ⟨quiet_trans _ _ _ qc (sys_read_buffer_quiet _ _ _ _ _), rfl, le_refl _⟩
          | exact loop_continue w _ op _ _
              (quiet_trans _ _ _ qc (sys_read_buffer_quiet _ _ _ _ _)) rfl
              (ih _ _ (by simp only []; omega) h1)
      · exact ⟨quiet_refl w, rfl, le_refl _⟩

theorem emit_quiet (e : Ev) (w : World) : quiet w (emit e w) := ⟨rfl, rfl, rfl, id⟩

/-- The cache loop of `sim_fs_op_read_record` within 256 records. -/
theorem read_record_cached_quiet :
    ∀ (fuel : Nat) (w : World) (op : sim_fs_op),
      1 ≤ op.current → cdiv op.length op.record_length ≤ 256 →
      quiet w (read_record_cached fuel w op).1 ∧
      (read_record_cached fuel w op).2 =
        { op with current := (read_record_cached fuel w op).2.current } ∧
      op.current ≤ (read_record_cached fuel w op).2.current := by
  intro fuel
  induction fuel with
  | zero => intro w op _ _; exact ⟨quiet_refl w, rfl, le_refl _⟩
  | succ n ih =>
    intro w op h0 h1
    unfold read_record_cached
    split
    · exact ⟨quiet_refl w, rfl, le_refl _⟩
    · split
      · rename_i hle
        obtain ⟨hi0, hi1⟩ := cdiv_8_range (op.current - 1) (by omega) (by omega)
        have qc := check_bitmap_index_quiet (cdiv (op.current - 1) 8) w hi0 hi1
        have qf : ∀ c : Bool, quiet w (flag_if c Violation.record_buf_overflow
            (check_bitmap_index (cdiv (op.current - 1) 8) w)) :=
          fun c => quiet_trans _ _ _ qc (flag_if_quiet c _ _ (Or.inl (by decide)))
        simp only
        split_ifs
        all_goals first
          | exact ⟨qc, rfl, le_refl _⟩
          | exact ⟨qf _, rfl, le_refl _⟩
          | exact loop_continue w _ op _ _
              (quiet_trans _ _ _ (qf _) (emit_quiet _ _)) rfl
              (ih _ _ (by simp only []; omega) h1)
      · exact ⟨quiet_refl w, rfl, le_refl _⟩

theorem set_head_idle (op : sim_fs_op) (w : World) : (set_head op w).idle = w.idle := by
  unfold set_head
  split <;> rfl

theorem set_head_inflight (op : sim_fs_op) (w : World) :
    (set_head op w).inflight = w.inflight := by
  unfold set_head
  split <;> rfl

theorem set_head_viol (op : sim_fs_op) (w : World) : (set_head op w).viol = w.viol := by
  unfold set_head
  split <;> rfl

theorem set_head_next_source (op : sim_fs_op) (w : World) :
    (set_head op w).next_source = w.next_source := by
  unfold set_head
  split <;> rfl

theorem end_current_done (w : World) (op : sim_fs_op) (h : w.fs.op_q = some [op]) :
    (sim_fs_end_current w).fs.op_q = some [] ∧ (sim_fs_end_current w).viol = w.viol := by
  unfold sim_fs_end_current
  simp [h]

theorem op_error_done (w w1 : World) (op : sim_fs_op) (hq : w.fs.op_q = some [op])
    (h : sim_fs_op_error w = .ok w1) : w1.fs.op_q = some [] ∧ w1.viol = w.viol := by
  unfold sim_fs_op_error at h
  have hp : peek_head w = some op := by simp [peek_head, hq]
  rw [hp] at h
  simp only at h
  split at h <;>
  · cases h
    exact end_current_done _ op (by simp [emit, hq])

theorem index_safe_done (id st offset num_bytes : Nat) (w : World)
    (hq : w.fs.op_q = some []) (hv : Violation.bitmap_index ∉ w.viol) :
    index_safe id st offset num_bytes w := ⟨hv, Or.inl hq⟩

theorem cdiv_lt_256 (x : Int) (h : x < 65536) : cdiv x 256 < 256 := by
  by_cases h0 : 0 ≤ x
  · rw [cdiv_nonneg x 256 h0 (by decide)]
    omega
  · have h1 : cdiv x 256 ≤ 0 := by
      unfold cdiv
      have h2 : Int.tdiv x 256 = -Int.tdiv (-x) 256 := by
        rw [Int.neg_tdiv, neg_neg]
      have h3 : 0 ≤ Int.tdiv (-x) 256 := Int.tdiv_nonneg (by omega) (by decide)
      omega
    omega

theorem index_safe_block_tick (id st offset num_bytes : Nat) (w : World) (op : sim_fs_op)
    (hq : w.fs.op_q = some [op]) (hidle : w.idle = []) (hinfl : w.inflight = [])
    (hv : Violation.bitmap_index ∉ w.viol) (hb : blocks_in_range op) :
    index_safe id st offset num_bytes (idle_add TickFn.read_block w) :=
  ⟨hv, Or.inr (Or.inr ⟨op, hq, Or.inr (Or.inr (Or.inl
    ⟨w.next_source, by simp [idle_add, hidle], hinfl, hb⟩))⟩)⟩

theorem index_safe_record_tick (id st offset num_bytes : Nat) (w : World) (op : sim_fs_op)
    (hq : w.fs.op_q = some [op]) (hidle : w.idle = []) (hinfl : w.inflight = [])
    (hv : Violation.bitmap_index ∉ w.viol) (hb : records_in_range op) :
    index_safe id st offset num_bytes (idle_add TickFn.read_record w) :=
  ⟨hv, Or.inr (Or.inr ⟨op, hq, Or.inr (Or.inr (Or.inr (Or.inr (Or.inl
    ⟨w.next_source, by simp [idle_add, hidle], hinfl, hb⟩))))⟩)⟩

theorem index_safe_block_request (id st offset num_bytes : Nat) (w : World)
    (op : sim_fs_op) (a : Nat) (b c : Int)
    (hq : w.fs.op_q = some [op]) (hidle : w.idle = []) (hinfl : w.inflight = [])
    (hv : Violation.bitmap_index ∉ w.viol) (hb : blocks_in_range op)
    (hle : op.current ≤ cdiv (op.offset + (op.num_bytes - 1)) 256) :
    index_safe id st offset num_bytes
      (call_driver (DrvReq.read_file_transparent a b c) w) :=
  ⟨hv, Or.inr (Or.inr ⟨op, hq, Or.inr (Or.inr (Or.inr (Or.inl
    ⟨hidle, ⟨a, b, c, by simp [call_driver, hinfl]⟩, hb, hle⟩)))⟩)⟩

theorem index_safe_record_request (id st offset num_bytes : Nat) (w : World)
    (op : sim_fs_op) (r : DrvReq)
    (hr : ∃ a b c, r = DrvReq.read_file_linear a b c ∨ r = DrvReq.read_file_cyclic a b c)
    (hq : w.fs.op_q = some [op]) (hidle : w.idle = []) (hinfl : w.inflight = [])
    (hv : Violation.bitmap_index ∉ w.viol) (hb : records_in_range op)
    (hle : op.current ≤ cdiv op.length op.record_length) :
    index_safe id st offset num_bytes (call_driver r w) := by
  obtain ⟨a, b, c, hr⟩ := hr
  refine ⟨hv, Or.inr (Or.inr ⟨op, hq, Or.inr (Or.inr (Or.inr (Or.inr (Or.inr
    ⟨hidle, ⟨a, b, c, ?_⟩, hb, hle⟩))))⟩)⟩
  rcases hr with hr | hr
  · exact Or.inl (by simp [call_driver, hinfl, hr])
  · exact Or.inr (by simp [call_driver, hinfl, hr])

/-- The driver's block reply within 256 blocks keeps the invariant. -/
theorem read_block_cb_safe (id st offset num_bytes : Nat) (w w1 : World) (op : sim_fs_op)
    (error_type : Nat) (data : List Nat)
    (hq : w.fs.op_q = some [op]) (hidle : w.idle = []) (hinfl : w.inflight = [])
    (hb : blocks_in_range op)
    (hle : op.current ≤ cdiv (op.offset + (op.num_bytes - 1)) 256)
    (hv : Violation.bitmap_index ∉ w.viol)
    (h : sim_fs_op_read_block_cb w error_type data = .ok w1) :
    index_safe id st offset num_bytes w1 := by
  unfold sim_fs_op_read_block_cb at h
  have hp : peek_head w = some op := by simp [peek_head, hq]
  rw [hp] at h
  simp only at h
  split at h
  · obtain ⟨h1, h2⟩ := op_error_done w w1 op hq h
    exact index_safe_done _ _ _ _ _ h1 (by rw [h2]; exact hv)
  · split at h
    · cases h
    · rename_i wm hm
      have q := quiet_trans _ _ _ (memcpy_quiet _ _ _ _ _ _ hm)
        (cache_block_quiet wm op.current 256 data data.length
          (Or.inr ⟨hb.1, by have := hb.2; omega⟩))
      have hcq : (cache_block wm op.current 256 data data.length).2.fs.op_q = some [op] :=
        q.2.2.1.trans hq
      have hsq := set_head_op_q { op with current := op.current + 1 } op [] _ hcq
      have hvq : Violation.bitmap_index ∉
          (cache_block wm op.current 256 data data.length).2.viol := fun hm => hv (q.2.2.2 hm)
      split at h
      · cases h
        obtain ⟨h1, h2⟩ := end_current_done
          (emit (Ev.read_cb op.cb 1 op.num_bytes 0
            (set_head { op with current := op.current + 1 }
              (cache_block wm op.current 256 data data.length).2).fs.buffer
            op.record_length op.userdata)
            (set_head { op with current := op.current + 1 }
              (cache_block wm op.current 256 data data.length).2))
          { op with current := op.current + 1 } (by simp [emit, hsq])
        refine index_safe_done _ _ _ _ _ h1 ?_
        rw [h2]
        simp only [emit, set_head_viol]
        exact hvq
      · rename_i hnot
        cases h
        exact index_safe_block_tick _ _ _ _ _ _ hsq
          (by rw [set_head_idle, q.1, hidle]) (by rw [set_head_inflight, q.2.1, hinfl])
          (by rw [set_head_viol]; exact hvq)
          ⟨by have := hb.1; simp only []; omega, hb.2⟩

/-- The driver's record reply within 256 records keeps the invariant. -/
theorem retrieve_cb_safe (id st offset num_bytes : Nat) (w w1 : World) (op : sim_fs_op)
    (error_type : Nat) (data : List Nat)
    (hq : w.fs.op_q = some [op]) (hidle : w.idle = []) (hinfl : w.inflight = [])
    (hb : records_in_range op) (hle : op.current ≤ cdiv op.length op.record_length)
    (hv : Violation.bitmap_index ∉ w.viol)
    (h : sim_fs_op_retrieve_cb w error_type data = .ok w1) :
    index_safe id st offset num_bytes w1 := by
  unfold sim_fs_op_retrieve_cb at h
  have hp : peek_head w = some op := by simp [peek_head, hq]
  rw [hp] at h
  simp only at h
  split at h
  · cases h
  · split at h
    · obtain ⟨h1, h2⟩ := op_error_done w w1 op hq h
      exact index_safe_done _ _ _ _ _ h1 (by rw [h2]; exact hv)
    · have q := quiet_trans _ _ _
        (emit_quiet (Ev.read_cb op.cb 1 op.length op.current (some data) op.record_length
          op.userdata) w)
        (cache_block_quiet
          (emit (Ev.read_cb op.cb 1 op.length op.current (some data) op.record_length
            op.userdata) w) (op.current - 1) op.record_length data op.record_length
          (Or.inr ⟨by have := hb.1; omega, by have := hb.2; omega⟩))
      have hcq := q.2.2.1.trans hq
      have hvq : Violation.bitmap_index ∉
          (cache_block
            (emit (Ev.read_cb op.cb 1 op.length op.current (some data) op.record_length
              op.userdata) w) (op.current - 1) op.record_length data
            op.record_length).2.viol := fun hm => hv (q.2.2.2 hm)
      split at h
      · cases h
        have hsq := set_head_op_q { op with current := op.current + 1 } op [] _ hcq
        exact index_safe_record_tick _ _ _ _ _ _ hsq
          (by rw [set_head_idle, q.1, hidle]) (by rw [set_head_inflight, q.2.1, hinfl])
          (by rw [set_head_viol]; exact hvq)
          ⟨by have := hb.1; simp only []; omega, hb.2⟩
      · cases h
        obtain ⟨h1, h2⟩ := end_current_done _ op hcq
        exact index_safe_done _ _ _ _ _ h1 (by rw [h2]; exact hvq)

theorem read_block_tail_safe (id st offset num_bytes : Nat) (w W0 w1 : World)
    (op : sim_fs_op) (r : World × sim_fs_op) (req : DrvReq)
    (hreq : ∃ a b c, req = DrvReq.read_file_transparent a b c)
    (hq : w.fs.op_q = some [op]) (hidle : w.idle = []) (hinfl : w.inflight = [])
    (hv : Violation.bitmap_index ∉ w.viol) (hb : blocks_in_range op)
    (q0 : quiet w W0)
    (hr : quiet W0 r.1 ∧ r.2 = { op with current := r.2.current } ∧
      op.current ≤ r.2.current)
    (h : (if r.2.current > cdiv (op.offset + (op.num_bytes - 1)) 256 then
        Except.ok (sim_fs_end_current
          (emit (Ev.read_cb r.2.cb 1 r.2.num_bytes 0 (set_head r.2 r.1).fs.buffer
            r.2.record_length r.2.userdata) (set_head r.2 r.1)))
      else
        match (set_head r.2 r.1).fs.driver with
        | none => Except.error Fault.null_driver
        | some driver =>
          if driver.read_file_transparent = false then sim_fs_op_error (set_head r.2 r.1)
          else Except.ok (call_driver req (set_head r.2 r.1))) =
      (Except.ok w1 : Except Fault World)) :
    index_safe id st offset num_bytes w1 := by
  obtain ⟨wB, opB⟩ := r
  obtain ⟨q1, e1, l1⟩ := hr
  simp only at q1 e1 l1 h
  have q := quiet_trans _ _ _ q0 q1
  have hqB : wB.fs.op_q = some [op] := q.2.2.1.trans hq
  have hsq := set_head_op_q opB op [] wB hqB
  have hsv : Violation.bitmap_index ∉ (set_head opB wB).viol := by
    rw [set_head_viol]
    exact fun hm => hv (q.2.2.2 hm)
  have hbB : blocks_in_range opB := by
    rw [e1]
    exact ⟨by have := hb.1; simp only []; omega, hb.2⟩
  have heB : cdiv (opB.offset + (opB.num_bytes - 1)) 256 =
      cdiv (op.offset + (op.num_bytes - 1)) 256 := by
    rw [e1]
  split at h
  · cases h
    obtain ⟨h1, h2⟩ := end_current_done
      (emit (Ev.read_cb opB.cb 1 opB.num_bytes 0 (set_head opB wB).fs.buffer
        opB.record_length opB.userdata) (set_head opB wB)) opB (by simp [emit, hsq])
    exact index_safe_done _ _ _ _ _ h1 (by rw [h2]; exact hsv)
  · rename_i hnot
    split at h
    · cases h
    · split at h
      · obtain ⟨h1, h2⟩ := op_error_done _ w1 opB hsq h
        exact index_safe_done _ _ _ _ _ h1 (by rw [h2]; exact hsv)
      · cases h
        obtain ⟨a, b, c, rfl⟩ := hreq
        exact index_safe_block_request _ _ _ _ _ opB a b c hsq
          (by rw [set_head_idle, q.1, hidle]) (by rw [set_head_inflight, q.2.1, hinfl]) hsv
          hbB (by omega)

/-- The tick `sim_fs_op_read_block` within 256 blocks keeps the invariant. -/
theorem read_block_safe (id st offset num_bytes : Nat) (w w1 : World) (op : sim_fs_op)
    (hq : w.fs.op_q = some [op]) (hidle : w.idle = []) (hinfl : w.inflight = [])
    (hb : blocks_in_range op) (hv : Violation.bitmap_index ∉ w.viol)
    (h : sim_fs_op_read_block w = .ok w1) :
    index_safe id st offset num_bytes w1 := by
  unfold sim_fs_op_read_block at h
  have hp : peek_head w = some op := by simp [peek_head, hq]
  rw [hp] at h
  simp only at h
  split at h
  · obtain ⟨h1, h2⟩ := op_error_done { w with fs.buffer := none } w1 op hq h
    exact index_safe_done _ _ _ _ _ h1 (by rw [h2]; exact hv)
  · have hw0 : ∀ b : List Nat,
        quiet w (if op.current = cdiv op.offset 256 then
          ({ w with fs.buffer := some b } : World) else w) := by
      intro b
      split
      · exact ⟨rfl, rfl, rfl, fun hm => hm⟩
      · exact quiet_refl w
    refine read_block_tail_safe id st offset num_bytes w ?W0 w1 op _ _ ?hreq hq hidle hinfl
      hv hb ?q0 ?hr h
    case hr => exact read_block_cached_quiet _ _ op hb.1 hb.2
    case hreq => exact ⟨_, _, _, rfl⟩
    case q0 => exact hw0 _

theorem read_record_tail_safe (id st offset num_bytes : Nat) (w W0 w1 : World)
    (op : sim_fs_op) (r : World × sim_fs_op) (req1 req2 : DrvReq)
    (hreq1 : ∃ a b c, req1 = DrvReq.read_file_linear a b c)
    (hreq2 : ∃ a b c, req2 = DrvReq.read_file_cyclic a b c)
    (hq : w.fs.op_q = some [op]) (hidle : w.idle = []) (hinfl : w.inflight = [])
    (hv : Violation.bitmap_index ∉ w.viol) (hb : records_in_range op)
    (q0 : quiet w W0)
    (hr : quiet W0 r.1 ∧ r.2 = { op with current := r.2.current } ∧
      op.current ≤ r.2.current)
    (h : (if r.2.current > cdiv op.length op.record_length then
        Except.ok (sim_fs_end_current (set_head r.2 r.1))
      else
        match (set_head r.2 r.1).fs.driver with
        | none => Except.error Fault.null_driver
        | some driver =>
          if r.2.structure_ = OFONO_SIM_FILE_STRUCTURE_FIXED then
            if driver.read_file_linear = false then sim_fs_op_error (set_head r.2 r.1)
            else Except.ok (call_driver req1 (set_head r.2 r.1))
          else if r.2.structure_ = OFONO_SIM_FILE_STRUCTURE_CYCLIC then
            if driver.read_file_cyclic = false then sim_fs_op_error (set_head r.2 r.1)
            else Except.ok (call_driver req2 (set_head r.2 r.1))
          else Except.ok (set_head r.2 r.1)) =
      (Except.ok w1 : Except Fault World)) :
    index_safe id st offset num_bytes w1 := by
  obtain ⟨wB, opB⟩ := r
  obtain ⟨q1, e1, l1⟩ := hr
  simp only at q1 e1 l1 h
  have q := quiet_trans _ _ _ q0 q1
  have hqB : wB.fs.op_q = some [op] := q.2.2.1.trans hq
  have hsq := set_head_op_q opB op [] wB hqB
  have hsv : Violation.bitmap_index ∉ (set_head opB wB).viol := by
    rw [set_head_viol]
    exact fun hm => hv (q.2.2.2 hm)
  have hsi : (set_head opB wB).idle = [] := by rw [set_head_idle, q.1, hidle]
  have hsf : (set_head opB wB).inflight = [] := by rw [set_head_inflight, q.2.1, hinfl]
  have hbB : records_in_range opB := by
    rw [e1]
    exact ⟨by have := hb.1; simp only []; omega, hb.2⟩
  have heB : cdiv opB.length opB.record_length = cdiv op.length op.record_length := by
    rw [e1]
  have herr : ∀ w2, sim_fs_op_error (set_head opB wB) = .ok w2 →
      index_safe id st offset num_bytes w2 := by
    intro w2 h2
    obtain ⟨h1, h3⟩ := op_error_done _ w2 opB hsq h2
    exact index_safe_done _ _ _ _ _ h1 (by rw [h3]; exact hsv)
  split at h
  · cases h
    obtain ⟨h1, h2⟩ := end_current_done (set_head opB wB) opB hsq
    exact index_safe_done _ _ _ _ _ h1 (by rw [h2]; exact hsv)
  · rename_i hnot
    have hdrv : ∀ req, (∃ a b c, req = DrvReq.read_file_linear a b c ∨
        req = DrvReq.read_file_cyclic a b c) →
        index_safe id st offset num_bytes (call_driver req (set_head opB wB)) :=
      fun req hreq => index_safe_record_request _ _ _ _ _ opB req hreq hsq hsi hsf hsv hbB
        (by omega)
    split at h
    · cases h
    · split at h
      · split at h
        · exact herr _ h
        · cases h
          obtain ⟨a, b, c, hr1⟩ := hreq1
          exact hdrv _ ⟨a, b, c, Or.inl hr1⟩
      · split at h
        · split at h
          · exact herr _ h
          · cases h
            obtain ⟨a, b, c, hr2⟩ := hreq2
            exact hdrv _ ⟨a, b, c, Or.inr hr2⟩
        · cases h
          exact ⟨hsv, Or.inr (Or.inl ⟨hsi, hsf⟩)⟩

/-- The tick `sim_fs_op_read_record` within 256 records keeps the invariant. -/
theorem read_record_safe (id st offset num_bytes : Nat) (w w1 : World) (op : sim_fs_op)
    (hq : w.fs.op_q = some [op]) (hidle : w.idle = []) (hinfl : w.inflight = [])
    (hb : records_in_range op) (hv : Violation.bitmap_index ∉ w.viol)
    (h : sim_fs_op_read_record w = .ok w1) :
    index_safe id st offset num_bytes w1 := by
  unfold sim_fs_op_read_record at h
  have hp : peek_head w = some op := by simp [peek_head, hq]
  rw [hp] at h
  simp only at h
  split at h
  · cases h
  · refine read_record_tail_safe id st offset num_bytes w ?W0 w1 op _ _ _ ?hreq1 ?hreq2 hq
      hidle hinfl hv hb ?q0 ?hr h
    case hr => exact read_record_cached_quiet _ _ op hb.1 hb.2
    case hreq1 => exact ⟨_, _, _, rfl⟩
    case hreq2 => exact ⟨_, _, _, rfl⟩
    case q0 => exact ⟨rfl, rfl, rfl, fun hm => hm⟩

/-- The invariant only looks at the pending ticks and requests, the queue and
the recorded violations, once `sim_fs_op_next` has run. -/
theorem index_safe_quiet (id st offset num_bytes : Nat) (w w1 : World) (q : quiet w w1)
    (hA : ∀ s, w.idle ≠ [(s, TickFn.op_next)])
    (h : index_safe id st offset num_bytes w) : index_safe id st offset num_bytes w1 := by
  obtain ⟨q1, q2, q3, q4⟩ := q
  obtain ⟨hv, h⟩ := h
  refine ⟨fun hm => hv (q4 hm), ?_⟩
  unfold read_phase at h ⊢
  rw [q1, q2, q3]
  rcases h with h | h | ⟨op, hq, h⟩
  · exact Or.inl h
  · exact Or.inr (Or.inl h)
  · refine Or.inr (Or.inr ⟨op, hq, ?_⟩)
    rcases h with ⟨s, hs, -⟩ | h
    · exact absurd hs (hA s)
    · exact Or.inr h

theorem info_cb_tail_quiet (wA w1 : World) (p q : Prop) [Decidable p] [Decidable q]
    (id : Nat) (hdr : List Nat) (cnt n : Int) (files1 : Nat → Option (List Nat))
    (h : (if p then Except.ok wA
      else if q then Except.ok { wA with fs.fd := none }
      else if
          (sys_write { wA with fs.fd := some id, files := files1 } id 0 hdr cnt).1 = n then
        Except.ok (sys_write { wA with fs.fd := some id, files := files1 } id 0 hdr cnt).2
      else
        Except.ok
          { (sys_write { wA with fs.fd := some id, files := files1 } id 0 hdr cnt).2 with
            fs.fd := none }) = (Except.ok w1 : Except Fault World)) :
    quiet wA w1 := by
  have q0 : quiet wA { wA with fs.fd := some id, files := files1 } :=
    ⟨rfl, rfl, rfl, fun hm => hm⟩
  have qs := quiet_trans _ _ _ q0
    (sys_write_quiet { wA with fs.fd := some id, files := files1 } id 0 hdr cnt)
  by_cases hp : p
  · rw [if_pos hp] at h
    cases h
    exact quiet_refl wA
  · rw [if_neg hp] at h
    by_cases hq : q
    · rw [if_pos hq] at h
      cases h
      exact ⟨rfl, rfl, rfl, fun hm => hm⟩
    · rw [if_neg hq] at h
      by_cases hr :
          (sys_write { wA with fs.fd := some id, files := files1 } id 0 hdr cnt).1 = n
      · rw [if_pos hr] at h
        cases h
        exact qs
      · rw [if_neg hr] at h
        cases h
        exact ⟨qs.1, qs.2.1, qs.2.2.1, qs.2.2.2⟩

/-- The file information within 256 units keeps the invariant. -/
theorem info_cb_safe (id st offset num_bytes : Nat) (w w1 : World) (op : sim_fs_op)
    (error_type : Nat) (length : Int) (structure_ : Nat) (record_length : Int)
    (access : List Nat)
    (hq : w.fs.op_q = some [op]) (hidle : w.idle = []) (hinfl : w.inflight = [])
    (hst : op.structure_ = st) (hoff : op.offset = offset)
    (hnb : op.num_bytes = (num_bytes : Int))
    (hgeo : units_in_range st offset num_bytes structure_ length record_length)
    (hv : Violation.bitmap_index ∉ w.viol)
    (h : sim_fs_op_info_cb w error_type length structure_ record_length access = .ok w1) :
    index_safe id st offset num_bytes w1 := by
  unfold sim_fs_op_info_cb at h
  have hp : peek_head w = some op := by simp [peek_head, hq]
  rw [hp] at h
  simp only at h
  split at h
  · obtain ⟨h1, h2⟩ := op_error_done w w1 op hq h
    exact index_safe_done _ _ _ _ _ h1 (by rw [h2]; exact hv)
  · split at h
    · obtain ⟨h1, h2⟩ := op_error_done w w1 op hq h
      exact index_safe_done _ _ _ _ _ h1 (by rw [h2]; exact hv)
    · rename_i hs
      have hs2 : structure_ = st := by
        rw [← hst]
        exact not_not.1 hs
      have hg := hgeo hs2
      have q := info_cb_tail_quiet _ _ _ _ _ _ _ _ _ h
      refine index_safe_quiet _ _ _ _ _ _ q ?_ ?_
      · intro s hc
        simp only [idle_add, set_head_idle, hidle, List.nil_append, List.cons.injEq,
          Prod.mk.injEq, and_true] at hc
        split at hc <;> exact absurd hc.2 (by decide)
      · by_cases ht : structure_ = OFONO_SIM_FILE_STRUCTURE_TRANSPARENT
        · simp only [if_pos ht] at hg ⊢
          refine index_safe_block_tick _ _ _ _ _ _ (set_head_op_q _ op [] w hq)
            (by rw [set_head_idle, hidle]) (by rw [set_head_inflight, hinfl])
            (by rw [set_head_viol]; exact hv) ⟨?_, ?_⟩
          · show 0 ≤ cdiv (op.offset : Int) 256
            rw [cdiv_natCast_256]
            omega
          · apply cdiv_lt_256
            show (op.offset : Int) + ((if op.num_bytes = 0 then length else op.num_bytes) - 1) <
              65536
            rw [hoff, hnb]
            by_cases hz : num_bytes = 0
            · subst hz
              simp only [if_true, Nat.cast_zero] at hg ⊢
              omega
            · have hz2 : ¬ ((num_bytes : Int) = 0) := by omega
              simp only [if_neg hz, if_neg hz2] at hg ⊢
              omega
        · simp only [if_neg ht] at hg ⊢
          exact index_safe_record_tick _ _ _ _ _ _ (set_head_op_q _ op [] w hq)
            (by rw [set_head_idle, hidle]) (by rw [set_head_inflight, hinfl])
            (by rw [set_head_viol]; exact hv) ⟨le_refl _, hg⟩

theorem header_length_pread (file : List Nat) :
    (pread file 0 SIM_CACHE_HEADER_SIZE).getD 1 0 <<< 8 |||
      (pread file 0 SIM_CACHE_HEADER_SIZE).getD 2 0 = header_length file := by
  unfold header_length SIM_CACHE_HEADER_SIZE
  rw [getD_pread_header _ _ (by decide), getD_pread_header _ _ (by decide)]

theorem header_record_length_pread (file : List Nat) :
    (pread file 0 SIM_CACHE_HEADER_SIZE).getD 4 0 <<< 8 |||
      (pread file 0 SIM_CACHE_HEADER_SIZE).getD 5 0 = header_record_length file := by
  unfold header_record_length SIM_CACHE_HEADER_SIZE
  rw [getD_pread_header _ _ (by decide), getD_pread_header _ _ (by decide)]

theorem header_structure_pread (file : List Nat) :
    (pread file 0 SIM_CACHE_HEADER_SIZE).getD 3 0 = file.getD 3 0 := by
  unfold SIM_CACHE_HEADER_SIZE
  rw [getD_pread_header _ _ (by decide)]

theorem check_cached_tail_safe (id st offset num_bytes : Nat) (w wA w1 : World) (b : Bool)
    (opA op2 : sim_fs_op) (p0 p1 : Prop) (d0 : Decidable p0) (d1 : Decidable p1)
    (tick : TickFn)
    (hq : wA.fs.op_q = some [opA]) (hidle : wA.idle = []) (hinfl : wA.inflight = [])
    (hv : Violation.bitmap_index ∉ wA.viol)
    (hphase : ¬ p0 → ¬ p1 → (tick = TickFn.read_block ∧ blocks_in_range op2) ∨
      (tick = TickFn.read_record ∧ records_in_range op2))
    (h : (@ite _ p0 d0 (Except.ok (false, w))
      (@ite _ p1 d1
        (match sim_fs_op_error wA with
        | .error e => .error e
        | .ok w2 => .ok (true, idle_add tick (flag Violation.freed_op_access w2)))
        (.ok (true, idle_add tick (set_head op2 wA))))) =
      (Except.ok (b, w1) : Except Fault (Bool × World))) :
    b = true → index_safe id st offset num_bytes w1 := by
  intro hb
  split at h
  · cases h
    cases hb
  · rename_i hp0
    split at h
    · split at h
      · cases h
      · rename_i w2 he
        cases h
        obtain ⟨h1, h2⟩ := op_error_done wA w2 opA hq he
        refine index_safe_done _ _ _ _ _ h1 ?_
        show Violation.bitmap_index ∉ w2.viol ++ [Violation.freed_op_access]
        rw [h2]
        intro hm
        rcases List.mem_append.1 hm with h3 | h3
        · exact hv h3
        · simp at h3
    · rename_i hp1
      cases h
      have hsq := set_head_op_q op2 opA [] wA hq
      rcases hphase hp0 hp1 with ⟨ht, hr⟩ | ⟨ht, hr⟩
      · rw [ht]
        exact index_safe_block_tick _ _ _ _ _ _ hsq (by rw [set_head_idle, hidle])
          (by rw [set_head_inflight, hinfl]) (by rw [set_head_viol]; exact hv) hr
      · rw [ht]
        exact index_safe_record_tick _ _ _ _ _ _ hsq (by rw [set_head_idle, hidle])
          (by rw [set_head_inflight, hinfl]) (by rw [set_head_viol]; exact hv) hr

/-- A cache hit on a header within 256 units keeps the invariant. -/
theorem check_cached_safe (id st offset num_bytes : Nat) (w w1 : World) (op : sim_fs_op)
    (hq : w.fs.op_q = some [op]) (hidle : w.idle = []) (hinfl : w.inflight = [])
    (hid : op.id = id) (hst : op.structure_ = st) (hoff : op.offset = offset)
    (hnb : op.num_bytes = (num_bytes : Int))
    (hgeo : ∀ F, w.files id = some F →
      units_in_range st offset num_bytes (F.getD 3 0) (header_length F)
        (header_record_length F))
    (hv : Violation.bitmap_index ∉ w.viol)
    (h : sim_fs_op_check_cached w = .ok (true, w1)) :
    index_safe id st offset num_bytes w1 := by
  unfold sim_fs_op_check_cached at h
  have hp : peek_head w = some op := by simp [peek_head, hq]
  split at h
  · cases h
  · rw [hp] at h
    simp only at h
    split at h
    · cases h
    · rename_i file hfile
      rw [hid] at hfile
      have hg := hgeo file hfile
      split at h
      · cases h
      · simp only [header_length_pread, header_record_length_pread,
          header_structure_pread] at h
        refine check_cached_tail_safe id st offset num_bytes w _ w1 true ?opA _ _ _ _ _ _
          ?hqA ?hidle ?hinfl ?hv ?hphase h rfl
        case hqA => exact set_head_op_q _ op [] w hq
        case hidle =>
          show (set_head _ w).idle = []
          rw [set_head_idle, hidle]
        case hinfl =>
          show (set_head _ w).inflight = []
          rw [set_head_inflight, hinfl]
        case hv =>
          show Violation.bitmap_index ∉ (set_head _ w).viol
          rw [set_head_viol]
          exact hv
        case hphase =>
          intro hp0 hp1
          have hs2 : file.getD 3 0 = st := by
            rw [← hst]
            by_contra hc
            exact hp1 (Or.inr hc)
          have hg2 := hg hs2
          by_cases ht : file.getD 3 0 = OFONO_SIM_FILE_STRUCTURE_TRANSPARENT
          · simp only [if_pos ht] at hg2 ⊢
            refine Or.inl ⟨trivial, ?_, ?_⟩
            · show 0 ≤ cdiv (op.offset : Int) 256
              rw [cdiv_natCast_256]
              omega
            · apply cdiv_lt_256
              show (op.offset : Int) +
                ((if op.num_bytes = 0 then ((header_length file : Nat) : Int)
                  else op.num_bytes) - 1) < 65536
              rw [hoff, hnb]
              by_cases hz : num_bytes = 0
              · subst hz
                simp only [if_true, Nat.cast_zero] at hg2 ⊢
                omega
              · have hz2 : ¬ ((num_bytes : Int) = 0) := by omega
                simp only [if_neg hz, if_neg hz2] at hg2 ⊢
                omega
          · simp only [if_neg ht] at hg2 ⊢
            exact Or.inr ⟨trivial, le_refl _, hg2⟩

/-- The tick `sim_fs_op_next` on the read as enqueued keeps the invariant. -/
theorem op_next_safe (id st offset num_bytes : Nat) (w w1 : World) (op : sim_fs_op)
    (hq : w.fs.op_q = some [op]) (hidle : w.idle = []) (hinfl : w.inflight = [])
    (hread : op.is_read = true)
    (hid : op.id = id) (hst : op.structure_ = st) (hoff : op.offset = offset)
    (hnb : op.num_bytes = (num_bytes : Int))
    (hgeo : ∀ F, w.files id = some F →
      units_in_range st offset num_bytes (F.getD 3 0) (header_length F)
        (header_record_length F))
    (hv : Violation.bitmap_index ∉ w.viol)
    (h : sim_fs_op_next w = .ok w1) :
    index_safe id st offset num_bytes w1 := by
  unfold sim_fs_op_next at h
  simp only at h
  split at h
  · cases h
    exact ⟨hv, Or.inr (Or.inl ⟨hidle, hinfl⟩)⟩
  · cases h
  · rename_i op' rest hq'
    have hq2 : some (op' :: rest) = some [op] := hq'.symm.trans hq
    cases hq2
    split at h
    · split at h
      · cases h
      · rename_i w2 hc
        cases h
        exact check_cached_safe id st offset num_bytes { w with fs.op_source := 0 } _ op hq
          hidle hinfl hid hst hoff hnb hgeo hv hc
      · rename_i w2 hc
        have hw2 := (check_cached_serves_head _ _ _ hc).2 rfl
        subst hw2
        split at h
        · cases h
        · split at h
          · cases h
          · cases h
            refine ⟨hv, Or.inr (Or.inr ⟨op, hq, Or.inr (Or.inl ⟨hidle, ?_, hid, hst, hoff,
              hnb⟩)⟩)⟩
            simp [call_driver, hinfl, hid]
    · rename_i hr
      exact absurd hread hr

theorem run_tick_empty_queue (w : World) (f : TickFn) (hq : w.fs.op_q = some []) :
    ∃ e, run_tick w f = .error e := by
  have hp : peek_head w = none := by simp [peek_head, hq]
  cases f with
  | op_next => exact ⟨Fault.null_op, by simp [run_tick, sim_fs_op_next, hq]⟩
  | read_record => exact ⟨Fault.null_op, by simp [run_tick, sim_fs_op_read_record, hp]⟩
  | read_block => exact ⟨Fault.null_op, by simp [run_tick, sim_fs_op_read_block, hp]⟩

theorem deliver_empty_queue (m : Modem) (w : World) (r : DrvReq)
    (hq : w.fs.op_q = some []) : ∃ e, deliver m w r = .error e := by
  have hp : peek_head w = none := by simp [peek_head, hq]
  cases r <;>
    exact ⟨Fault.null_op, by
      simp [deliver, sim_fs_op_info_cb, sim_fs_op_read_block_cb, sim_fs_op_retrieve_cb,
        sim_fs_op_write_cb, hp]⟩

/-- Every iteration of the main loop keeps the invariant of a read within 256
units. -/
theorem step_safe (m : Modem) (id st offset num_bytes : Nat) (w w1 : World)
    (hinfo : units_in_range st offset num_bytes (m.info id).structure_ (m.info id).length
      (m.info id).record_length)
    (hs : index_safe id st offset num_bytes w) (h : step m w = .ok (some w1)) :
    index_safe id st offset num_bytes w1 := by
  obtain ⟨hv, hs⟩ := hs
  unfold step at h
  split at h
  · rename_i sid f rest hidle
    cases hr : run_tick { w with idle := rest } f with
    | error e => rw [hr] at h; cases h
    | ok w2 =>
      rw [hr] at h
      cases h
      rcases hs with hq | ⟨hi, -⟩ | ⟨op, hq, hph⟩
      · obtain ⟨e, he⟩ := run_tick_empty_queue { w with idle := rest } f hq
        rw [he] at hr
        cases hr
      · rw [hi] at hidle
        cases hidle
      · unfold read_phase at hph
        rw [hidle] at hph
        rcases hph with ⟨s, h1, h2, h3, h4, h5, h6, h7, h8⟩ | ⟨h1, -⟩ | ⟨s, h1, h2, h3⟩ |
          ⟨h1, -⟩ | ⟨s, h1, h2, h3⟩ | ⟨h1, -⟩
        · cases h1
          exact op_next_safe id st offset num_bytes { w with idle := [] } _ op hq rfl h2 h3
            h4 h5 h6 h7 h8 hv hr
        · cases h1
        · cases h1
          exact read_block_safe id st offset num_bytes { w with idle := [] } _ op hq rfl h2
            h3 hv hr
        · cases h1
        · cases h1
          exact read_record_safe id st offset num_bytes { w with idle := [] } _ op hq rfl h2
            h3 hv hr
        · cases h1
  · rename_i hidle
    split at h
    · rename_i r rest hinfl
      cases hr : deliver m { w with inflight := rest } r with
      | error e => rw [hr] at h; cases h
      | ok w2 =>
        rw [hr] at h
        cases h
        rcases hs with hq | ⟨-, hi⟩ | ⟨op, hq, hph⟩
        · obtain ⟨e, he⟩ := deliver_empty_queue m { w with inflight := rest } r hq
          rw [he] at hr
          cases hr
        · rw [hi] at hinfl
          cases hinfl
        · unfold read_phase at hph
          rw [hinfl] at hph
          rcases hph with ⟨s, h1, -⟩ | ⟨-, h2, h3, h4, h5, h6⟩ | ⟨s, h1, -⟩ |
            ⟨-, ⟨a, b, c, h2⟩, h3, h4⟩ | ⟨s, h1, -⟩ | ⟨-, ⟨a, b, c, h2⟩, h3, h4⟩
          · rw [hidle] at h1
            cases h1
          · cases h2
            simp only [deliver] at hr
            exact info_cb_safe id st offset num_bytes { w with inflight := [] } _ op _ _ _ _
              _ hq hidle rfl h4 h5 h6 hinfo hv hr
          · rw [hidle] at h1
            cases h1
          · cases h2
            simp only [deliver] at hr
            exact read_block_cb_safe id st offset num_bytes { w with inflight := [] } _ op _
              _ hq hidle rfl h3 h4 hv hr
          · rw [hidle] at h1
            cases h1
          · rcases h2 with h2 | h2
            · cases h2
              simp only [deliver] at hr
              exact retrieve_cb_safe id st offset num_bytes { w with inflight := [] } _ op _
                _ hq hidle rfl h3 h4 hv hr
            · cases h2
              simp only [deliver] at hr
              exact retrieve_cb_safe id st offset num_bytes { w with inflight := [] } _ op _
                _ hq hidle rfl h3 h4 hv hr
    · cases h

/-- The invariant holds after any number of iterations of the main loop. -/
theorem run_safe (m : Modem) (id st offset num_bytes : Nat)
    (hinfo : units_in_range st offset num_bytes (m.info id).structure_ (m.info id).length
      (m.info id).record_length) :
    ∀ (fuel : Nat) (w w1 : World), index_safe id st offset num_bytes w →
      run m fuel w = .ok w1 → index_safe id st offset num_bytes w1 := by
  intro fuel
  induction fuel with
  | zero =>
    intro w w1 hs h
    cases h
    exact hs
  | succ n ih =>
    intro w w1 hs h
    unfold run at h
    split at h
    · cases h
    · cases h
      exact hs
    · rename_i w2 hstep
      exact ih w2 w1 (step_safe m id st offset num_bytes w w2 hinfo hs hstep) h

set_option maxRecDepth 1000000 in
/-- C26 (defect): a FIXED EF of 257 records of one byte passes validation
(`1 <= 1 <= 257 <= 65535`).  Its cache file holds the 257 records with all
256 bits of the bitmap set.  In its first run the cache loop of
`sim_fs_op_read_record` serves records 1..256 and then tests the presence bit
of record 257 in `bitmap[(257 - 1) / 8] = bitmap[32]`, one byte past the
32-byte array: after two iterations of the main loop the 256 callbacks have
been made and the access is recorded as `Violation.bitmap_index`.  What the
loop does next depends on the byte found there, which is left out here. -/
theorem record_257_indexes_past_bitmap :
    cdiv (257 - 1) 8 = 32 ∧
    (run (card_modem (ex_card ex_records_257)) 2
        (sim_fs_read (ex_world (ex_dir ex_file_257)) 0x6f05
          OFONO_SIM_FILE_STRUCTURE_FIXED 0 0 1 77).2).map
      (fun w => (w.viol, w.log.take 256)) =
    .ok ([Violation.bitmap_index],
      (List.range 256).map
        (fun i => Ev.read_cb 1 1 257 ((i : Int) + 1) (some [7]) 1 77)) := by
  constructor <;> rfl

/-- Where the bitmap suffices: a read of `num_bytes` bytes at `offset` with
expected structure `st` on a fresh engine, over any modem, driver, cache directory and
outcome of the system calls.  Let the file information the driver reports and
the header of the cache file, if there is one, keep the read within 256 units
whenever their structure is the expected one: a transparent read ends at or
before byte 65536 (so its blocks `offset / 256 .. (offset + count - 1) / 256`
are below 256; every read inside a file of at most 65535 bytes does), a record
file has at most 256 records.  Then in every state the main loop reaches, after
any number of iterations, no access to the presence bitmap with a byte index
outside 0..31 has been recorded: the cache loops of `sim_fs_op_read_block` and
`sim_fs_op_read_record` and `cache_block` record each such access as
`Violation.bitmap_index`.  The file of 257 records of C26 is outside this
scope. -/
theorem bitmap_indices_in_range (m : Modem) (sim : ofono_sim)
    (drv : Option ofono_sim_driver) (files : Nat → Option (List Nat)) (sys : Sys)
    (id st offset num_bytes cb data fuel : Nat) (w : World)
    (ho : offset < 65536) (hn : num_bytes < 65536)
    (hinfo : units_in_range st offset num_bytes (m.info id).structure_ (m.info id).length
      (m.info id).record_length)
    (hfile : ∀ F, files id = some F →
      units_in_range st offset num_bytes (F.getD 3 0) (header_length F)
        (header_record_length F))
    (hrun : run m fuel
      (sim_fs_read (World.init sim drv files sys) id st offset num_bytes cb data).2 =
        .ok w) :
    Violation.bitmap_index ∉ w.viol := by
  have hrest : index_safe id st offset num_bytes (World.init sim drv files sys) :=
    ⟨by simp [World.init], Or.inr (Or.inl ⟨rfl, rfl⟩)⟩
  have hinit : index_safe id st offset num_bytes
      (sim_fs_read (World.init sim drv files sys) id st offset num_bytes cb data).2 := by
    by_cases hcb : cb = 0
    · have e : (sim_fs_read (World.init sim drv files sys) id st offset num_bytes cb
          data).2 = World.init sim drv files sys := by
        simp [sim_fs_read, hcb]
      rw [e]
      exact hrest
    · cases drv with
      | none =>
        have e : (sim_fs_read (World.init sim none files sys) id st offset num_bytes cb
            data).2 = World.init sim none files sys := by
          simp [sim_fs_read, World.init, sim_fs_new]
        rw [e]
        exact hrest
      | some d =>
        by_cases hd : d.read_file_info = false
        · have e : (sim_fs_read (World.init sim (some d) files sys) id st offset num_bytes
              cb data).2 = World.init sim (some d) files sys := by
            simp [sim_fs_read, World.init, sim_fs_new, hd]
          rw [e]
          exact hrest
        · have e : (sim_fs_read (World.init sim (some d) files sys) id st offset num_bytes
              cb data).2 =
              ⟨⟨some [(⟨id, st, offset, num_bytes, 0, 0, 0, cb, true, data⟩ : sim_fs_op)], 1,
                List.replicate 32 0, none, none, sim, some d⟩, files, sys,
                [(1, TickFn.op_next)], 2, [], [], []⟩ := by
            simp [sim_fs_read, World.init, sim_fs_new, hcb, hd, idle_add,
              Nat.mod_eq_of_lt ho, Nat.mod_eq_of_lt hn]
          rw [e]
          exact ⟨by simp, Or.inr (Or.inr ⟨_, rfl, Or.inl
            ⟨1, rfl, rfl, rfl, rfl, rfl, rfl, rfl, hfile⟩⟩)⟩
  exact (run_safe m id st offset num_bytes hinfo fuel _ w hinit hrun).1

set_option maxRecDepth 100000 in
theorem bitmap_indices_in_range_witness :
    ∃ w, run (card_modem (ex_card ex_records)) 9
        (sim_fs_read (ex_world (ex_dir ex_records_file)) 0x6f05
          OFONO_SIM_FILE_STRUCTURE_FIXED 0 0 1 77).2 = .ok w ∧
      quiescent w ∧ Violation.bitmap_index ∉ w.viol := by
  have h := bitmap_indices_in_range (card_modem (ex_card ex_records)) ex_sim
    (some full_driver) (ex_dir ex_records_file) Sys.ideal 0x6f05
    OFONO_SIM_FILE_STRUCTURE_FIXED 0 0 1 77 9 _ (by decide) (by decide)
    (fun _ => by decide)
    (fun F hF => by
      have hF2 : F = ex_records_file := by
        simp only [ex_dir, if_true] at hF
        exact (Option.some.inj hF).symm
      subst hF2
      exact fun _ => by decide)
    rfl
  exact ⟨_, rfl, ⟨rfl, rfl⟩, h⟩

/-! ## Violations are recorded for good -/

theorem flag_if_viol (c : Bool) (v : Violation) (w : World) :
    w.viol <+: (flag_if c v w).viol := by
  unfold flag_if
  simp only
  split
  · exact List.prefix_append _ _
  · exact List.prefix_refl _

theorem sys_write_viol (w : World) (id : Nat) (pos : Int) (data : List Nat) (count : Int) :
    w.viol <+: (sys_write w id pos data count).2.viol := by
  unfold sys_write
  split
  · exact List.prefix_refl _
  · simp only
    split
    · exact List.prefix_refl _
    · exact flag_if_viol _ _ w

theorem cache_block_viol (w : World) (block block_len : Int) (data : List Nat)
    (num_bytes : Int) : w.viol <+: (cache_block w block block_len data num_bytes).2.viol := by
  unfold cache_block
  split
  · exact List.prefix_refl _
  · rename_i f hf
    split
    · exact List.prefix_refl _
    · simp only
      have q1 := sys_write_viol w f (block * block_len + ↑SIM_CACHE_HEADER_SIZE) data num_bytes
      have q2 := flag_if_viol (decide (¬ (0 ≤ cdiv block 8 ∧ cdiv block 8 < 32)))
        Violation.bitmap_index
        (sys_write w f (block * block_len + ↑SIM_CACHE_HEADER_SIZE) data num_bytes).2
      have q3 := sys_write_viol
        (check_bitmap_index (cdiv block 8)
          (sys_write w f (block * block_len + ↑SIM_CACHE_HEADER_SIZE) data num_bytes).2) f
        (cdiv block 8 + ↑SIM_FILE_INFO_SIZE)
        [(bitmap_get
          (sys_write w f (block * block_len + ↑SIM_CACHE_HEADER_SIZE) data
            num_bytes).2.fs.bitmap (cdiv block 8) ||| 1 <<< (cmod block 8).toNat) % 256] 1
      have q := q1.trans (q2.trans q3)
      split
      · exact q1
      · split
        · exact q
        · exact q

theorem memcpy_viol (w w1 : World) (bufoff : Int) (data : List Nat)
    (dataoff tocopy : Int) (h : memcpy_to_buffer w bufoff data dataoff tocopy = .ok w1) :
    w.viol <+: w1.viol := by
  unfold memcpy_to_buffer at h
  split at h
  · split at h
    · cases h
      exact List.prefix_refl _
    · cases h
  · cases h
    rename_i buf _
    exact (flag_if_viol (decide (dataoff + tocopy > (data.length : Int)))
      Violation.source_overread w).trans
      (flag_if_viol (!in_bounds buf.length bufoff tocopy.toNat) Violation.buffer_overflow _)

theorem sys_read_buffer_viol (w : World) (id : Nat) (pos bufoff toread : Int) :
    w.viol <+: (sys_read_buffer w id pos bufoff toread).2.viol := by
  unfold sys_read_buffer
  split
  · exact List.prefix_refl _
  · simp only
    exact flag_if_viol _ Violation.buffer_overflow w

theorem read_block_cached_viol :
    ∀ (fuel : Nat) (w : World) (op : sim_fs_op),
      w.viol <+: (read_block_cached fuel w op).1.viol := by
  intro fuel
  induction fuel with
  | zero => intro w op; exact List.prefix_refl _
  | succ n ih =>
    intro w op
    unfold read_block_cached
    split
    · exact List.prefix_refl _
    · split
      · have qc : w.viol <+: (check_bitmap_index (cdiv op.current 8) w).viol :=
          flag_if_viol _ _ w
        simp only
        split_ifs
        all_goals first
          | exact qc
          | exact qc.trans (sys_read_buffer_viol _ _ _ _ _)
          | exact (qc.trans (sys_read_buffer_viol _ _ _ _ _)).trans (ih _ _)
      · exact List.prefix_refl _

theorem read_record_cached_viol :
    ∀ (fuel : Nat) (w : World) (op : sim_fs_op),
      w.viol <+: (read_record_cached fuel w op).1.viol := by
  intro fuel
  induction fuel with
  | zero => intro w op; exact List.prefix_refl _
  | succ n ih =>
    intro w op
    unfold read_record_cached
    split
    · exact List.prefix_refl _
    · split
      · have qc : w.viol <+: (check_bitmap_index (cdiv (op.current - 1) 8) w).viol :=
          flag_if_viol _ _ w
        have qf : ∀ c : Bool, w.viol <+: (flag_if c Violation.record_buf_overflow
            (check_bitmap_index (cdiv (op.current - 1) 8) w)).viol :=
          fun c => qc.trans (flag_if_viol c _ _)
        have hstep : ∀ (x : World) (e : Ev) (o : sim_fs_op),
            x.viol <+: (read_record_cached n (emit e x) o).1.viol :=
          fun x e o => ih (emit e x) o
        simp only
        split_ifs
        all_goals first
          | exact qc
          | exact qf _
          | exact (qf _).trans (hstep _ _ _)
      · exact List.prefix_refl _

theorem end_current_viol (w : World) : (sim_fs_end_current w).viol = w.viol := by
  unfold sim_fs_end_current
  simp only
  split <;> rfl

theorem op_error_viol (w w1 : World) (h : sim_fs_op_error w = .ok w1) :
    w1.viol = w.viol := by
  unfold sim_fs_op_error at h
  split at h
  · cases h
  · split at h <;>
    · cases h
      rw [end_current_viol]
      rfl

theorem write_cb_viol (w w1 : World) (error_type : Nat)
    (h : sim_fs_op_write_cb w error_type = .ok w1) : w.viol <+: w1.viol := by
  unfold sim_fs_op_write_cb at h
  split at h
  · cases h
  · split at h <;>
    · cases h
      rw [end_current_viol]
      exact List.prefix_refl _

theorem read_block_cb_viol (w w1 : World) (error_type : Nat) (data : List Nat)
    (h : sim_fs_op_read_block_cb w error_type data = .ok w1) : w.viol <+: w1.viol := by
  unfold sim_fs_op_read_block_cb at h
  rcases peek_head_cases w with hn | ⟨op, rest, hq, hp⟩
  · rw [hn] at h
    cases h
  · rw [hp] at h
    simp only at h
    split at h
    · rw [op_error_viol w w1 h]
    · split at h
      · cases h
      · rename_i wm hm
        have q := (memcpy_viol _ _ _ _ _ _ hm).trans
          (cache_block_viol wm op.current 256 data data.length)
        split at h
        · cases h
          rw [end_current_viol]
          show w.viol <+: (set_head _ _).viol
          rw [set_head_viol]
          exact q
        · cases h
          show w.viol <+: (set_head _ _).viol
          rw [set_head_viol]
          exact q

theorem retrieve_cb_viol (w w1 : World) (error_type : Nat) (data : List Nat)
    (h : sim_fs_op_retrieve_cb w error_type data = .ok w1) : w.viol <+: w1.viol := by
  unfold sim_fs_op_retrieve_cb at h
  rcases peek_head_cases w with hn | ⟨op, rest, hq, hp⟩
  · rw [hn] at h
    cases h
  · rw [hp] at h
    simp only at h
    split at h
    · cases h
    · split at h
      · rw [op_error_viol w w1 h]
      · have q : w.viol <+: (cache_block
            (emit (Ev.read_cb op.cb 1 op.length op.current (some data) op.record_length
              op.userdata) w) (op.current - 1) op.record_length data
            op.record_length).2.viol :=
          cache_block_viol (emit (Ev.read_cb op.cb 1 op.length op.current (some data)
            op.record_length op.userdata) w) _ _ _ _
        split at h
        · cases h
          show w.viol <+: (set_head _ _).viol
          rw [set_head_viol]
          exact q
        · cases h
          rw [end_current_viol]
          exact q

theorem read_block_tail_viol (w wB w1 : World) (opB : sim_fs_op) (e : Int) (req : DrvReq)
    (hv : w.viol <+: wB.viol)
    (h : (if opB.current > e then
        Except.ok (sim_fs_end_current
          (emit (Ev.read_cb opB.cb 1 opB.num_bytes 0 (set_head opB wB).fs.buffer
            opB.record_length opB.userdata) (set_head opB wB)))
      else
        match (set_head opB wB).fs.driver with
        | none => Except.error Fault.null_driver
        | some driver =>
          if driver.read_file_transparent = false then sim_fs_op_error (set_head opB wB)
          else Except.ok (call_driver req (set_head opB wB))) =
      (Except.ok w1 : Except Fault World)) :
    w.viol <+: w1.viol := by
  split at h
  · cases h
    rw [end_current_viol]
    show w.viol <+: (set_head _ _).viol
    rw [set_head_viol]
    exact hv
  · split at h
    · cases h
    · split at h
      · rw [op_error_viol _ _ h, set_head_viol]
        exact hv
      · cases h
        show w.viol <+: (set_head _ _).viol
        rw [set_head_viol]
        exact hv

theorem read_block_viol (w w1 : World) (h : sim_fs_op_read_block w = .ok w1) :
    w.viol <+: w1.viol := by
  unfold sim_fs_op_read_block at h
  rcases peek_head_cases w with hn | ⟨op, rest, hq, hp⟩
  · rw [hn] at h
    cases h
  · rw [hp] at h
    simp only at h
    split at h
    · rw [op_error_viol _ _ h]
    · have hw0 : ∀ b : List Nat,
          (if op.current = cdiv op.offset 256 then
            ({ w with fs.buffer := some b } : World) else w).viol = w.viol := by
        intro b
        split <;> rfl
      refine read_block_tail_viol w _ w1 _ _ _ ?_ h
      have q := read_block_cached_viol
        (cdiv (↑op.offset + (op.num_bytes - 1)) 256 - op.current + 1).toNat
        (if op.current = cdiv op.offset 256 then
          ({ w with fs.buffer := some (List.replicate op.num_bytes.toNat 0) } : World)
          else w) op
      rw [hw0] at q
      exact q

theorem read_record_tail_viol (w wB w1 : World) (opB : sim_fs_op)
    (total : Int) (req1 req2 : DrvReq)
    (hv : w.viol <+: wB.viol)
    (h : (if opB.current > total then Except.ok (sim_fs_end_current (set_head opB wB))
      else
        match (set_head opB wB).fs.driver with
        | none => Except.error Fault.null_driver
        | some driver =>
          if opB.structure_ = OFONO_SIM_FILE_STRUCTURE_FIXED then
            if driver.read_file_linear = false then sim_fs_op_error (set_head opB wB)
            else Except.ok (call_driver req1 (set_head opB wB))
          else if opB.structure_ = OFONO_SIM_FILE_STRUCTURE_CYCLIC then
            if driver.read_file_cyclic = false then sim_fs_op_error (set_head opB wB)
            else Except.ok (call_driver req2 (set_head opB wB))
          else Except.ok (set_head opB wB)) =
      (Except.ok w1 : Except Fault World)) :
    w.viol <+: w1.viol := by
  have hs : w.viol <+: (set_head opB wB).viol := by
    rw [set_head_viol]
    exact hv
  have herr : ∀ w2, sim_fs_op_error (set_head opB wB) = .ok w2 → w.viol <+: w2.viol := by
    intro w2 h2
    rw [op_error_viol _ _ h2]
    exact hs
  split at h
  · cases h
    rw [end_current_viol]
    exact hs
  · split at h
    · cases h
    · split at h
      · split at h
        · exact herr _ h
        · cases h
          exact hs
      · split at h
        · split at h
          · exact herr _ h
          · cases h
            exact hs
        · cases h
          exact hs

theorem read_record_viol (w w1 : World) (h : sim_fs_op_read_record w = .ok w1) :
    w.viol <+: w1.viol := by
  unfold sim_fs_op_read_record at h
  rcases peek_head_cases w with hn | ⟨op, rest, hq, hp⟩
  · rw [hn] at h
    cases h
  · rw [hp] at h
    simp only at h
    split at h
    · cases h
    · exact read_record_tail_viol w _ w1 _ _ _ _
        (read_record_cached_viol
          (cdiv op.length op.record_length - op.current + 1).toNat
          { w with fs.op_source := 0 } op) h

theorem info_cb_tail_viol (wA w1 : World) (p q : Prop) [Decidable p] [Decidable q]
    (id : Nat) (hdr : List Nat) (cnt n : Int) (files1 : Nat → Option (List Nat))
    (h : (if p then Except.ok wA
      else if q then Except.ok { wA with fs.fd := none }
      else if
          (sys_write { wA with fs.fd := some id, files := files1 } id 0 hdr cnt).1 = n then
        Except.ok (sys_write { wA with fs.fd := some id, files := files1 } id 0 hdr cnt).2
      else
        Except.ok
          { (sys_write { wA with fs.fd := some id, files := files1 } id 0 hdr cnt).2 with
            fs.fd := none }) = (Except.ok w1 : Except Fault World)) :
    wA.viol <+: w1.viol := by
  have hs : wA.viol <+:
      (sys_write { wA with fs.fd := some id, files := files1 } id 0 hdr cnt).2.viol :=
    sys_write_viol { wA with fs.fd := some id, files := files1 } id 0 hdr cnt
  by_cases hp : p
  · rw [if_pos hp] at h
    cases h
    exact List.prefix_refl _
  · rw [if_neg hp] at h
    by_cases hq : q
    · rw [if_pos hq] at h
      cases h
      exact List.prefix_refl _
    · rw [if_neg hq] at h
      by_cases hr :
          (sys_write { wA with fs.fd := some id, files := files1 } id 0 hdr cnt).1 = n
      · rw [if_pos hr] at h
        cases h
        exact hs
      · rw [if_neg hr] at h
        cases h
        exact hs

theorem info_cb_viol (w w1 : World) (error_type : Nat) (length : Int)
    (structure_ : Nat) (record_length : Int) (access : List Nat)
    (h : sim_fs_op_info_cb w error_type length structure_ record_length access = .ok w1) :
    w.viol <+: w1.viol := by
  unfold sim_fs_op_info_cb at h
  rcases peek_head_cases w with hn | ⟨op, rest, hq, hp⟩
  · rw [hn] at h
    cases h
  · rw [hp] at h
    simp only at h
    split at h
    · rw [op_error_viol w w1 h]
    · split at h
      · rw [op_error_viol w w1 h]
      · have q := info_cb_tail_viol _ _ _ _ _ _ _ _ _ h
        have e : ∀ (f : TickFn) (o : sim_fs_op), (idle_add f (set_head o w)).viol = w.viol :=
          fun f o => set_head_viol o w
        rw [e] at q
        exact q

theorem check_cached_tail_viol (w wA w1 : World) (b : Bool) (op2 : sim_fs_op)
    (p0 p1 : Prop) (d0 : Decidable p0) (d1 : Decidable p1) (tick : TickFn)
    (hv : wA.viol = w.viol)
    (h : (@ite _ p0 d0 (Except.ok (false, w))
      (@ite _ p1 d1
        (match sim_fs_op_error wA with
        | .error e => .error e
        | .ok w2 => .ok (true, idle_add tick (flag Violation.freed_op_access w2)))
        (.ok (true, idle_add tick (set_head op2 wA))))) =
      (Except.ok (b, w1) : Except Fault (Bool × World))) :
    w.viol <+: w1.viol := by
  split at h
  · cases h
    exact List.prefix_refl _
  · split at h
    · split at h
      · cases h
      · rename_i w2 he
        cases h
        show w.viol <+: w2.viol ++ [Violation.freed_op_access]
        rw [op_error_viol _ _ he, hv]
        exact List.prefix_append _ _
    · cases h
      show w.viol <+: (set_head op2 wA).viol
      rw [set_head_viol, hv]

theorem check_cached_viol (w w1 : World) (b : Bool)
    (h : sim_fs_op_check_cached w = .ok (b, w1)) : w.viol <+: w1.viol := by
  unfold sim_fs_op_check_cached at h
  split at h
  · cases h
    exact List.prefix_refl _
  · rcases peek_head_cases w with hn | ⟨op, rest, hq, hp⟩
    · rw [hn] at h
      cases h
    · rw [hp] at h
      simp only at h
      split at h
      · cases h
        exact List.prefix_refl _
      · split at h
        · cases h
          exact List.prefix_refl _
        · refine check_cached_tail_viol w _ w1 b _ _ _ _ _ _ ?hv h
          case hv => exact set_head_viol _ w

theorem op_next_viol (w w1 : World) (h : sim_fs_op_next w = .ok w1) :
    w.viol <+: w1.viol := by
  unfold sim_fs_op_next at h
  simp only at h
  split at h
  · cases h
    exact List.prefix_refl _
  · cases h
  · rename_i op rest hq
    split at h
    · split at h
      · cases h
      · rename_i w2 hc
        cases h
        have q := check_cached_viol _ _ _ hc
        exact q
      · rename_i w2 hc
        have q0 := check_cached_viol _ _ _ hc
        have q : w.viol <+: w2.viol := q0
        split at h
        · cases h
        · split at h
          · cases h
          · cases h
            exact q
    · split at h
      · cases h
      · split at h
        · split at h
          · cases h
          · cases h
            exact List.prefix_refl _
        · split at h
          · split at h
            · cases h
            · cases h
              exact List.prefix_refl _
          · split at h
            · split at h
              · cases h
              · cases h
                exact List.prefix_refl _
            · cases h
              exact List.prefix_refl _

/-- An iteration of the main loop only adds to the recorded violations. -/
theorem step_viol (m : Modem) (w w1 : World) (h : step m w = .ok (some w1)) :
    w.viol <+: w1.viol := by
  unfold step at h
  split at h
  · rename_i sid f rest hidle
    cases hr : run_tick { w with idle := rest } f with
    | error e => rw [hr] at h; cases h
    | ok w2 =>
      rw [hr] at h
      cases h
      cases f with
      | op_next => exact op_next_viol { w with idle := rest } _ hr
      | read_record => exact read_record_viol { w with idle := rest } _ hr
      | read_block => exact read_block_viol { w with idle := rest } _ hr
  · split at h
    · rename_i r rest hinfl
      cases hr : deliver m { w with inflight := rest } r with
      | error e => rw [hr] at h; cases h
      | ok w2 =>
        rw [hr] at h
        cases h
        cases r with
        | read_file_info id =>
          simp only [deliver] at hr
          exact info_cb_viol { w with inflight := rest } _ _ _ _ _ _ hr
        | read_file_transparent id s l =>
          simp only [deliver] at hr
          exact read_block_cb_viol { w with inflight := rest } _ _ _ hr
        | read_file_linear id s l =>
          simp only [deliver] at hr
          exact retrieve_cb_viol { w with inflight := rest } _ _ _ hr
        | read_file_cyclic id s l =>
          simp only [deliver] at hr
          exact retrieve_cb_viol { w with inflight := rest } _ _ _ hr
        | write_file_transparent id s l v =>
          simp only [deliver] at hr
          exact write_cb_viol { w with inflight := rest } _ _ hr
        | write_file_linear id s l v =>
          simp only [deliver] at hr
          exact write_cb_viol { w with inflight := rest } _ _ hr
        | write_file_cyclic id l v =>
          simp only [deliver] at hr
          exact write_cb_viol { w with inflight := rest } _ _ hr
    · cases h

theorem sim_fs_read_viol (w : World) (id expected_type offset num_bytes cb data : Nat) :
    (sim_fs_read w id expected_type offset num_bytes cb data).2.viol = w.viol := by
  by_cases hcb : cb = 0
  · simp [sim_fs_read, hcb]
  · cases hd : w.fs.driver with
    | none => simp [sim_fs_read, hcb, hd]
    | some driver =>
      by_cases hi : driver.read_file_info = false
      · simp [sim_fs_read, hcb, hd, hi]
      · by_cases hl : w.fs.op_q.getD [] = []
        · simp [sim_fs_read, hcb, hd, hi, hl, idle_add]
        · simp [sim_fs_read, hcb, hd, hi, hl, idle_add]

theorem sim_fs_write_viol (w : World) (id cb structure_ : Nat) (record : Int)
    (data : Option (List Nat)) (length : Int) (userdata : Nat) :
    (sim_fs_write w id cb structure_ record data length userdata).2.viol = w.viol := by
  by_cases hcb : cb = 0
  · simp [sim_fs_write, hcb]
  · cases hd : w.fs.driver with
    | none => simp [sim_fs_write, hcb, hd]
    | some driver =>
      by_cases hi : (if structure_ = OFONO_SIM_FILE_STRUCTURE_TRANSPARENT then
            driver.write_file_transparent
          else if structure_ = OFONO_SIM_FILE_STRUCTURE_FIXED then
            driver.write_file_linear
          else if structure_ = OFONO_SIM_FILE_STRUCTURE_CYCLIC then
            driver.write_file_cyclic
          else false) = false
      · simp only [sim_fs_write, hcb, hd, hi, if_true, if_false]
      · by_cases hl : w.fs.op_q.getD [] = []
        · simp only [sim_fs_write, hcb, hd, hi, if_true, if_false]
          simp [hl, idle_add]
        · simp only [sim_fs_write, hcb, hd, hi, if_true, if_false]
          simp [hl, idle_add]

/-- Along an execution the recorded violations only grow: when none is
recorded at the end, none had been recorded at any earlier point. -/
theorem exec_viol (m : Modem) (acts : List Action) :
    ∀ (s s1 : World × List (Nat × Nat)), exec m s acts = .ok s1 →
      s.1.viol <+: s1.1.viol := by
  induction acts with
  | nil =>
    intro s s1 h
    cases h
    exact List.prefix_refl _
  | cons a rest ih =>
    intro s s1 h
    obtain ⟨w, accepted⟩ := s
    cases a with
    | read id expected_type offset num_bytes cb data =>
      simp only [exec] at h
      have q := ih _ _ h
      simp only [sim_fs_read_viol] at q
      exact q
    | write id cb structure_ record data length userdata =>
      simp only [exec] at h
      have q := ih _ _ h
      simp only [sim_fs_write_viol] at q
      exact q
    | iterate =>
      simp only [exec] at h
      split at h
      · cases h
      · exact ih _ _ h
      · rename_i w1 hs
        exact (step_viol m w w1 hs).trans (ih _ _ h)

/-- The main loop only adds to the recorded violations. -/
theorem run_viol (m : Modem) :
    ∀ (fuel : Nat) (w w1 : World), run m fuel w = .ok w1 → w.viol <+: w1.viol := by
  intro fuel
  induction fuel with
  | zero =>
    intro w w1 h
    cases h
    exact List.prefix_refl _
  | succ n ih =>
    intro w w1 h
    simp only [run] at h
    split at h
    · cases h
    · cases h
      exact List.prefix_refl _
    · rename_i w2 hs
      exact (step_viol m w w2 hs).trans (ih _ _ h)

/-- An execution of `a ++ b` is an execution of `a` followed by one of `b`. -/
theorem exec_append (m : Modem) (a b : List Action) :
    ∀ (s s2 : World × List (Nat × Nat)), exec m s (a ++ b) = .ok s2 →
      ∃ s1, exec m s a = .ok s1 ∧ exec m s1 b = .ok s2 := by
  induction a with
  | nil =>
    intro s s2 h
    exact ⟨s, rfl, h⟩
  | cons x rest ih =>
    intro s s2 h
    obtain ⟨w, accepted⟩ := s
    cases x with
    | read id expected_type offset num_bytes cb data =>
      simp only [exec, List.cons_append] at h ⊢
      exact ih _ _ h
    | write id cb structure_ record data length userdata =>
      simp only [exec, List.cons_append] at h ⊢
      exact ih _ _ h
    | iterate =>
      simp only [exec, List.cons_append] at h ⊢
      split at h
      · cases h
      · exact ih _ _ h
      · exact ih _ _ h

/-- When no violation is recorded at the end of an execution, none is
recorded at any point of it. -/
theorem exec_clean_throughout (m : Modem) (a b : List Action)
    (s s2 : World × List (Nat × Nat)) (h : exec m s (a ++ b) = .ok s2)
    (hc : s2.1.viol = []) :
    ∃ s1, exec m s a = .ok s1 ∧ exec m s1 b = .ok s2 ∧ s1.1.viol = [] := by
  obtain ⟨s1, h1, h2⟩ := exec_append m a b s s2 h
  have q := exec_viol m b s1 s2 h2
  rw [hc] at q
  exact ⟨s1, h1, h2, List.prefix_nil.1 q⟩

end SimFs
